import Mathlib

/-!
# HLS playlist parser (go-webdl/hls): embedding and verified properties

Go strings are byte sequences.  A byte is modelled as a natural number and a
string as a list of bytes; the parser only ever compares bytes with constants.
Byte constants are written as their ASCII codes:
`'\t'` 9, `' '` 32, `'"'` 34, `'#'` 35, `'+'` 43, `','` 44, `'-'` 45, `'.'` 46,
`'/'` 47, `'0'` 48 .. `'9'` 57, `':'` 58, `'='` 61, `'@'` 64, `'A'` 65 .. `'Z'` 90,
`'_'` 95, `'a'` 97 .. `'z'` 122, `'X'` 88, `'x'` 120.
-/

namespace Hls

/-- A Go `string`: a sequence of bytes. -/
abbrev GoString := List Nat

/-- The bytes of an ASCII literal. -/
def ascii (s : String) : GoString := s.data.map Char.toNat

/-- The error kinds that can come out of the package, by the sentinel an error
wraps (`errors.Is`).  `ErrFormat` and `ErrWrongType` are the package's own
sentinels; the others are errors of the standard library that the package
returns without wrapping one of its sentinels. -/
inductive Err
  | ErrFormat
  | ErrWrongType
  | ErrHex
  | ErrNum
  | ErrURL
  | ErrPlain
  | ErrRead
  deriving DecidableEq, Repr

/-- The parts of the Go standard library that are taken as parameters:
64-bit floats with `strconv.ParseFloat`/`FormatFloat`, the conversion
`time.Duration(d * float64(time.Second))`, `net/url` (`url.Parse` and
`ResolveReference`) and `strings.TrimSpace`. -/
structure Std where
  Float64 : Type
  URL : Type
  ParseFloat : GoString → Option Float64
  FormatFloat : Float64 → GoString
  toDuration : Float64 → Int
  urlParse : GoString → Option URL
  ResolveReference : URL → URL → URL
  TrimSpace : GoString → GoString

/-! ## Standard library functions modelled directly -/

def isNumericChar (c : Nat) : Bool := decide (48 ≤ c) && decide (c ≤ 57)

def isSpaceChar (c : Nat) : Bool := c == 32 || c == 9

def isAttributeNameChar (c : Nat) : Bool :=
  (decide (65 ≤ c) && decide (c ≤ 90)) || isNumericChar c || c == 45 || c == 95

def isBytesChar (c : Nat) : Bool :=
  (decide (97 ≤ c) && decide (c ≤ 102)) || (decide (65 ≤ c) && decide (c ≤ 70)) || isNumericChar c

/-- The value of a run of decimal digits, most significant first. -/
def digitsValue (s : GoString) : Nat := s.foldl (fun acc c => acc * 10 + (c - 48)) 0

/-- Model of `strconv.ParseUint(s, 10, 64)`: a non-empty run of decimal digits
denoting a number below `2^64`; `none` is a syntax or range error. -/
def ParseUint (s : GoString) : Option Nat :=
  if s = [] then none
  else if s.all isNumericChar then
    (if digitsValue s < 2 ^ 64 then some (digitsValue s) else none)
  else none

/-- Model of `strconv.ParseInt(s, 10, 64)`: an optional sign followed by a
non-empty run of decimal digits, the result within the signed 64-bit range. -/
def ParseInt (s : GoString) : Option Int :=
  match s with
  | [] => none
  | c :: rest =>
    let neg := c == 45
    let body := if c == 43 || c == 45 then rest else s
    if body = [] then none
    else if body.all isNumericChar then
      let un := digitsValue body
      if !neg && decide (2 ^ 63 ≤ un) then none
      else if neg && decide (2 ^ 63 < un) then none
      else some (if neg then -(un : Int) else (un : Int))
    else none

/-- The Go type `int64` (and the 64-bit `int`): an integer, kept within range
by the operations that produce it. -/
abbrev Int64 := Int

/-- The conversion `int(u)` of a `uint64` to the 64-bit `int`. -/
def uint64ToInt (u : Nat) : Int := if u < 2 ^ 63 then (u : Int) else (u : Int) - 2 ^ 64

/-- Decimal digits of a natural number, most significant first. -/
def decimalAux : Nat → Nat → GoString → GoString
  | 0, _, acc => acc
  | fuel + 1, n, acc =>
    if n < 10 then (48 + n) :: acc else decimalAux fuel (n / 10) ((48 + n % 10) :: acc)

def decimal (n : Nat) : GoString := decimalAux (n + 1) n []

/-- Model of `fmt.Sprintf("%d", n)` for an integer. -/
def formatInt (n : Int) : GoString :=
  if n < 0 then 45 :: decimal n.natAbs else decimal n.natAbs

/-- Value of one hexadecimal digit, either case. -/
def fromHexChar (c : Nat) : Option Nat :=
  if 48 ≤ c ∧ c ≤ 57 then some (c - 48)
  else if 97 ≤ c ∧ c ≤ 102 then some (c - 97 + 10)
  else if 65 ≤ c ∧ c ≤ 70 then some (c - 65 + 10)
  else none

/-- Model of `hex.DecodeString`: two hex digits per byte; `none` is an
`encoding/hex` error (odd length or a byte that is not a hex digit). -/
def hexDecodeString : GoString → Option (List Nat)
  | [] => some []
  | [_] => none
  | a :: b :: rest =>
    match fromHexChar a, fromHexChar b, hexDecodeString rest with
    | some x, some y, some bs => some ((x * 16 + y) :: bs)
    | _, _, _ => none

/-- One upper-case hexadecimal digit. -/
def upperHexDigit (d : Nat) : Nat := if d < 10 then 48 + d else 65 + (d - 10)

/-- Model of `strings.ToUpper(hex.EncodeToString(bs))`. -/
def hexEncodeUpper : List Nat → GoString
  | [] => []
  | b :: bs => upperHexDigit (b / 16) :: upperHexDigit (b % 16) :: hexEncodeUpper bs

/-- Model of `strings.Join(parts, sep)`. -/
def stringsJoin (sep : GoString) : List GoString → GoString
  | [] => []
  | [p] => p
  | p :: q :: ps => p ++ sep ++ stringsJoin sep (q :: ps)

/-- The Go slice expression `s[i:j]`. -/
def slice (s : GoString) (i j : Nat) : GoString := (s.drop i).take (j - i)

/-! ## value.go -/

/-- The Go `Type` string of a value; `Unset` is the zero value `""`. -/
inductive ValueType
  | Unset
  | StringType
  | EnumType
  | IntegerType
  | FloatType
  | BytesType
  | ResolutionType
  deriving DecidableEq, Repr

structure Resolution where
  Width : Int
  Height : Int
  deriving DecidableEq, Repr

def Resolution.Format (r : Resolution) : GoString :=
  formatInt r.Width ++ [120] ++ formatInt r.Height

/-- The Go struct `Value`: a type tag and one nilable field per kind.  The Go
field `Type` is named `Typ` here, as in every structure below. -/
structure Value (S : Std) where
  Typ : ValueType := ValueType.Unset
  StringValue : Option GoString := none
  EnumValue : Option GoString := none
  IntegerValue : Option Int := none
  FloatValue : Option S.Float64 := none
  BytesValue : Option (List Nat) := none
  ResolutionValue : Option Resolution := none

/-! The constructor functions `String`, `Enum`, `YesNo`, `Int`, `Float`, `Bytes`
and `ResolutionValue` of value.go live in the namespace `V`; the methods of the
same names live in the namespace `Value`. -/

def V.String {S : Std} (value : GoString) : Value S :=
  { Typ := ValueType.StringType, StringValue := some value }

def V.Enum {S : Std} (value : GoString) : Value S :=
  { Typ := ValueType.EnumType, EnumValue := some value }

def V.YesNo {S : Std} (value : Bool) : Value S :=
  { Typ := ValueType.EnumType, EnumValue := some (if value then ascii "YES" else ascii "NO") }

def V.Int {S : Std} (value : Int64) : Value S :=
  { Typ := ValueType.IntegerType, IntegerValue := some value }

def V.Float {S : Std} (value : S.Float64) : Value S :=
  { Typ := ValueType.FloatType, FloatValue := some value }

/-- The argument is a Go slice: `none` is the nil slice. -/
def V.Bytes {S : Std} (value : Option (List Nat)) : Value S :=
  { Typ := ValueType.BytesType, BytesValue := value }

/-- The argument is a Go pointer: `none` is nil. -/
def V.ResolutionValue {S : Std} (value : Option Resolution) : Value S :=
  { Typ := ValueType.ResolutionType, ResolutionValue := value }

def Value.String {S : Std} (v : Value S) : Except Err GoString :=
  match v.Typ, v.StringValue with
  | ValueType.StringType, some value => Except.ok value
  | _, _ => Except.error Err.ErrWrongType

def Value.Enum {S : Std} (v : Value S) : Except Err GoString :=
  match v.Typ, v.EnumValue with
  | ValueType.EnumType, some value => Except.ok value
  | _, _ => Except.error Err.ErrWrongType

def Value.YesNo {S : Std} (v : Value S) : Except Err Bool :=
  match v.Enum with
  | Except.error e => Except.error e
  | Except.ok yesno =>
    if yesno = ascii "YES" then Except.ok true
    else if yesno = ascii "NO" then Except.ok false
    else Except.error Err.ErrWrongType

def Value.StringOrEnum {S : Std} (v : Value S) : Except Err GoString :=
  match v.Typ, v.StringValue, v.EnumValue with
  | ValueType.StringType, some value, _ => Except.ok value
  | ValueType.EnumType, _, some value => Except.ok value
  | _, _, _ => Except.error Err.ErrWrongType

def Value.Int {S : Std} (v : Value S) : Except Err Int64 :=
  match v.Typ, v.IntegerValue with
  | ValueType.IntegerType, some value => Except.ok value
  | _, _ => Except.error Err.ErrWrongType

/-- The result is a `uint64`, a natural number below `2^64`. -/
def Value.Uint {S : Std} (v : Value S) : Except Err Nat :=
  match v.Typ, v.IntegerValue with
  | ValueType.IntegerType, some value =>
    if value < 0 then Except.error Err.ErrWrongType else Except.ok (value.toNat % 2 ^ 64)
  | _, _ => Except.error Err.ErrWrongType

def Value.Float {S : Std} (v : Value S) : Except Err S.Float64 :=
  match v.Typ, v.FloatValue with
  | ValueType.FloatType, some value => Except.ok value
  | _, _ => Except.error Err.ErrWrongType

def Value.Bytes {S : Std} (v : Value S) : Except Err (List Nat) :=
  match v.Typ, v.BytesValue with
  | ValueType.BytesType, some value => Except.ok value
  | _, _ => Except.error Err.ErrWrongType

def Value.Resolution {S : Std} (v : Value S) : Except Err Hls.Resolution :=
  match v.Typ, v.ResolutionValue with
  | ValueType.ResolutionType, some value => Except.ok value
  | _, _ => Except.error Err.ErrWrongType

/-- The result of `Value.Format`.  Dereferencing a nil payload panics in Go;
the rendering of such a value is `none`. -/
def Value.Format {S : Std} (v : Value S) : Option GoString :=
  match v.Typ with
  | ValueType.StringType => v.StringValue.map (fun s => [34] ++ s ++ [34])
  | ValueType.EnumType => v.EnumValue
  | ValueType.IntegerType => v.IntegerValue.map formatInt
  | ValueType.FloatType => v.FloatValue.map S.FormatFloat
  | ValueType.BytesType => some (ascii "0x" ++ hexEncodeUpper (v.BytesValue.getD []))
  | ValueType.ResolutionType => v.ResolutionValue.map Hls.Resolution.Format
  | ValueType.Unset => some (ascii "UNKNOWN_VALUE")

/-! ## attr.go -/

/-- The Go struct `Attribute`: a name and an embedded `Value`. -/
structure Attribute (S : Std) extends Value S where
  Name : GoString := []

def Attribute.Format {S : Std} (attr : Attribute S) : Option GoString :=
  attr.toValue.Format.map (fun v => attr.Name ++ [61] ++ v)

/-- The Go struct `AttributeList`.  Its attributes are held by pointer: `heap`
is the store of the attributes allocated for this list and a pointer is an
index into it (`none` is the nil pointer).  `attrs` is the slice of pointers and
`mapping` the map from a name to a slice of pointers, `none` being the nil map;
a name that is not a key of the map is mapped to the empty slice. -/
structure AttributeList (S : Std) where
  heap : List (Attribute S) := []
  attrs : List Nat := []
  mapping : Option (GoString → List (Option Nat)) := none

/-- Read of `attrs.mapping[name]`; reading a nil map gives the zero value. -/
def AttributeList.lookup {S : Std} (attrs : AttributeList S) (name : GoString) :
    List (Option Nat) :=
  match attrs.mapping with
  | none => []
  | some m => m name

/-- The attribute a (non-nil) pointer refers to. -/
def AttributeList.deref {S : Std} (attrs : AttributeList S) (p : Nat) : Attribute S :=
  attrs.heap.getD p {}

/-- The method `List()` (named apart from the type `List`), with the pointers
of the result dereferenced. -/
def AttributeList.ListAttrs {S : Std} (attrs : AttributeList S) : List (Attribute S) :=
  attrs.attrs.map attrs.deref

/-- The method `Append`; the attribute appended is a newly allocated one. -/
def AttributeList.Append {S : Std} (attrs : AttributeList S) (attr : Attribute S) :
    AttributeList S :=
  let p := attrs.heap.length
  let m : GoString → List (Option Nat) := attrs.mapping.getD (fun _ => [])
  { heap := attrs.heap ++ [attr]
    attrs := attrs.attrs ++ [p]
    mapping := some (fun n => if n = attr.Name then m n ++ [some p] else m n) }

def AttributeList.Get {S : Std} (attrs : AttributeList S) (name : GoString) :
    List (Option Nat) :=
  attrs.lookup name

def AttributeList.GetFirst {S : Std} (attrs : AttributeList S) (name : GoString) : Option Nat :=
  (attrs.lookup name).head?.join

def AttributeList.GetLast {S : Std} (attrs : AttributeList S) (name : GoString) : Option Nat :=
  (attrs.lookup name).getLast?.join

def AttributeList.Remove {S : Std} (attrs : AttributeList S) (name : GoString) :
    AttributeList S :=
  { attrs with
    attrs := attrs.attrs.filter (fun p => (attrs.deref p).Name != name)
    mapping := attrs.mapping.map (fun m => fun n => if n = name then [] else m n) }

/-- The loop of `Set`: the heap, the new slice and `found` after the pointers
of `ps` have been visited. -/
def AttributeList.setLoop {S : Std} (name : GoString) (value : Value S) :
    List Nat → List (Attribute S) → List Nat → Option Nat →
      List (Attribute S) × List Nat × Option Nat
  | [], heap, newAttrs, found => (heap, newAttrs, found)
  | p :: ps, heap, newAttrs, found =>
    if (heap.getD p {}).Name != name then
      AttributeList.setLoop name value ps heap (newAttrs ++ [p]) found
    else if found.isNone then
      AttributeList.setLoop name value ps
        (heap.set p { (heap.getD p {}) with toValue := value }) (newAttrs ++ [p]) (some p)
    else
      AttributeList.setLoop name value ps heap newAttrs found

/-- The method `Set`; `none` is the panic of an assignment to an entry of a
nil map. -/
def AttributeList.Set {S : Std} (attrs : AttributeList S) (name : GoString) (value : Value S) :
    Option (AttributeList S) :=
  match AttributeList.setLoop name value attrs.attrs attrs.heap [] none with
  | (heap, newAttrs, found) =>
    let heap1 := if found.isNone then heap ++ [{ toValue := value, Name := name }] else heap
    let newAttrs1 := if found.isNone then newAttrs ++ [heap.length] else newAttrs
    match attrs.mapping with
    | none => none
    | some m =>
      some { heap := heap1
             attrs := newAttrs1
             mapping := some (fun n => if n = name then [found] else m n) }

/-- The method `Format`; `none` when rendering a value panics. -/
def AttributeList.Format {S : Std} (attrs : AttributeList S) : Option GoString :=
  (attrs.ListAttrs.mapM Attribute.Format).map (stringsJoin [44])

inductive AttrState
  | attrStateStart
  | attrStateName
  | attrStateNameEnd
  | attrStateString
  | attrStateEnum
  | attrStateInteger
  | attrStateFloat
  | attrStateBytes
  | attrStateResolution
  | attrStateValueEnd
  deriving DecidableEq, Repr

open AttrState

/-- The local variables of `ParseAttributeList`. -/
structure PState (S : Std) where
  pos : Nat := 0
  start : Nat := 0
  signed : Bool := false
  attr : Attribute S := {}
  state : AttrState := attrStateStart
  attrs : AttributeList S := {}
  err : Option Err := none

variable {S : Std}

def appendAttr (σ : PState S) (t : ValueType) : PState S :=
  { σ with
    attrs := σ.attrs.Append { σ.attr with Typ := t }
    attr := {}
    signed := false }

/-- The assignment to `state` that ends each `finish` closure. -/
def afterValue (σ : PState S) (c : Nat) : PState S :=
  { σ with state := if c = 44 then attrStateStart else attrStateValueEnd }

def finishEnum (listStr : GoString) (σ : PState S) (c : Nat) : PState S :=
  let value := slice listStr σ.start σ.pos
  let σ1 : PState S := { σ with attr := { σ.attr with EnumValue := some value } }
  afterValue (appendAttr σ1 ValueType.EnumType) c

def finishInteger (listStr : GoString) (σ : PState S) (c : Nat) : PState S :=
  match ParseInt (slice listStr σ.start σ.pos) with
  | none => { σ with err := some Err.ErrFormat }
  | some value =>
    let σ1 : PState S := { σ with attr := { σ.attr with IntegerValue := some value } }
    afterValue (appendAttr σ1 ValueType.IntegerType) c

def finishFloat (listStr : GoString) (σ : PState S) (c : Nat) : PState S :=
  match S.ParseFloat (slice listStr σ.start σ.pos) with
  | none => { σ with err := some Err.ErrFormat }
  | some value =>
    let σ1 : PState S := { σ with attr := { σ.attr with FloatValue := some value } }
    afterValue (appendAttr σ1 ValueType.FloatType) c

def finishBytes (listStr : GoString) (σ : PState S) (c : Nat) : PState S :=
  if (σ.pos - σ.start) % 2 ≠ 0 then { σ with err := some Err.ErrFormat }
  else if σ.pos - σ.start ≤ 2 then
    let σ1 : PState S := { σ with attr := { σ.attr with BytesValue := some [] } }
    afterValue (appendAttr σ1 ValueType.BytesType) c
  else
    match hexDecodeString (slice listStr (σ.start + 2) σ.pos) with
    | none => { σ with err := some Err.ErrHex }
    | some bs =>
      let σ1 : PState S := { σ with attr := { σ.attr with BytesValue := some bs } }
      afterValue (appendAttr σ1 ValueType.BytesType) c

def finishResolution (listStr : GoString) (σ : PState S) (c : Nat) : PState S :=
  if σ.start = σ.pos then { σ with err := some Err.ErrFormat }
  else
    match ParseUint (slice listStr σ.start σ.pos) with
    | none => { σ with err := some Err.ErrFormat }
    | some height =>
      let σ1 : PState S :=
        { σ with attr := { σ.attr with
            ResolutionValue := σ.attr.ResolutionValue.map
              (fun r => { r with Height := uint64ToInt height }) } }
      afterValue (appendAttr σ1 ValueType.ResolutionType) c

/-- The body of the `switch state` of the main loop of `ParseAttributeList`,
for the byte `c = listStr[pos]`: one iteration up to the test `err != nil`.
A `return` inside the switch is the same as setting `err`.  The rewind `pos--`
is kept as such: the loop increments `pos` afterwards. -/
def attrStep (listStr : GoString) (σ : PState S) (c : Nat) : PState S :=
  match σ.state with
  | attrStateStart =>
    if isSpaceChar c || c == 44 then σ
    else if isAttributeNameChar c then { σ with start := σ.pos, state := attrStateName }
    else { σ with err := some Err.ErrFormat }
  | attrStateName =>
    if c == 61 || isSpaceChar c then
      { σ with attr := { σ.attr with Name := slice listStr σ.start σ.pos },
               state := attrStateNameEnd }
    else if isAttributeNameChar c then σ
    else { σ with err := some Err.ErrFormat }
  | attrStateNameEnd =>
    if isSpaceChar c then σ
    else if c == 34 then { σ with start := σ.pos + 1, state := attrStateString }
    else if c == 45 then { σ with start := σ.pos, signed := true, state := attrStateInteger }
    else if c == 46 then { σ with start := σ.pos, state := attrStateFloat }
    else if c == 48 then { σ with start := σ.pos, state := attrStateBytes }
    else if decide (49 ≤ c) && decide (c ≤ 57) then
      { σ with start := σ.pos, state := attrStateInteger }
    else if c != 44 then { σ with start := σ.pos, state := attrStateEnum }
    else { σ with err := some Err.ErrFormat }
  | attrStateString =>
    if c == 34 then
      let value := slice listStr σ.start σ.pos
      let σ1 : PState S := { σ with attr := { σ.attr with StringValue := some value } }
      { appendAttr σ1 ValueType.StringType with state := attrStateValueEnd }
    else σ
  | attrStateEnum =>
    if c == 44 || isSpaceChar c then finishEnum listStr σ c
    else if c == 34 then { σ with err := some Err.ErrFormat }
    else σ
  | attrStateInteger =>
    if isNumericChar c then σ
    else if c == 46 then { σ with state := attrStateFloat }
    else if c == 120 || c == 88 then
      if σ.signed then { σ with err := some Err.ErrFormat }
      else
        match ParseUint (slice listStr σ.start σ.pos) with
        | none => { σ with err := some Err.ErrFormat }
        | some width =>
          { σ with
            attr := { σ.attr with
              ResolutionValue := some { Width := uint64ToInt width, Height := 0 } }
            start := σ.pos + 1
            state := attrStateResolution }
    else if c == 44 || isSpaceChar c then finishInteger listStr σ c
    else σ
  | attrStateFloat =>
    if isNumericChar c then σ
    else if c == 44 || isSpaceChar c then finishFloat listStr σ c
    else σ
  | attrStateBytes =>
    if σ.pos = σ.start + 1 then
      if c == 46 then { σ with state := attrStateFloat }
      else if isNumericChar c then { σ with state := attrStateInteger }
      else if c == 44 || isSpaceChar c then finishInteger listStr σ c
      else if c != 120 && c != 88 then { σ with state := attrStateEnum, pos := σ.pos - 1 }
      else σ
    else if σ.start + 1 < σ.pos ∧ (σ.pos - σ.start) % 2 = 0 then
      if isBytesChar c then σ
      else if c == 44 || isSpaceChar c then finishBytes listStr σ c
      else { σ with state := attrStateEnum, pos := σ.pos - 1 }
    else
      if isBytesChar c then σ
      else if c == 44 || isSpaceChar c then finishEnum listStr σ c
      else { σ with state := attrStateEnum, pos := σ.pos - 1 }
  | attrStateResolution =>
    if isNumericChar c then σ
    else if c == 44 || isSpaceChar c then finishResolution listStr σ c
    else σ
  | attrStateValueEnd =>
    if c == 44 then { σ with state := attrStateStart }
    else if isSpaceChar c then σ
    else { σ with err := some Err.ErrFormat }

/-- The post statement `pos++` of the main loop. -/
def advance (σ : PState S) : PState S := { σ with pos := σ.pos + 1 }

/-- The main loop `for pos = 0; pos < len(listStr); pos++`, run for at most
`fuel` iterations: `none` when the iterations are used up before the loop is
left.  The loop is left when `pos` reaches the end, or by the `return` that
follows an iteration with `err != nil`. -/
def attrLoop (listStr : GoString) : Nat → PState S → Option (PState S)
  | 0, σ => if σ.pos < listStr.length then none else some σ
  | fuel + 1, σ =>
    if σ.pos < listStr.length then
      let σ1 := attrStep listStr σ (listStr.getD σ.pos 0)
      if σ1.err.isSome then some σ1
      else attrLoop listStr fuel (advance σ1)
    else some σ

/-- The `switch state` after the main loop, with `c = ' '`. -/
def attrEnd (listStr : GoString) (σ : PState S) : PState S :=
  match σ.state with
  | attrStateEnum => finishEnum listStr σ 32
  | attrStateInteger => finishInteger listStr σ 32
  | attrStateFloat => finishFloat listStr σ 32
  | attrStateBytes =>
    if σ.pos = σ.start + 1 then finishInteger listStr σ 32
    else if σ.start + 1 < σ.pos ∧ (σ.pos - σ.start) % 2 = 0 then finishBytes listStr σ 32
    else finishEnum listStr σ 32
  | attrStateResolution => finishResolution listStr σ 32
  | attrStateStart => σ
  | attrStateValueEnd => σ
  | _ => { σ with err := some Err.ErrFormat }

/-- The function `ParseAttributeList`: the pair `(attrs, err)` it returns, the
list being returned also when `err` is set.  The main loop is given
`2 * len(listStr)` iterations; the result is `none` if they do not suffice. -/
def ParseAttributeList (S : Std) (listStr : GoString) : Option (AttributeList S × Option Err) :=
  match attrLoop listStr (2 * listStr.length) ({} : PState S) with
  | none => none
  | some σ =>
    if σ.err.isSome then some (σ.attrs, σ.err)
    else some ((attrEnd listStr σ).attrs, (attrEnd listStr σ).err)

/-! ## Strings helpers -/

/-- Model of `strings.TrimLeft(s, " \t")`. -/
def trimLeftSpaceTab (s : GoString) : GoString := s.dropWhile isSpaceChar

/-- Model of `strings.SplitN(s, sep, 2)` for a one-byte separator: the part
before the first separator and, when there is a separator, the part after it. -/
def splitN2 (sep : Nat) : GoString → GoString × Option GoString
  | [] => ([], none)
  | c :: rest =>
    if c = sep then ([], some rest)
    else
      match splitN2 sep rest with
      | (a, b) => (c :: a, b)

/-- Model of `strings.Split(s, sep)` for a one-byte separator. -/
def stringsSplit (sep : Nat) : GoString → List GoString
  | [] => [[]]
  | c :: rest =>
    if c = sep then [] :: stringsSplit sep rest
    else
      match stringsSplit sep rest with
      | [] => [[c]]
      | p :: ps => (c :: p) :: ps

/-! ## tag.go -/

/-- The Go struct `Tag`; `AttributeList` is the embedded pointer, `none` being
nil. -/
structure Tag (S : Std) where
  Name : GoString := []
  Value : GoString := []
  HasColon : Bool := false
  AttributeList : Option (AttributeList S) := none

/-- The method `Tag.ParseAttributeList`: the tag after the call, the list and
the error returned; `none` when the parser is not given enough iterations. -/
def Tag.ParseAttributeList (tag : Tag S) : Option (Tag S × Hls.AttributeList S × Option Err) :=
  match tag.AttributeList with
  | some attrs => some (tag, attrs, none)
  | none =>
    match Hls.ParseAttributeList S tag.Value with
    | none => none
    | some (attrs, err) => some ({ tag with AttributeList := some attrs }, attrs, err)

/-- The method `Tag.UpdateValue`; `none` when the tag has no attribute list or
rendering it panics. -/
def Tag.UpdateValue (tag : Tag S) : Option (Tag S) :=
  match tag.AttributeList with
  | none => none
  | some attrs => attrs.Format.map (fun v => { tag with Value := v })

def Tag.Format (tag : Tag S) : GoString :=
  if !tag.HasColon then [35] ++ tag.Name
  else [35] ++ tag.Name ++ [58] ++ tag.Value

/-! ## byte_range.go -/

structure ByteRange (S : Std) where
  Tag : Option (Tag S) := none
  Offset : Nat := 0
  Length : Nat := 0

def ByteRange.ParseString (br : ByteRange S) (value : GoString) (defaultOffset : Nat) :
    Except Err (ByteRange S) :=
  match splitN2 64 value with
  | (len, some off) =>
    match ParseUint off with
    | none => Except.error Err.ErrFormat
    | some o =>
      match ParseUint len with
      | none => Except.error Err.ErrFormat
      | some l => Except.ok { br with Offset := o, Length := l }
  | (len, none) =>
    match ParseUint len with
    | none => Except.error Err.ErrFormat
    | some l => Except.ok { br with Offset := defaultOffset, Length := l }

def ByteRange.ParseTag (br : ByteRange S) (tag : Hls.Tag S) (defaultOffset : Nat) :
    Except Err (ByteRange S) :=
  if tag.Name ≠ ascii "EXT-X-BYTERANGE" then Except.error Err.ErrFormat
  else ByteRange.ParseString { br with Tag := some tag } tag.Value defaultOffset

/-- The method `End`, in `uint64` arithmetic. -/
def ByteRange.End (br : ByteRange S) : Nat := (br.Offset + br.Length) % 2 ^ 64

/-- Dereference of the pointer `GetLast` returns. -/
def AttributeList.last (attrs : AttributeList S) (name : GoString) : Option (Attribute S) :=
  (attrs.GetLast name).map attrs.deref

/-! ## key.go -/

structure Key (S : Std) where
  Tag : Option (Tag S) := none
  Method : GoString := []
  URI : Option S.URL := none
  IV : Option (List Nat) := none
  KeyFormat : Option GoString := none
  KeyFormatVersions : List Nat := []

/-- The loop over the parts of KEYFORMATVERSIONS. -/
def parseVersions : List GoString → List Nat → Except Err (List Nat)
  | [], acc => Except.ok acc
  | part :: parts, acc =>
    match ParseUint part with
    | none => Except.error Err.ErrFormat
    | some version => parseVersions parts (acc ++ [version])

def Key.ParseAttributeList (k : Key S) (attrs : AttributeList S) : Except Err (Key S) := do
  let k ← match attrs.last (ascii "METHOD") with
    | none => Except.error Err.ErrFormat
    | some attr => do
      let value ← attr.toValue.Enum
      if value = ascii "NONE" ∨ value = ascii "AES-128" ∨ value = ascii "SAMPLE-AES" then
        pure { k with Method := value }
      else Except.error Err.ErrFormat
  let k ← match attrs.last (ascii "URI") with
    | none => pure k
    | some attr => do
      let value ← attr.toValue.String
      match S.urlParse value with
      | none => Except.error Err.ErrURL
      | some u => pure { k with URI := some u }
  let k ← match attrs.last (ascii "IV") with
    | none => pure k
    | some attr => do
      let iv ← attr.toValue.Bytes
      pure { k with IV := some iv }
  let k ← match attrs.last (ascii "KEYFORMAT") with
    | none => pure k
    | some attr => do
      let value ← attr.toValue.String
      pure { k with KeyFormat := some value }
  let k ← match attrs.last (ascii "KEYFORMATVERSIONS") with
    | none => pure k
    | some attr => do
      let value ← attr.toValue.String
      let vs ← parseVersions (stringsSplit 47 value) k.KeyFormatVersions
      pure { k with KeyFormatVersions := vs }
  if k.KeyFormatVersions.length = 0 then
    pure { k with KeyFormatVersions := k.KeyFormatVersions ++ [1] }
  else pure k

/-- Shared shape of the `ParseTag` methods: check the tag name, parse (or reuse)
the tag's attribute list, then decode it.  The decoder is given the tag with
its attribute list cached. -/
def parseTagWith {α : Type} (name : GoString) (tag : Tag S)
    (decode : Tag S → AttributeList S → Except Err α) : Option (Except Err α) :=
  if tag.Name ≠ name then some (Except.error Err.ErrFormat)
  else
    match tag.ParseAttributeList with
    | none => none
    | some (_, _, some e) => some (Except.error e)
    | some (tag1, attrs, none) => some (decode tag1 attrs)

def Key.ParseTag (k : Key S) (tag : Hls.Tag S) : Option (Except Err (Key S)) :=
  parseTagWith (ascii "EXT-X-KEY") tag
    (fun tag1 attrs => Key.ParseAttributeList { k with Tag := some tag1 } attrs)

/-! ## media_init_map.go -/

structure MediaInitMap (S : Std) where
  Tag : Option (Tag S) := none
  URI : Option S.URL := none
  ByteRange : Option (ByteRange S) := none
  Key : Option (Key S) := none

def MediaInitMap.ParseAttributeList (m : MediaInitMap S) (attrs : AttributeList S) :
    Except Err (MediaInitMap S) := do
  let m ← match attrs.last (ascii "URI") with
    | none => Except.error Err.ErrFormat
    | some attr => do
      let value ← attr.toValue.String
      match S.urlParse value with
      | none => Except.error Err.ErrURL
      | some u => pure { m with URI := some u }
  match attrs.last (ascii "BYTERANGE") with
  | none => pure m
  | some attr => do
    let value ← attr.toValue.String
    let br ← ByteRange.ParseString {} value 0
    pure { m with ByteRange := some br }

def MediaInitMap.ParseTag (m : MediaInitMap S) (tag : Hls.Tag S) :
    Option (Except Err (MediaInitMap S)) :=
  parseTagWith (ascii "EXT-X-MAP") tag
    (fun tag1 attrs => MediaInitMap.ParseAttributeList { m with Tag := some tag1 } attrs)

/-! ## parser.go: lines -/

inductive LineType
  | TagLineType
  | URLLineType
  | SpaceLineType
  deriving DecidableEq, Repr

structure Line (S : Std) where
  LineNum : Nat := 0
  Typ : LineType := LineType.TagLineType
  Tag : Option (Tag S) := none
  URL : GoString := []
  Space : GoString := []

/-- The method `Line.Format`; a tag line without a tag has no rendering. -/
def Line.Format (line : Line S) : Option GoString :=
  match line.Typ with
  | LineType.TagLineType => line.Tag.map Hls.Tag.Format
  | LineType.URLLineType => some line.URL
  | LineType.SpaceLineType => some line.Space

/-! ## base_stream.go, variant_stream.go, iframe_stream.go -/

structure BaseStream (S : Std) where
  Tag : Option (Tag S) := none
  TagLine : Option (Line S) := none
  URI : Option S.URL := none
  URILine : Option (Line S) := none
  Bandwidth : Nat := 0
  AverageBandwidth : Option Nat := none
  Score : Option S.Float64 := none
  Codecs : Option GoString := none
  Resolution : Option Resolution := none
  HDCPLevel : Option GoString := none
  AllowedCPC : Option GoString := none
  VideoRange : Option GoString := none
  StableVariantID : Option GoString := none
  Video : Option GoString := none

/-- An optional attribute decoded by one of the pointer accessors: absent
leaves the field as it was. -/
def optAttr {α β : Type} (attrs : AttributeList S) (name : GoString)
    (get : Value S → Except Err α) (x : β) (set : β → α → β) : Except Err β :=
  match attrs.last name with
  | none => pure x
  | some attr => do
    let value ← get attr.toValue
    pure (set x value)

def BaseStream.ParseAttributeList (s : BaseStream S) (attrs : AttributeList S) :
    Except Err (BaseStream S) := do
  let s ← match attrs.last (ascii "BANDWIDTH") with
    | none => Except.error Err.ErrFormat
    | some attr => do
      let value ← attr.toValue.Uint
      pure { s with Bandwidth := value }
  let s ← optAttr attrs (ascii "AVERAGE-BANDWIDTH") Value.Uint s
    (fun s v => { s with AverageBandwidth := some v })
  let s ← optAttr attrs (ascii "SCORE") Value.Float s (fun s v => { s with Score := some v })
  let s ← optAttr attrs (ascii "CODECS") Value.String s (fun s v => { s with Codecs := some v })
  let s ← optAttr attrs (ascii "RESOLUTION") Value.Resolution s
    (fun s v => { s with Resolution := some v })
  let s ← optAttr attrs (ascii "HDCP-LEVEL") Value.Enum s
    (fun s v => { s with HDCPLevel := some v })
  let s ← optAttr attrs (ascii "ALLOWED-CPC") Value.String s
    (fun s v => { s with AllowedCPC := some v })
  let s ← optAttr attrs (ascii "VIDEO-RANGE") Value.Enum s
    (fun s v => { s with VideoRange := some v })
  optAttr attrs (ascii "STABLE-VARIANT-ID") Value.String s
    (fun s v => { s with StableVariantID := some v })

/-- The Go struct `VariantStream`; its own field `Video` shadows the one of the
embedded `BaseStream` and is named `Video2` here. -/
structure VariantStream (S : Std) extends BaseStream S where
  FrameRate : Option S.Float64 := none
  Audio : Option GoString := none
  Video2 : Option GoString := none
  Subtitles : Option GoString := none
  ClosedCaptions : Option GoString := none
  ClosedCaptionsNone : Bool := false

def VariantStream.ParseAttributeList (s : VariantStream S) (attrs : AttributeList S) :
    Except Err (VariantStream S) := do
  let b ← BaseStream.ParseAttributeList s.toBaseStream attrs
  let s : VariantStream S := { s with toBaseStream := b }
  let s ← optAttr attrs (ascii "FRAME-RATE") Value.Float s
    (fun s v => { s with FrameRate := some v })
  let s ← optAttr attrs (ascii "AUDIO") Value.String s (fun s v => { s with Audio := some v })
  let s ← optAttr attrs (ascii "VIDEO") Value.String s (fun s v => { s with Video2 := some v })
  let s ← optAttr attrs (ascii "SUBTITLES") Value.String s
    (fun s v => { s with Subtitles := some v })
  match attrs.last (ascii "CLOSED-CAPTIONS") with
  | none => pure s
  | some attr => do
    let value ← attr.toValue.StringOrEnum
    let s : VariantStream S := { s with ClosedCaptions := some value }
    if attr.Typ = ValueType.EnumType ∧ value = ascii "NONE" then
      pure { s with ClosedCaptionsNone := true }
    else pure s

def VariantStream.ParseTag (s : VariantStream S) (tag : Hls.Tag S) :
    Option (Except Err (VariantStream S)) :=
  parseTagWith (ascii "EXT-X-STREAM-INF") tag
    (fun tag1 attrs => VariantStream.ParseAttributeList { s with Tag := some tag1 } attrs)

structure IframeStream (S : Std) extends BaseStream S

def IframeStream.ParseAttributeList (s : IframeStream S) (attrs : AttributeList S) :
    Except Err (IframeStream S) := do
  let b ← BaseStream.ParseAttributeList s.toBaseStream attrs
  match attrs.last (ascii "URI") with
  | none => Except.error Err.ErrFormat
  | some attr => do
    let value ← attr.toValue.String
    match S.urlParse value with
    | none => Except.error Err.ErrURL
    | some u => pure { toBaseStream := { b with URI := some u } }

def IframeStream.ParseTag (s : IframeStream S) (tag : Hls.Tag S) :
    Option (Except Err (IframeStream S)) :=
  parseTagWith (ascii "EXT-X-I-FRAME-STREAM-INF") tag
    (fun tag1 attrs => IframeStream.ParseAttributeList { s with Tag := some tag1 } attrs)

/-! ## rendition_channels.go, rendition.go -/

structure RenditionChannels where
  AudioChannelsCount : Option Nat := none
  AudioObjectCodingIdentifiers : List GoString := []

def RenditionChannels.ParseString (c : RenditionChannels) (renditionType : GoString)
    (value : GoString) : Except Err RenditionChannels :=
  let slashParts := stringsSplit 47 value
  if renditionType = ascii "AUDIO" then
    match ParseUint (slashParts.headD []) with
    | none => Except.error Err.ErrNum
    | some channelsCount =>
      let c : RenditionChannels := { c with AudioChannelsCount := some channelsCount }
      if 2 ≤ slashParts.length then
        Except.ok { c with
          AudioObjectCodingIdentifiers := stringsSplit 44 (slashParts.getD 1 []) }
      else Except.ok c
  else Except.ok c

structure Rendition (S : Std) where
  Tag : Option (Tag S) := none
  URI : Option S.URL := none
  Typ : GoString := []
  GroupID : GoString := []
  Name : GoString := []
  Language : Option GoString := none
  AssocLanguage : Option GoString := none
  StableRenditionID : Option GoString := none
  Default : Bool := false
  Autoselect : Bool := false
  Forced : Bool := false
  InstreamID : Option GoString := none
  Characteristics : List GoString := []
  Channels : Option RenditionChannels := none

def Rendition.ParseAttributeList (r : Rendition S) (attrs : AttributeList S) :
    Except Err (Rendition S) := do
  let r ← match attrs.last (ascii "TYPE") with
    | none => Except.error Err.ErrFormat
    | some attr => do
      let value ← attr.toValue.Enum
      if value = ascii "AUDIO" ∨ value = ascii "VIDEO" ∨ value = ascii "SUBTITLES"
          ∨ value = ascii "CLOSED-CAPTIONS" then
        pure { r with Typ := value }
      else Except.error Err.ErrFormat
  let r ← match attrs.last (ascii "URI") with
    | none =>
      if r.Typ ≠ ascii "CLOSED-CAPTIONS" then Except.error Err.ErrFormat else pure r
    | some attr => do
      let value ← attr.toValue.String
      match S.urlParse value with
      | none => Except.error Err.ErrURL
      | some u => pure { r with URI := some u }
  let r ← match attrs.last (ascii "GROUP-ID") with
    | none => Except.error Err.ErrFormat
    | some attr => do
      let value ← attr.toValue.String
      pure { r with GroupID := value }
  let r ← match attrs.last (ascii "NAME") with
    | none => Except.error Err.ErrFormat
    | some attr => do
      let value ← attr.toValue.String
      pure { r with Name := value }
  let r ← optAttr attrs (ascii "LANGUAGE") Value.String r
    (fun r v => { r with Language := some v })
  let r ← optAttr attrs (ascii "ASSOC-LANGUAGE") Value.String r
    (fun r v => { r with AssocLanguage := some v })
  let r ← optAttr attrs (ascii "STABLE-RENDITION-ID") Value.String r
    (fun r v => { r with AssocLanguage := some v })
  let r ← optAttr attrs (ascii "DEFAULT") Value.YesNo r (fun r v => { r with Default := v })
  let r ← optAttr attrs (ascii "AUTOSELECT") Value.YesNo r
    (fun r v => { r with Autoselect := v })
  let r ← optAttr attrs (ascii "FORCED") Value.YesNo r (fun r v => { r with Forced := v })
  let r ← optAttr attrs (ascii "INSTREAM-ID") Value.String r
    (fun r v => { r with InstreamID := some v })
  let r ← optAttr attrs (ascii "CHARACTERISTICS") Value.String r
    (fun r v => { r with Characteristics := stringsSplit 44 v })
  match attrs.last (ascii "CHANNELS") with
  | none => pure r
  | some attr => do
    let value ← attr.toValue.String
    let c ← RenditionChannels.ParseString {} r.Typ value
    pure { r with Channels := some c }

def Rendition.ParseTag (r : Rendition S) (tag : Hls.Tag S) :
    Option (Except Err (Rendition S)) :=
  parseTagWith (ascii "EXT-X-MEDIA") tag
    (fun tag1 attrs => Rendition.ParseAttributeList { r with Tag := some tag1 } attrs)

/-! ## media_segment.go -/

structure MediaSegment (S : Std) where
  Tag : Option (Tag S) := none
  URI : Option S.URL := none
  URILine : Option (Line S) := none
  Duration : Int := 0
  Title : GoString := []
  ByteRange : Option (ByteRange S) := none
  IsDiscontinuity : Bool := false
  IsGap : Bool := false
  MediaSequence : Nat := 0
  DiscontinuitySequence : Nat := 0
  Key : Option (Key S) := none
  MediaInitMap : Option (MediaInitMap S) := none
  Bitrate : Option Nat := none

def MediaSegment.ParseTag (s : MediaSegment S) (tag : Hls.Tag S) :
    Except Err (MediaSegment S) :=
  if tag.Name ≠ ascii "EXTINF" then Except.error Err.ErrFormat
  else
    let s : MediaSegment S := { s with Tag := some tag }
    let commaParts := splitN2 44 tag.Value
    let s : MediaSegment S :=
      match commaParts.2 with
      | some title => { s with Title := S.TrimSpace title }
      | none => s
    match S.ParseFloat commaParts.1 with
    | none => Except.error Err.ErrFormat
    | some duration => Except.ok { s with Duration := S.toDuration duration }

def MediaSegment.ParseByteRangeTag (s : MediaSegment S) (tag : Hls.Tag S) (defaultOffset : Nat) :
    Except Err (MediaSegment S) :=
  match Hls.ByteRange.ParseTag {} tag defaultOffset with
  | Except.error e => Except.error e
  | Except.ok br => Except.ok { s with ByteRange := some br }

/-! ## playlist.go -/

structure Playlist (S : Std) where
  Lines : List (Line S) := []
  Version : Nat := 0

/-- The Go struct `MediaPlaylist`, with the `Playlist` it points to. -/
structure MediaPlaylist (S : Std) where
  Playlist : Playlist S := {}
  MediaSegments : List (MediaSegment S) := []
  MediaSequence : Nat := 0
  DiscontinuitySequence : Nat := 0

/-- The Go struct `MasterPlaylist`, with the `Playlist` it points to.  The
nested map `RenditionGroups` is a function of the rendition type and the group
id; a missing key is the empty slice. -/
structure MasterPlaylist (S : Std) where
  Playlist : Playlist S := {}
  VariantStreams : List (VariantStream S) := []
  IframeStreams : List (IframeStream S) := []
  RenditionGroups : GoString → GoString → List (Rendition S) := fun _ _ => []

/-- The method `Playlist.Format`. -/
def Playlist.Format (playlist : Playlist S) : Option GoString :=
  (playlist.Lines.mapM Line.Format).map (fun ls => (ls.map (fun l => l ++ [10])).flatten)

/-! ## parser.go: Parse -/

/-- The Go struct `ParserHandler`.  A per-entity callback is `none` when nil,
and otherwise a function of its arguments returning `next`.  Of the two
terminal callbacks only the presence matters: their invocations are recorded in
the trace of the scan. -/
structure ParserHandler (S : Std) where
  HandleMediaSegment : Option (MediaSegment S → MediaPlaylist S → Bool) := none
  HandleVariantStream : Option (VariantStream S → MasterPlaylist S → Bool) := none
  HandleIframeStream : Option (IframeStream S → MasterPlaylist S → Bool) := none
  HandleMediaPlaylist : Bool := false
  HandleMasterPlaylist : Bool := false

/-- One invocation of a callback, with its arguments. -/
inductive Call (S : Std)
  | MediaSegment (segment : MediaSegment S) (playlist : MediaPlaylist S)
  | VariantStream (variantStream : VariantStream S) (playlist : MasterPlaylist S)
  | IframeStream (iframeStream : IframeStream S) (playlist : MasterPlaylist S)
  | MediaPlaylist (playlist : MediaPlaylist S)
  | MasterPlaylist (playlist : MasterPlaylist S)

/-- What one call of `buf.ReadLine()` returns before the end of the input: a
complete line (without its line ending), the start of a line that does not fit
the buffer (`isPrefix`), or a read error other than `io.EOF`. -/
inductive ReadLine
  | line (lineBytes : GoString)
  | tooLong (lineBytes : GoString)
  | fail
  deriving DecidableEq, Repr

/-- The local variables of `Parse`, and the trace of callback invocations.
The two playlist objects share the `Playlist` they point to, held in `playlist`;
`mediaPlaylist` and `masterPlaylist` hold their other fields. -/
structure Scan (S : Std) where
  lineNum : Nat := 0
  key : Option (Key S) := none
  isMaster : Bool := false
  isMedia : Bool := false
  stop : Bool := false
  byteRangeOffset : Nat := 0
  mediaInitMap : Option (MediaInitMap S) := none
  mediaSequence : Nat := 0
  discontinuitySequence : Nat := 0
  mediaSegmentBitrate : Option Nat := none
  playlist : Playlist S := { Lines := [], Version := 1 }
  mediaPlaylist : MediaPlaylist S := {}
  mediaSegment : MediaSegment S := {}
  masterPlaylist : MasterPlaylist S := {}
  variantStream : VariantStream S := {}
  ifrmaeStream : IframeStream S := {}
  calls : List (Call S) := []

/-- The media playlist object as a callback sees it. -/
def Scan.media (st : Scan S) : MediaPlaylist S := { st.mediaPlaylist with Playlist := st.playlist }

/-- The master playlist object as a callback sees it. -/
def Scan.master (st : Scan S) : MasterPlaylist S :=
  { st.masterPlaylist with Playlist := st.playlist }

/-- The closure `ensurePlaylist`, specialised to its uses: the error when the
other kind is already set. -/
def ensurePlaylist (cond : Bool) : Option Err := if !cond then some Err.ErrFormat else none

/-- The closure `finishMediaSegment`. -/
def finishMediaSegment (handler : ParserHandler S) (st : Scan S) : Scan S :=
  let seg : MediaSegment S :=
    { st.mediaSegment with
      MediaSequence := st.mediaSequence
      DiscontinuitySequence := st.discontinuitySequence
      Key := st.key
      MediaInitMap := st.mediaInitMap
      Bitrate := st.mediaSegmentBitrate }
  let st1 : Scan S :=
    { st with
      mediaSequence := (st.mediaSequence + 1) % 2 ^ 64
      mediaPlaylist := { st.mediaPlaylist with
        MediaSegments := st.mediaPlaylist.MediaSegments ++ [seg] } }
  let st2 : Scan S :=
    match handler.HandleMediaSegment with
    | none => st1
    | some f =>
      { st1 with stop := !(f seg st1.media), calls := st1.calls ++ [Call.MediaSegment seg st1.media] }
  { st2 with mediaSegment := {} }

/-- Append a line to `playlist.Lines`. -/
def Scan.addLine (st : Scan S) (line : Line S) : Scan S :=
  { st with playlist := { st.playlist with Lines := st.playlist.Lines ++ [line] } }

/-- A resource (URL) line. -/
def parseURLLine (handler : ParserHandler S) (baseURL : S.URL) (st : Scan S)
    (lineTrimed : GoString) : Scan S × Option Err :=
  match S.urlParse lineTrimed with
  | none => (st, some Err.ErrURL)
  | some ref =>
    let line : Line S := { LineNum := st.lineNum, Typ := LineType.URLLineType, URL := lineTrimed }
    let st := st.addLine line
    let resolvedURL := S.ResolveReference baseURL ref
    if st.isMaster then
      match ensurePlaylist (!st.isMedia) with
      | some e => (st, some e)
      | none =>
        let vs : VariantStream S :=
          { st.variantStream with URI := some resolvedURL, URILine := some line }
        let st1 : Scan S :=
          { st with masterPlaylist := { st.masterPlaylist with
              VariantStreams := st.masterPlaylist.VariantStreams ++ [vs] } }
        let st2 : Scan S :=
          match handler.HandleVariantStream with
          | none => st1
          | some f =>
            { st1 with stop := !(f vs st1.master),
                       calls := st1.calls ++ [Call.VariantStream vs st1.master] }
        ({ st2 with variantStream := {} }, none)
    else
      match ensurePlaylist (!st.isMaster) with
      | some e => (st, some e)
      | none =>
        let st1 : Scan S :=
          { st with isMedia := true,
                    mediaSegment := { st.mediaSegment with
                      URI := some resolvedURL, URILine := some line } }
        (finishMediaSegment handler st1, none)

/-- The check `ensurePlaylist(!isMaster, &isMedia)` followed by `body` on the
state with `isMedia` set. -/
def ensureMedia (st : Scan S) (body : Scan S → Scan S × Option Err) : Scan S × Option Err :=
  match ensurePlaylist (!st.isMaster) with
  | some e => (st, some e)
  | none => body { st with isMedia := true }

/-- The check `ensurePlaylist(!isMedia, &isMaster)` followed by `body` on the
state with `isMaster` set. -/
def ensureMaster (st : Scan S) (body : Scan S → Option (Scan S × Option Err)) :
    Option (Scan S × Option Err) :=
  match ensurePlaylist (!st.isMedia) with
  | some e => some (st, some e)
  | none => body { st with isMaster := true }

/-- The tag of a directive line: the line is split at the first `:`, the name
is the first part without its `#`. -/
def tagOfLine (S : Std) (lineTrimed : GoString) : Tag S :=
  { Name := (splitN2 58 lineTrimed).1.drop 1
    Value := (splitN2 58 lineTrimed).2.getD []
    HasColon := (splitN2 58 lineTrimed).2.isSome }

/-- The `switch tag.Name` of `Parse`, with the appending of the line to
`playlist.Lines` that precedes it.  A tag whose attribute list is parsed is
shared by the line and the decoded entity, so the line holds the tag with its
cached list.  `none` when the attribute parser is not given enough iterations. -/
def dispatchTag (handler : ParserHandler S) (st0 : Scan S) (tag : Tag S) :
    Option (Scan S × Option Err) :=
  let line : Line S := { LineNum := st0.lineNum, Typ := LineType.TagLineType, Tag := some tag }
  let st := st0.addLine line
  if tag.Name = ascii "EXT-X-VERSION" then
    match ParseUint tag.Value with
    | none => some (st, some Err.ErrFormat)
    | some v => some ({ st with playlist := { st.playlist with Version := v } }, none)
  else if tag.Name = ascii "EXT-X-STREAM-INF" then
    ensureMaster st (fun st =>
      match VariantStream.ParseTag { st.variantStream with TagLine := some line } tag with
      | none => none
      | some (Except.error e) => some (st, some e)
      | some (Except.ok vs) =>
        let line1 : Line S := { line with Tag := vs.Tag }
        let st1 := { st0 with isMaster := true }.addLine line1
        some ({ st1 with variantStream := { vs with TagLine := some line1 } }, none))
  else if tag.Name = ascii "EXT-X-I-FRAME-STREAM-INF" then
    ensureMaster st (fun st =>
      match IframeStream.ParseTag { st.ifrmaeStream with TagLine := some line } tag with
      | none => none
      | some (Except.error e) => some (st, some e)
      | some (Except.ok ifs0) =>
        let line1 : Line S := { line with Tag := ifs0.Tag }
        let ifs : IframeStream S := { ifs0 with TagLine := some line1 }
        let st1 := { st0 with isMaster := true }.addLine line1
        let st2 : Scan S :=
          { st1 with masterPlaylist := { st1.masterPlaylist with
              IframeStreams := st1.masterPlaylist.IframeStreams ++ [ifs] } }
        let st3 : Scan S :=
          match handler.HandleIframeStream with
          | none => st2
          | some f =>
            { st2 with stop := !(f ifs st2.master),
                       calls := st2.calls ++ [Call.IframeStream ifs st2.master] }
        some ({ st3 with ifrmaeStream := {} }, none))
  else if tag.Name = ascii "EXT-X-MEDIA" then
    ensureMaster st (fun st =>
      match Rendition.ParseTag {} tag with
      | none => none
      | some (Except.error e) => some (st, some e)
      | some (Except.ok rendition) =>
        let line1 : Line S := { line with Tag := rendition.Tag }
        let st1 := { st0 with isMaster := true }.addLine line1
        let groups := st1.masterPlaylist.RenditionGroups
        some ({ st1 with masterPlaylist := { st1.masterPlaylist with
                  RenditionGroups := fun t g =>
                    if t = rendition.Typ ∧ g = rendition.GroupID then groups t g ++ [rendition]
                    else groups t g } }, none))
  else if tag.Name = ascii "EXT-X-MEDIA-SEQUENCE" then
    some (ensureMedia st (fun st =>
      match ParseUint tag.Value with
      | none => (st, some Err.ErrFormat)
      | some v =>
        ({ st with mediaSequence := v,
                   mediaPlaylist := { st.mediaPlaylist with MediaSequence := v } }, none)))
  else if tag.Name = ascii "EXT-X-DISCONTINUITY-SEQUENCE" then
    some (ensureMedia st (fun st =>
      match ParseUint tag.Value with
      | none => (st, some Err.ErrFormat)
      | some v =>
        ({ st with discontinuitySequence := v,
                   mediaPlaylist := { st.mediaPlaylist with DiscontinuitySequence := v } },
          none)))
  else if tag.Name = ascii "EXTINF" then
    some (ensureMedia st (fun st =>
      match st.mediaSegment.ParseTag tag with
      | Except.error e => (st, some e)
      | Except.ok seg => ({ st with mediaSegment := seg }, none)))
  else if tag.Name = ascii "EXT-X-BYTERANGE" then
    some (ensureMedia st (fun st =>
      match st.mediaSegment.ParseByteRangeTag tag st.byteRangeOffset with
      | Except.error e => (st, some e)
      | Except.ok seg =>
        ({ st with mediaSegment := seg,
                   byteRangeOffset := (seg.ByteRange.map Hls.ByteRange.End).getD 0 }, none)))
  else if tag.Name = ascii "EXT-X-DISCONTINUITY" then
    some (ensureMedia st (fun st =>
      ({ st with mediaSegment := { st.mediaSegment with IsDiscontinuity := true },
                 discontinuitySequence := (st.discontinuitySequence + 1) % 2 ^ 64 }, none)))
  else if tag.Name = ascii "EXT-X-GAP" then
    some (ensureMedia st (fun st =>
      ({ st with mediaSegment := { st.mediaSegment with IsGap := true } }, none)))
  else if tag.Name = ascii "EXT-X-MAP" then
    match MediaInitMap.ParseTag { Key := st.key } tag with
    | none => none
    | some (Except.error e) => some (st, some e)
    | some (Except.ok m) =>
      let line1 : Line S := { line with Tag := m.Tag }
      some ({ st0.addLine line1 with mediaInitMap := some m }, none)
  else if tag.Name = ascii "EXT-X-KEY" then
    match Key.ParseTag {} tag with
    | none => none
    | some (Except.error e) => some (st, some e)
    | some (Except.ok k) =>
      let line1 : Line S := { line with Tag := k.Tag }
      some ({ st0.addLine line1 with key := some k }, none)
  else some (st, none)

/-- A directive line. -/
def parseTagLine (handler : ParserHandler S) (st0 : Scan S) (lineTrimed : GoString) :
    Option (Scan S × Option Err) :=
  dispatchTag handler st0 (tagOfLine S lineTrimed)

/-- One iteration of the loop of `Parse` on a line that was read: the state
after it and the error it returns with, if any. -/
def parseLine (handler : ParserHandler S) (baseURL : S.URL) (st : Scan S) (lineStr : GoString) :
    Option (Scan S × Option Err) :=
  let lineTrimed := trimLeftSpaceTab lineStr
  if lineTrimed.length = 0 then
    some (st.addLine { LineNum := st.lineNum, Typ := LineType.SpaceLineType, Space := lineStr },
      none)
  else if lineTrimed.head? ≠ some 35 then
    some (parseURLLine handler baseURL st lineTrimed)
  else parseTagLine handler st lineTrimed

/-- The loop `for !stop` of `Parse` over what the reader returns; the end of the
list is `io.EOF`. -/
def parseLoop (handler : ParserHandler S) (baseURL : S.URL) :
    List ReadLine → Scan S → Option (Scan S × Option Err)
  | [], st => if st.stop then some (st, none) else some ({ st with lineNum := st.lineNum + 1 }, none)
  | r :: rest, st =>
    if st.stop then some (st, none)
    else
      let st1 : Scan S := { st with lineNum := st.lineNum + 1 }
      match r with
      | ReadLine.tooLong _ => some (st1, some Err.ErrPlain)
      | ReadLine.fail => some (st1, some Err.ErrRead)
      | ReadLine.line lineBytes =>
        match parseLine handler baseURL st1 lineBytes with
        | none => none
        | some (st2, some e) => some (st2, some e)
        | some (st2, none) => parseLoop handler baseURL rest st2

/-- The function `Parse`: the final values of its variables, the trace of
callback invocations (in the state) and the error returned.  When an error is
returned the variables are dead in Go, and of the state only the trace is
meant. -/
def Parse (input : List ReadLine) (baseURL : S.URL) (handler : ParserHandler S) :
    Option (Scan S × Option Err) :=
  match parseLoop handler baseURL input ({} : Scan S) with
  | none => none
  | some (st, some e) => some (st, some e)
  | some (st, none) =>
    if st.isMaster then
      if handler.HandleMasterPlaylist then
        some ({ st with calls := st.calls ++ [Call.MasterPlaylist st.master] }, none)
      else some (st, none)
    else if st.isMedia then
      if handler.HandleMediaPlaylist then
        some ({ st with calls := st.calls ++ [Call.MediaPlaylist st.media] }, none)
      else some (st, none)
    else some (st, some Err.ErrFormat)

/-- A library instance with no floats and with URLs kept as text, for closed
examples. -/
def Std.bare : Std where
  Float64 := Unit
  URL := GoString
  ParseFloat := fun _ => none
  FormatFloat := fun _ => []
  toDuration := fun _ => 0
  urlParse := fun s => some s
  ResolveReference := fun _ r => r
  TrimSpace := fun s => s

/-! ## Auxiliary notions for the proofs -/

/-- A bound on the iterations the main loop of `ParseAttributeList` still
needs: two per remaining byte, and one more while a rewind is possible. -/
def attrMeasure (listStr : GoString) (σ : PState S) : Nat :=
  2 * (listStr.length - σ.pos) + (if σ.state = attrStateBytes then 1 else 0)

/-- The main loop run to its exit, from any state. -/
def attrRun (listStr : GoString) (σ : PState S) : Option (PState S) :=
  attrLoop listStr (attrMeasure listStr σ) σ

/-- The parser state before a name, with a list of finished attributes. -/
def stStart (p s0 : Nat) (L : AttributeList S) : PState S :=
  { pos := p, start := s0, attrs := L }

/-- The parser state after a finished value. -/
def stValueEnd (p s0 : Nat) (L : AttributeList S) : PState S :=
  { pos := p, start := s0, state := attrStateValueEnd, attrs := L }

/-- The parser state after a name and its `=`. -/
def stNameEnd (p s0 : Nat) (L : AttributeList S) (name : GoString) : PState S :=
  { pos := p, start := s0, state := attrStateNameEnd, attr := { Name := name }, attrs := L }

/-- A state at the end of an unquoted value: a separator byte, or the end of
the input, completes the value and leaves the list `L`. -/
def Finishing (l : GoString) (σ : PState S) (L : AttributeList S) : Prop :=
  σ.err = none ∧
  (∀ c, c = 44 ∨ c = 32 ∨ c = 9 →
    ∃ s1, attrStep l σ c =
      { pos := σ.pos, start := s1, attrs := L,
        state := if c = 44 then attrStateStart else attrStateValueEnd }) ∧
  (σ.pos = l.length → ∃ s1, attrEnd l σ = stValueEnd σ.pos s1 L)

/-- What `ParseAttributeList` makes of the state in which the main loop ends. -/
def attrResult (l : GoString) (r : Option (PState S)) : Option (AttributeList S × Option Err) :=
  r.map (fun σ =>
    if σ.err.isSome then (σ.attrs, σ.err) else ((attrEnd l σ).attrs, (attrEnd l σ).err))

/-- A separator between attributes: one comma, with any number of spaces and
tabs before and after it. -/
def IsSep (s : GoString) : Prop :=
  ∃ ws1 ws2, s = ws1 ++ [44] ++ ws2 ∧
    (∀ c ∈ ws1, isSpaceChar c = true) ∧ (∀ c ∈ ws2, isSpaceChar c = true)

/-- The texts `parts` joined by the separators `seps`, taken in order; where
`seps` is used up the separator is a single comma, so that `joinWith []` is
`stringsJoin [44]`. -/
def joinWith : List GoString → List GoString → GoString
  | _, [] => []
  | _, [p] => p
  | [], p :: q :: ps => p ++ [44] ++ joinWith [] (q :: ps)
  | s :: ss, p :: q :: ps => p ++ s ++ joinWith ss (q :: ps)

/-- An ASCII letter. -/
def isLetter (c : Nat) : Prop := (65 ≤ c ∧ c ≤ 90) ∨ (97 ≤ c ∧ c ≤ 122)

/-- The values in canonical form: a String without `"`; an Enum token that
starts with a letter and has no comma, space, tab or `"`; a signed 64-bit
Integer; Bytes; a Resolution of the 64-bit `int` type with a width of at least
1 and a height of at least 0. -/
def CanonValue (v : Value S) : Prop :=
  (∃ s, v = V.String s ∧ ∀ c ∈ s, c ≠ 34) ∨
  (∃ c rest, v = V.Enum (c :: rest) ∧ isLetter c ∧
    ∀ d ∈ rest, d ≠ 44 ∧ d ≠ 32 ∧ d ≠ 9 ∧ d ≠ 34) ∨
  (∃ n : Int, v = V.Int n ∧ -2 ^ 63 ≤ n ∧ n < 2 ^ 63) ∨
  (∃ bs, v = V.Bytes (some bs) ∧ ∀ b ∈ bs, b < 256) ∨
  (∃ w h : Int, v = V.ResolutionValue (some ⟨w, h⟩) ∧ 1 ≤ w ∧ w < 2 ^ 63 ∧ 0 ≤ h ∧ h < 2 ^ 63)

/-- An attribute in canonical form: a non-empty name over `A`-`Z`, `0`-`9`,
`-`, `_` and a value in canonical form. -/
def CanonAttr (a : Attribute S) : Prop :=
  a.Name ≠ [] ∧ (∀ c ∈ a.Name, isAttributeNameChar c = true) ∧ CanonValue a.toValue

/-- The rendering of an attribute, empty where `Format` has no result. -/
def Attribute.text (a : Attribute S) : GoString := a.Format.getD []

/-- Every pointer of the list is allocated. -/
def AttributeList.Allocated (L : AttributeList S) : Prop := ∀ p ∈ L.attrs, p < L.heap.length

/-- The shape of the lemmas on values: after a name and `=`, the text `t` is
read as the value `v`. -/
def LexesAs (S : Std) (t : GoString) (v : Value S) : Prop :=
  ∀ (l pre post name : GoString) (s0 : Nat) (L : AttributeList S), l = pre ++ t ++ post →
    ∃ σ, attrRun l (stNameEnd pre.length s0 L name) = attrRun l σ ∧
      σ.pos = pre.length + t.length ∧
      Finishing l σ (L.Append { toValue := v, Name := name })

/-- The text `hex` spells the bytes `bs`: two hexadecimal digits per byte, the
high one first, each in either case. -/
def HexSpelling : GoString → List Nat → Prop
  | [], [] => True
  | hi :: lo :: hex, b :: bs =>
    fromHexChar hi = some (b / 16) ∧ fromHexChar lo = some (b % 16) ∧ HexSpelling hex bs
  | _, _ => False

/-! ### A reference scan of a media playlist

The part of the state of `Parse` that the sequence numbers, the pending key
and initialization section and the byte ranges live in, and what each kind of
line does to it according to the specification. -/

/-- The directive of a line: `none` for a blank line and for a resource line,
and otherwise the name, value and has-colon flag of the directive. -/
def lineTag (S : Std) (lineStr : GoString) : Option (Tag S) :=
  let lineTrimed := trimLeftSpaceTab lineStr
  if lineTrimed.length = 0 then none
  else if lineTrimed.head? ≠ some 35 then none
  else some (tagOfLine S lineTrimed)

/-- A resource line: not blank, and not starting with `#`. -/
def isResourceLine (lineStr : GoString) : Bool :=
  decide ((trimLeftSpaceTab lineStr).length ≠ 0) &&
    decide ((trimLeftSpaceTab lineStr).head? ≠ some 35)

/-- A directive line with the given name. -/
def isDirective (S : Std) (name : GoString) (lineStr : GoString) : Bool :=
  match lineTag S lineStr with
  | none => false
  | some tag => decide (tag.Name = name)

/-- The fields stamped on a segment when it is finalized, and its own
byte range and flags. -/
structure Stamp (S : Std) where
  MediaSequence : Nat
  DiscontinuitySequence : Nat
  Key : Option (Key S)
  MediaInitMap : Option (MediaInitMap S)
  ByteRange : Option (ByteRange S)
  IsDiscontinuity : Bool
  IsGap : Bool

def MediaSegment.stamp (s : MediaSegment S) : Stamp S :=
  { MediaSequence := s.MediaSequence
    DiscontinuitySequence := s.DiscontinuitySequence
    Key := s.Key
    MediaInitMap := s.MediaInitMap
    ByteRange := s.ByteRange
    IsDiscontinuity := s.IsDiscontinuity
    IsGap := s.IsGap }

/-- The view of the scan state. -/
structure MView (S : Std) where
  mediaSequence : Nat := 0
  discontinuitySequence : Nat := 0
  byteRangeOffset : Nat := 0
  key : Option (Key S) := none
  mediaInitMap : Option (MediaInitMap S) := none
  byteRange : Option (ByteRange S) := none
  isDiscontinuity : Bool := false
  isGap : Bool := false
  segs : List (Stamp S) := []

def Scan.view (st : Scan S) : MView S :=
  { mediaSequence := st.mediaSequence
    discontinuitySequence := st.discontinuitySequence
    byteRangeOffset := st.byteRangeOffset
    key := st.key
    mediaInitMap := st.mediaInitMap
    byteRange := st.mediaSegment.ByteRange
    isDiscontinuity := st.mediaSegment.IsDiscontinuity
    isGap := st.mediaSegment.IsGap
    segs := st.mediaPlaylist.MediaSegments.map MediaSegment.stamp }

/-- What a directive does to the view; `none` when its value is malformed. -/
def MView.tagStep (v : MView S) (tag : Tag S) : Option (MView S) :=
  if tag.Name = ascii "EXT-X-MEDIA-SEQUENCE" then
    match ParseUint tag.Value with
    | some n => some { v with mediaSequence := n }
    | none => none
  else if tag.Name = ascii "EXT-X-DISCONTINUITY-SEQUENCE" then
    match ParseUint tag.Value with
    | some n => some { v with discontinuitySequence := n }
    | none => none
  else if tag.Name = ascii "EXT-X-BYTERANGE" then
    match Hls.ByteRange.ParseString { Tag := some tag } tag.Value v.byteRangeOffset with
    | Except.ok br => some { v with byteRange := some br, byteRangeOffset := br.End }
    | Except.error _ => none
  else if tag.Name = ascii "EXT-X-DISCONTINUITY" then
    some { v with isDiscontinuity := true,
                  discontinuitySequence := (v.discontinuitySequence + 1) % 2 ^ 64 }
  else if tag.Name = ascii "EXT-X-GAP" then some { v with isGap := true }
  else if tag.Name = ascii "EXT-X-MAP" then
    match Hls.MediaInitMap.ParseTag { Key := v.key } tag with
    | some (Except.ok m) => some { v with mediaInitMap := some m }
    | _ => none
  else if tag.Name = ascii "EXT-X-KEY" then
    match Hls.Key.ParseTag {} tag with
    | some (Except.ok k) => some { v with key := some k }
    | _ => none
  else some v

/-- The stamp of a segment finalized in the view `v`. -/
def MView.stamp (v : MView S) : Stamp S :=
  { MediaSequence := v.mediaSequence
    DiscontinuitySequence := v.discontinuitySequence
    Key := v.key
    MediaInitMap := v.mediaInitMap
    ByteRange := v.byteRange
    IsDiscontinuity := v.isDiscontinuity
    IsGap := v.isGap }

/-- What a line does to the view: a resource line finalizes a segment, stamping
it with the counters and the pending key and initialization section. -/
def MView.step (v : MView S) (lineStr : GoString) : Option (MView S) :=
  if isResourceLine lineStr then
    some { v with
      segs := v.segs ++ [v.stamp]
      mediaSequence := (v.mediaSequence + 1) % 2 ^ 64
      byteRange := none
      isDiscontinuity := false
      isGap := false }
  else
    match lineTag S lineStr with
    | none => some v
    | some tag => v.tagStep tag

/-- The view after a sequence of lines; `none` when a directive is malformed. -/
def MView.scan : MView S → List GoString → Option (MView S)
  | v, [] => some v
  | v, l :: ls =>
    match v.step l with
    | none => none
    | some v1 => v1.scan ls

/-- The number of resource lines among the lines. -/
def countRes (lines : List GoString) : Nat := lines.countP isResourceLine

/-- The number of directive lines with the given name among the lines. -/
def countDirective (S : Std) (name : GoString) (lines : List GoString) : Nat :=
  lines.countP (isDirective S name)

/-- The most recent directive with the given name among the lines: the lines
that precede it and its tag. -/
def lastDirective (S : Std) (name : GoString) : List GoString → Option (List GoString × Tag S)
  | [] => none
  | l :: ls =>
    match lastDirective S name ls with
    | some (pre, tag) => some (l :: pre, tag)
    | none =>
      if isDirective S name l then (lineTag S l).map (fun tag => ([], tag)) else none

/-- The successful result of a decoder. -/
def okOf {α : Type} : Option (Except Err α) → Option α
  | some (Except.ok a) => some a
  | _ => none

/-- The key pending after the lines: the one decoded from the most recent
EXT-X-KEY directive, absent if there is none. -/
def pendingKey (S : Std) (lines : List GoString) : Option (Key S) :=
  match lastDirective S (ascii "EXT-X-KEY") lines with
  | none => none
  | some (_, tag) => okOf (Hls.Key.ParseTag {} tag)

/-- The initialization section pending after the lines: the one decoded from
the most recent EXT-X-MAP directive (which records the key pending at that
directive), absent if there is none. -/
def pendingMap (S : Std) (lines : List GoString) : Option (MediaInitMap S) :=
  match lastDirective S (ascii "EXT-X-MAP") lines with
  | none => none
  | some (pre, tag) => okOf (Hls.MediaInitMap.ParseTag { Key := pendingKey S pre } tag)

/-- The value declared by the first directive with the given name, 0 when
there is none. -/
def declaredValue (S : Std) (name : GoString) (lines : List GoString) : Nat :=
  match lines.find? (isDirective S name) with
  | none => 0
  | some l =>
    match lineTag S l with
    | none => 0
    | some tag => (ParseUint tag.Value).getD 0

/-- The byte ranges of a sequence of EXT-X-BYTERANGE values in file order, as
(offset, length): `n@o` is (o, n); `n` alone has the offset
`(offset + length) mod 2^64` of the directive before it, `prev`, or 0 when it
is the first one. -/
def byteRanges : Option (Nat × Nat) → List GoString → List (Nat × Nat)
  | _, [] => []
  | prev, value :: values =>
    let r : Nat × Nat :=
      match splitN2 64 value with
      | (len, some off) => ((ParseUint off).getD 0, (ParseUint len).getD 0)
      | (len, none) =>
        (match prev with
         | none => 0
         | some (o, n) => (o + n) % 2 ^ 64, (ParseUint len).getD 0)
    r :: byteRanges (some r) values

/-- The values of the EXT-X-BYTERANGE directives among the lines, in order. -/
def byteRangeValues (S : Std) (lines : List GoString) : List GoString :=
  lines.filterMap (fun l =>
    match lineTag S l with
    | none => none
    | some tag => if tag.Name = ascii "EXT-X-BYTERANGE" then some tag.Value else none)

/-- The key pending after the lines when the scan starts from the view `v`:
the one decoded from the most recent EXT-X-KEY directive, the key of `v` if
there is none. -/
def keyAfter (v : MView S) (ls : List GoString) : Option (Key S) :=
  match lastDirective S (ascii "EXT-X-KEY") ls with
  | none => v.key
  | some (_, tag) => okOf (Hls.Key.ParseTag {} tag)

/-- The end `(offset + length) mod 2^64` of a byte range given as
(offset, length), 0 when there is none. -/
def rangeEnd : Option (Nat × Nat) → Nat
  | none => 0
  | some (o, n) => (o + n) % 2 ^ 64

/-- The byte range of one EXT-X-BYTERANGE value as (offset, length), given the
offset to use when the value has no `@`. -/
def rangeOf (defaultOffset : Nat) (value : GoString) : Nat × Nat :=
  match splitN2 64 value with
  | (len, some off) => ((ParseUint off).getD 0, (ParseUint len).getD 0)
  | (len, none) => (defaultOffset, (ParseUint len).getD 0)

/-- A call of one of the two terminal playlist callbacks. -/
def Call.isTerminal : Call S → Bool
  | Call.MediaPlaylist _ => true
  | Call.MasterPlaylist _ => true
  | _ => false

/-- The per-entity callbacks of the handler, where set, always return `next`
(they never signal stop). -/
def ParserHandler.NeverStops (handler : ParserHandler S) : Prop :=
  (∀ f, handler.HandleMediaSegment = some f → ∀ a b, f a b = true) ∧
  (∀ f, handler.HandleVariantStream = some f → ∀ a b, f a b = true) ∧
  (∀ f, handler.HandleIframeStream = some f → ∀ a b, f a b = true)

/-- The names of the directives that lock the playlist kind to master. -/
def masterNames : List GoString :=
  [ascii "EXT-X-STREAM-INF", ascii "EXT-X-I-FRAME-STREAM-INF", ascii "EXT-X-MEDIA"]

/-- The names of the directives that lock the playlist kind to media. -/
def mediaNames : List GoString :=
  [ascii "EXT-X-MEDIA-SEQUENCE", ascii "EXT-X-DISCONTINUITY-SEQUENCE", ascii "EXTINF",
    ascii "EXT-X-BYTERANGE", ascii "EXT-X-DISCONTINUITY", ascii "EXT-X-GAP"]

/-- The line decides the playlist kind: it is a resource line, or a directive
whose name is one of the nine names that lock the kind to master or to media. -/
def locksKind (S : Std) (l : GoString) : Bool :=
  isResourceLine l ||
    match lineTag S l with
    | none => false
    | some tag => decide (tag.Name ∈ masterNames) || decide (tag.Name ∈ mediaNames)

/-- The text a line of the input is rendered to: a blank line (only spaces and
tabs) as it is, any other line without its leading spaces and tabs. -/
def renderLine (l : GoString) : GoString :=
  if (trimLeftSpaceTab l).length = 0 then l else trimLeftSpaceTab l

/-- The state without what the callbacks contribute: the stop flag cleared and
the trace emptied. -/
def Scan.quiet (st : Scan S) : Scan S := { st with stop := false, calls := [] }

/-- The line without its line number. -/
def Line.unnumbered (l : Line S) : Line S := { l with LineNum := 0 }

/-- The segment with its resource line unnumbered. -/
def MediaSegment.unnumbered (s : MediaSegment S) : MediaSegment S :=
  { s with URILine := s.URILine.map Line.unnumbered }

/-- The variant stream with its two lines unnumbered. -/
def VariantStream.unnumbered (v : VariantStream S) : VariantStream S :=
  { v with TagLine := v.TagLine.map Line.unnumbered, URILine := v.URILine.map Line.unnumbered }

/-- The I-frame stream with its two lines unnumbered. -/
def IframeStream.unnumbered (v : IframeStream S) : IframeStream S :=
  { v with TagLine := v.TagLine.map Line.unnumbered, URILine := v.URILine.map Line.unnumbered }

/-- What a scan has found, apart from the sequence of lines and the line
numbers: the state with the line counter reset, the `Lines` emptied, every line
kept by a segment or stream unnumbered, and without the trace. -/
def Scan.unnumbered (st : Scan S) : Scan S :=
  { st with
    lineNum := 0
    calls := []
    playlist := { st.playlist with Lines := [] }
    mediaSegment := st.mediaSegment.unnumbered
    variantStream := st.variantStream.unnumbered
    ifrmaeStream := st.ifrmaeStream.unnumbered
    mediaPlaylist := { st.mediaPlaylist with
      MediaSegments := st.mediaPlaylist.MediaSegments.map MediaSegment.unnumbered }
    masterPlaylist := { st.masterPlaylist with
      VariantStreams := st.masterPlaylist.VariantStreams.map VariantStream.unnumbered
      IframeStreams := st.masterPlaylist.IframeStreams.map IframeStream.unnumbered } }

/-- The media playlist object without its `Lines` and line numbers. -/
def MediaPlaylist.unnumbered (p : MediaPlaylist S) : MediaPlaylist S :=
  { p with
    Playlist := { p.Playlist with Lines := [] }
    MediaSegments := p.MediaSegments.map MediaSegment.unnumbered }

/-- The master playlist object without its `Lines` and line numbers. -/
def MasterPlaylist.unnumbered (p : MasterPlaylist S) : MasterPlaylist S :=
  { p with
    Playlist := { p.Playlist with Lines := [] }
    VariantStreams := p.VariantStreams.map VariantStream.unnumbered
    IframeStreams := p.IframeStreams.map IframeStream.unnumbered }

/-- The answer of each per-entity callback of the handler, where set, does not
depend on the `Lines` sequence nor on line numbers. -/
def ParserHandler.LineBlind (handler : ParserHandler S) : Prop :=
  (∀ f, handler.HandleMediaSegment = some f →
    ∀ a b, f a b = f a.unnumbered b.unnumbered) ∧
  (∀ f, handler.HandleVariantStream = some f →
    ∀ a b, f a b = f a.unnumbered b.unnumbered) ∧
  (∀ f, handler.HandleIframeStream = some f →
    ∀ a b, f a b = f a.unnumbered b.unnumbered)

/-- The twelve directive names that `Parse` recognizes. -/
def recognizedNames : List GoString :=
  [ascii "EXT-X-VERSION", ascii "EXT-X-STREAM-INF", ascii "EXT-X-I-FRAME-STREAM-INF",
    ascii "EXT-X-MEDIA", ascii "EXT-X-MEDIA-SEQUENCE", ascii "EXT-X-DISCONTINUITY-SEQUENCE",
    ascii "EXTINF", ascii "EXT-X-BYTERANGE", ascii "EXT-X-DISCONTINUITY", ascii "EXT-X-GAP",
    ascii "EXT-X-MAP", ascii "EXT-X-KEY"]

/-- The state at the head of the main loop of `ParseAttributeList` after `n`
iterations from the state `σ`; `none` when the loop is left before. -/
def attrTrace (listStr : GoString) : Nat → PState S → Option (PState S)
  | 0, σ => some σ
  | n + 1, σ =>
    if σ.pos < listStr.length then
      let σ1 := attrStep listStr σ (listStr.getD σ.pos 0)
      if σ1.err.isSome then none else attrTrace listStr n (advance σ1)
    else none

/-- What holds of the `0`-prefixed run while the parser is in the Bytes state:
the run is not empty, and from its third byte on it is made of hexadecimal
digits. -/
def BytesRun (listStr : GoString) (σ : PState S) : Prop :=
  σ.err = none ∧ σ.pos ≤ listStr.length ∧
  (σ.state = attrStateBytes → σ.start + 1 ≤ σ.pos ∧
    ∀ q, σ.start + 2 ≤ q → q < σ.pos → isBytesChar (listStr.getD q 0) = true)

/-- Which payload fields of the value are present, in the order String, Enum,
Integer, Float, Bytes (non-nil), Resolution. -/
def Value.payloads (v : Value S) : List Bool :=
  [v.StringValue.isSome, v.EnumValue.isSome, v.IntegerValue.isSome, v.FloatValue.isSome,
    v.BytesValue.isSome, v.ResolutionValue.isSome]

/-- The payload fields that a value of the type is to have, in the same
order. -/
def ValueType.payloads : ValueType → List Bool
  | ValueType.Unset => [false, false, false, false, false, false]
  | ValueType.StringType => [true, false, false, false, false, false]
  | ValueType.EnumType => [false, true, false, false, false, false]
  | ValueType.IntegerType => [false, false, true, false, false, false]
  | ValueType.FloatType => [false, false, false, true, false, false]
  | ValueType.BytesType => [false, false, false, false, true, false]
  | ValueType.ResolutionType => [false, false, false, false, false, true]

/-- The invariant of `Value`: the type is set, the payload field that matches
the type is present and all the others are absent. -/
def Value.Invariant (v : Value S) : Prop :=
  v.Typ ≠ ValueType.Unset ∧ v.payloads = v.Typ.payloads

/-- The accessor that matches the type of the value returns without error. -/
def Value.AccessorSucceeds (v : Value S) : Prop :=
  match v.Typ with
  | ValueType.Unset => False
  | ValueType.StringType => ∃ s, v.String = Except.ok s
  | ValueType.EnumType => ∃ s, v.Enum = Except.ok s
  | ValueType.IntegerType => ∃ n, v.Int = Except.ok n
  | ValueType.FloatType => ∃ f, v.Float = Except.ok f
  | ValueType.BytesType => ∃ bs, v.Bytes = Except.ok bs
  | ValueType.ResolutionType => ∃ r, v.Resolution = Except.ok r

/-- What holds of the attributes while the parser runs: the finished ones
satisfy the invariant of `Value`, and the one under construction has no payload
yet, apart from the Resolution with its width in the Resolution state. -/
def Typed (σ : PState S) : Prop :=
  σ.err = none ∧ σ.attrs.Allocated ∧ (∀ a ∈ σ.attrs.ListAttrs, a.toValue.Invariant) ∧
  σ.attr.toValue.payloads =
    [false, false, false, false, false, decide (σ.state = attrStateResolution)]

/-- The names occur in the input between the positions `lo` and `hi`, one after
the other in the order of the list and without overlap. -/
def NamesIn (listStr : GoString) : Nat → Nat → List GoString → Prop
  | lo, hi, [] => lo ≤ hi
  | lo, hi, n :: ns =>
    ∃ p, lo ≤ p ∧ slice listStr p (p + n.length) = n ∧ NamesIn listStr (p + n.length) hi ns

/-- A name of an attribute: not empty, and made of `A`-`Z`, `0`-`9`, `-` and
`_`. -/
def ValidName (n : GoString) : Prop := n ≠ [] ∧ ∀ c ∈ n, isAttributeNameChar c = true

/-- The states in which the parser has read a name and reads its value. -/
def AttrState.isValue : AttrState → Bool
  | attrStateStart => false
  | attrStateName => false
  | attrStateValueEnd => false
  | _ => true

/-- What holds of the name being read, or of the name of the attribute under
construction, when the names of the finished attributes end before `hi`. -/
def NameSpan (listStr : GoString) (σ : PState S) (hi : Nat) : Prop :=
  (σ.state = attrStateName →
    hi ≤ σ.start ∧ σ.start < σ.pos ∧
      ∀ q, σ.start ≤ q → q < σ.pos → isAttributeNameChar (listStr.getD q 0) = true) ∧
  (σ.state.isValue = true →
    ValidName σ.attr.Name ∧
      ∃ p, hi ≤ p ∧ p + σ.attr.Name.length ≤ σ.pos ∧
        slice listStr p (p + σ.attr.Name.length) = σ.attr.Name)

/-- What holds of the names while the parser runs: the finished attributes have
valid names, which occur in the input before the current position in the order
of the list. -/
def Named (listStr : GoString) (σ : PState S) : Prop :=
  σ.err = none ∧ σ.attrs.Allocated ∧
  (∀ a ∈ σ.attrs.ListAttrs, ValidName a.Name) ∧
  ∃ hi, hi ≤ σ.pos ∧ NamesIn listStr 0 hi (σ.attrs.ListAttrs.map (fun a => a.Name)) ∧
    NameSpan listStr σ hi

/-- The kind invariant of the scan: the two kind flags are not both set, media
segments are held only when the media flag is set, and variant streams, i-frame
streams and renditions only when the master flag is set. -/
def Scan.KindInv (st : Scan S) : Prop :=
  ¬ (st.isMaster = true ∧ st.isMedia = true) ∧
  (st.mediaPlaylist.MediaSegments ≠ [] → st.isMedia = true) ∧
  (st.masterPlaylist.VariantStreams ≠ [] → st.isMaster = true) ∧
  (st.masterPlaylist.IframeStreams ≠ [] → st.isMaster = true) ∧
  (∀ t g, st.masterPlaylist.RenditionGroups t g ≠ [] → st.isMaster = true)

/-- The rendition decoded from a line, when the line is an EXT-X-MEDIA
directive that decodes without error. -/
def lineRendition (S : Std) (lineStr : GoString) : Option (Rendition S) :=
  match lineTag S lineStr with
  | none => none
  | some tag =>
    if tag.Name = ascii "EXT-X-MEDIA" then
      match Rendition.ParseTag {} tag with
      | some (Except.ok r) => some r
      | _ => none
    else none

/-- The renditions decoded from the EXT-X-MEDIA directive lines, in file
order. -/
def mediaRenditions (S : Std) (lines : List GoString) : List (Rendition S) :=
  lines.filterMap (lineRendition S)

/-- The resource lines among the lines, as the `Line` values the scan records
for them, the first of the lines having the number `n`. -/
def resourceLines (S : Std) : Nat → List GoString → List (Line S)
  | _, [] => []
  | n, l :: ls =>
    if isResourceLine l then
      { LineNum := n, Typ := LineType.URLLineType, URL := trimLeftSpaceTab l } ::
        resourceLines S (n + 1) ls
    else resourceLines S (n + 1) ls

end Hls

/-! # Properties -/

namespace Hls

open AttrState

variable {S : Std}

/-! ## The main loop of the attribute parser terminates -/

@[simp] theorem afterValue_pos (σ : PState S) (c : Nat) : (afterValue σ c).pos = σ.pos := rfl

@[simp] theorem appendAttr_pos (σ : PState S) (t : ValueType) : (appendAttr σ t).pos = σ.pos := rfl

theorem finishEnum_pos (l : GoString) (σ : PState S) (c : Nat) :
    (finishEnum l σ c).pos = σ.pos := rfl

theorem finishInteger_pos (l : GoString) (σ : PState S) (c : Nat) :
    (finishInteger l σ c).pos = σ.pos := by
  unfold finishInteger; split <;> rfl

theorem finishFloat_pos (l : GoString) (σ : PState S) (c : Nat) :
    (finishFloat l σ c).pos = σ.pos := by
  unfold finishFloat; split <;> rfl

theorem finishBytes_pos (l : GoString) (σ : PState S) (c : Nat) :
    (finishBytes l σ c).pos = σ.pos := by
  unfold finishBytes; split_ifs <;> try rfl
  split <;> rfl

theorem finishResolution_pos (l : GoString) (σ : PState S) (c : Nat) :
    (finishResolution l σ c).pos = σ.pos := by
  unfold finishResolution; split_ifs <;> try rfl
  split <;> rfl

/-- An iteration leaves `pos` alone, or rewinds it by one while switching from
the Bytes state to the Enum state. -/
theorem attrStep_pos (l : GoString) (σ : PState S) (c : Nat) :
    (attrStep l σ c).pos = σ.pos ∨
      ((attrStep l σ c).pos = σ.pos - 1 ∧ (attrStep l σ c).state = attrStateEnum ∧
        σ.state = attrStateBytes) := by
  unfold attrStep
  split <;> rename_i hst
  all_goals (split_ifs <;> simp [finishEnum_pos, finishInteger_pos, finishFloat_pos,
    finishBytes_pos, finishResolution_pos, hst])
  all_goals (split <;> simp)

theorem attrStep_measure (l : GoString) (σ : PState S) (c : Nat) (h : σ.pos < l.length) :
    attrMeasure l (advance (attrStep l σ c)) < attrMeasure l σ := by
  unfold attrMeasure advance
  rcases attrStep_pos l σ c with h1 | ⟨h1, h2, h3⟩
  · simp only [h1]
    split_ifs <;> omega
  · simp only [h1, h2, h3]
    simp
    omega

/-- Any two amounts of fuel above the measure give the same, defined, result. -/
theorem attrLoop_fuel (l : GoString) :
    ∀ (n m : Nat) (σ : PState S), attrMeasure l σ ≤ n → attrMeasure l σ ≤ m →
      attrLoop l n σ = attrLoop l m σ ∧ (attrLoop l n σ).isSome := by
  intro n
  induction n with
  | zero =>
    intro m σ hn _
    have hpos : ¬ σ.pos < l.length := by
      unfold attrMeasure at hn; omega
    cases m <;> simp [attrLoop, hpos]
  | succ n ih =>
    intro m σ hn hm
    by_cases hpos : σ.pos < l.length
    · have hms := attrStep_measure l σ (l.getD σ.pos 0) hpos
      have hpos2 : 0 < attrMeasure l σ := by unfold attrMeasure; omega
      obtain ⟨m, rfl⟩ : ∃ k, m = k + 1 := ⟨m - 1, by omega⟩
      simp only [attrLoop, hpos, if_true]
      split_ifs with herr
      · simp
      · exact ih m _ (by omega) (by omega)
    · cases m <;> simp [attrLoop, hpos]

theorem attrLoop_eq_run (l : GoString) (n : Nat) (σ : PState S) (h : attrMeasure l σ ≤ n) :
    attrLoop l n σ = attrRun l σ :=
  (attrLoop_fuel l n _ σ h (Nat.le_refl _)).1

/-- The loop unfolded once. -/
theorem attrRun_eq (l : GoString) (σ : PState S) :
    attrRun l σ =
      if σ.pos < l.length then
        (if (attrStep l σ (l.getD σ.pos 0)).err.isSome then some (attrStep l σ (l.getD σ.pos 0))
         else attrRun l (advance (attrStep l σ (l.getD σ.pos 0))))
      else some σ := by
  by_cases hpos : σ.pos < l.length
  · have hms := attrStep_measure l σ (l.getD σ.pos 0) hpos
    have hpos2 : 0 < attrMeasure l σ := by unfold attrMeasure; omega
    obtain ⟨k, hk⟩ : ∃ k, attrMeasure l σ = k + 1 := ⟨attrMeasure l σ - 1, by omega⟩
    rw [attrRun, hk]
    simp only [attrLoop, hpos, if_true]
    split_ifs with herr
    · rfl
    · exact attrLoop_eq_run l k _ (by omega)
  · simp only [hpos, if_false]
    unfold attrRun
    cases attrMeasure l σ <;> simp [attrLoop, hpos]

theorem ParseAttributeList_eq (l : GoString) :
    ParseAttributeList S l =
      (attrRun l ({} : PState S)).map (fun σ =>
        if σ.err.isSome then (σ.attrs, σ.err) else ((attrEnd l σ).attrs, (attrEnd l σ).err)) := by
  have h : attrLoop l (2 * l.length) ({} : PState S) = attrRun l ({} : PState S) :=
    attrLoop_eq_run l _ _ (by simp [attrMeasure])
  unfold ParseAttributeList
  rw [h]
  cases attrRun l ({} : PState S) with
  | none => rfl
  | some σ => by_cases he : σ.err.isSome <;> simp [he]

end Hls

namespace Hls

/-! ## Decimal and hexadecimal renderings -/

theorem decimalAux_fuel : ∀ (f1 f2 n : Nat) (acc : GoString), n < f1 → n < f2 →
    decimalAux f1 n acc = decimalAux f2 n acc := by
  intro f1
  induction f1 with
  | zero => intro f2 n acc h; omega
  | succ f1 ih =>
    intro f2 n acc h1 h2
    obtain ⟨f2, rfl⟩ : ∃ k, f2 = k + 1 := ⟨f2 - 1, by omega⟩
    simp only [decimalAux]
    split_ifs with h
    · rfl
    · exact ih f2 _ _ (by omega) (by omega)

theorem decimalAux_acc : ∀ (f n : Nat) (acc : GoString), n < f →
    decimalAux f n acc = decimalAux f n [] ++ acc := by
  intro f
  induction f with
  | zero => intro n acc h; omega
  | succ f ih =>
    intro n acc h
    simp only [decimalAux]
    split_ifs with h10
    · rfl
    · rw [ih (n / 10) ((48 + n % 10) :: acc) (by omega), ih (n / 10) [48 + n % 10] (by omega)]
      simp

theorem decimal_lt (n : Nat) (h : n < 10) : decimal n = [48 + n] := by
  simp [decimal, decimalAux, h]

theorem decimal_ge (n : Nat) (h : 10 ≤ n) : decimal n = decimal (n / 10) ++ [48 + n % 10] := by
  have h10 : ¬ n < 10 := by omega
  have h0 : decimal n = decimalAux n (n / 10) [48 + n % 10] := by
    simp [decimal, decimalAux, h10]
  rw [h0, decimalAux_acc n (n / 10) _ (by omega)]
  rw [decimalAux_fuel n (n / 10 + 1) (n / 10) [] (by omega) (by omega)]
  rfl

theorem digitsValue_append (s : GoString) (c : Nat) :
    digitsValue (s ++ [c]) = digitsValue s * 10 + (c - 48) := by
  simp [digitsValue, List.foldl_append]

theorem digitsValue_decimal (n : Nat) : digitsValue (decimal n) = n := by
  induction n using Nat.strong_induction_on with
  | _ n ih =>
    by_cases h : n < 10
    · rw [decimal_lt n h]; simp [digitsValue]
    · rw [decimal_ge n (by omega), digitsValue_append, ih (n / 10) (by omega)]
      omega

theorem decimal_all_numeric (n : Nat) : ∀ c ∈ decimal n, isNumericChar c = true := by
  induction n using Nat.strong_induction_on with
  | _ n ih =>
    by_cases h : n < 10
    · rw [decimal_lt n h]
      intro c hc
      simp at hc
      subst hc
      simp [isNumericChar]; omega
    · rw [decimal_ge n (by omega)]
      intro c hc
      rcases List.mem_append.1 hc with hc | hc
      · exact ih (n / 10) (by omega) c hc
      · simp at hc
        subst hc
        simp [isNumericChar]; omega

theorem decimal_ne_nil (n : Nat) : decimal n ≠ [] := by
  by_cases h : n < 10
  · rw [decimal_lt n h]; simp
  · rw [decimal_ge n (by omega)]; simp

/-- The decimal rendering of a positive number starts with a digit from 1 to 9. -/
theorem decimal_pos (n : Nat) (hn : 1 ≤ n) :
    ∃ c rest, decimal n = c :: rest ∧ 49 ≤ c ∧ c ≤ 57 := by
  induction n using Nat.strong_induction_on with
  | _ n ih =>
    by_cases h : n < 10
    · exact ⟨48 + n, [], decimal_lt n h, by omega, by omega⟩
    · obtain ⟨c, rest, hd, h1, h2⟩ := ih (n / 10) (by omega) (by omega)
      exact ⟨c, rest ++ [48 + n % 10], by rw [decimal_ge n (by omega), hd]; rfl, h1, h2⟩

theorem ParseUint_decimal (n : Nat) (h : n < 2 ^ 64) : ParseUint (decimal n) = some n := by
  unfold ParseUint
  have hall : (decimal n).all isNumericChar = true := by
    rw [List.all_eq_true]; exact decimal_all_numeric n
  have h' : n < 18446744073709551616 := by simpa using h
  simp [decimal_ne_nil, hall, digitsValue_decimal, h']

theorem ParseInt_formatInt (n : Int) (h1 : -2 ^ 63 ≤ n) (h2 : n < 2 ^ 63) :
    ParseInt (formatInt n) = some n := by
  have hall : (decimal n.natAbs).all isNumericChar = true := by
    rw [List.all_eq_true]; exact decimal_all_numeric _
  have hv := digitsValue_decimal n.natAbs
  unfold formatInt
  by_cases hneg : n < 0
  · have hab : ((n.natAbs : Nat) : Int) = -n := by omega
    have hle : ¬ (2 ^ 63 < n.natAbs) := by omega
    simp only [hneg, if_true, ParseInt]
    simp [decimal_ne_nil, hall, hv, hle, hab]
    omega
  · simp only [hneg, if_false]
    obtain ⟨c, rest, hd, hc⟩ : ∃ c rest, decimal n.natAbs = c :: rest ∧ 48 ≤ c ∧ c ≤ 57 := by
      rcases h : decimal n.natAbs with _ | ⟨c, rest⟩
      · exact absurd h (decimal_ne_nil _)
      · have := decimal_all_numeric n.natAbs c (by rw [h]; simp)
        simp [isNumericChar] at this
        exact ⟨c, rest, rfl, this.1, this.2⟩
    have hne := decimal_ne_nil n.natAbs
    rw [hd] at hall hv hne
    have e1 : (c == 45) = false := by simp; omega
    have e2 : (c == 43) = false := by simp; omega
    have hab : ((n.natAbs : Nat) : Int) = n := by omega
    have hle : ¬ (2 ^ 63 ≤ n.natAbs) := by omega
    simp only [hd, ParseInt, e1, e2]
    simp [hall, hv, hle, hne, hab]
    omega

theorem upperHexDigit_bytes (d : Nat) (h : d < 16) : isBytesChar (upperHexDigit d) = true := by
  unfold upperHexDigit isBytesChar isNumericChar
  split_ifs <;> simp <;> omega

theorem fromHexChar_upper (d : Nat) (h : d < 16) : fromHexChar (upperHexDigit d) = some d := by
  unfold upperHexDigit fromHexChar
  split_ifs <;> first | omega | (congr 1; omega)

theorem hexEncodeUpper_bytes (bs : List Nat) (h : ∀ b ∈ bs, b < 256) :
    ∀ c ∈ hexEncodeUpper bs, isBytesChar c = true := by
  induction bs with
  | nil => simp [hexEncodeUpper]
  | cons b bs ih =>
    have hb : b < 256 := h b (by simp)
    intro c hc
    simp only [hexEncodeUpper, List.mem_cons] at hc
    rcases hc with rfl | rfl | hc
    · exact upperHexDigit_bytes _ (by omega)
    · exact upperHexDigit_bytes _ (by omega)
    · exact ih (fun b hb => h b (by simp [hb])) c hc

theorem hexEncodeUpper_length (bs : List Nat) : (hexEncodeUpper bs).length = 2 * bs.length := by
  induction bs with
  | nil => rfl
  | cons b bs ih => simp [hexEncodeUpper, ih]; omega

theorem hexDecode_encode (bs : List Nat) (h : ∀ b ∈ bs, b < 256) :
    hexDecodeString (hexEncodeUpper bs) = some bs := by
  induction bs with
  | nil => rfl
  | cons b bs ih =>
    have hb : b < 256 := h b (by simp)
    simp only [hexEncodeUpper, hexDecodeString]
    rw [fromHexChar_upper _ (by omega), fromHexChar_upper _ (by omega),
      ih (fun b hb => h b (by simp [hb]))]
    simp
    omega

end Hls

namespace Hls
open AttrState
variable {S : Std}

/-! ## Stepping the main loop through a known input -/

theorem getD_mid (pre post : GoString) (c : Nat) : (pre ++ c :: post).getD pre.length 0 = c := by
  induction pre with
  | nil => rfl
  | cons a pre ih => simpa only [List.cons_append, List.length_cons, List.getD_cons_succ] using ih

theorem attrRun_step (l pre post : GoString) (c : Nat) (σ : PState S)
    (hl : l = pre ++ c :: post) (hp : σ.pos = pre.length)
    (herr : (attrStep l σ c).err = none) :
    attrRun l σ = attrRun l (advance (attrStep l σ c)) := by
  have hlt : σ.pos < l.length := by rw [hl, hp]; simp
  have hc : l.getD σ.pos 0 = c := by rw [hl, hp]; exact getD_mid pre post c
  rw [attrRun_eq l σ, if_pos hlt, hc, herr]
  rfl

theorem attrRun_end (l : GoString) (σ : PState S) (hp : σ.pos = l.length) :
    attrRun l σ = some σ := by
  rw [attrRun_eq l σ]
  simp [hp]

/-- Bytes that leave the state alone are skipped. -/
theorem attrRun_skip (l : GoString) :
    ∀ (tok pre post : GoString) (σ : PState S), l = pre ++ tok ++ post → σ.pos = pre.length →
      σ.err = none →
      (∀ c ∈ tok, ∀ p, pre.length ≤ p → attrStep l { σ with pos := p } c = { σ with pos := p }) →
      attrRun l σ = attrRun l { σ with pos := pre.length + tok.length } := by
  intro tok
  induction tok with
  | nil =>
    intro pre post σ _ hp _ _
    simp [← hp]
  | cons c tok ih =>
    intro pre post σ hl hp herr hin
    have hs : attrStep l σ c = σ := by
      have := hin c (by simp) σ.pos (by omega)
      simpa using this
    have h1 := attrRun_step l pre (tok ++ post) c σ (by simpa using hl) hp (by rw [hs]; exact herr)
    rw [h1, hs]
    have h2 := ih (pre ++ [c]) post (advance σ) (by simpa using hl) (by simp [advance, hp]) herr
      (fun d hd p hp' => hin d (by simp [hd]) p (by simp at hp'; omega))
    rw [h2]
    congr 1
    simp [advance]
    omega

end Hls

namespace Hls
open AttrState
variable {S : Std}

/-! ## Lexing names and separators -/

theorem slice_mid (pre tok post : GoString) :
    slice (pre ++ tok ++ post) pre.length (pre.length + tok.length) = tok := by
  simp [slice]

theorem nameChar_facts (c : Nat) (h : isAttributeNameChar c = true) :
    isSpaceChar c = false ∧ c ≠ 44 ∧ c ≠ 61 := by
  simp [isAttributeNameChar, isNumericChar] at h
  simp [isSpaceChar]
  omega

/-- Spaces, tabs and commas before a name are skipped. -/
theorem lex_start_skip (l pre ws post : GoString) (s0 : Nat) (L : AttributeList S)
    (hl : l = pre ++ ws ++ post) (hws : ∀ c ∈ ws, isSpaceChar c = true ∨ c = 44) :
    attrRun l (stStart pre.length s0 L) = attrRun l (stStart (pre.length + ws.length) s0 L) := by
  refine attrRun_skip l ws pre post _ hl rfl rfl ?_
  intro c hc p _
  rcases hws c hc with h | h <;> simp [attrStep, stStart, h]

/-- Spaces and tabs after a value are skipped. -/
theorem lex_valueEnd_skip (l pre ws post : GoString) (s0 : Nat) (L : AttributeList S)
    (hl : l = pre ++ ws ++ post) (hws : ∀ c ∈ ws, isSpaceChar c = true) :
    attrRun l (stValueEnd pre.length s0 L) =
      attrRun l (stValueEnd (pre.length + ws.length) s0 L) := by
  refine attrRun_skip l ws pre post _ hl rfl rfl ?_
  intro c hc p _
  have h := hws c hc
  have h44 : (c == 44) = false := by
    simp [isSpaceChar] at h; simp; omega
  simp [attrStep, stValueEnd, h, h44]

/-- A name and its `=` are read into the attribute under construction. -/
theorem lex_name (l pre name post : GoString) (s0 : Nat) (L : AttributeList S)
    (hl : l = pre ++ name ++ 61 :: post) (hne : name ≠ [])
    (hname : ∀ c ∈ name, isAttributeNameChar c = true) :
    attrRun l (stStart pre.length s0 L) =
      attrRun l (stNameEnd (pre.length + name.length + 1) pre.length L name) := by
  obtain ⟨c, rest, rfl⟩ : ∃ c rest, name = c :: rest := by
    cases name with
    | nil => exact absurd rfl hne
    | cons c rest => exact ⟨c, rest, rfl⟩
  have hc := hname c (by simp)
  obtain ⟨hc1, hc2, hc3⟩ := nameChar_facts c hc
  have hstep : attrStep l (stStart pre.length s0 L) c =
      ({ pos := pre.length, start := pre.length, state := attrStateName, attrs := L } : PState S) := by
    simp [attrStep, stStart, hc, hc1, hc2]
  rw [attrRun_step l pre (rest ++ 61 :: post) c _ (by simpa using hl) rfl (by rw [hstep])]
  rw [hstep]
  have hskip := attrRun_skip l rest (pre ++ [c]) (61 :: post)
    ({ pos := pre.length + 1, start := pre.length, state := attrStateName, attrs := L } : PState S)
    (by simpa using hl) (by simp) rfl (by
      intro d hd p _
      have hd' := hname d (by simp [hd])
      obtain ⟨hd1, _, hd3⟩ := nameChar_facts d hd'
      simp [attrStep, hd', hd1, hd3])
  dsimp only at hskip
  have e1 : advance ({ pos := pre.length, start := pre.length, state := attrStateName, attrs := L } : PState S)
      = { pos := pre.length + 1, start := pre.length, state := attrStateName, attrs := L } := rfl
  rw [e1, hskip]
  have hsl : slice l pre.length (pre.length + (rest.length + 1)) = c :: rest := by
    have := slice_mid pre (c :: rest) (61 :: post)
    rw [hl]; simpa using this
  have hlen : (pre ++ [c]).length + rest.length = pre.length + (rest.length + 1) := by
    simp; omega
  rw [hlen]
  rw [attrRun_step l (pre ++ c :: rest) post 61 _ (by simpa using hl) (by simp) (by simp [attrStep])]
  congr 1
  simp [attrStep, advance, stNameEnd, hsl]

end Hls

namespace Hls
open AttrState
variable {S : Std}

theorem space_facts (c : Nat) (h : isSpaceChar c = true) : c = 32 ∨ c = 9 := by
  simpa [isSpaceChar] using h

/-- After a finished value, a separator leads to the state before the next name. -/
theorem lex_sep_valueEnd (l pre ws1 ws2 post : GoString) (s0 : Nat) (L : AttributeList S)
    (hl : l = pre ++ (ws1 ++ [44] ++ ws2) ++ post)
    (h1 : ∀ c ∈ ws1, isSpaceChar c = true) (h2 : ∀ c ∈ ws2, isSpaceChar c = true) :
    attrRun l (stValueEnd pre.length s0 L) =
      attrRun l (stStart (pre.length + (ws1 ++ [44] ++ ws2).length) s0 L) := by
  rw [lex_valueEnd_skip l pre ws1 (44 :: ws2 ++ post) s0 L (by simpa using hl) h1]
  rw [attrRun_step l (pre ++ ws1) (ws2 ++ post) 44 _ (by simpa using hl) (by simp [stValueEnd])
    (by simp [attrStep, stValueEnd])]
  have e : advance (attrStep l (stValueEnd (pre.length + ws1.length) s0 L) 44) =
      stStart ((pre ++ ws1 ++ [44]).length) s0 L := by
    simp [attrStep, stValueEnd, advance, stStart]
    omega
  rw [e, lex_start_skip l (pre ++ ws1 ++ [44]) ws2 post s0 L (by simpa using hl)
    (fun c hc => Or.inl (h2 c hc))]
  congr 2
  simp
  omega

theorem finishing_valueEnd (l : GoString) (p s0 : Nat) (L : AttributeList S) :
    Finishing l (stValueEnd p s0 L) L := by
  refine ⟨rfl, ?_, ?_⟩
  · intro c hc
    refine ⟨s0, ?_⟩
    rcases hc with rfl | rfl | rfl <;> simp [attrStep, stValueEnd, isSpaceChar]
  · intro _
    exact ⟨s0, rfl⟩

/-- From the end of a value, a separator leads to the state before the next name. -/
theorem lex_sep (l pre ws1 ws2 post : GoString) (σ : PState S) (L : AttributeList S)
    (hl : l = pre ++ (ws1 ++ [44] ++ ws2) ++ post) (hp : σ.pos = pre.length)
    (hfin : Finishing l σ L)
    (h1 : ∀ c ∈ ws1, isSpaceChar c = true) (h2 : ∀ c ∈ ws2, isSpaceChar c = true) :
    ∃ s1, attrRun l σ = attrRun l (stStart (pre.length + (ws1 ++ [44] ++ ws2).length) s1 L) := by
  obtain ⟨_, hstep, _⟩ := hfin
  cases ws1 with
  | nil =>
    obtain ⟨s1, hs⟩ := hstep 44 (Or.inl rfl)
    refine ⟨s1, ?_⟩
    rw [attrRun_step l pre (ws2 ++ post) 44 σ (by simpa using hl) hp (by rw [hs])]
    have e : advance (attrStep l σ 44) = stStart ((pre ++ [44]).length) s1 L := by
      rw [hs]; simp [advance, stStart, hp]
    rw [e, lex_start_skip l (pre ++ [44]) ws2 post s1 L (by simpa using hl)
      (fun c hc => Or.inl (h2 c hc))]
    congr 2
    simp
    omega
  | cons w ws1 =>
    have hw := space_facts w (h1 w (by simp))
    obtain ⟨s1, hs⟩ := hstep w (Or.inr hw)
    have hw44 : w ≠ 44 := by omega
    refine ⟨s1, ?_⟩
    rw [attrRun_step l pre (ws1 ++ [44] ++ ws2 ++ post) w σ (by simpa using hl) hp (by rw [hs])]
    have e : advance (attrStep l σ w) = stValueEnd ((pre ++ [w]).length) s1 L := by
      rw [hs]; simp [advance, stValueEnd, hp, hw44]
    rw [e, lex_sep_valueEnd l (pre ++ [w]) ws1 ws2 post s1 L (by simpa using hl)
      (fun c hc => h1 c (by simp [hc])) h2]
    congr 2
    simp
    omega

/-- At the end of the input, the value under way is completed. -/
theorem lex_end (l : GoString) (σ : PState S) (L : AttributeList S)
    (hp : σ.pos = l.length) (hfin : Finishing l σ L) :
    attrResult l (attrRun l σ) = some (L, none) := by
  obtain ⟨herr, _, hend⟩ := hfin
  obtain ⟨s1, hs⟩ := hend hp
  rw [attrRun_end l σ hp]
  simp [attrResult, herr, hs, stValueEnd]

end Hls

namespace Hls
open AttrState
variable {S : Std}

/-! ## Lexing the values -/

/-- A quoted string. -/
theorem lex_string (l pre s post name : GoString) (s0 : Nat) (L : AttributeList S)
    (hl : l = pre ++ (34 :: s ++ [34]) ++ post) (hs : ∀ c ∈ s, c ≠ 34) :
    ∃ σ, attrRun l (stNameEnd pre.length s0 L name) = attrRun l σ ∧
      σ.pos = pre.length + (34 :: s ++ [34]).length ∧
      Finishing l σ (L.Append { toValue := V.String s, Name := name }) := by
  refine ⟨stValueEnd (pre.length + (34 :: s ++ [34]).length) (pre.length + 1)
    (L.Append { toValue := V.String s, Name := name }), ?_, by rfl, finishing_valueEnd _ _ _ _⟩
  rw [attrRun_step l pre (s ++ 34 :: post) 34 _ (by simpa using hl) rfl
    (by simp [attrStep, stNameEnd, isSpaceChar])]
  have e1 : advance (attrStep l (stNameEnd pre.length s0 L name) 34) =
      ({ pos := (pre ++ [34]).length, start := pre.length + 1, state := attrStateString,
         attr := { Name := name }, attrs := L } : PState S) := by
    simp [attrStep, stNameEnd, isSpaceChar, advance]
  rw [e1]
  rw [attrRun_skip l s (pre ++ [34]) (34 :: post) _ (by simpa using hl) rfl rfl (by
      intro c hc p _
      have := hs c hc
      simp [attrStep, this])]
  dsimp only
  have hsl : slice l (pre.length + 1) (pre.length + 1 + s.length) = s := by
    have := slice_mid (pre ++ [34]) s (34 :: post)
    rw [hl]; simpa using this
  rw [attrRun_step l (pre ++ 34 :: s) post 34 _ (by simpa using hl) (by simp; omega)
    (by simp [attrStep, appendAttr])]
  congr 1
  simp [attrStep, advance, stValueEnd, appendAttr, hsl, V.String]
  omega

/-- A bare token that starts with a letter. -/
theorem lex_enum (l pre post name rest : GoString) (c : Nat) (s0 : Nat) (L : AttributeList S)
    (hl : l = pre ++ (c :: rest) ++ post)
    (hc : (65 ≤ c ∧ c ≤ 90) ∨ (97 ≤ c ∧ c ≤ 122))
    (hrest : ∀ d ∈ rest, d ≠ 44 ∧ d ≠ 32 ∧ d ≠ 9 ∧ d ≠ 34) :
    ∃ σ, attrRun l (stNameEnd pre.length s0 L name) = attrRun l σ ∧
      σ.pos = pre.length + (c :: rest).length ∧
      Finishing l σ (L.Append { toValue := V.Enum (c :: rest), Name := name }) := by
  have hstep : attrStep l (stNameEnd pre.length s0 L name) c =
      PState.mk pre.length pre.length false { Name := name } attrStateEnum L none := by
    have h1 : isSpaceChar c = false := by simp [isSpaceChar]; omega
    have h2 : (c == 34) = false := by simp; omega
    have h3 : (c == 45) = false := by simp; omega
    have h4 : (c == 46) = false := by simp; omega
    have h5 : (c == 48) = false := by simp; omega
    have h6 : (decide (49 ≤ c) && decide (c ≤ 57)) = false := by simp; omega
    have h7 : (c != 44) = true := by simp; omega
    simp [attrStep, stNameEnd, h1, h2, h3, h4, h5, h6, h7]
  have hsl : slice l pre.length (pre.length + (rest.length + 1)) = c :: rest := by
    have := slice_mid pre (c :: rest) post
    rw [hl]; simpa using this
  refine ⟨PState.mk (pre.length + (c :: rest).length) pre.length false { Name := name }
    attrStateEnum L none, ?_, rfl, rfl, ?_, ?_⟩
  · rw [attrRun_step l pre (rest ++ post) c _ (by simpa using hl) rfl (by rw [hstep])]
    rw [hstep]
    have e1 : advance (PState.mk pre.length pre.length false { Name := name } attrStateEnum L none) =
        PState.mk (pre ++ [c]).length pre.length false { Name := name } attrStateEnum L none := by
      simp [advance]
    rw [e1, attrRun_skip l rest (pre ++ [c]) post _ (by simpa using hl) rfl rfl (by
      intro d hd p _
      obtain ⟨d1, d2, d3, d4⟩ := hrest d hd
      simp [attrStep, isSpaceChar, d1, d2, d3, d4])]
    congr 1
    simp
    omega
  · intro d hd
    refine ⟨pre.length, ?_⟩
    rcases hd with rfl | rfl | rfl <;>
      simp [attrStep, isSpaceChar, finishEnum, afterValue, appendAttr, hsl, V.Enum]
  · intro _
    refine ⟨pre.length, ?_⟩
    simp [attrEnd, finishEnum, afterValue, appendAttr, hsl, V.Enum, stValueEnd]

end Hls

namespace Hls
open AttrState
variable {S : Std}

theorem numeric_facts (c : Nat) (h : isNumericChar c = true) : 48 ≤ c ∧ c ≤ 57 := by
  simpa [isNumericChar] using h

/-- A run of digits is skipped in the Integer state. -/
theorem skip_integer (l pre tok post : GoString) (st sg L a) (hl : l = pre ++ tok ++ post)
    (htok : ∀ c ∈ tok, isNumericChar c = true) :
    attrRun l (PState.mk (S := S) pre.length st sg a attrStateInteger L none) =
      attrRun l (PState.mk (pre.length + tok.length) st sg a attrStateInteger L none) := by
  rw [attrRun_skip l tok pre post _ hl rfl rfl (by
    intro c hc p _
    simp [attrStep, htok c hc])]

/-- An integer that does not start with `0`: an optional `-` and digits. -/
theorem lex_integer (l pre post name rest : GoString) (c : Nat) (n : Int) (s0 : Nat)
    (L : AttributeList S)
    (hl : l = pre ++ (c :: rest) ++ post)
    (hc : c = 45 ∨ (49 ≤ c ∧ c ≤ 57))
    (hrest : ∀ d ∈ rest, isNumericChar d = true)
    (hval : ParseInt (c :: rest) = some n) :
    ∃ σ, attrRun l (stNameEnd pre.length s0 L name) = attrRun l σ ∧
      σ.pos = pre.length + (c :: rest).length ∧
      Finishing l σ (L.Append { toValue := V.Int n, Name := name }) := by
  have hstep : attrStep l (stNameEnd pre.length s0 L name) c =
      PState.mk pre.length pre.length (c == 45) { Name := name } attrStateInteger L none := by
    rcases hc with rfl | hc
    · simp [attrStep, stNameEnd, isSpaceChar]
    · have h1 : isSpaceChar c = false := by simp [isSpaceChar]; omega
      have h2 : (c == 34) = false := by simp; omega
      have h3 : (c == 45) = false := by simp; omega
      have h4 : (c == 46) = false := by simp; omega
      have h5 : (c == 48) = false := by simp; omega
      have h6 : (decide (49 ≤ c) && decide (c ≤ 57)) = true := by simp; omega
      simp [attrStep, stNameEnd, h1, h2, h3, h4, h5, h6]
  have hsl : slice l pre.length (pre.length + (rest.length + 1)) = c :: rest := by
    have := slice_mid pre (c :: rest) post
    rw [hl]; simpa using this
  refine ⟨PState.mk (pre.length + (c :: rest).length) pre.length (c == 45) { Name := name }
    attrStateInteger L none, ?_, rfl, rfl, ?_, ?_⟩
  · rw [attrRun_step l pre (rest ++ post) c _ (by simpa using hl) rfl (by rw [hstep])]
    rw [hstep]
    have e1 : advance (PState.mk pre.length pre.length (c == 45) { Name := name }
        attrStateInteger L none) =
        PState.mk (pre ++ [c]).length pre.length (c == 45) { Name := name }
          attrStateInteger L none := by
      simp [advance]
    rw [e1, skip_integer l (pre ++ [c]) rest post _ _ _ _ (by simpa using hl) hrest]
    congr 1
    simp
    omega
  · intro d hd
    refine ⟨pre.length, ?_⟩
    rcases hd with rfl | rfl | rfl <;>
      simp [attrStep, isSpaceChar, isNumericChar, finishInteger, afterValue, appendAttr, hsl,
        hval, V.Int]
  · intro _
    refine ⟨pre.length, ?_⟩
    simp [attrEnd, finishInteger, afterValue, appendAttr, hsl, hval, V.Int, stValueEnd]

/-- The integer `0`. -/
theorem lex_zero (l pre post name : GoString) (s0 : Nat) (L : AttributeList S)
    (hl : l = pre ++ [48] ++ post) :
    ∃ σ, attrRun l (stNameEnd pre.length s0 L name) = attrRun l σ ∧
      σ.pos = pre.length + 1 ∧
      Finishing l σ (L.Append { toValue := V.Int 0, Name := name }) := by
  have hsl : slice l pre.length (pre.length + 1) = [48] := by
    have := slice_mid pre [48] post
    rw [hl]; simpa using this
  have hval : ParseInt [48] = some 0 := by decide
  refine ⟨PState.mk (pre.length + 1) pre.length false { Name := name }
    attrStateBytes L none, ?_, rfl, rfl, ?_, ?_⟩
  · rw [attrRun_step l pre post 48 _ (by simpa using hl) rfl
      (by simp [attrStep, stNameEnd, isSpaceChar])]
    congr 1
  · intro d hd
    refine ⟨pre.length, ?_⟩
    rcases hd with rfl | rfl | rfl <;>
      simp [attrStep, isSpaceChar, isNumericChar, finishInteger, afterValue, appendAttr, hsl,
        hval, V.Int]
  · intro _
    refine ⟨pre.length, ?_⟩
    simp [attrEnd, finishInteger, afterValue, appendAttr, hsl, hval, V.Int, stValueEnd]

end Hls

namespace Hls
open AttrState
variable {S : Std}

theorem bytesChar_facts (c : Nat) (h : isBytesChar c = true) :
    c ≠ 44 ∧ c ≠ 32 ∧ c ≠ 9 ∧ c ≠ 46 ∧ c ≠ 120 ∧ c ≠ 88 := by
  simp [isBytesChar, isNumericChar] at h
  omega

/-- A byte string: `0x` or `0X` and an even number of hex digits. -/
theorem lex_bytes (l pre post name hex : GoString) (x : Nat) (bs : List Nat) (s0 : Nat)
    (L : AttributeList S)
    (hl : l = pre ++ (48 :: x :: hex) ++ post)
    (hx : x = 120 ∨ x = 88)
    (hhex : ∀ d ∈ hex, isBytesChar d = true)
    (heven : hex.length % 2 = 0)
    (hval : hexDecodeString hex = some bs) :
    ∃ σ, attrRun l (stNameEnd pre.length s0 L name) = attrRun l σ ∧
      σ.pos = pre.length + (48 :: x :: hex).length ∧
      Finishing l σ (L.Append { toValue := V.Bytes (some bs), Name := name }) := by
  have hsl0 : slice l (pre.length + 2) (pre.length + 2 + hex.length) = hex := by
    have := slice_mid (pre ++ [48, x]) hex post
    rw [hl]; simpa using this
  have hsl : slice l (pre.length + 2) (pre.length + (hex.length + 1 + 1)) = hex := by
    have e : pre.length + (hex.length + 1 + 1) = pre.length + 2 + hex.length := by omega
    rw [e]; exact hsl0
  have hx1 : isNumericChar x = false := by
    rcases hx with rfl | rfl <;> decide
  have hx2 : isSpaceChar x = false := by
    rcases hx with rfl | rfl <;> decide
  have hx3 : (x != 120 && x != 88) = false := by
    rcases hx with rfl | rfl <;> decide
  have hx4 : (x == 46) = false := by
    rcases hx with rfl | rfl <;> decide
  have hx5 : (x == 44) = false := by
    rcases hx with rfl | rfl <;> decide
  refine ⟨PState.mk (pre.length + (48 :: x :: hex).length) pre.length false { Name := name }
    attrStateBytes L none, ?_, rfl, rfl, ?_, ?_⟩
  · rw [attrRun_step l pre (x :: hex ++ post) 48 _ (by simpa using hl) rfl
      (by simp [attrStep, stNameEnd, isSpaceChar])]
    have e1 : advance (attrStep l (stNameEnd pre.length s0 L name) 48) =
        PState.mk (pre ++ [48]).length pre.length false { Name := name } attrStateBytes L none := by
      simp [attrStep, stNameEnd, isSpaceChar, advance]
    rw [e1, attrRun_step l (pre ++ [48]) (hex ++ post) x _ (by simpa using hl) rfl
      (by simp [attrStep, hx1, hx2, hx3, hx4, hx5])]
    have e2 : advance (attrStep l (PState.mk (pre ++ [48]).length pre.length false
        { Name := name } attrStateBytes L none) x) =
        PState.mk (pre ++ [48, x]).length pre.length false { Name := name }
          attrStateBytes L none := by
      simp [attrStep, hx1, hx2, hx3, hx4, hx5, advance]
    rw [e2, attrRun_skip l hex (pre ++ [48, x]) post _ (by simpa using hl) rfl rfl (by
      intro d hd p hp
      have hp' : ¬ p = pre.length + 1 := by simp at hp; omega
      simp [attrStep, hhex d hd, hp'])]
    congr 1
    simp
    omega
  · intro d hd
    refine ⟨pre.length, ?_⟩
    have hpar : (hex.length + 1 + 1) % 2 = 0 := by omega
    by_cases hnil : hex = []
    · subst hnil
      simp [hexDecodeString] at hval
      subst hval
      rcases hd with rfl | rfl | rfl <;>
        simp [attrStep, isSpaceChar, isBytesChar, isNumericChar, finishBytes, afterValue,
          appendAttr, V.Bytes]
    · have hlen : ¬ hex.length + 1 + 1 ≤ 2 := by
        have : hex.length ≠ 0 := by simpa using hnil
        omega
      rcases hd with rfl | rfl | rfl <;>
        simp [attrStep, isSpaceChar, isBytesChar, isNumericChar, finishBytes, afterValue,
          appendAttr, V.Bytes, hpar, hlen, hsl, hval]
  · intro _
    refine ⟨pre.length, ?_⟩
    have hpar : (hex.length + 1 + 1) % 2 = 0 := by omega
    by_cases hnil : hex = []
    · subst hnil
      simp [hexDecodeString] at hval
      subst hval
      simp [attrEnd, finishBytes, afterValue, appendAttr, V.Bytes, stValueEnd]
    · have hlen : ¬ hex.length + 1 + 1 ≤ 2 := by
        have : hex.length ≠ 0 := by simpa using hnil
        omega
      simp [attrEnd, finishBytes, afterValue, appendAttr, V.Bytes, stValueEnd, hpar, hlen, hsl,
        hval]

end Hls

namespace Hls
open AttrState
variable {S : Std}

/-- A resolution: a width that starts with a digit from 1 to 9, `x` or `X`,
and a height. -/
theorem lex_resolution (l pre post name rest dh : GoString) (c x w h : Nat) (s0 : Nat)
    (L : AttributeList S)
    (hl : l = pre ++ ((c :: rest) ++ [x] ++ dh) ++ post)
    (hc : 49 ≤ c ∧ c ≤ 57)
    (hrest : ∀ d ∈ rest, isNumericChar d = true)
    (hw : ParseUint (c :: rest) = some w)
    (hx : x = 120 ∨ x = 88)
    (hdh : ∀ d ∈ dh, isNumericChar d = true)
    (hh : ParseUint dh = some h) :
    ∃ σ, attrRun l (stNameEnd pre.length s0 L name) = attrRun l σ ∧
      σ.pos = pre.length + ((c :: rest) ++ [x] ++ dh).length ∧
      Finishing l σ (L.Append
        { toValue := V.ResolutionValue (some ⟨uint64ToInt w, uint64ToInt h⟩), Name := name }) := by
  have hstep : attrStep l (stNameEnd pre.length s0 L name) c =
      PState.mk pre.length pre.length false { Name := name } attrStateInteger L none := by
    have h1 : isSpaceChar c = false := by simp [isSpaceChar]; omega
    have h2 : (c == 34) = false := by simp; omega
    have h3 : (c == 45) = false := by simp; omega
    have h4 : (c == 46) = false := by simp; omega
    have h5 : (c == 48) = false := by simp; omega
    have h6 : (decide (49 ≤ c) && decide (c ≤ 57)) = true := by simp; omega
    simp [attrStep, stNameEnd, h1, h2, h3, h4, h5, h6]
  have hslw : slice l pre.length (pre.length + (rest.length + 1)) = c :: rest := by
    have := slice_mid pre (c :: rest) (x :: dh ++ post)
    rw [hl]; simpa using this
  have hslh0 : slice l (pre.length + (rest.length + 1) + 1)
      (pre.length + (rest.length + 1) + 1 + dh.length) = dh := by
    have := slice_mid (pre ++ (c :: rest) ++ [x]) dh post
    rw [hl]; simpa [Nat.add_assoc] using this
  have hne : dh ≠ [] := by
    intro h0; subst h0; simp [ParseUint] at hh
  have hx1 : isNumericChar x = false := by
    rcases hx with rfl | rfl <;> decide
  have hx4 : (x == 46) = false := by
    rcases hx with rfl | rfl <;> decide
  have hx6 : (x == 120 || x == 88) = true := by
    rcases hx with rfl | rfl <;> decide
  obtain ⟨q, hq⟩ : ∃ q, q = pre.length + ((c :: rest) ++ [x] ++ dh).length := ⟨_, rfl⟩
  obtain ⟨p, hp⟩ : ∃ p, p = pre.length + (rest.length + 1) + 1 := ⟨_, rfl⟩
  have hsl : slice l p q = dh := by
    rw [← hslh0, hp, hq]; congr 1; simp; omega
  have hlen : ¬ p = q := by
    have : dh.length ≠ 0 := by simpa using hne
    rw [hp, hq]; simp; omega
  refine ⟨PState.mk q p false
    { Name := name, ResolutionValue := some ⟨uint64ToInt w, 0⟩ }
    attrStateResolution L none, ?_, hq, rfl, ?_, ?_⟩
  · rw [attrRun_step l pre (rest ++ x :: dh ++ post) c _ (by simpa using hl) rfl (by rw [hstep])]
    rw [hstep]
    have e1 : advance (PState.mk pre.length pre.length false { Name := name }
        attrStateInteger L none) =
        PState.mk (pre ++ [c]).length pre.length false { Name := name }
          attrStateInteger L none := by
      simp [advance]
    rw [e1, skip_integer l (pre ++ [c]) rest (x :: dh ++ post) _ _ _ _ (by simpa using hl) hrest]
    have e2 : (pre ++ [c]).length + rest.length = (pre ++ c :: rest).length := by
      simp; omega
    have e3 : (pre ++ c :: rest).length = pre.length + (rest.length + 1) := by simp
    rw [e2]
    have hstep2 : attrStep l (PState.mk (pre ++ c :: rest).length pre.length false
        { Name := name } attrStateInteger L none) x =
        PState.mk (pre ++ c :: rest).length ((pre ++ c :: rest).length + 1) false
          { Name := name, ResolutionValue := some ⟨uint64ToInt w, 0⟩ }
          attrStateResolution L none := by
      simp only [e3]
      simp [attrStep, hx1, hx4, hx6, hslw, hw]
    rw [attrRun_step l (pre ++ c :: rest) (dh ++ post) x _ (by simpa using hl) rfl
      (by rw [hstep2])]
    rw [hstep2]
    have e4 : advance (PState.mk (pre ++ c :: rest).length ((pre ++ c :: rest).length + 1) false
          { Name := name, ResolutionValue := some ⟨uint64ToInt w, 0⟩ }
          attrStateResolution L none : PState S) =
        PState.mk (pre ++ c :: rest ++ [x]).length ((pre ++ c :: rest).length + 1) false
          { Name := name, ResolutionValue := some ⟨uint64ToInt w, 0⟩ }
          attrStateResolution L none := by
      simp [advance]
      omega
    rw [e4, attrRun_skip l dh (pre ++ c :: rest ++ [x]) post _ (by simpa using hl) rfl rfl (by
      intro d hd p _
      simp [attrStep, hdh d hd])]
    rw [hq, hp]
    congr 1
    simp
    omega
  · intro d hd
    refine ⟨p, ?_⟩
    rcases hd with rfl | rfl | rfl <;>
      simp [attrStep, isSpaceChar, isNumericChar, finishResolution, afterValue, appendAttr,
        V.ResolutionValue, hlen, hsl, hh]
  · intro _
    refine ⟨p, ?_⟩
    simp [attrEnd, finishResolution, afterValue, appendAttr, V.ResolutionValue, stValueEnd,
      hlen, hsl, hh]

end Hls

namespace Hls
open AttrState
variable {S : Std}

/-! ## Canonical values -/

theorem ascii_0x : ascii "0x" = [48, 120] := by decide

theorem uint64ToInt_small (k : Int) (h0 : 0 ≤ k) (h1 : k < 2 ^ 63) :
    uint64ToInt k.natAbs = k := by
  unfold uint64ToInt
  have : k.natAbs < 2 ^ 63 := by omega
  rw [if_pos this]
  omega

/-- A value in canonical form has a rendering, and after a name and `=` the
parser reads that rendering back as the value. -/
theorem lex_value (v : Value S) (hv : CanonValue v) :
    ∃ t, v.Format = some t ∧
      ∀ (l pre post name : GoString) (s0 : Nat) (L : AttributeList S), l = pre ++ t ++ post →
        ∃ σ, attrRun l (stNameEnd pre.length s0 L name) = attrRun l σ ∧
          σ.pos = pre.length + t.length ∧
          Finishing l σ (L.Append { toValue := v, Name := name }) := by
  rcases hv with ⟨s, rfl, hs⟩ | ⟨c, rest, rfl, hc, hrest⟩ | ⟨n, rfl, h1, h2⟩ | ⟨bs, rfl, hbs⟩ |
    ⟨w, h, rfl, hw1, hw2, hh1, hh2⟩
  · refine ⟨34 :: s ++ [34], by simp [Value.Format, V.String], ?_⟩
    intro l pre post name s0 L hl
    exact lex_string l pre s post name s0 L hl hs
  · refine ⟨c :: rest, by simp [Value.Format, V.Enum], ?_⟩
    intro l pre post name s0 L hl
    exact lex_enum l pre post name rest c s0 L hl hc hrest
  · refine ⟨formatInt n, by simp [Value.Format, V.Int], ?_⟩
    intro l pre post name s0 L hl
    have hval := ParseInt_formatInt n h1 h2
    by_cases hneg : n < 0
    · have e : formatInt n = 45 :: decimal n.natAbs := by simp [formatInt, hneg]
      rw [e] at hl hval ⊢
      exact lex_integer l pre post name _ 45 n s0 L hl (Or.inl rfl)
        (decimal_all_numeric _) hval
    · have e : formatInt n = decimal n.natAbs := by simp [formatInt, hneg]
      by_cases h0 : n = 0
      · subst h0
        have e0 : formatInt 0 = [48] := by decide
        rw [e0] at hl ⊢
        exact lex_zero l pre post name s0 L hl
      · obtain ⟨c, rest, hd, hc1, hc2⟩ := decimal_pos n.natAbs (by omega)
        have hall := decimal_all_numeric n.natAbs
        rw [e, hd] at hl hval
        rw [e, hd]
        rw [hd] at hall
        exact lex_integer l pre post name rest c n s0 L hl (Or.inr ⟨hc1, hc2⟩)
          (fun d hd => hall d (by simp [hd])) hval
  · refine ⟨48 :: 120 :: hexEncodeUpper bs, by simp [Value.Format, V.Bytes, ascii_0x], ?_⟩
    intro l pre post name s0 L hl
    exact lex_bytes l pre post name _ 120 bs s0 L hl (Or.inl rfl) (hexEncodeUpper_bytes bs hbs)
      (by rw [hexEncodeUpper_length]; omega) (hexDecode_encode bs hbs)
  · have ew : formatInt w = decimal w.natAbs := by
      have : ¬ w < 0 := by omega
      simp [formatInt, this]
    have eh : formatInt h = decimal h.natAbs := by
      have : ¬ h < 0 := by omega
      simp [formatInt, this]
    obtain ⟨c, rest, hd, hc1, hc2⟩ := decimal_pos w.natAbs (by omega)
    have hall := decimal_all_numeric w.natAbs
    have hpw := ParseUint_decimal w.natAbs (by omega)
    have hph := ParseUint_decimal h.natAbs (by omega)
    rw [hd] at hall hpw
    refine ⟨(c :: rest) ++ [120] ++ decimal h.natAbs,
      by simp [Value.Format, V.ResolutionValue, Resolution.Format, ew, eh, hd], ?_⟩
    intro l pre post name s0 L hl
    have := lex_resolution l pre post name rest (decimal h.natAbs) c 120 w.natAbs h.natAbs s0 L hl
      ⟨hc1, hc2⟩ (fun d hd => hall d (by simp [hd])) hpw (Or.inl rfl)
      (decimal_all_numeric _) hph
    rw [uint64ToInt_small w (by omega) hw2, uint64ToInt_small h hh1 hh2] at this
    exact this

/-- An attribute in canonical form is read back from its rendering. -/
theorem lex_attr (a : Attribute S) (ha : CanonAttr a) :
    a.Format = some a.text ∧
      ∀ (l pre post : GoString) (s0 : Nat) (L : AttributeList S), l = pre ++ a.text ++ post →
        ∃ σ, attrRun l (stStart pre.length s0 L) = attrRun l σ ∧
          σ.pos = pre.length + a.text.length ∧ Finishing l σ (L.Append a) := by
  obtain ⟨hne, hname, hv⟩ := ha
  obtain ⟨t, ht, hlex⟩ := lex_value a.toValue hv
  have htext : a.text = a.Name ++ 61 :: t := by
    simp [Attribute.text, Attribute.Format, ht]
  refine ⟨by simp [Attribute.Format, ht, htext], ?_⟩
  intro l pre post s0 L hl
  rw [htext] at hl ⊢
  rw [lex_name l pre a.Name (t ++ post) s0 L (by simpa using hl) hne hname]
  obtain ⟨σ, h1, h2, h3⟩ := hlex l (pre ++ a.Name ++ [61]) post a.Name pre.length L
    (by simpa using hl)
  refine ⟨σ, ?_, ?_, ?_⟩
  · rw [← h1]; congr 2; simp; omega
  · rw [h2]; simp; omega
  · exact h3

end Hls

namespace Hls
open AttrState
variable {S : Std}

/-! ## Attribute lists built by `Append` -/

theorem Allocated_empty : AttributeList.Allocated ({} : AttributeList S) := by
  intro p hp; simp at hp

theorem Allocated_Append (L : AttributeList S) (a : Attribute S) (h : L.Allocated) :
    (L.Append a).Allocated := by
  intro p hp
  simp only [AttributeList.Append, List.mem_append, List.mem_singleton] at hp
  simp only [AttributeList.Append, List.length_append, List.length_singleton]
  rcases hp with hp | hp
  · have := h p hp; omega
  · omega

theorem ListAttrs_Append (L : AttributeList S) (a : Attribute S) (h : L.Allocated) :
    (L.Append a).ListAttrs = L.ListAttrs ++ [a] := by
  simp only [AttributeList.ListAttrs, AttributeList.Append, List.map_append, List.map_cons,
    List.map_nil, AttributeList.deref]
  congr 1
  · apply List.map_congr_left
    intro p hp
    exact List.getD_append _ _ _ _ (h p hp)
  · simp

theorem ListAttrs_foldl (attrs : List (Attribute S)) :
    ∀ L : AttributeList S, L.Allocated →
      (attrs.foldl AttributeList.Append L).Allocated ∧
      (attrs.foldl AttributeList.Append L).ListAttrs = L.ListAttrs ++ attrs := by
  induction attrs with
  | nil => intro L h; simp [h]
  | cons a attrs ih =>
    intro L h
    obtain ⟨h1, h2⟩ := ih (L.Append a) (Allocated_Append L a h)
    refine ⟨h1, ?_⟩
    rw [List.foldl_cons, h2, ListAttrs_Append L a h]
    simp

theorem joinWith_commas (seps parts : List GoString) (h : ∀ s ∈ seps, s = [44]) :
    joinWith seps parts = stringsJoin [44] parts := by
  induction parts generalizing seps with
  | nil => cases seps <;> rfl
  | cons p ps ih =>
    cases ps with
    | nil => cases seps <;> rfl
    | cons q ps =>
      cases seps with
      | nil => simp only [joinWith, stringsJoin]; rw [ih [] (by simp)]
      | cons s ss =>
        have hs : s = [44] := h s (by simp)
        simp only [joinWith, stringsJoin, hs]
        rw [ih ss (fun s hs => h s (by simp [hs]))]

theorem mapM_Format (attrs : List (Attribute S)) (h : ∀ a ∈ attrs, a.Format = some a.text) :
    attrs.mapM Attribute.Format = some (attrs.map Attribute.text) := by
  induction attrs with
  | nil => rfl
  | cons a attrs ih =>
    rw [List.mapM_cons, h a (by simp), ih (fun b hb => h b (by simp [hb]))]
    rfl

/-! ## Parsing the rendering of a list of attributes -/

theorem parse_join (attrs : List (Attribute S)) :
    ∀ (seps : List GoString) (pre : GoString) (s0 : Nat) (L : AttributeList S) (l : GoString),
      attrs ≠ [] → (∀ a ∈ attrs, CanonAttr a) → (∀ s ∈ seps, IsSep s) →
      l = pre ++ joinWith seps (attrs.map Attribute.text) →
      attrResult l (attrRun l (stStart pre.length s0 L)) =
        some (attrs.foldl AttributeList.Append L, none) := by
  induction attrs with
  | nil => intro _ _ _ _ _ h; exact absurd rfl h
  | cons a attrs ih =>
    intro seps pre s0 L l _ hattrs hseps hl
    obtain ⟨_, hlex⟩ := lex_attr a (hattrs a (by simp))
    cases attrs with
    | nil =>
      have hl' : l = pre ++ a.text ++ [] := by
        cases seps <;> simpa [joinWith] using hl
      obtain ⟨σ, h1, h2, h3⟩ := hlex l pre [] s0 L hl'
      rw [h1]
      exact lex_end l σ _ (by rw [h2, hl']; simp) h3
    | cons b attrs =>
      obtain ⟨sep, ss, hsep, hss, hl'⟩ : ∃ sep ss, IsSep sep ∧ (∀ s ∈ ss, IsSep s) ∧
          l = pre ++ a.text ++ sep ++ joinWith ss ((b :: attrs).map Attribute.text) := by
        cases seps with
        | nil =>
          exact ⟨[44], [], ⟨[], [], rfl, by simp, by simp⟩, by simp,
            by simpa [joinWith] using hl⟩
        | cons s ss =>
          exact ⟨s, ss, hseps s (by simp), fun t ht => hseps t (by simp [ht]),
            by simpa [joinWith] using hl⟩
      obtain ⟨ws1, ws2, rfl, hw1, hw2⟩ := hsep
      obtain ⟨σ, h1, h2, h3⟩ := hlex l pre
        ((ws1 ++ [44] ++ ws2) ++ joinWith ss ((b :: attrs).map Attribute.text)) s0 L
        (by simpa using hl')
      obtain ⟨s1, h4⟩ := lex_sep l (pre ++ a.text) ws1 ws2
        (joinWith ss ((b :: attrs).map Attribute.text)) σ (L.Append a)
        (by simpa using hl') (by rw [h2]; simp) h3 hw1 hw2
      rw [h1, h4]
      have := ih ss (pre ++ a.text ++ (ws1 ++ [44] ++ ws2)) s1 (L.Append a) l (by simp)
        (fun c hc => hattrs c (by simp [hc])) hss (by simpa using hl')
      rw [List.foldl_cons, ← this]
      congr 3
      simp
      omega

end Hls

namespace Hls
open AttrState
variable {S : Std}

/-- C1: for every list of attributes in canonical form (names over `A`-`Z`,
`0`-`9`, `-`, `_`; values a String without `"`, an Enum token starting with a
letter, a signed 64-bit Integer, Bytes, or a Resolution with width at least 1),
`ParseAttributeList` applied to their renderings joined by separators (one comma
with any spaces and tabs around it) succeeds and returns exactly these
attributes in order; `Format` of the result is the comma-joined rendering, and
it is the input itself when the input used single commas. -/
theorem parse_render_roundtrip (attrs : List (Attribute S)) (seps : List GoString)
    (hattrs : ∀ a ∈ attrs, CanonAttr a) (hseps : ∀ s ∈ seps, IsSep s) :
    ∃ L : AttributeList S,
      ParseAttributeList S (joinWith seps (attrs.map Attribute.text)) = some (L, none) ∧
      L.ListAttrs = attrs ∧
      (∀ a ∈ attrs, a.Format = some a.text) ∧
      L.Format = some (stringsJoin [44] (attrs.map Attribute.text)) ∧
      ((∀ s ∈ seps, s = [44]) →
        L.Format = some (joinWith seps (attrs.map Attribute.text))) := by
  have hfmt : ∀ a ∈ attrs, a.Format = some a.text := fun a ha => (lex_attr a (hattrs a ha)).1
  obtain ⟨hall, hlist⟩ := ListAttrs_foldl attrs ({} : AttributeList S) Allocated_empty
  have hlist' : (attrs.foldl AttributeList.Append ({} : AttributeList S)).ListAttrs = attrs := by
    rw [hlist]; rfl
  have hF : (attrs.foldl AttributeList.Append ({} : AttributeList S)).Format =
      some (stringsJoin [44] (attrs.map Attribute.text)) := by
    unfold AttributeList.Format
    rw [hlist', mapM_Format attrs hfmt]
    rfl
  refine ⟨attrs.foldl AttributeList.Append {}, ?_, hlist', hfmt, hF, ?_⟩
  · by_cases hnil : attrs = []
    · subst hnil
      have e : joinWith seps (List.map Attribute.text ([] : List (Attribute S))) = [] := by
        cases seps <;> rfl
      rw [e]
      rfl
    · rw [ParseAttributeList_eq]
      exact parse_join attrs seps [] 0 {} _ hnil hattrs hseps rfl
  · intro hs
    rw [joinWith_commas seps _ hs]
    exact hF

/-- C1 at `TYPE=AUDIO` ` ,\t` `GROUP-ID="aac"` `,` `BANDWIDTH=600000`. -/
theorem parse_render_roundtrip_witness :
    (∀ a ∈ ([{ toValue := V.Enum (ascii "AUDIO"), Name := ascii "TYPE" },
             { toValue := V.String (ascii "aac"), Name := ascii "GROUP-ID" },
             { toValue := V.Int 600000, Name := ascii "BANDWIDTH" }] :
            List (Attribute Std.bare)), CanonAttr a) ∧
    (∀ s ∈ [[32, 44, 9]], IsSep s) ∧
    ∃ L : AttributeList Std.bare,
      ParseAttributeList Std.bare (joinWith [[32, 44, 9]]
        (([{ toValue := V.Enum (ascii "AUDIO"), Name := ascii "TYPE" },
           { toValue := V.String (ascii "aac"), Name := ascii "GROUP-ID" },
           { toValue := V.Int 600000, Name := ascii "BANDWIDTH" }] :
          List (Attribute Std.bare)).map Attribute.text)) = some (L, none) ∧
      L.ListAttrs = [{ toValue := V.Enum (ascii "AUDIO"), Name := ascii "TYPE" },
           { toValue := V.String (ascii "aac"), Name := ascii "GROUP-ID" },
           { toValue := V.Int 600000, Name := ascii "BANDWIDTH" }] := by
  have h1 : ∀ a ∈ ([{ toValue := V.Enum (ascii "AUDIO"), Name := ascii "TYPE" },
             { toValue := V.String (ascii "aac"), Name := ascii "GROUP-ID" },
             { toValue := V.Int 600000, Name := ascii "BANDWIDTH" }] :
            List (Attribute Std.bare)), CanonAttr a := by
    intro a ha
    simp only [List.mem_cons, List.mem_singleton, List.not_mem_nil, or_false] at ha
    rcases ha with rfl | rfl | rfl
    · exact ⟨by decide, by decide,
        Or.inr (Or.inl ⟨65, ascii "UDIO", rfl, Or.inl (by decide), by decide⟩)⟩
    · exact ⟨by decide, by decide, Or.inl ⟨ascii "aac", rfl, by decide⟩⟩
    · exact ⟨by decide, by decide,
        Or.inr (Or.inr (Or.inl ⟨600000, rfl, by decide, by decide⟩))⟩
  have h2 : ∀ s ∈ [[32, 44, 9]], IsSep s := by
    intro s hs
    simp only [List.mem_singleton] at hs
    subst hs
    exact ⟨[32], [9], rfl, by decide, by decide⟩
  obtain ⟨L, hp, hl, _⟩ := parse_render_roundtrip _ _ h1 h2
  exact ⟨h1, h2, L, hp, hl⟩

end Hls

namespace Hls
open AttrState
variable {S : Std}

/-- `0x` or `0X` and an odd number of hex digits is read as an Enum token. -/
theorem lex_bytes_odd (l pre post name hex : GoString) (x : Nat) (s0 : Nat)
    (L : AttributeList S)
    (hl : l = pre ++ (48 :: x :: hex) ++ post)
    (hx : x = 120 ∨ x = 88)
    (hhex : ∀ d ∈ hex, isBytesChar d = true)
    (hodd : hex.length % 2 = 1) :
    ∃ σ, attrRun l (stNameEnd pre.length s0 L name) = attrRun l σ ∧
      σ.pos = pre.length + (48 :: x :: hex).length ∧
      Finishing l σ (L.Append { toValue := V.Enum (48 :: x :: hex), Name := name }) := by
  obtain ⟨q, hq⟩ : ∃ q, q = pre.length + (48 :: x :: hex).length := ⟨_, rfl⟩
  have hsl : slice l pre.length q = 48 :: x :: hex := by
    have := slice_mid pre (48 :: x :: hex) post
    rw [hl, hq]; exact this
  have hq1 : ¬ q = pre.length + 1 := by rw [hq]; simp
  have hq2 : ¬ (pre.length + 1 < q ∧ (q - pre.length) % 2 = 0) := by
    rw [hq]; simp; omega
  have hx1 : isNumericChar x = false := by
    rcases hx with rfl | rfl <;> decide
  have hx2 : isSpaceChar x = false := by
    rcases hx with rfl | rfl <;> decide
  have hx3 : (x != 120 && x != 88) = false := by
    rcases hx with rfl | rfl <;> decide
  have hx4 : (x == 46) = false := by
    rcases hx with rfl | rfl <;> decide
  have hx5 : (x == 44) = false := by
    rcases hx with rfl | rfl <;> decide
  refine ⟨PState.mk q pre.length false { Name := name } attrStateBytes L none, ?_, hq, rfl, ?_, ?_⟩
  · rw [attrRun_step l pre (x :: hex ++ post) 48 _ (by simpa using hl) rfl
      (by simp [attrStep, stNameEnd, isSpaceChar])]
    have e1 : advance (attrStep l (stNameEnd pre.length s0 L name) 48) =
        PState.mk (pre ++ [48]).length pre.length false { Name := name } attrStateBytes L none := by
      simp [attrStep, stNameEnd, isSpaceChar, advance]
    rw [e1, attrRun_step l (pre ++ [48]) (hex ++ post) x _ (by simpa using hl) rfl
      (by simp [attrStep, hx1, hx2, hx3, hx4, hx5])]
    have e2 : advance (attrStep l (PState.mk (pre ++ [48]).length pre.length false
        { Name := name } attrStateBytes L none) x) =
        PState.mk (pre ++ [48, x]).length pre.length false { Name := name }
          attrStateBytes L none := by
      simp [attrStep, hx1, hx2, hx3, hx4, hx5, advance]
    rw [e2, attrRun_skip l hex (pre ++ [48, x]) post _ (by simpa using hl) rfl rfl (by
      intro d hd p hp
      have hp' : ¬ p = pre.length + 1 := by simp at hp; omega
      simp [attrStep, hhex d hd, hp'])]
    rw [hq]
    congr 1
    simp
    omega
  · intro d hd
    refine ⟨pre.length, ?_⟩
    rcases hd with rfl | rfl | rfl <;>
      simp [attrStep, isSpaceChar, isBytesChar, isNumericChar, finishEnum, afterValue,
        appendAttr, V.Enum, hq1, hq2, hsl]
  · intro _
    refine ⟨pre.length, ?_⟩
    simp [attrEnd, finishEnum, afterValue, appendAttr, V.Enum, stValueEnd, hq1, hq2, hsl]

theorem ListAttrs_single (a : Attribute S) :
    (({} : AttributeList S).Append a).ListAttrs = [a] := rfl

/-- A single attribute, at the end of the input or before one separator byte. -/
theorem parse_single (name t : GoString) (v : Value S) (hne : name ≠ [])
    (hname : ∀ c ∈ name, isAttributeNameChar c = true) (hlex : LexesAs S t v) :
    ParseAttributeList S (name ++ 61 :: t) =
      some (({} : AttributeList S).Append { toValue := v, Name := name }, none) ∧
    ∀ c, c = 44 ∨ c = 32 ∨ c = 9 →
      ParseAttributeList S (name ++ 61 :: t ++ [c]) =
        some (({} : AttributeList S).Append { toValue := v, Name := name }, none) := by
  constructor
  · rw [ParseAttributeList_eq]
    show attrResult _ (attrRun _ (stStart ([] : GoString).length 0 {})) = _
    rw [lex_name (name ++ 61 :: t) [] name t 0 {} (by simp) hne hname]
    obtain ⟨σ, h1, h2, h3⟩ := hlex (name ++ 61 :: t) (name ++ [61]) [] name ([] : GoString).length {} (by simp)
    have e : ([] : GoString).length + name.length + 1 = (name ++ [61]).length := by simp
    rw [e, h1]
    exact lex_end _ σ _ (by rw [h2]; simp; omega) h3
  · intro c hc
    rw [ParseAttributeList_eq]
    show attrResult _ (attrRun _ (stStart ([] : GoString).length 0 {})) = _
    rw [lex_name (name ++ 61 :: t ++ [c]) [] name (t ++ [c]) 0 {} (by simp) hne hname]
    obtain ⟨σ, h1, h2, ⟨h3, h4, _⟩⟩ := hlex (name ++ 61 :: t ++ [c]) (name ++ [61]) [c] name ([] : GoString).length {}
      (by simp)
    have e : ([] : GoString).length + name.length + 1 = (name ++ [61]).length := by simp
    obtain ⟨s1, hs⟩ := h4 c hc
    rw [e, h1, attrRun_step _ (name ++ [61] ++ t) [] c σ (by simp) (by rw [h2]; simp; omega)
      (by rw [hs])]
    rw [attrRun_end _ _ (by rw [hs, advance, h2]; simp; omega), hs]
    rcases hc with rfl | rfl | rfl <;> simp [attrResult, advance, attrEnd]

end Hls

namespace Hls
open AttrState
variable {S : Std}

/-! ## Single values: claims C2 to C6 -/

theorem ascii_N : ascii "N=" = [78, 61] := by decide

theorem lexesAs_canon (v : Value S) (t : GoString) (hv : CanonValue v) (ht : v.Format = some t) :
    LexesAs S t v := by
  obtain ⟨t', ht', h⟩ := lex_value v hv
  rw [ht] at ht'
  cases ht'
  exact h

/-- C2, counterexample: the String `"` renders as `"""`, which does not parse. -/
theorem render_parse_render_string_quote :
    (V.String [34] : Value Std.bare).Format = some [34, 34, 34] ∧
    ¬ ∃ L, ParseAttributeList Std.bare (ascii "N=" ++ [34, 34, 34]) = some (L, none) := by
  refine ⟨rfl, ?_⟩
  have h : (ParseAttributeList Std.bare (ascii "N=" ++ [34, 34, 34])).map Prod.snd =
      some (some Err.ErrFormat) := by decide
  rintro ⟨L, hL⟩
  rw [hL] at h
  simp at h

/-- C2, amended: for every value in canonical form (a String without `"`, an
Enum token that starts with a letter and has no comma, space, tab or `"`, a
signed 64-bit Integer, Bytes, a Resolution with width at least 1 and height at
least 0), with `t` its rendering, `ParseAttributeList("N=" + t)` succeeds with
exactly one attribute, whose value is the same value and so renders to `t`. -/
theorem render_parse_render_canon (v : Value S) (hv : CanonValue v) :
    ∃ (t : GoString) (L : AttributeList S) (a : Attribute S),
      v.Format = some t ∧
      ParseAttributeList S (ascii "N=" ++ t) = some (L, none) ∧
      L.ListAttrs = [a] ∧ a.toValue = v ∧ a.toValue.Format = some t := by
  obtain ⟨t, ht, hlex⟩ := lex_value v hv
  refine ⟨t, ({} : AttributeList S).Append { toValue := v, Name := [78] },
    { toValue := v, Name := [78] }, ht, ?_, rfl, rfl, ht⟩
  have := (parse_single [78] t v (by simp) (by decide) hlex).1
  rw [ascii_N]
  exact this

/-- C2, amended, at the Integer `-7`. -/
theorem render_parse_render_canon_witness :
    CanonValue (V.Int (-7) : Value Std.bare) ∧
    ∃ (t : GoString) (L : AttributeList Std.bare) (a : Attribute Std.bare),
      (V.Int (-7) : Value Std.bare).Format = some t ∧
      ParseAttributeList Std.bare (ascii "N=" ++ t) = some (L, none) ∧
      L.ListAttrs = [a] ∧ a.toValue = V.Int (-7) ∧ a.toValue.Format = some t :=
  ⟨Or.inr (Or.inr (Or.inl ⟨-7, rfl, by decide, by decide⟩)),
    render_parse_render_canon _ (Or.inr (Or.inr (Or.inl ⟨-7, rfl, by decide, by decide⟩)))⟩

theorem fromHexChar_bytes (c d : Nat) (h : fromHexChar c = some d) : isBytesChar c = true := by
  unfold fromHexChar at h
  unfold isBytesChar isNumericChar
  split_ifs at h <;> simp <;> omega

theorem fromHexChar_lt (c d : Nat) (h : fromHexChar c = some d) : d < 16 := by
  unfold fromHexChar at h
  split_ifs at h <;> simp at h <;> omega

theorem hexSpelling_facts : ∀ (hex : GoString) (bs : List Nat), HexSpelling hex bs →
    (∀ d ∈ hex, isBytesChar d = true) ∧ hex.length = 2 * bs.length ∧
      hexDecodeString hex = some bs
  | [], [], _ => by simp [hexDecodeString]
  | [], _ :: _, h => by simp [HexSpelling] at h
  | [_], [], h => by simp [HexSpelling] at h
  | [_], _ :: _, h => by simp [HexSpelling] at h
  | _ :: _ :: _, [], h => by simp [HexSpelling] at h
  | hi :: lo :: hex, b :: bs, h => by
    simp only [HexSpelling] at h
    obtain ⟨h1, h2, h3⟩ := h
    obtain ⟨i1, i2, i3⟩ := hexSpelling_facts hex bs h3
    refine ⟨?_, ?_, ?_⟩
    · intro d hd
      simp only [List.mem_cons] at hd
      rcases hd with rfl | rfl | hd
      · exact fromHexChar_bytes _ _ h1
      · exact fromHexChar_bytes _ _ h2
      · exact i1 d hd
    · simp [i2]; omega
    · simp only [hexDecodeString, h1, h2, i3]
      congr 2
      omega

theorem upperHexDigit_table (d : Nat) (h : d < 16) :
    upperHexDigit d = (ascii "0123456789ABCDEF").getD d 0 := by
  interval_cases d <;> rfl

theorem hexSpelling_bound : ∀ (hex : GoString) (bs : List Nat), HexSpelling hex bs →
    ∀ b ∈ bs, b < 256
  | [], [], _ => by simp
  | [], _ :: _, h => by simp [HexSpelling] at h
  | [_], [], _ => by simp
  | [_], _ :: _, h => by simp [HexSpelling] at h
  | _ :: _ :: _, [], _ => by simp
  | hi :: lo :: hex, b :: bs, h => by
    obtain ⟨h1, _, h3⟩ := h
    have := fromHexChar_lt hi _ h1
    intro c hc
    rcases List.mem_cons.1 hc with rfl | hc
    · omega
    · exact hexSpelling_bound hex bs h3 c hc

theorem hexEncodeUpper_table (bs : List Nat) (h : ∀ b ∈ bs, b < 256) :
    hexEncodeUpper bs =
      (bs.map (fun b => [(ascii "0123456789ABCDEF").getD (b / 16) 0,
        (ascii "0123456789ABCDEF").getD (b % 16) 0])).flatten := by
  induction bs with
  | nil => rfl
  | cons b bs ih =>
    have hb : b < 256 := h b (List.mem_cons_self _ _)
    rw [hexEncodeUpper, ih (fun c hc => h c (List.mem_cons_of_mem _ hc)),
      upperHexDigit_table (b / 16) (by omega), upperHexDigit_table (b % 16) (by omega)]
    rfl

/-- C3: for every byte sequence `bs` and every spelling of it as `0x` or `0X`
followed by two hex digits per byte in any mix of cases,
`ParseAttributeList("KEY=" + spelling)` succeeds with exactly one attribute,
named KEY, of kind Bytes, with payload `bs`; that value renders as `0x` followed,
for each byte in order, by the digit of `0123456789ABCDEF` for its high half and
the one for its low half: a text of `2 * len(bs) + 2` characters, an even
number, whose characters after `0x` are all upper-case hex digits. -/
theorem parse_bytes_spelling (bs : List Nat) (hex : GoString) (x : Nat)
    (hx : x = 120 ∨ x = 88) (hsp : HexSpelling hex bs) :
    ∃ (L : AttributeList S) (a : Attribute S),
      ParseAttributeList S (ascii "KEY=" ++ 48 :: x :: hex) = some (L, none) ∧
      L.ListAttrs = [a] ∧ a.Name = ascii "KEY" ∧ a.Typ = ValueType.BytesType ∧
      a.BytesValue = some bs ∧
      ∃ out : GoString, a.toValue.Format = some out ∧
        out = ascii "0x" ++
          (bs.map (fun b => [(ascii "0123456789ABCDEF").getD (b / 16) 0,
            (ascii "0123456789ABCDEF").getD (b % 16) 0])).flatten ∧
        out.length = 2 * bs.length + 2 ∧ out.length % 2 = 0 ∧
        ∀ c ∈ out.drop 2, c ∈ ascii "0123456789ABCDEF" := by
  obtain ⟨h1, h2, h3⟩ := hexSpelling_facts hex bs hsp
  have hb := hexSpelling_bound hex bs hsp
  have hlex : LexesAs S (48 :: x :: hex) (V.Bytes (some bs)) := by
    intro l pre post name s0 L hl
    exact lex_bytes l pre post name hex x bs s0 L hl hx h1 (by omega) h3
  have hk : ascii "KEY=" = ascii "KEY" ++ [61] := by decide
  have hlen : (ascii "0x" ++ hexEncodeUpper bs).length = 2 * bs.length + 2 := by
    rw [ascii_0x]
    simp [hexEncodeUpper_length]
  refine ⟨({} : AttributeList S).Append { toValue := V.Bytes (some bs), Name := ascii "KEY" },
    { toValue := V.Bytes (some bs), Name := ascii "KEY" }, ?_, rfl, rfl, rfl, rfl,
    ascii "0x" ++ hexEncodeUpper bs, ?_, ?_, hlen, ?_, ?_⟩
  · have := (parse_single (ascii "KEY") (48 :: x :: hex) (V.Bytes (some bs)) (by decide)
      (by decide) hlex).1
    rw [hk]
    simpa using this
  · simp [Value.Format, V.Bytes]
  · rw [hexEncodeUpper_table bs hb]
  · rw [hlen]
    omega
  · intro c hc
    rw [ascii_0x] at hc
    simp only [List.cons_append, List.nil_append, List.drop_succ_cons, List.drop_zero] at hc
    rw [hexEncodeUpper_table bs hb] at hc
    obtain ⟨l, hl, hcl⟩ := List.mem_flatten.1 hc
    obtain ⟨b, hbm, rfl⟩ := List.mem_map.1 hl
    have hb1 : b / 16 < 16 := by have := hb b hbm; omega
    have hb2 : b % 16 < 16 := Nat.mod_lt _ (by decide)
    simp only [List.mem_cons, List.mem_singleton, List.not_mem_nil, or_false] at hcl
    rcases hcl with rfl | rfl
    · rw [List.getD_eq_getElem _ _ (by simpa using hb1)]
      exact List.getElem_mem _
    · rw [List.getD_eq_getElem _ _ (by simpa using hb2)]
      exact List.getElem_mem _

/-- C3 at `KEY=0XdeAD`, which renders as `0xDEAD`. -/
theorem parse_bytes_spelling_witness :
    ((88 : Nat) = 120 ∨ (88 : Nat) = 88) ∧ HexSpelling (ascii "deAD") [222, 173] ∧
    ∃ (L : AttributeList Std.bare) (a : Attribute Std.bare),
      ParseAttributeList Std.bare (ascii "KEY=" ++ 48 :: 88 :: ascii "deAD") = some (L, none) ∧
      L.ListAttrs = [a] ∧ a.Name = ascii "KEY" ∧ a.Typ = ValueType.BytesType ∧
      a.BytesValue = some [222, 173] ∧
      ∃ out : GoString, a.toValue.Format = some out ∧ out = ascii "0xDEAD" ∧
        out.length = 2 * [222, 173].length + 2 ∧ out.length % 2 = 0 ∧
        ∀ c ∈ out.drop 2, c ∈ ascii "0123456789ABCDEF" :=
  ⟨Or.inr rfl, ⟨by decide, by decide, by decide, by decide, trivial⟩,
    parse_bytes_spelling [222, 173] (ascii "deAD") 88 (Or.inr rfl)
      ⟨by decide, by decide, by decide, by decide, trivial⟩⟩

end Hls

namespace Hls
open AttrState
variable {S : Std}

/-- C4, counterexample: `K=0xABC` is parsed without error, as an Enum. -/
theorem odd_hex_is_not_an_error :
    (ParseAttributeList Std.bare (ascii "K=0xABC")).map
        (fun r => (r.1.ListAttrs.map (fun a => (a.Name, a.Typ, a.EnumValue)), r.2)) =
      some ([(ascii "K", ValueType.EnumType, some (ascii "0xABC"))], none) := by
  decide

/-- C4, amended: for every attribute value made of `0x` or `0X` and an odd
number of hex digits, followed by a separator byte or by the end of the input,
`ParseAttributeList` reports no error and returns the value as an Enum whose
token is that text. -/
theorem odd_hex_is_enum (name hex : GoString) (x : Nat)
    (hne : name ≠ []) (hname : ∀ c ∈ name, isAttributeNameChar c = true)
    (hx : x = 120 ∨ x = 88) (hhex : ∀ d ∈ hex, isBytesChar d = true)
    (hodd : hex.length % 2 = 1) :
    ∃ L : AttributeList S,
      L.ListAttrs = [{ toValue := V.Enum (48 :: x :: hex), Name := name }] ∧
      ParseAttributeList S (name ++ 61 :: 48 :: x :: hex) = some (L, none) ∧
      ∀ c, c = 44 ∨ c = 32 ∨ c = 9 →
        ParseAttributeList S (name ++ 61 :: 48 :: x :: hex ++ [c]) = some (L, none) := by
  have hlex : LexesAs S (48 :: x :: hex) (V.Enum (48 :: x :: hex)) := by
    intro l pre post nm s0 L hl
    exact lex_bytes_odd l pre post nm hex x s0 L hl hx hhex hodd
  obtain ⟨h1, h2⟩ := parse_single name (48 :: x :: hex) (V.Enum (48 :: x :: hex)) hne hname hlex
  exact ⟨({} : AttributeList S).Append { toValue := V.Enum (48 :: x :: hex), Name := name },
    rfl, h1, h2⟩

/-- C4, amended, at `K=0xABC`. -/
theorem odd_hex_is_enum_witness :
    ascii "K" ≠ [] ∧ (∀ c ∈ ascii "K", isAttributeNameChar c = true) ∧
    ((120 : Nat) = 120 ∨ (120 : Nat) = 88) ∧ (∀ d ∈ ascii "ABC", isBytesChar d = true) ∧
    (ascii "ABC").length % 2 = 1 ∧
    ∃ L : AttributeList Std.bare,
      L.ListAttrs = [{ toValue := V.Enum (48 :: 120 :: ascii "ABC"), Name := ascii "K" }] ∧
      ParseAttributeList Std.bare (ascii "K" ++ 61 :: 48 :: 120 :: ascii "ABC") = some (L, none) ∧
      ∀ c, c = 44 ∨ c = 32 ∨ c = 9 →
        ParseAttributeList Std.bare (ascii "K" ++ 61 :: 48 :: 120 :: ascii "ABC" ++ [c]) =
          some (L, none) :=
  ⟨by decide, by decide, Or.inl rfl, by decide, by decide,
    odd_hex_is_enum (ascii "K") (ascii "ABC") 120 (by decide) (by decide) (Or.inl rfl)
      (by decide) (by decide)⟩

/-- C5, counterexample: the Resolution of width 0 and height 5 renders as `0x5`,
and `RES=0x5` is parsed as an Enum, not as a Resolution. -/
theorem resolution_width_zero :
    Resolution.Format ⟨0, 5⟩ = ascii "0x5" ∧
    (ParseAttributeList Std.bare (ascii "RES=" ++ Resolution.Format ⟨0, 5⟩)).map
        (fun r => (r.1.ListAttrs.map (fun a => (a.Typ, a.EnumValue)), r.2)) =
      some ([(ValueType.EnumType, some (ascii "0x5"))], none) := by
  constructor
  · decide
  · decide

/-- C5, amended: for every Resolution with width `w` at least 1 and height `h`
at least 0 (both below `2^63`), `ParseAttributeList("RES=" + Format())` succeeds
with exactly one attribute, of kind Resolution, with width `w` and height `h`. -/
theorem parse_resolution (w h : Int) (hw1 : 1 ≤ w) (hw2 : w < 2 ^ 63) (hh1 : 0 ≤ h)
    (hh2 : h < 2 ^ 63) :
    ∃ (L : AttributeList S) (a : Attribute S),
      ParseAttributeList S (ascii "RES=" ++ Resolution.Format ⟨w, h⟩) = some (L, none) ∧
      L.ListAttrs = [a] ∧ a.Typ = ValueType.ResolutionType ∧
      a.ResolutionValue = some ⟨w, h⟩ := by
  have hv : CanonValue (V.ResolutionValue (some ⟨w, h⟩) : Value S) :=
    Or.inr (Or.inr (Or.inr (Or.inr ⟨w, h, rfl, hw1, hw2, hh1, hh2⟩)))
  have hlex := lexesAs_canon (V.ResolutionValue (some ⟨w, h⟩) : Value S)
    (Resolution.Format ⟨w, h⟩) hv rfl
  have hk : ascii "RES=" = ascii "RES" ++ [61] := by decide
  refine ⟨_, { toValue := V.ResolutionValue (some ⟨w, h⟩), Name := ascii "RES" }, ?_,
    ListAttrs_single _, rfl, rfl⟩
  have := (parse_single (ascii "RES") _ _ (by decide) (by decide) hlex).1
  rw [hk]
  simpa using this

/-- C5, amended, at `RES=1920x1080`. -/
theorem parse_resolution_witness :
    (1 : Int) ≤ 1920 ∧ (1920 : Int) < 2 ^ 63 ∧ (0 : Int) ≤ 1080 ∧ (1080 : Int) < 2 ^ 63 ∧
    ∃ (L : AttributeList Std.bare) (a : Attribute Std.bare),
      ParseAttributeList Std.bare (ascii "RES=" ++ Resolution.Format ⟨1920, 1080⟩) =
        some (L, none) ∧
      L.ListAttrs = [a] ∧ a.Typ = ValueType.ResolutionType ∧
      a.ResolutionValue = some ⟨1920, 1080⟩ :=
  ⟨by decide, by decide, by decide, by decide,
    parse_resolution 1920 1080 (by decide) (by decide) (by decide) (by decide)⟩

/-- C6: for every signed 64-bit integer `n`, `ParseAttributeList("N=" +
decimal(n))` succeeds with exactly one attribute, of kind Integer with payload
`n`, at the end of the input and also when a separator byte follows; in
particular `N=0` is the Integer 0. -/
theorem parse_integer (n : Int) (h1 : -2 ^ 63 ≤ n) (h2 : n < 2 ^ 63) :
    ∃ L : AttributeList S,
      L.ListAttrs = [{ toValue := V.Int n, Name := ascii "N" }] ∧
      ParseAttributeList S (ascii "N=" ++ formatInt n) = some (L, none) ∧
      (∀ c, c = 44 ∨ c = 32 ∨ c = 9 →
        ParseAttributeList S (ascii "N=" ++ formatInt n ++ [c]) = some (L, none)) ∧
      (n = 0 → ParseAttributeList S (ascii "N=0") = some (L, none)) := by
  have hv : CanonValue (V.Int n : Value S) := Or.inr (Or.inr (Or.inl ⟨n, rfl, h1, h2⟩))
  have hlex := lexesAs_canon (V.Int n : Value S) (formatInt n) hv rfl
  obtain ⟨p1, p2⟩ := parse_single (ascii "N") (formatInt n) (V.Int n) (by decide) (by decide) hlex
  have hk : ascii "N=" = ascii "N" ++ [61] := by decide
  have p1' : ParseAttributeList S (ascii "N=" ++ formatInt n) =
      some (({} : AttributeList S).Append { toValue := V.Int n, Name := ascii "N" }, none) := by
    rw [hk]; simpa using p1
  refine ⟨({} : AttributeList S).Append { toValue := V.Int n, Name := ascii "N" },
    ListAttrs_single _, p1', ?_, ?_⟩
  · intro c hc
    have := p2 c hc
    rw [hk]
    simpa using this
  · intro h0
    subst h0
    exact p1'

/-- C6 at the minimum value `-9223372036854775808`. -/
theorem parse_integer_witness :
    (-2 ^ 63 : Int) ≤ -9223372036854775808 ∧ (-9223372036854775808 : Int) < 2 ^ 63 ∧
    ∃ L : AttributeList Std.bare,
      L.ListAttrs = [{ toValue := V.Int (-9223372036854775808), Name := ascii "N" }] ∧
      ParseAttributeList Std.bare (ascii "N=" ++ formatInt (-9223372036854775808)) =
        some (L, none) ∧
      (∀ c, c = 44 ∨ c = 32 ∨ c = 9 →
        ParseAttributeList Std.bare (ascii "N=" ++ formatInt (-9223372036854775808) ++ [c]) =
          some (L, none)) ∧
      ((-9223372036854775808 : Int) = 0 →
        ParseAttributeList Std.bare (ascii "N=0") = some (L, none)) :=
  ⟨by decide, by decide, parse_integer _ (by decide) (by decide)⟩

end Hls

namespace Hls
variable {S : Std}

/-! ## The scan of a media playlist follows the reference scan -/

theorem MediaSegment_ParseTag_frame (s s' : MediaSegment S) (tag : Tag S)
    (h : s.ParseTag tag = Except.ok s') :
    s'.ByteRange = s.ByteRange ∧ s'.IsDiscontinuity = s.IsDiscontinuity ∧ s'.IsGap = s.IsGap := by
  unfold MediaSegment.ParseTag at h
  split_ifs at h
  cases hpf : S.ParseFloat (splitN2 44 tag.Value).1 with
  | none => simp [hpf] at h
  | some d =>
    simp only [hpf, Except.ok.injEq] at h
    subst h
    cases (splitN2 44 tag.Value).2 <;> simp

theorem finishMediaSegment_view (handler : ParserHandler S) (st : Scan S) :
    (finishMediaSegment handler st).isMaster = st.isMaster ∧
    (finishMediaSegment handler st).view =
      { st.view with
        segs := st.view.segs ++ [st.view.stamp]
        mediaSequence := (st.mediaSequence + 1) % 2 ^ 64
        byteRange := none
        isDiscontinuity := false
        isGap := false } := by
  unfold finishMediaSegment
  cases handler.HandleMediaSegment <;> simp [Scan.view, MediaSegment.stamp, MView.stamp]

theorem parseURLLine_view (handler : ParserHandler S) (baseURL : S.URL) (st st' : Scan S)
    (t : GoString) (hp : parseURLLine handler baseURL st t = (st', none))
    (hm : st'.isMaster = false) :
    st.isMaster = false ∧
    st'.view =
      { st.view with
        segs := st.view.segs ++ [st.view.stamp]
        mediaSequence := (st.mediaSequence + 1) % 2 ^ 64
        byteRange := none
        isDiscontinuity := false
        isGap := false } := by
  unfold parseURLLine at hp
  split at hp
  · simp at hp
  · by_cases hM : st.isMaster = true
    · simp only [Scan.addLine, hM, if_true] at hp
      split at hp
      · simp at hp
      · simp only [Prod.mk.injEq, and_true] at hp
        subst hp
        revert hm
        cases handler.HandleVariantStream <;> simp [hM]
    · simp only [Scan.addLine, hM] at hp
      simp only [Bool.false_eq_true, if_false, ensurePlaylist] at hp
      have hM' : st.isMaster = false := by simpa using hM
      simp only [hM', Bool.not_false, Bool.not_true, Bool.false_eq_true, if_false,
        Prod.mk.injEq, and_true] at hp
      subst hp
      refine ⟨hM', ?_⟩
      rw [(finishMediaSegment_view handler _).2]
      simp [Scan.view, MView.stamp]

end Hls
namespace Hls
variable {S : Std}

theorem ensureMedia_ok (st st' : Scan S) (body : Scan S → Scan S × Option Err)
    (h : ensureMedia st body = (st', none)) :
    st.isMaster = false ∧ body { st with isMedia := true } = (st', none) := by
  unfold ensureMedia at h
  split at h
  · simp at h
  · rename_i heq
    refine ⟨?_, h⟩
    unfold ensurePlaylist at heq
    cases hM : st.isMaster
    · rfl
    · simp [hM] at heq

theorem ensureMaster_ok (st st' : Scan S) (body : Scan S → Option (Scan S × Option Err))
    (h : ensureMaster st body = some (st', none)) :
    body { st with isMaster := true } = some (st', none) := by
  unfold ensureMaster at h
  split at h
  · simp at h
  · exact h

theorem dispatchTag_view (handler : ParserHandler S) (st0 st' : Scan S) (tag : Tag S)
    (hp : dispatchTag handler st0 tag = some (st', none)) (hm : st'.isMaster = false) :
    st0.isMaster = false ∧ st0.view.tagStep tag = some st'.view := by
  unfold MView.tagStep
  simp only [dispatchTag] at hp
  by_cases h1 : tag.Name = ascii "EXT-X-VERSION"
  rotate_left
  rw [if_neg h1] at hp
  by_cases h2 : tag.Name = ascii "EXT-X-STREAM-INF"
  rotate_left
  rw [if_neg h2] at hp
  by_cases h3 : tag.Name = ascii "EXT-X-I-FRAME-STREAM-INF"
  rotate_left
  rw [if_neg h3] at hp
  by_cases h4 : tag.Name = ascii "EXT-X-MEDIA"
  rotate_left
  rw [if_neg h4] at hp
  by_cases h5 : tag.Name = ascii "EXT-X-MEDIA-SEQUENCE"
  rotate_left
  rw [if_neg h5] at hp
  by_cases h6 : tag.Name = ascii "EXT-X-DISCONTINUITY-SEQUENCE"
  rotate_left
  rw [if_neg h6] at hp
  by_cases h7 : tag.Name = ascii "EXTINF"
  rotate_left
  rw [if_neg h7] at hp
  by_cases h8 : tag.Name = ascii "EXT-X-BYTERANGE"
  rotate_left
  rw [if_neg h8] at hp
  by_cases h9 : tag.Name = ascii "EXT-X-DISCONTINUITY"
  rotate_left
  rw [if_neg h9] at hp
  by_cases h10 : tag.Name = ascii "EXT-X-GAP"
  rotate_left
  rw [if_neg h10] at hp
  by_cases h11 : tag.Name = ascii "EXT-X-MAP"
  rotate_left
  rw [if_neg h11] at hp
  by_cases h12 : tag.Name = ascii "EXT-X-KEY"
  rotate_left
  rw [if_neg h12] at hp
  · -- any other name
    simp only [h5, h6, h8, h9, h10, h11, h12, if_false]
    simp only [Option.some.injEq, Prod.mk.injEq, and_true] at hp
    subst hp
    exact ⟨by simpa [Scan.addLine] using hm, rfl⟩
  · -- EXT-X-VERSION
    rw [if_pos h1] at hp
    have e5 : ¬ tag.Name = ascii "EXT-X-MEDIA-SEQUENCE" := by rw [h1]; decide
    have e6 : ¬ tag.Name = ascii "EXT-X-DISCONTINUITY-SEQUENCE" := by rw [h1]; decide
    have e8 : ¬ tag.Name = ascii "EXT-X-BYTERANGE" := by rw [h1]; decide
    have e9 : ¬ tag.Name = ascii "EXT-X-DISCONTINUITY" := by rw [h1]; decide
    have e10 : ¬ tag.Name = ascii "EXT-X-GAP" := by rw [h1]; decide
    have e11 : ¬ tag.Name = ascii "EXT-X-MAP" := by rw [h1]; decide
    have e12 : ¬ tag.Name = ascii "EXT-X-KEY" := by rw [h1]; decide
    simp only [e5, e6, e8, e9, e10, e11, e12, if_false]
    split at hp
    · simp at hp
    · simp only [Option.some.injEq, Prod.mk.injEq, and_true] at hp
      subst hp
      exact ⟨by simpa [Scan.addLine] using hm, rfl⟩
  · -- EXT-X-STREAM-INF
    rw [if_pos h2] at hp
    exfalso
    have hb := ensureMaster_ok _ _ _ hp
    simp only [] at hb
    split at hb
    · simp at hb
    · simp at hb
    · simp only [Option.some.injEq, Prod.mk.injEq, and_true] at hb
      subst hb
      simp [Scan.addLine] at hm
  · -- EXT-X-I-FRAME-STREAM-INF
    rw [if_pos h3] at hp
    exfalso
    have hb := ensureMaster_ok _ _ _ hp
    simp only [] at hb
    split at hb
    · simp at hb
    · simp at hb
    · simp only [Option.some.injEq, Prod.mk.injEq, and_true] at hb
      subst hb
      revert hm
      cases handler.HandleIframeStream <;> simp [Scan.addLine]
  · -- EXT-X-MEDIA
    rw [if_pos h4] at hp
    exfalso
    have hb := ensureMaster_ok _ _ _ hp
    simp only [] at hb
    split at hb
    · simp at hb
    · simp at hb
    · simp only [Option.some.injEq, Prod.mk.injEq, and_true] at hb
      subst hb
      simp [Scan.addLine] at hm
  · -- EXT-X-MEDIA-SEQUENCE
    rw [if_pos h5] at hp
    simp only [Option.some.injEq] at hp
    obtain ⟨hM, hb⟩ := ensureMedia_ok _ _ _ hp
    rw [if_pos h5]
    split at hb
    · simp at hb
    · rename_i v hv
      simp only [Prod.mk.injEq, and_true] at hb
      subst hb
      exact ⟨by simpa [Scan.addLine] using hM, by simp [hv, Scan.view, Scan.addLine]⟩
  · -- EXT-X-DISCONTINUITY-SEQUENCE
    rw [if_pos h6] at hp
    simp only [Option.some.injEq] at hp
    obtain ⟨hM, hb⟩ := ensureMedia_ok _ _ _ hp
    rw [if_neg h5, if_pos h6]
    split at hb
    · simp at hb
    · rename_i v hv
      simp only [Prod.mk.injEq, and_true] at hb
      subst hb
      exact ⟨by simpa [Scan.addLine] using hM, by simp [hv, Scan.view, Scan.addLine]⟩
  · -- EXTINF
    rw [if_pos h7] at hp
    simp only [Option.some.injEq] at hp
    obtain ⟨hM, hb⟩ := ensureMedia_ok _ _ _ hp
    have e8 : ¬ tag.Name = ascii "EXT-X-BYTERANGE" := by rw [h7]; decide
    have e9 : ¬ tag.Name = ascii "EXT-X-DISCONTINUITY" := by rw [h7]; decide
    have e10 : ¬ tag.Name = ascii "EXT-X-GAP" := by rw [h7]; decide
    have e11 : ¬ tag.Name = ascii "EXT-X-MAP" := by rw [h7]; decide
    have e12 : ¬ tag.Name = ascii "EXT-X-KEY" := by rw [h7]; decide
    simp only [h5, h6, e8, e9, e10, e11, e12, if_false]
    split at hb
    · simp at hb
    · rename_i seg hseg
      simp only [Prod.mk.injEq, and_true] at hb
      subst hb
      obtain ⟨f1, f2, f3⟩ := MediaSegment_ParseTag_frame _ _ _ hseg
      refine ⟨by simpa [Scan.addLine] using hM, ?_⟩
      simp only [Scan.view, f1, f2, f3]
      rfl
  · -- EXT-X-BYTERANGE
    rw [if_pos h8] at hp
    simp only [Option.some.injEq] at hp
    obtain ⟨hM, hb⟩ := ensureMedia_ok _ _ _ hp
    rw [if_neg h5, if_neg h6, if_pos h8]
    simp only [MediaSegment.ParseByteRangeTag, ByteRange.ParseTag, h8, ne_eq, not_true_eq_false,
      if_false] at hb
    have hoff : (Scan.view st0).byteRangeOffset = st0.byteRangeOffset := rfl
    rw [hoff]
    cases hps : ByteRange.ParseString ({ Tag := some tag } : ByteRange S) tag.Value
        st0.byteRangeOffset with
    | error e => simp [hps, Scan.addLine] at hb
    | ok br =>
      simp only [hps, Scan.addLine, Prod.mk.injEq, and_true] at hb
      subst hb
      exact ⟨by simpa [Scan.addLine] using hM, by simp [Scan.view]⟩
  · -- EXT-X-DISCONTINUITY
    rw [if_pos h9] at hp
    simp only [Option.some.injEq] at hp
    obtain ⟨hM, hb⟩ := ensureMedia_ok _ _ _ hp
    rw [if_neg h5, if_neg h6, if_neg h8, if_pos h9]
    simp only [Prod.mk.injEq, and_true] at hb
    subst hb
    exact ⟨by simpa [Scan.addLine] using hM, by simp [Scan.view, Scan.addLine]⟩
  · -- EXT-X-GAP
    rw [if_pos h10] at hp
    simp only [Option.some.injEq] at hp
    obtain ⟨hM, hb⟩ := ensureMedia_ok _ _ _ hp
    rw [if_neg h5, if_neg h6, if_neg h8, if_neg h9, if_pos h10]
    simp only [Prod.mk.injEq, and_true] at hb
    subst hb
    exact ⟨by simpa [Scan.addLine] using hM, by simp [Scan.view, Scan.addLine]⟩
  · -- EXT-X-MAP
    rw [if_pos h11] at hp
    rw [if_neg h5, if_neg h6, if_neg h8, if_neg h9, if_neg h10, if_pos h11]
    have hk : (Scan.view st0).key = st0.key := rfl
    rw [hk]
    simp only [Scan.addLine] at hp
    split at hp
    · simp at hp
    · simp at hp
    · rename_i m hmm
      simp only [Option.some.injEq, Prod.mk.injEq, and_true] at hp
      subst hp
      exact ⟨by simpa using hm, by simp [hmm, Scan.view]⟩
  · -- EXT-X-KEY
    rw [if_pos h12] at hp
    rw [if_neg h5, if_neg h6, if_neg h8, if_neg h9, if_neg h10, if_neg h11, if_pos h12]
    split at hp
    · simp at hp
    · simp at hp
    · rename_i k hk
      simp only [Option.some.injEq, Prod.mk.injEq, and_true] at hp
      subst hp
      exact ⟨by simpa [Scan.addLine] using hm, by simp [hk, Scan.view, Scan.addLine]⟩

end Hls

namespace Hls
variable {S : Std}

theorem parseLine_view (handler : ParserHandler S) (baseURL : S.URL) (st st' : Scan S)
    (line : GoString) (hp : parseLine handler baseURL st line = some (st', none))
    (hm : st'.isMaster = false) :
    st.isMaster = false ∧ st.view.step line = some st'.view := by
  unfold parseLine at hp
  unfold MView.step isResourceLine lineTag
  by_cases h0 : (trimLeftSpaceTab line).length = 0
  · rw [if_pos h0] at hp
    simp only [Option.some.injEq, Prod.mk.injEq, and_true] at hp
    subst hp
    refine ⟨by simpa [Scan.addLine] using hm, ?_⟩
    simp [h0, Scan.view, Scan.addLine]
  · rw [if_neg h0] at hp
    by_cases h1 : (trimLeftSpaceTab line).head? ≠ some 35
    · rw [if_pos h1] at hp
      simp only [Option.some.injEq] at hp
      obtain ⟨a, b⟩ := parseURLLine_view handler baseURL st st' _ hp hm
      refine ⟨a, ?_⟩
      rw [b]
      simp [h0, h1, Scan.view]
    · rw [if_neg h1] at hp
      obtain ⟨a, b⟩ := dispatchTag_view handler st st' _ hp hm
      refine ⟨a, ?_⟩
      rw [← b]
      simp [h0, h1]

theorem scan_append (xs ys : List GoString) :
    ∀ v : MView S, v.scan (xs ++ ys) = (v.scan xs).bind (fun v1 => v1.scan ys) := by
  induction xs with
  | nil => intro v; rfl
  | cons x xs ih =>
    intro v
    simp only [List.cons_append, MView.scan]
    cases v.step x with
    | none => rfl
    | some v1 => exact ih v1

/-- The loop of `Parse` on complete lines: when it ends without error in a
state that is not a master playlist, the view of the state is the reference
scan of the lines processed, which are all the lines unless a callback
signalled stop. -/
theorem parseLoop_view (handler : ParserHandler S) (baseURL : S.URL) :
    ∀ (lines : List GoString) (st st' : Scan S),
      parseLoop handler baseURL (lines.map ReadLine.line) st = some (st', none) →
      st'.isMaster = false →
      st.isMaster = false ∧
        ∃ n, n ≤ lines.length ∧ st.view.scan (lines.take n) = some st'.view ∧
          (st'.stop = false → n = lines.length) := by
  intro lines
  induction lines with
  | nil =>
    intro st st' hp hm
    simp only [List.map_nil, parseLoop] at hp
    split_ifs at hp <;>
    · simp only [Option.some.injEq, Prod.mk.injEq, and_true] at hp
      subst hp
      exact ⟨hm, 0, Nat.le_refl _, rfl, fun _ => rfl⟩
  | cons l ls ih =>
    intro st st' hp hm
    simp only [List.map_cons, parseLoop] at hp
    by_cases hs : st.stop = true
    · rw [if_pos hs] at hp
      simp only [Option.some.injEq, Prod.mk.injEq, and_true] at hp
      subst hp
      exact ⟨hm, 0, Nat.zero_le _, rfl, fun h => by rw [h] at hs; exact absurd hs (by simp)⟩
    · rw [if_neg hs] at hp
      split at hp
      · simp at hp
      · simp at hp
      · rename_i st2 hl
        obtain ⟨a, n, hn, hv, hstop⟩ := ih st2 st' hp hm
        obtain ⟨b, c⟩ := parseLine_view handler baseURL _ st2 l hl a
        refine ⟨b, n + 1, by simp; omega, ?_, fun h => by simp [hstop h]⟩
        have c' : st.view.step l = some st2.view := c
        rw [List.take_succ_cons, MView.scan, c']
        exact hv

/-- `Parse` on complete lines, ending without error on a media playlist. -/
theorem Parse_view (handler : ParserHandler S) (baseURL : S.URL) (lines : List GoString)
    (st : Scan S) (hp : Parse (lines.map ReadLine.line) baseURL handler = some (st, none))
    (hm : st.isMaster = false) :
    ∃ n, n ≤ lines.length ∧ ({} : MView S).scan (lines.take n) = some st.view ∧
      (st.stop = false → n = lines.length) := by
  unfold Parse at hp
  split at hp
  · simp at hp
  · simp at hp
  · rename_i st0 hl
    by_cases hM : st0.isMaster = true
    · rw [if_pos hM] at hp
      split_ifs at hp <;>
      · simp only [Option.some.injEq, Prod.mk.injEq, and_true] at hp
        subst hp
        simp [hM] at hm
    · rw [if_neg hM] at hp
      have hM' : st0.isMaster = false := by simpa using hM
      obtain ⟨_, n, hn, hv, hstop⟩ := parseLoop_view handler baseURL lines {} st0 hl hM'
      have hv0 : (({} : Scan S).view) = ({} : MView S) := rfl
      rw [hv0] at hv
      split_ifs at hp
      all_goals first
        | (simp at hp; done)
        | (simp only [Option.some.injEq, Prod.mk.injEq, and_true] at hp
           subst hp
           exact ⟨n, hn, hv, hstop⟩)

end Hls

namespace Hls
variable {S : Std}

/-! ## The reference scan, field by field -/

theorem isDirective_iff (name l : GoString) :
    isDirective S name l = true ↔ ∃ tag, lineTag S l = some tag ∧ tag.Name = name := by
  unfold isDirective
  cases lineTag S l with
  | none => simp
  | some tag => simp

theorem lineTag_of_resource (l : GoString) (h : isResourceLine l = true) : lineTag S l = none := by
  unfold isResourceLine at h
  unfold lineTag
  simp only [Bool.and_eq_true, decide_eq_true_eq] at h
  simp [h.1, h.2]

theorem isDirective_of_resource (name l : GoString) (h : isResourceLine l = true) :
    isDirective S name l = false := by
  unfold isDirective
  rw [lineTag_of_resource l h]

theorem step_resource (v : MView S) (l : GoString) (h : isResourceLine l = true) :
    v.step l = some { v with
      segs := v.segs ++ [v.stamp]
      mediaSequence := (v.mediaSequence + 1) % 2 ^ 64
      byteRange := none
      isDiscontinuity := false
      isGap := false } := by
  unfold MView.step
  rw [if_pos h]

/-- A line that is not a resource line is blank or a comment-free directive:
it leaves the view alone or acts as its tag. -/
theorem step_other (v v' : MView S) (l : GoString) (h : isResourceLine l = false)
    (hs : v.step l = some v') :
    (lineTag S l = none ∧ v' = v) ∨ ∃ tag, lineTag S l = some tag ∧ v.tagStep tag = some v' := by
  unfold MView.step at hs
  rw [if_neg (by simp [h])] at hs
  cases ht : lineTag S l with
  | none =>
    rw [ht] at hs
    simp only [Option.some.injEq] at hs
    exact Or.inl ⟨rfl, hs.symm⟩
  | some tag =>
    rw [ht] at hs
    exact Or.inr ⟨tag, rfl, hs⟩

/-- What a directive does to each field of the view. -/
theorem tagStep_fields (v v' : MView S) (tag : Tag S) (h : v.tagStep tag = some v') :
    v'.segs = v.segs ∧
    (tag.Name ≠ ascii "EXT-X-MEDIA-SEQUENCE" → v'.mediaSequence = v.mediaSequence) ∧
    (tag.Name = ascii "EXT-X-MEDIA-SEQUENCE" → ParseUint tag.Value = some v'.mediaSequence) ∧
    (tag.Name ≠ ascii "EXT-X-DISCONTINUITY-SEQUENCE" → tag.Name ≠ ascii "EXT-X-DISCONTINUITY" →
      v'.discontinuitySequence = v.discontinuitySequence) ∧
    (tag.Name = ascii "EXT-X-DISCONTINUITY-SEQUENCE" →
      ParseUint tag.Value = some v'.discontinuitySequence) ∧
    (tag.Name = ascii "EXT-X-DISCONTINUITY" →
      v'.discontinuitySequence = (v.discontinuitySequence + 1) % 2 ^ 64) ∧
    (tag.Name ≠ ascii "EXT-X-KEY" → v'.key = v.key) ∧
    (tag.Name = ascii "EXT-X-KEY" → okOf (Key.ParseTag {} tag) = v'.key ∧ v'.key ≠ none) ∧
    (tag.Name ≠ ascii "EXT-X-MAP" → v'.mediaInitMap = v.mediaInitMap) ∧
    (tag.Name = ascii "EXT-X-MAP" →
      okOf (MediaInitMap.ParseTag { Key := v.key } tag) = v'.mediaInitMap ∧
        v'.mediaInitMap ≠ none) ∧
    (tag.Name ≠ ascii "EXT-X-BYTERANGE" →
      v'.byteRange = v.byteRange ∧ v'.byteRangeOffset = v.byteRangeOffset) ∧
    (tag.Name = ascii "EXT-X-BYTERANGE" →
      ∃ br, ByteRange.ParseString { Tag := some tag } tag.Value v.byteRangeOffset = Except.ok br ∧
        v'.byteRange = some br ∧ v'.byteRangeOffset = br.End) := by
  unfold MView.tagStep at h
  by_cases h5 : tag.Name = ascii "EXT-X-MEDIA-SEQUENCE"
  · rw [if_pos h5] at h
    cases hp : ParseUint tag.Value with
    | none => simp [hp] at h
    | some n =>
      simp only [hp, Option.some.injEq] at h
      subst h
      simp +decide [h5]
  rw [if_neg h5] at h
  by_cases h6 : tag.Name = ascii "EXT-X-DISCONTINUITY-SEQUENCE"
  · rw [if_pos h6] at h
    cases hp : ParseUint tag.Value with
    | none => simp [hp] at h
    | some n =>
      simp only [hp, Option.some.injEq] at h
      subst h
      simp +decide [h6]
  rw [if_neg h6] at h
  by_cases h8 : tag.Name = ascii "EXT-X-BYTERANGE"
  · rw [if_pos h8] at h
    cases hp : ByteRange.ParseString ({ Tag := some tag } : ByteRange S) tag.Value
        v.byteRangeOffset with
    | error e => simp [hp] at h
    | ok br =>
      simp only [hp, Option.some.injEq] at h
      subst h
      simp +decide [h8]
  rw [if_neg h8] at h
  by_cases h9 : tag.Name = ascii "EXT-X-DISCONTINUITY"
  · rw [if_pos h9] at h
    simp only [Option.some.injEq] at h
    subst h
    simp +decide [h9]
  rw [if_neg h9] at h
  by_cases h10 : tag.Name = ascii "EXT-X-GAP"
  · rw [if_pos h10] at h
    simp only [Option.some.injEq] at h
    subst h
    simp +decide [h10]
  rw [if_neg h10] at h
  by_cases h11 : tag.Name = ascii "EXT-X-MAP"
  · rw [if_pos h11] at h
    split at h
    · rename_i m hm
      simp only [Option.some.injEq] at h
      subst h
      simp +decide [h11, hm, okOf]
    · simp at h
  rw [if_neg h11] at h
  by_cases h12 : tag.Name = ascii "EXT-X-KEY"
  · rw [if_pos h12] at h
    split at h
    · rename_i k hk
      simp only [Option.some.injEq] at h
      subst h
      simp +decide [h12, hk, okOf]
    · simp at h
  rw [if_neg h12] at h
  simp only [Option.some.injEq] at h
  subst h
  simp [h5, h6, h8, h9, h10, h11, h12]

end Hls

namespace Hls
variable {S : Std}

/-! ## Segments and counters in the reference scan -/

theorem getElem?_mid {α : Type} (xs ys : List α) (a : α) :
    (xs ++ a :: ys)[xs.length]? = some a := by
  rw [List.getElem?_append_right (Nat.le_refl _)]
  simp

theorem step_segs (v v' : MView S) (l : GoString) (h : v.step l = some v') :
    v'.segs = v.segs ++ (if isResourceLine l = true then [v.stamp] else []) := by
  by_cases hr : isResourceLine l = true
  · rw [step_resource v l hr] at h
    simp only [Option.some.injEq] at h
    subst h
    simp [hr]
  · have hr' : isResourceLine l = false := by simpa using hr
    rcases step_other v v' l hr' h with ⟨_, rfl⟩ | ⟨tag, _, ht⟩
    · simp [hr]
    · simp [hr, (tagStep_fields v v' tag ht).1]

theorem scan_segs : ∀ (ls : List GoString) (v v' : MView S), v.scan ls = some v' →
    ∃ extra, v'.segs = v.segs ++ extra ∧ extra.length = countRes ls := by
  intro ls
  induction ls with
  | nil =>
    intro v v' h
    simp only [MView.scan, Option.some.injEq] at h
    subst h
    exact ⟨[], by simp, rfl⟩
  | cons l ls ih =>
    intro v v' h
    simp only [MView.scan] at h
    cases hs : v.step l with
    | none => simp [hs] at h
    | some v1 =>
      rw [hs] at h
      obtain ⟨extra, h1, h2⟩ := ih v1 v' h
      have h3 := step_segs v v1 l hs
      refine ⟨(if isResourceLine l = true then [v.stamp] else []) ++ extra, ?_, ?_⟩
      · rw [h1, h3]; simp
      · simp only [countRes, List.countP_cons, List.length_append, h2]
        split_ifs <;> simp; omega

/-- The segment finalized at a resource line carries the stamp of the view
reached by the lines before it. -/
theorem scan_seg_at (pre post : List GoString) (line : GoString) (v v' : MView S)
    (hres : isResourceLine line = true) (h : v.scan (pre ++ line :: post) = some v') :
    ∃ vp, v.scan pre = some vp ∧ v'.segs[v.segs.length + countRes pre]? = some vp.stamp := by
  rw [scan_append] at h
  cases hp : v.scan pre with
  | none => simp [hp] at h
  | some vp =>
    rw [hp] at h
    simp only [Option.some_bind] at h
    rw [MView.scan, step_resource vp line hres] at h
    simp only [] at h
    obtain ⟨e1, h1, h2⟩ := scan_segs pre v vp hp
    obtain ⟨e2, h3, _⟩ := scan_segs post _ v' h
    refine ⟨vp, rfl, ?_⟩
    have hs : v'.segs = (v.segs ++ e1) ++ vp.stamp :: e2 := by rw [h3]; simp [h1]
    have hi : v.segs.length + countRes pre = (v.segs ++ e1).length := by simp [h2]
    rw [hs, hi]
    exact getElem?_mid _ _ _

theorem countRes_take_le (n : Nat) (ls : List GoString) : countRes (ls.take n) ≤ countRes ls := by
  have h : ls = ls.take n ++ ls.drop n := (List.take_append_drop n ls).symm
  have : countRes ls = countRes (ls.take n) + countRes (ls.drop n) := by
    unfold countRes
    rw [← List.countP_append, List.take_append_drop]
  omega

/-- The segment of a resource line, in the result of `Parse` on a media
playlist: its stamp is the one of the reference scan of the lines before the
resource line. -/
theorem segment_stamp (handler : ParserHandler S) (baseURL : S.URL) (lines : List GoString)
    (st : Scan S) (hp : Parse (lines.map ReadLine.line) baseURL handler = some (st, none))
    (hm : st.isMaster = false) (pre post : List GoString) (line : GoString)
    (hl : lines = pre ++ line :: post) (hres : isResourceLine line = true)
    (seg : MediaSegment S) (hseg : st.mediaPlaylist.MediaSegments[countRes pre]? = some seg) :
    ∃ vp, ({} : MView S).scan pre = some vp ∧ seg.stamp = vp.stamp := by
  obtain ⟨n, hn, hv, _⟩ := Parse_view handler baseURL lines st hp hm
  obtain ⟨extra, h1, h2⟩ := scan_segs _ _ _ hv
  have hsegs : st.view.segs = st.mediaPlaylist.MediaSegments.map MediaSegment.stamp := rfl
  have hlen : st.mediaPlaylist.MediaSegments.length = countRes (lines.take n) := by
    have := congrArg List.length h1
    rw [hsegs] at this
    simpa [h2] using this
  have hi : countRes pre < countRes (lines.take n) := by
    rw [← hlen]
    exact (List.getElem?_eq_some.1 hseg).1
  have hnp : pre.length < n := by
    by_contra hc
    have hle : n ≤ pre.length := by omega
    have : lines.take n = pre.take n := by
      rw [hl, List.take_append_of_le_length hle]
    rw [this] at hi
    have := countRes_take_le n pre
    omega
  have htake : lines.take n = pre ++ line :: post.take (n - pre.length - 1) := by
    rw [hl, List.take_append_eq_append_take]
    have e1 : pre.take n = pre := List.take_of_length_le (by omega)
    obtain ⟨k, hk⟩ : ∃ k, n - pre.length = k + 1 := ⟨n - pre.length - 1, by omega⟩
    rw [e1, hk, List.take_succ_cons]
    simp
  rw [htake] at hv
  obtain ⟨vp, hvp, hat⟩ := scan_seg_at pre _ line _ _ hres hv
  refine ⟨vp, hvp, ?_⟩
  have hat2 : (st.mediaPlaylist.MediaSegments.map MediaSegment.stamp)[0 + countRes pre]? =
      some vp.stamp := hat
  rw [Nat.zero_add, List.getElem?_map, hseg] at hat2
  simpa using hat2

/-- Without a stop signal every resource line has its segment. -/
theorem segments_length (handler : ParserHandler S) (baseURL : S.URL) (lines : List GoString)
    (st : Scan S) (hp : Parse (lines.map ReadLine.line) baseURL handler = some (st, none))
    (hm : st.isMaster = false) (hstop : st.stop = false) :
    st.mediaPlaylist.MediaSegments.length = countRes lines := by
  obtain ⟨n, hn, hv, hall⟩ := Parse_view handler baseURL lines st hp hm
  have hn' := hall hstop
  subst hn'
  rw [List.take_length] at hv
  obtain ⟨extra, h1, h2⟩ := scan_segs _ _ _ hv
  have hsegs : st.view.segs = st.mediaPlaylist.MediaSegments.map MediaSegment.stamp := rfl
  have := congrArg List.length h1
  rw [hsegs] at this
  simpa [h2] using this

theorem exists_resource_split : ∀ (ls : List GoString) (i : Nat), i < countRes ls →
    ∃ pre line post, ls = pre ++ line :: post ∧ isResourceLine line = true ∧ countRes pre = i := by
  intro ls
  induction ls with
  | nil => intro i h; simp [countRes] at h
  | cons l ls ih =>
    intro i h
    by_cases hr : isResourceLine l = true
    · cases i with
      | zero => exact ⟨[], l, ls, rfl, hr, rfl⟩
      | succ i =>
        have : i < countRes ls := by
          simp only [countRes, List.countP_cons, hr, if_true] at h
          simpa [countRes] using h
        obtain ⟨pre, line, post, h1, h2, h3⟩ := ih i this
        refine ⟨l :: pre, line, post, by rw [h1]; rfl, h2, ?_⟩
        simp only [countRes, List.countP_cons, hr, if_true]
        simpa [countRes] using h3
    · have : i < countRes ls := by
        simp only [countRes, List.countP_cons, hr] at h
        simpa [countRes] using h
      obtain ⟨pre, line, post, h1, h2, h3⟩ := ih i this
      refine ⟨l :: pre, line, post, by rw [h1]; rfl, h2, ?_⟩
      simp only [countRes, List.countP_cons, hr]
      simpa [countRes] using h3

end Hls

namespace Hls
variable {S : Std}

theorem ParseUint_lt (s : GoString) (n : Nat) (h : ParseUint s = some n) : n < 2 ^ 64 := by
  unfold ParseUint at h
  split_ifs at h with h1 h2 h3
  simp only [Option.some.injEq] at h
  omega

/-- A counter of the view that only its directive `R` sets and that the lines
selected by `inc` increment: over lines without the directive it counts those
lines. -/
theorem counter_frame (f : MView S → Nat) (R : GoString) (inc : GoString → Bool)
    (hstep : ∀ (v v' : MView S) (l : GoString), v.step l = some v' →
      (inc l = true → f v' = (f v + 1) % 2 ^ 64) ∧
      (inc l = false → isDirective S R l = false → f v' = f v)) :
    ∀ (ls : List GoString) (v v' : MView S), v.scan ls = some v' →
      countDirective S R ls = 0 → f v < 2 ^ 64 → f v' = (f v + ls.countP inc) % 2 ^ 64 := by
  intro ls
  induction ls with
  | nil =>
    intro v v' h _ hv
    simp only [MView.scan, Option.some.injEq] at h
    subst h
    simp only [List.countP_nil, Nat.add_zero]
    exact (Nat.mod_eq_of_lt hv).symm
  | cons l ls ih =>
    intro v v' h hc hv
    simp only [MView.scan] at h
    cases hs : v.step l with
    | none => simp [hs] at h
    | some v1 =>
      rw [hs] at h
      have hc' : isDirective S R l = false ∧ countDirective S R ls = 0 := by
        simp only [countDirective, List.countP_cons] at hc
        constructor
        · by_contra hd
          simp only [Bool.not_eq_false] at hd
          simp [hd] at hc
        · simp only [countDirective]; omega
      obtain ⟨s1, s2⟩ := hstep v v1 l hs
      by_cases hi : inc l = true
      · have e := s1 hi
        have hlt : f v1 < 2 ^ 64 := by rw [e]; exact Nat.mod_lt _ (by decide)
        rw [ih v1 v' h hc'.2 hlt, e]
        simp only [List.countP_cons, hi, if_true]
        omega
      · have hi' : inc l = false := by simpa using hi
        have e := s2 hi' hc'.1
        rw [ih v1 v' h hc'.2 (by rw [e]; exact hv), e]
        simp [List.countP_cons, hi]

/-- The same counter at a resource line of a playlist that declares it at most
once, before every resource line and every incrementing line: the declared
value (0 when absent) plus the number of incrementing lines so far. -/
theorem counter_declared (f : MView S → Nat) (R : GoString) (inc : GoString → Bool)
    (hstep : ∀ (v v' : MView S) (l : GoString), v.step l = some v' →
      (inc l = true → f v' = (f v + 1) % 2 ^ 64) ∧
      (inc l = false → isDirective S R l = false → f v' = f v) ∧
      (∀ tag, lineTag S l = some tag → tag.Name = R → ParseUint tag.Value = some (f v')))
    (hexcl : ∀ l, isDirective S R l = true → inc l = false)
    (hf0 : f ({} : MView S) = 0)
    (lines pre post : List GoString) (line : GoString)
    (hl : lines = pre ++ line :: post) (hres : isResourceLine line = true)
    (honce : countDirective S R lines ≤ 1)
    (hfirst : ∀ a l b, lines = a ++ l :: b → isDirective S R l = true →
      countRes a = 0 ∧ a.countP inc = 0)
    (vp : MView S) (hvp : ({} : MView S).scan pre = some vp) :
    f vp = (declaredValue S R lines + pre.countP inc) % 2 ^ 64 := by
  have hframe := counter_frame f R inc (fun v v' l h => ⟨(hstep v v' l h).1, (hstep v v' l h).2.1⟩)
  cases hfind : lines.find? (isDirective S R) with
  | none =>
    have hnone : ∀ x ∈ lines, isDirective S R x = false := by
      intro x hx
      have := List.find?_eq_none.1 hfind x hx
      simpa using this
    have hc : countDirective S R pre = 0 := by
      simp only [countDirective, List.countP_eq_zero]
      intro x hx
      simp [hnone x (by rw [hl]; simp [hx])]
    have := hframe pre {} vp hvp hc (by rw [hf0]; decide)
    rw [this, hf0]
    simp [declaredValue, hfind]
  | some d =>
    obtain ⟨hd, a, b, hab, ha⟩ := List.find?_eq_some.1 hfind
    obtain ⟨hra, hia⟩ := hfirst a d b hab hd
    have hdres : isResourceLine d = false := by
      by_contra hc
      simp only [Bool.not_eq_false] at hc
      rw [isDirective_of_resource R d hc] at hd
      exact absurd hd (by simp)
    have hsplit : ∃ c, pre = a ++ d :: c ∧ b = c ++ line :: post := by
      rw [hl] at hab
      rcases List.append_eq_append_iff.1 hab with ⟨a', h1, h2⟩ | ⟨c', h1, h2⟩
      · exfalso
        cases a' with
        | nil =>
          simp only [List.nil_append, List.cons.injEq] at h2
          rw [h2.1] at hres
          rw [hres] at hdres
          exact absurd hdres (by simp)
        | cons x a'' =>
          simp only [List.cons_append, List.cons.injEq] at h2
          have : 0 < countRes a := by
            rw [h1]
            simp only [countRes, List.countP_append, List.countP_cons]
            rw [← h2.1, hres]
            simp
          omega
      · cases c' with
        | nil =>
          exfalso
          simp only [List.nil_append, List.cons.injEq] at h2
          rw [← h2.1] at hres
          rw [hres] at hdres
          exact absurd hdres (by simp)
        | cons x c'' =>
          simp only [List.cons_append, List.cons.injEq] at h2
          exact ⟨c'', by rw [h1, h2.1], h2.2⟩
    obtain ⟨c, hpre, hb⟩ := hsplit
    have hca : countDirective S R a = 0 := by
      simp only [countDirective, List.countP_eq_zero]
      intro x hx
      simpa using ha x hx
    have hcc : countDirective S R c = 0 := by
      have : countDirective S R lines = countDirective S R a + 1 + countDirective S R b := by
        rw [hab]
        simp only [countDirective, List.countP_append, List.countP_cons, hd, if_true]
        omega
      have hb0 : countDirective S R b = 0 := by omega
      rw [hb] at hb0
      simp only [countDirective, List.countP_append] at hb0
      simp only [countDirective]
      omega
    rw [hpre, scan_append] at hvp
    cases hsa : ({} : MView S).scan a with
    | none => simp [hsa] at hvp
    | some va =>
      rw [hsa] at hvp
      simp only [Option.some_bind] at hvp
      rw [MView.scan] at hvp
      cases hsd : va.step d with
      | none => simp [hsd] at hvp
      | some vd =>
        rw [hsd] at hvp
        simp only [] at hvp
        obtain ⟨tag, htag, hname⟩ := (isDirective_iff R d).1 hd
        have hv := (hstep va vd d hsd).2.2 tag htag hname
        have hlt := ParseUint_lt _ _ hv
        have hdecl : declaredValue S R lines = f vd := by
          simp [declaredValue, hfind, htag, hv]
        rw [hframe c vd vp hvp hcc hlt, hdecl, hpre]
        simp only [List.countP_append, List.countP_cons, hia, hexcl d hd]
        simp

end Hls

namespace Hls
variable {S : Std}

/-! ## Sequence numbers: claims C7 and C8 -/

theorem takeWhile_split {α : Type} (p : α → Bool) (a b : List α) (l : α)
    (ha : ∀ x ∈ a, p x = true) (hl : p l = false) : (a ++ l :: b).takeWhile p = a := by
  induction a with
  | nil => simp [List.takeWhile, hl]
  | cons x a ih =>
    simp only [List.cons_append, List.takeWhile_cons, ha x (by simp), if_true]
    rw [ih (fun y hy => ha y (by simp [hy]))]

/-- In a playlist with at most one directive `R`, the lines before a directive
`R` are the lines before the first one. -/
theorem before_directive (R : GoString) (lines a b : List GoString) (l : GoString)
    (honce : countDirective S R lines ≤ 1) (hab : lines = a ++ l :: b)
    (hl : isDirective S R l = true) :
    countDirective S R lines = 1 ∧ lines.takeWhile (fun x => !isDirective S R x) = a := by
  have hc : countDirective S R lines = countDirective S R a + 1 + countDirective S R b := by
    rw [hab]
    simp only [countDirective, List.countP_append, List.countP_cons, hl, if_true]
    omega
  have ha : countDirective S R a = 0 := by omega
  refine ⟨by omega, ?_⟩
  rw [hab]
  apply takeWhile_split
  · intro x hx
    simp only [countDirective, List.countP_eq_zero] at ha
    simpa using ha x hx
  · simp [hl]

theorem lineTag_not_resource (l : GoString) (tag : Tag S) (h : lineTag S l = some tag) :
    isResourceLine l = false := by
  by_contra hc
  simp only [Bool.not_eq_false] at hc
  rw [lineTag_of_resource l hc] at h
  exact absurd h (by simp)

theorem mediaSequence_step (v v' : MView S) (l : GoString) (h : v.step l = some v') :
    (isResourceLine l = true → v'.mediaSequence = (v.mediaSequence + 1) % 2 ^ 64) ∧
    (isResourceLine l = false → isDirective S (ascii "EXT-X-MEDIA-SEQUENCE") l = false →
      v'.mediaSequence = v.mediaSequence) ∧
    (∀ tag, lineTag S l = some tag → tag.Name = ascii "EXT-X-MEDIA-SEQUENCE" →
      ParseUint tag.Value = some v'.mediaSequence) := by
  refine ⟨?_, ?_, ?_⟩
  · intro hr
    rw [step_resource v l hr] at h
    simp only [Option.some.injEq] at h
    subst h
    rfl
  · intro hr hd
    rcases step_other v v' l hr h with ⟨_, rfl⟩ | ⟨tag, htag, ht⟩
    · rfl
    · have hne : tag.Name ≠ ascii "EXT-X-MEDIA-SEQUENCE" := by
        intro hc
        have := (isDirective_iff (S := S) _ l).2 ⟨tag, htag, hc⟩
        rw [hd] at this
        exact absurd this (by simp)
      exact (tagStep_fields v v' tag ht).2.1 hne
  · intro tag htag hname
    rcases step_other v v' l (lineTag_not_resource l tag htag) h with ⟨hn, _⟩ | ⟨tag', htag', ht⟩
    · rw [hn] at htag
      exact absurd htag (by simp)
    · rw [htag] at htag'
      cases htag'
      exact (tagStep_fields v v' tag ht).2.2.1 hname

/-- C7: for every media playlist that scans without error and without a stop
signal, in which an EXT-X-MEDIA-SEQUENCE directive with value N appears at most
once and before the first resource line, and with N + k below `2^64` for the
k finalized segments: there is one segment per resource line, and the i-th
segment has MediaSequence N + i, where N is 0 when the directive is absent. -/
theorem media_sequence_numbers (handler : ParserHandler S) (baseURL : S.URL)
    (lines : List GoString) (st : Scan S)
    (hp : Parse (lines.map ReadLine.line) baseURL handler = some (st, none))
    (hmedia : st.isMaster = false) (hstop : st.stop = false)
    (honce : countDirective S (ascii "EXT-X-MEDIA-SEQUENCE") lines ≤ 1)
    (hfirst : countDirective S (ascii "EXT-X-MEDIA-SEQUENCE") lines = 1 →
      countRes (lines.takeWhile (fun l => !isDirective S (ascii "EXT-X-MEDIA-SEQUENCE") l)) = 0)
    (hbound : declaredValue S (ascii "EXT-X-MEDIA-SEQUENCE") lines +
      st.mediaPlaylist.MediaSegments.length < 2 ^ 64) :
    st.mediaPlaylist.MediaSegments.length = countRes lines ∧
    ∀ i seg, st.mediaPlaylist.MediaSegments[i]? = some seg →
      seg.MediaSequence = declaredValue S (ascii "EXT-X-MEDIA-SEQUENCE") lines + i := by
  have hlen := segments_length handler baseURL lines st hp hmedia hstop
  refine ⟨hlen, ?_⟩
  intro i seg hseg
  have hi : i < countRes lines := by
    rw [← hlen]
    exact (List.getElem?_eq_some.1 hseg).1
  obtain ⟨pre, line, post, hl, hres, hcount⟩ := exists_resource_split lines i hi
  rw [← hcount] at hseg
  obtain ⟨vp, hvp, hstamp⟩ := segment_stamp handler baseURL lines st hp hmedia pre post line hl
    hres seg hseg
  have hms : seg.MediaSequence = vp.mediaSequence := congrArg Stamp.MediaSequence hstamp
  have hcd : vp.mediaSequence = (declaredValue S (ascii "EXT-X-MEDIA-SEQUENCE") lines +
      pre.countP isResourceLine) % 2 ^ 64 :=
    counter_declared (fun v : MView S => v.mediaSequence) (ascii "EXT-X-MEDIA-SEQUENCE")
    isResourceLine
    (fun v v' l h => ⟨(mediaSequence_step v v' l h).1, (mediaSequence_step v v' l h).2.1,
      (mediaSequence_step v v' l h).2.2⟩)
    (fun l hd => by
      by_contra hc
      simp only [Bool.not_eq_false] at hc
      rw [isDirective_of_resource _ l hc] at hd
      exact absurd hd (by simp))
    rfl lines pre post line hl hres honce
    (fun a l b hab hd => by
      obtain ⟨h1, h2⟩ := before_directive _ lines a b l honce hab hd
      have := hfirst h1
      rw [h2] at this
      exact ⟨this, this⟩)
    vp hvp
  rw [hms, hcd]
  have e : pre.countP isResourceLine = i := hcount
  rw [e]
  apply Nat.mod_eq_of_lt
  rw [hlen] at hbound
  omega

end Hls

namespace Hls

/-- C7 at the playlist `#EXT-X-MEDIA-SEQUENCE:5`, `a.ts`, `b.ts`, `c.ts`. -/
theorem media_sequence_numbers_witness :
    ∃ st : Scan Std.bare,
      Parse (S := Std.bare)
        ([ascii "#EXT-X-MEDIA-SEQUENCE:5", ascii "a.ts", ascii "b.ts", ascii "c.ts"].map
          ReadLine.line) [] {} = some (st, none) ∧
      st.isMaster = false ∧ st.stop = false ∧
      countDirective Std.bare (ascii "EXT-X-MEDIA-SEQUENCE")
        [ascii "#EXT-X-MEDIA-SEQUENCE:5", ascii "a.ts", ascii "b.ts", ascii "c.ts"] ≤ 1 ∧
      declaredValue Std.bare (ascii "EXT-X-MEDIA-SEQUENCE")
        [ascii "#EXT-X-MEDIA-SEQUENCE:5", ascii "a.ts", ascii "b.ts", ascii "c.ts"] = 5 ∧
      st.mediaPlaylist.MediaSegments.length = 3 ∧
      ∀ i seg, st.mediaPlaylist.MediaSegments[i]? = some seg → seg.MediaSequence = 5 + i := by
  refine ⟨_, rfl, rfl, rfl, by decide, by decide, rfl, ?_⟩
  have h := media_sequence_numbers (S := Std.bare) {} []
    [ascii "#EXT-X-MEDIA-SEQUENCE:5", ascii "a.ts", ascii "b.ts", ascii "c.ts"] _ rfl rfl rfl
    (by decide) (by decide) (by decide)
  exact h.2

end Hls

namespace Hls
variable {S : Std}

theorem discontinuitySequence_step (v v' : MView S) (l : GoString) (h : v.step l = some v') :
    (isDirective S (ascii "EXT-X-DISCONTINUITY") l = true →
      v'.discontinuitySequence = (v.discontinuitySequence + 1) % 2 ^ 64) ∧
    (isDirective S (ascii "EXT-X-DISCONTINUITY") l = false →
      isDirective S (ascii "EXT-X-DISCONTINUITY-SEQUENCE") l = false →
      v'.discontinuitySequence = v.discontinuitySequence) ∧
    (∀ tag, lineTag S l = some tag → tag.Name = ascii "EXT-X-DISCONTINUITY-SEQUENCE" →
      ParseUint tag.Value = some v'.discontinuitySequence) := by
  by_cases hr : isResourceLine l = true
  · have hnone := lineTag_of_resource (S := S) l hr
    rw [step_resource v l hr] at h
    simp only [Option.some.injEq] at h
    subst h
    refine ⟨?_, fun _ _ => rfl, ?_⟩
    · intro hd
      rw [isDirective_of_resource _ l hr] at hd
      exact absurd hd (by simp)
    · intro tag htag
      rw [hnone] at htag
      exact absurd htag (by simp)
  · have hr' : isResourceLine l = false := by simpa using hr
    rcases step_other v v' l hr' h with ⟨hn, rfl⟩ | ⟨tag, htag, ht⟩
    · refine ⟨?_, fun _ _ => rfl, ?_⟩
      · intro hd
        obtain ⟨tag, htag, _⟩ := (isDirective_iff _ l).1 hd
        rw [hn] at htag
        exact absurd htag (by simp)
      · intro tag htag
        rw [hn] at htag
        exact absurd htag (by simp)
    · have hf := tagStep_fields v v' tag ht
      refine ⟨?_, ?_, ?_⟩
      · intro hd
        obtain ⟨tag', htag', hname⟩ := (isDirective_iff _ l).1 hd
        rw [htag] at htag'
        cases htag'
        exact hf.2.2.2.2.2.1 hname
      · intro h1 h2
        have n1 : tag.Name ≠ ascii "EXT-X-DISCONTINUITY" := by
          intro hc
          have := (isDirective_iff (S := S) _ l).2 ⟨tag, htag, hc⟩
          rw [h1] at this
          exact absurd this (by simp)
        have n2 : tag.Name ≠ ascii "EXT-X-DISCONTINUITY-SEQUENCE" := by
          intro hc
          have := (isDirective_iff (S := S) _ l).2 ⟨tag, htag, hc⟩
          rw [h2] at this
          exact absurd this (by simp)
        exact hf.2.2.2.1 n2 n1
      · intro tag' htag' hname
        rw [htag] at htag'
        cases htag'
        exact hf.2.2.2.2.1 hname

/-- C8, counterexample: with the starting value `2^64 - 1` and one
EXT-X-DISCONTINUITY directive, the segment is stamped 0, not `2^64`. -/
theorem discontinuity_sequence_wraps :
    (Parse (S := Std.bare)
      ([ascii "#EXT-X-DISCONTINUITY-SEQUENCE:18446744073709551615",
        ascii "#EXT-X-DISCONTINUITY", ascii "a.ts"].map ReadLine.line) [] {}).map
      (fun r => (r.1.mediaPlaylist.MediaSegments.map (fun s => s.DiscontinuitySequence), r.2)) =
      some ([0], none) ∧
    declaredValue Std.bare (ascii "EXT-X-DISCONTINUITY-SEQUENCE")
        [ascii "#EXT-X-DISCONTINUITY-SEQUENCE:18446744073709551615",
          ascii "#EXT-X-DISCONTINUITY", ascii "a.ts"] +
      countDirective Std.bare (ascii "EXT-X-DISCONTINUITY")
        [ascii "#EXT-X-DISCONTINUITY-SEQUENCE:18446744073709551615",
          ascii "#EXT-X-DISCONTINUITY"] = 18446744073709551616 := by
  constructor
  · decide
  · decide

/-- C8, amended: for every media playlist that scans without error and without
a stop signal and declares EXT-X-DISCONTINUITY-SEQUENCE at most once, before any
EXT-X-DISCONTINUITY directive and any resource line: the segment of each
resource line has as DiscontinuitySequence the declared starting value (0 when
absent) plus the number of EXT-X-DISCONTINUITY directive lines that precede the
resource line, modulo `2^64`. -/
theorem discontinuity_sequence_numbers (handler : ParserHandler S) (baseURL : S.URL)
    (lines : List GoString) (st : Scan S)
    (hp : Parse (lines.map ReadLine.line) baseURL handler = some (st, none))
    (hmedia : st.isMaster = false) (hstop : st.stop = false)
    (honce : countDirective S (ascii "EXT-X-DISCONTINUITY-SEQUENCE") lines ≤ 1)
    (hfirst : countDirective S (ascii "EXT-X-DISCONTINUITY-SEQUENCE") lines = 1 →
      countRes (lines.takeWhile
        (fun l => !isDirective S (ascii "EXT-X-DISCONTINUITY-SEQUENCE") l)) = 0 ∧
      countDirective S (ascii "EXT-X-DISCONTINUITY") (lines.takeWhile
        (fun l => !isDirective S (ascii "EXT-X-DISCONTINUITY-SEQUENCE") l)) = 0)
    (pre post : List GoString) (line : GoString)
    (hl : lines = pre ++ line :: post) (hres : isResourceLine line = true) :
    ∃ seg, st.mediaPlaylist.MediaSegments[countRes pre]? = some seg ∧
      seg.DiscontinuitySequence =
        (declaredValue S (ascii "EXT-X-DISCONTINUITY-SEQUENCE") lines +
          countDirective S (ascii "EXT-X-DISCONTINUITY") pre) % 2 ^ 64 := by
  have hlen := segments_length handler baseURL lines st hp hmedia hstop
  have hi : countRes pre < st.mediaPlaylist.MediaSegments.length := by
    rw [hlen, hl]
    simp only [countRes, List.countP_append, List.countP_cons, hres, if_true]
    omega
  obtain ⟨seg, hseg⟩ : ∃ seg, st.mediaPlaylist.MediaSegments[countRes pre]? = some seg :=
    ⟨_, List.getElem?_eq_getElem hi⟩
  refine ⟨seg, hseg, ?_⟩
  obtain ⟨vp, hvp, hstamp⟩ := segment_stamp handler baseURL lines st hp hmedia pre post line hl
    hres seg hseg
  have hds : seg.DiscontinuitySequence = vp.discontinuitySequence :=
    congrArg Stamp.DiscontinuitySequence hstamp
  have hcd : vp.discontinuitySequence =
      (declaredValue S (ascii "EXT-X-DISCONTINUITY-SEQUENCE") lines +
        pre.countP (isDirective S (ascii "EXT-X-DISCONTINUITY"))) % 2 ^ 64 :=
    counter_declared (fun v : MView S => v.discontinuitySequence)
      (ascii "EXT-X-DISCONTINUITY-SEQUENCE") (isDirective S (ascii "EXT-X-DISCONTINUITY"))
      (fun v v' l h => discontinuitySequence_step v v' l h)
      (fun l hd => by
        obtain ⟨tag, htag, hname⟩ := (isDirective_iff _ l).1 hd
        by_contra hc
        simp only [Bool.not_eq_false] at hc
        obtain ⟨tag', htag', hname'⟩ := (isDirective_iff _ l).1 hc
        rw [htag] at htag'
        cases htag'
        rw [hname] at hname'
        exact absurd hname' (by decide))
      rfl lines pre post line hl hres honce
      (fun a l b hab hd => by
        obtain ⟨h1, h2⟩ := before_directive _ lines a b l honce hab hd
        have := hfirst h1
        rw [h2] at this
        exact this)
      vp hvp
  rw [hds, hcd]
  rfl

/-- C8, amended, at the playlist `#EXT-X-DISCONTINUITY-SEQUENCE:7`, `a.ts`,
`#EXT-X-DISCONTINUITY`, `b.ts`, for the resource line `b.ts`. -/
theorem discontinuity_sequence_numbers_witness :
    ∃ st : Scan Std.bare,
      Parse (S := Std.bare)
        ([ascii "#EXT-X-DISCONTINUITY-SEQUENCE:7", ascii "a.ts", ascii "#EXT-X-DISCONTINUITY",
          ascii "b.ts"].map ReadLine.line) [] {} = some (st, none) ∧
      st.isMaster = false ∧ st.stop = false ∧
      countDirective Std.bare (ascii "EXT-X-DISCONTINUITY-SEQUENCE")
        [ascii "#EXT-X-DISCONTINUITY-SEQUENCE:7", ascii "a.ts", ascii "#EXT-X-DISCONTINUITY",
          ascii "b.ts"] ≤ 1 ∧
      isResourceLine (ascii "b.ts") = true ∧
      ∃ seg, st.mediaPlaylist.MediaSegments[1]? = some seg ∧ seg.DiscontinuitySequence = 8 := by
  refine ⟨_, rfl, rfl, rfl, by decide, by decide, ?_⟩
  exact discontinuity_sequence_numbers (S := Std.bare) {} []
    [ascii "#EXT-X-DISCONTINUITY-SEQUENCE:7", ascii "a.ts", ascii "#EXT-X-DISCONTINUITY",
      ascii "b.ts"] _ rfl rfl rfl (by decide) (by decide)
    [ascii "#EXT-X-DISCONTINUITY-SEQUENCE:7", ascii "a.ts", ascii "#EXT-X-DISCONTINUITY"] []
    (ascii "b.ts") rfl (by decide)

end Hls

namespace Hls
variable {S : Std}

/-! ## The pending key and initialization section: claim C9 -/

theorem lastDirective_cons (name l : GoString) (ls : List GoString) :
    lastDirective S name (l :: ls) =
      match lastDirective S name ls with
      | some (pre, tag) => some (l :: pre, tag)
      | none => if isDirective S name l then (lineTag S l).map (fun tag => ([], tag)) else none :=
  rfl

theorem key_step (v v' : MView S) (l : GoString) (h : v.step l = some v') :
    (isDirective S (ascii "EXT-X-KEY") l = false → v'.key = v.key) ∧
    (∀ tag, lineTag S l = some tag → tag.Name = ascii "EXT-X-KEY" →
      okOf (Key.ParseTag {} tag) = v'.key ∧ v'.key ≠ none) ∧
    (isDirective S (ascii "EXT-X-MAP") l = false → v'.mediaInitMap = v.mediaInitMap) ∧
    (∀ tag, lineTag S l = some tag → tag.Name = ascii "EXT-X-MAP" →
      okOf (MediaInitMap.ParseTag { Key := v.key } tag) = v'.mediaInitMap ∧
        v'.mediaInitMap ≠ none) := by
  by_cases hr : isResourceLine l = true
  · have hnone := lineTag_of_resource (S := S) l hr
    rw [step_resource v l hr] at h
    simp only [Option.some.injEq] at h
    subst h
    refine ⟨fun _ => rfl, ?_, fun _ => rfl, ?_⟩ <;>
    · intro tag htag
      rw [hnone] at htag
      exact absurd htag (by simp)
  · have hr' : isResourceLine l = false := by simpa using hr
    rcases step_other v v' l hr' h with ⟨hn, rfl⟩ | ⟨tag, htag, ht⟩
    · refine ⟨fun _ => rfl, ?_, fun _ => rfl, ?_⟩ <;>
      · intro tag htag
        rw [hn] at htag
        exact absurd htag (by simp)
    · have hf := tagStep_fields v v' tag ht
      refine ⟨?_, ?_, ?_, ?_⟩
      · intro h1
        apply hf.2.2.2.2.2.2.1
        intro hc
        have := (isDirective_iff (S := S) _ l).2 ⟨tag, htag, hc⟩
        rw [h1] at this
        exact absurd this (by simp)
      · intro tag' htag' hname
        rw [htag] at htag'
        cases htag'
        exact hf.2.2.2.2.2.2.2.1 hname
      · intro h1
        apply hf.2.2.2.2.2.2.2.2.1
        intro hc
        have := (isDirective_iff (S := S) _ l).2 ⟨tag, htag, hc⟩
        rw [h1] at this
        exact absurd this (by simp)
      · intro tag' htag' hname
        rw [htag] at htag'
        cases htag'
        exact hf.2.2.2.2.2.2.2.2.2.1 hname

theorem keyAfter_cons (v v1 : MView S) (l : GoString) (ls : List GoString)
    (h : v.step l = some v1) : keyAfter v (l :: ls) = keyAfter v1 ls := by
  unfold keyAfter
  rw [lastDirective_cons]
  cases hld : lastDirective S (ascii "EXT-X-KEY") ls with
  | some p => rfl
  | none =>
    simp only []
    by_cases hd : isDirective S (ascii "EXT-X-KEY") l = true
    · obtain ⟨tag, htag, hname⟩ := (isDirective_iff _ l).1 hd
      rw [if_pos hd, htag]
      exact ((key_step v v1 l h).2.1 tag htag hname).1
    · have hd' : isDirective S (ascii "EXT-X-KEY") l = false := by simpa using hd
      rw [if_neg hd]
      exact ((key_step v v1 l h).1 hd').symm

theorem key_scan : ∀ (ls : List GoString) (v v' : MView S), v.scan ls = some v' →
    v'.key = keyAfter v ls ∧
    (lastDirective S (ascii "EXT-X-KEY") ls ≠ none → v'.key ≠ none) := by
  intro ls
  induction ls with
  | nil =>
    intro v v' h
    simp only [MView.scan, Option.some.injEq] at h
    subst h
    exact ⟨rfl, fun hc => absurd rfl hc⟩
  | cons l ls ih =>
    intro v v' h
    simp only [MView.scan] at h
    cases hs : v.step l with
    | none => simp [hs] at h
    | some v1 =>
      rw [hs] at h
      obtain ⟨i1, i2⟩ := ih v1 v' h
      refine ⟨by rw [keyAfter_cons v v1 l ls hs]; exact i1, ?_⟩
      intro hne
      cases hld : lastDirective S (ascii "EXT-X-KEY") ls with
      | some p => exact i2 (by rw [hld]; simp)
      | none =>
        rw [lastDirective_cons, hld] at hne
        simp only [] at hne
        have hd : isDirective S (ascii "EXT-X-KEY") l = true := by
          by_contra hc
          rw [if_neg hc] at hne
          exact hne rfl
        obtain ⟨tag, htag, hname⟩ := (isDirective_iff _ l).1 hd
        have hk := ((key_step v v1 l hs).2.1 tag htag hname)
        have : v'.key = v1.key := by
          rw [i1]
          unfold keyAfter
          rw [hld]
        rw [this]
        exact hk.2

theorem map_scan : ∀ (ls : List GoString) (v v' : MView S), v.scan ls = some v' →
    (v'.mediaInitMap =
      match lastDirective S (ascii "EXT-X-MAP") ls with
      | none => v.mediaInitMap
      | some (pre, tag) => okOf (MediaInitMap.ParseTag { Key := keyAfter v pre } tag)) ∧
    (lastDirective S (ascii "EXT-X-MAP") ls ≠ none → v'.mediaInitMap ≠ none) := by
  intro ls
  induction ls with
  | nil =>
    intro v v' h
    simp only [MView.scan, Option.some.injEq] at h
    subst h
    exact ⟨rfl, fun hc => absurd rfl hc⟩
  | cons l ls ih =>
    intro v v' h
    simp only [MView.scan] at h
    cases hs : v.step l with
    | none => simp [hs] at h
    | some v1 =>
      rw [hs] at h
      obtain ⟨i1, i2⟩ := ih v1 v' h
      rw [lastDirective_cons]
      cases hld : lastDirective S (ascii "EXT-X-MAP") ls with
      | some p =>
        obtain ⟨pre, tag⟩ := p
        rw [hld] at i1 i2
        simp only [] at i1 ⊢
        refine ⟨?_, fun _ => i2 (by simp)⟩
        rw [i1, keyAfter_cons v v1 l pre hs]
      | none =>
        rw [hld] at i1
        simp only [] at i1 ⊢
        by_cases hd : isDirective S (ascii "EXT-X-MAP") l = true
        · obtain ⟨tag, htag, hname⟩ := (isDirective_iff _ l).1 hd
          have hk := (key_step v v1 l hs).2.2.2 tag htag hname
          rw [if_pos hd, htag]
          simp only [Option.map_some']
          have e : keyAfter v [] = v.key := rfl
          rw [e, i1]
          exact ⟨hk.1.symm, fun _ => hk.2⟩
        · have hd' : isDirective S (ascii "EXT-X-MAP") l = false := by simpa using hd
          rw [if_neg hd]
          simp only []
          refine ⟨?_, fun hc => absurd rfl hc⟩
          rw [i1]
          exact (key_step v v1 l hs).2.2.1 hd'

theorem lastDirective_append_frame (name : GoString) (xs ys : List GoString)
    (h : countDirective S name ys = 0) :
    (lastDirective S name (xs ++ ys)).map (fun p => p.2) =
      (lastDirective S name xs).map (fun p => p.2) := by
  have hys : lastDirective S name ys = none := by
    induction ys with
    | nil => rfl
    | cons y ys ih =>
      simp only [countDirective, List.countP_cons] at h
      have hy : isDirective S name y = false := by
        by_contra hc
        simp only [Bool.not_eq_false] at hc
        simp [hc] at h
      rw [lastDirective_cons, ih (by simp only [countDirective]; omega)]
      simp [hy]
  induction xs with
  | nil => simp [hys, lastDirective]
  | cons x xs ih =>
    simp only [List.cons_append, lastDirective_cons]
    cases h1 : lastDirective S name (xs ++ ys) with
    | some p =>
      cases h2 : lastDirective S name xs with
      | some q =>
        rw [h1, h2] at ih
        simpa using ih
      | none =>
        rw [h1, h2] at ih
        simp at ih
    | none =>
      cases h2 : lastDirective S name xs with
      | some q =>
        rw [h1, h2] at ih
        simp at ih
      | none => rfl

end Hls
namespace Hls
variable {S : Std}

theorem pendingKey_eq (ls : List GoString) :
    pendingKey S ls = ((lastDirective S (ascii "EXT-X-KEY") ls).map (fun p => p.2)).bind
      (fun tag => okOf (Key.ParseTag {} tag)) := by
  unfold pendingKey
  cases lastDirective S (ascii "EXT-X-KEY") ls with
  | none => rfl
  | some p => rfl

theorem pendingKey_frame (xs ys : List GoString)
    (h : countDirective S (ascii "EXT-X-KEY") ys = 0) :
    pendingKey S (xs ++ ys) = pendingKey S xs := by
  rw [pendingKey_eq, pendingKey_eq, lastDirective_append_frame _ xs ys h]

theorem finishMediaSegment_pending (handler : ParserHandler S) (st : Scan S) :
    (finishMediaSegment handler st).key = st.key ∧
    (finishMediaSegment handler st).mediaInitMap = st.mediaInitMap := by
  unfold finishMediaSegment
  cases handler.HandleMediaSegment <;> exact ⟨rfl, rfl⟩

/-- C9: for every media playlist that scans without error, the segment of each
resource line has as Key the key decoded from the most recent EXT-X-KEY
directive before that line (none if there is no such directive, and a decoded
key if there is one), and as MediaInitMap the section decoded from the most
recent EXT-X-MAP directive before it (likewise); a later segment with no
EXT-X-KEY directive in between has the same key; and finishing a segment leaves
the pending key and initialization section as they are. -/
theorem pending_key_and_map (handler : ParserHandler S) (baseURL : S.URL)
    (lines : List GoString) (st : Scan S)
    (hp : Parse (lines.map ReadLine.line) baseURL handler = some (st, none))
    (hmedia : st.isMaster = false)
    (pre post : List GoString) (line : GoString)
    (hl : lines = pre ++ line :: post) (hres : isResourceLine line = true)
    (seg : MediaSegment S) (hseg : st.mediaPlaylist.MediaSegments[countRes pre]? = some seg) :
    seg.Key = pendingKey S pre ∧
    (lastDirective S (ascii "EXT-X-KEY") pre ≠ none → seg.Key ≠ none) ∧
    seg.MediaInitMap = pendingMap S pre ∧
    (lastDirective S (ascii "EXT-X-MAP") pre ≠ none → seg.MediaInitMap ≠ none) ∧
    (∀ (mid post2 : List GoString) (line2 : GoString) (seg2 : MediaSegment S),
      lines = (pre ++ line :: mid) ++ line2 :: post2 → isResourceLine line2 = true →
      countDirective S (ascii "EXT-X-KEY") mid = 0 →
      st.mediaPlaylist.MediaSegments[countRes (pre ++ line :: mid)]? = some seg2 →
      seg2.Key = seg.Key) ∧
    (∀ (h : ParserHandler S) (s : Scan S),
      (finishMediaSegment h s).key = s.key ∧
      (finishMediaSegment h s).mediaInitMap = s.mediaInitMap) := by
  have key_of : ∀ (pre post : List GoString) (line : GoString), lines = pre ++ line :: post →
      isResourceLine line = true → ∀ seg : MediaSegment S,
      st.mediaPlaylist.MediaSegments[countRes pre]? = some seg →
      seg.Key = pendingKey S pre ∧
      (lastDirective S (ascii "EXT-X-KEY") pre ≠ none → seg.Key ≠ none) ∧
      seg.MediaInitMap = pendingMap S pre ∧
      (lastDirective S (ascii "EXT-X-MAP") pre ≠ none → seg.MediaInitMap ≠ none) := by
    intro pre post line hl hres seg hseg
    obtain ⟨vp, hvp, hstamp⟩ := segment_stamp handler baseURL lines st hp hmedia pre post line hl
      hres seg hseg
    have hk : seg.Key = vp.key := congrArg Stamp.Key hstamp
    have hm : seg.MediaInitMap = vp.mediaInitMap := congrArg Stamp.MediaInitMap hstamp
    obtain ⟨k1, k2⟩ := key_scan pre _ vp hvp
    obtain ⟨m1, m2⟩ := map_scan pre _ vp hvp
    rw [hk, hm]
    exact ⟨k1, k2, m1, m2⟩
  obtain ⟨a, b, c, d⟩ := key_of pre post line hl hres seg hseg
  refine ⟨a, b, c, d, ?_, finishMediaSegment_pending⟩
  intro mid post2 line2 seg2 hl2 hres2 hcount hseg2
  have h2 := (key_of _ post2 line2 hl2 hres2 seg2 hseg2).1
  rw [h2, a]
  apply pendingKey_frame
  simp only [countDirective, List.countP_cons] at hcount ⊢
  have : isDirective S (ascii "EXT-X-KEY") line = false := isDirective_of_resource _ line hres
  simp [this, hcount]

end Hls
namespace Hls

/-- C9 at the playlist `#EXT-X-KEY:METHOD=AES-128,URI="k"`, `a.ts`, `b.ts`, for
the resource line `b.ts`: the second segment has the key decoded from the
directive, and it is present. -/
theorem pending_key_and_map_witness :
    ∃ st : Scan Std.bare,
      Parse (S := Std.bare)
        ([ascii "#EXT-X-KEY:METHOD=AES-128,URI=\"k\"", ascii "a.ts",
          ascii "b.ts"].map ReadLine.line) [] {} = some (st, none) ∧
      st.isMaster = false ∧ isResourceLine (ascii "b.ts") = true ∧
      ∃ seg, st.mediaPlaylist.MediaSegments[1]? = some seg ∧
        seg.Key = pendingKey Std.bare [ascii "#EXT-X-KEY:METHOD=AES-128,URI=\"k\"", ascii "a.ts"] ∧
        seg.Key ≠ none := by
  refine ⟨_, rfl, rfl, by decide, _, rfl, ?_⟩
  have h := pending_key_and_map (S := Std.bare) {} []
    [ascii "#EXT-X-KEY:METHOD=AES-128,URI=\"k\"", ascii "a.ts", ascii "b.ts"] _ rfl rfl
    [ascii "#EXT-X-KEY:METHOD=AES-128,URI=\"k\"", ascii "a.ts"] [] (ascii "b.ts") rfl (by decide)
    _ rfl
  exact ⟨h.1, h.2.1 (fun hc => absurd (congrArg Option.isSome hc) (by decide))⟩

end Hls

namespace Hls
variable {S : Std}

/-! ## Byte ranges: claim C10 -/

theorem byteRanges_cons (prev : Option (Nat × Nat)) (value : GoString) (values : List GoString) :
    byteRanges prev (value :: values) =
      rangeOf (rangeEnd prev) value :: byteRanges (some (rangeOf (rangeEnd prev) value)) values := by
  have e : rangeOf (rangeEnd prev) value =
      (match splitN2 64 value with
      | (len, some off) => ((ParseUint off).getD 0, (ParseUint len).getD 0)
      | (len, none) =>
        (match prev with
         | none => 0
         | some (o, n) => (o + n) % 2 ^ 64, (ParseUint len).getD 0)) := by
    unfold rangeOf rangeEnd
    cases prev with
    | none => rfl
    | some p => rfl
  rw [e]
  rfl

theorem getLast_or_cons {α : Type} (r : α) (rs : List α) (prev : Option α) :
    (r :: rs).getLast?.or prev = rs.getLast?.or (some r) := by
  cases rs with
  | nil => rfl
  | cons y ys =>
    rw [List.getLast?_cons_cons]
    cases h : (y :: ys).getLast? with
    | none => simp at h
    | some z => rfl

theorem byteRanges_snoc (value : GoString) : ∀ (values : List GoString) (prev : Option (Nat × Nat)),
    byteRanges prev (values ++ [value]) =
      byteRanges prev values ++
        [rangeOf (rangeEnd ((byteRanges prev values).getLast?.or prev)) value] := by
  intro values
  induction values with
  | nil =>
    intro prev
    rw [List.nil_append, byteRanges_cons]
    rfl
  | cons x xs ih =>
    intro prev
    rw [List.cons_append, byteRanges_cons, byteRanges_cons, ih]
    rw [getLast_or_cons]
    rfl

theorem ParseString_rangeOf (br0 br : ByteRange S) (value : GoString) (off : Nat)
    (h : ByteRange.ParseString br0 value off = Except.ok br) :
    (br.Offset, br.Length) = rangeOf off value ∧
    (∀ len o, splitN2 64 value = (len, some o) →
      ParseUint o = some br.Offset ∧ ParseUint len = some br.Length) ∧
    (∀ len, splitN2 64 value = (len, none) →
      ParseUint len = some br.Length ∧ br.Offset = off) := by
  unfold ByteRange.ParseString at h
  unfold rangeOf
  rcases hs : splitN2 64 value with ⟨len, _ | o⟩
  · rw [hs] at h
    simp only [] at h ⊢
    cases hl : ParseUint len with
    | none => simp [hl] at h
    | some l =>
      simp only [hl, Except.ok.injEq] at h
      subst h
      simp [hl]
  · rw [hs] at h
    simp only [] at h ⊢
    cases ho : ParseUint o with
    | none => simp [ho] at h
    | some o1 =>
      cases hl : ParseUint len with
      | none => simp [ho, hl] at h
      | some l =>
        simp only [ho, hl, Except.ok.injEq] at h
        subst h
        simp [ho, hl]

theorem byteRange_step (v v' : MView S) (l : GoString) (h : v.step l = some v') :
    (isDirective S (ascii "EXT-X-BYTERANGE") l = false →
      v'.byteRangeOffset = v.byteRangeOffset ∧
      (isResourceLine l = false → v'.byteRange = v.byteRange)) ∧
    (∀ tag, lineTag S l = some tag → tag.Name = ascii "EXT-X-BYTERANGE" →
      ∃ br, ByteRange.ParseString { Tag := some tag } tag.Value v.byteRangeOffset = Except.ok br ∧
        v'.byteRange = some br ∧ v'.byteRangeOffset = br.End) := by
  by_cases hr : isResourceLine l = true
  · have hnone := lineTag_of_resource (S := S) l hr
    rw [step_resource v l hr] at h
    simp only [Option.some.injEq] at h
    subst h
    refine ⟨fun _ => ⟨rfl, fun hc => ?_⟩, ?_⟩
    · rw [hr] at hc
      exact absurd hc (by simp)
    · intro tag htag
      rw [hnone] at htag
      exact absurd htag (by simp)
  · have hr' : isResourceLine l = false := by simpa using hr
    rcases step_other v v' l hr' h with ⟨hn, rfl⟩ | ⟨tag, htag, ht⟩
    · refine ⟨fun _ => ⟨rfl, fun _ => rfl⟩, ?_⟩
      intro tag htag
      rw [hn] at htag
      exact absurd htag (by simp)
    · have hf := tagStep_fields v v' tag ht
      refine ⟨?_, ?_⟩
      · intro h1
        have hne : tag.Name ≠ ascii "EXT-X-BYTERANGE" := by
          intro hc
          have := (isDirective_iff (S := S) _ l).2 ⟨tag, htag, hc⟩
          rw [h1] at this
          exact absurd this (by simp)
        have := hf.2.2.2.2.2.2.2.2.2.2.1 hne
        exact ⟨this.2, fun _ => this.1⟩
      · intro tag' htag' hname
        rw [htag] at htag'
        cases htag'
        exact hf.2.2.2.2.2.2.2.2.2.2.2 hname

theorem byteRangeValues_cons_directive (l : GoString) (ls : List GoString) (tag : Tag S)
    (htag : lineTag S l = some tag) (hname : tag.Name = ascii "EXT-X-BYTERANGE") :
    byteRangeValues S (l :: ls) = tag.Value :: byteRangeValues S ls := by
  unfold byteRangeValues
  rw [List.filterMap_cons]
  simp [htag, hname]

theorem byteRangeValues_cons_other (l : GoString) (ls : List GoString)
    (h : isDirective S (ascii "EXT-X-BYTERANGE") l = false) :
    byteRangeValues S (l :: ls) = byteRangeValues S ls := by
  unfold byteRangeValues
  rw [List.filterMap_cons]
  unfold isDirective at h
  cases htag : lineTag S l with
  | none => rfl
  | some tag =>
    rw [htag] at h
    simp only [decide_eq_false_iff_not] at h
    simp [h]

theorem byteRangeOffset_scan : ∀ (ls : List GoString) (v v' : MView S)
    (prev : Option (Nat × Nat)), v.scan ls = some v' → v.byteRangeOffset = rangeEnd prev →
    v'.byteRangeOffset =
      rangeEnd ((byteRanges prev (byteRangeValues S ls)).getLast?.or prev) := by
  intro ls
  induction ls with
  | nil =>
    intro v v' prev h hoff
    simp only [MView.scan, Option.some.injEq] at h
    subst h
    exact hoff
  | cons l ls ih =>
    intro v v' prev h hoff
    simp only [MView.scan] at h
    cases hs : v.step l with
    | none => simp [hs] at h
    | some v1 =>
      rw [hs] at h
      by_cases hd : isDirective S (ascii "EXT-X-BYTERANGE") l = true
      · obtain ⟨tag, htag, hname⟩ := (isDirective_iff _ l).1 hd
        obtain ⟨br, hbr, _, hend⟩ := (byteRange_step v v1 l hs).2 tag htag hname
        have hr := (ParseString_rangeOf _ br _ _ hbr).1
        rw [hoff] at hr
        have hoff1 : v1.byteRangeOffset = rangeEnd (some (rangeOf (rangeEnd prev) tag.Value)) := by
          rw [hend, ← hr]
          rfl
        have := ih v1 v' _ h hoff1
        rw [this, byteRangeValues_cons_directive l ls tag htag hname, byteRanges_cons]
        rw [getLast_or_cons]
      · have hd' : isDirective S (ascii "EXT-X-BYTERANGE") l = false := by simpa using hd
        have hoff1 : v1.byteRangeOffset = rangeEnd prev := by
          rw [((byteRange_step v v1 l hs).1 hd').1, hoff]
        rw [ih v1 v' prev h hoff1, byteRangeValues_cons_other l ls hd']

theorem byteRange_frame : ∀ (ls : List GoString) (v v' : MView S), v.scan ls = some v' →
    countDirective S (ascii "EXT-X-BYTERANGE") ls = 0 → countRes ls = 0 →
    v'.byteRange = v.byteRange := by
  intro ls
  induction ls with
  | nil =>
    intro v v' h _ _
    simp only [MView.scan, Option.some.injEq] at h
    subst h
    rfl
  | cons l ls ih =>
    intro v v' h hc hr
    simp only [MView.scan] at h
    cases hs : v.step l with
    | none => simp [hs] at h
    | some v1 =>
      rw [hs] at h
      simp only [countDirective, countRes, List.countP_cons] at hc hr
      have hd : isDirective S (ascii "EXT-X-BYTERANGE") l = false := by
        by_contra hx
        simp only [Bool.not_eq_false] at hx
        simp [hx] at hc
      have hl : isResourceLine l = false := by
        by_contra hx
        simp only [Bool.not_eq_false] at hx
        simp [hx] at hr
      rw [ih v1 v' h (by simp only [countDirective]; omega) (by simp only [countRes]; omega)]
      exact ((byteRange_step v v1 l hs).1 hd).2 hl

end Hls
namespace Hls
variable {S : Std}

/-- C10: for every media playlist that scans without error, take an
EXT-X-BYTERANGE directive `d` and the next resource line after it, with no other
EXT-X-BYTERANGE directive in between. The segment of that resource line has a
byte range, which is the last entry of `byteRanges` over the directive values up
to `d` in file order: for a value `n@o` it has Offset `o` and Length `n`; for a
value `n` without `@` it has Length `n` and as Offset the `(Offset + Length) mod
2^64` of the directive before `d`, or 0 when `d` is the first one. -/
theorem byte_range_offsets (handler : ParserHandler S) (baseURL : S.URL)
    (lines : List GoString) (st : Scan S)
    (hp : Parse (lines.map ReadLine.line) baseURL handler = some (st, none))
    (hmedia : st.isMaster = false)
    (pre mid post : List GoString) (d line : GoString)
    (hl : lines = (pre ++ d :: mid) ++ line :: post)
    (hd : isDirective S (ascii "EXT-X-BYTERANGE") d = true)
    (hmid : countDirective S (ascii "EXT-X-BYTERANGE") mid = 0) (hmidres : countRes mid = 0)
    (hres : isResourceLine line = true)
    (seg : MediaSegment S)
    (hseg : st.mediaPlaylist.MediaSegments[countRes (pre ++ d :: mid)]? = some seg) :
    ∃ br tag, lineTag S d = some tag ∧ seg.ByteRange = some br ∧
      (byteRanges none (byteRangeValues S (pre ++ [d]))).getLast? =
        some (br.Offset, br.Length) ∧
      (∀ len off, splitN2 64 tag.Value = (len, some off) →
        ParseUint off = some br.Offset ∧ ParseUint len = some br.Length) ∧
      (∀ len, splitN2 64 tag.Value = (len, none) →
        ParseUint len = some br.Length ∧
        br.Offset = rangeEnd (byteRanges none (byteRangeValues S pre)).getLast?) := by
  obtain ⟨vp, hvp, hstamp⟩ := segment_stamp handler baseURL lines st hp hmedia _ post line hl
    hres seg hseg
  have hb : seg.ByteRange = vp.byteRange := congrArg Stamp.ByteRange hstamp
  rw [scan_append] at hvp
  cases h1 : ({} : MView S).scan pre with
  | none => simp [h1] at hvp
  | some v1 =>
    rw [h1] at hvp
    simp only [Option.some_bind, MView.scan] at hvp
    cases hs : v1.step d with
    | none => simp [hs] at hvp
    | some vd =>
      rw [hs] at hvp
      simp only [] at hvp
      obtain ⟨tag, htag, hname⟩ := (isDirective_iff _ d).1 hd
      obtain ⟨br, hbr, hvd, _⟩ := (byteRange_step v1 vd d hs).2 tag htag hname
      have hframe := byteRange_frame mid vd vp hvp hmid hmidres
      have hoff : v1.byteRangeOffset =
          rangeEnd (byteRanges none (byteRangeValues S pre)).getLast? := by
        have := byteRangeOffset_scan pre ({} : MView S) v1 none h1 rfl
        simpa using this
      obtain ⟨r1, r2, r3⟩ := ParseString_rangeOf _ br _ _ hbr
      have hvals : byteRangeValues S (pre ++ [d]) = byteRangeValues S pre ++ [tag.Value] := by
        unfold byteRangeValues
        rw [List.filterMap_append]
        simp [htag, hname]
      refine ⟨br, tag, htag, by rw [hb, hframe, hvd], ?_, r2, ?_⟩
      · rw [hvals, byteRanges_snoc, List.getLast?_append]
        simp only [List.getLast?_singleton, Option.or_some, Option.or_none, Option.some.injEq]
        rw [r1, hoff]
      · intro len hlen
        obtain ⟨a, b⟩ := r3 len hlen
        exact ⟨a, by rw [b, hoff]⟩

/-- C10 at the playlist `#EXT-X-BYTERANGE:10@5`, `a.ts`, `#EXT-X-BYTERANGE:7`,
`b.ts`: the second segment has Offset 15 and Length 7. -/
theorem byte_range_offsets_witness :
    ∃ st : Scan Std.bare,
      Parse (S := Std.bare)
        ([ascii "#EXT-X-BYTERANGE:10@5", ascii "a.ts", ascii "#EXT-X-BYTERANGE:7",
          ascii "b.ts"].map ReadLine.line) [] {} = some (st, none) ∧
      st.isMaster = false ∧
      isDirective Std.bare (ascii "EXT-X-BYTERANGE") (ascii "#EXT-X-BYTERANGE:7") = true ∧
      isResourceLine (ascii "b.ts") = true ∧
      ∃ seg, st.mediaPlaylist.MediaSegments[1]? = some seg ∧
        ∃ br, seg.ByteRange = some br ∧ some (15, 7) = some (br.Offset, br.Length) := by
  refine ⟨_, rfl, rfl, by decide, by decide, _, rfl, ?_⟩
  have h := byte_range_offsets (S := Std.bare) {} []
    [ascii "#EXT-X-BYTERANGE:10@5", ascii "a.ts", ascii "#EXT-X-BYTERANGE:7", ascii "b.ts"]
    _ rfl rfl
    [ascii "#EXT-X-BYTERANGE:10@5", ascii "a.ts"] [] [] (ascii "#EXT-X-BYTERANGE:7")
    (ascii "b.ts") rfl (by decide) (by decide) (by decide) (by decide) _ rfl
  obtain ⟨br, tag, _, h2, h3, _⟩ := h
  refine ⟨br, h2, ?_⟩
  have e : (byteRanges none (byteRangeValues Std.bare
      ([ascii "#EXT-X-BYTERANGE:10@5", ascii "a.ts"] ++ [ascii "#EXT-X-BYTERANGE:7"]))).getLast? =
      some (15, 7) := by
    decide
  rw [← h3, e]

end Hls

namespace Hls
variable {S : Std}

/-! ## Values: claims C19 and C20 -/

/-- C19, counterexample: the value built by `Bytes` from the nil byte sequence
and the value built by `ResolutionValue` from the nil pointer are rejected by
the accessor of their own kind. -/
theorem nil_payload_is_wrong_type :
    (V.Bytes none : Value Std.bare).Bytes = Except.error Err.ErrWrongType ∧
    (V.ResolutionValue none : Value Std.bare).Resolution = Except.error Err.ErrWrongType :=
  ⟨rfl, rfl⟩

/-- C19, amended: a value built by one of the six constructors from an argument
that is not nil (the byte sequence may be empty) is returned by the accessor of
the same kind, and each of the five other accessors fails with ErrWrongType; on
the values built from the nil byte sequence and the nil Resolution all six
accessors fail with ErrWrongType. -/
theorem constructor_accessors (s : GoString) (n : Int64) (f : S.Float64) (bs : List Nat)
    (r : Resolution) :
    ((V.String s : Value S).String = Except.ok s ∧
      (V.String s : Value S).Enum = Except.error Err.ErrWrongType ∧
      (V.String s : Value S).Int = Except.error Err.ErrWrongType ∧
      (V.String s : Value S).Float = Except.error Err.ErrWrongType ∧
      (V.String s : Value S).Bytes = Except.error Err.ErrWrongType ∧
      (V.String s : Value S).Resolution = Except.error Err.ErrWrongType) ∧
    ((V.Enum s : Value S).Enum = Except.ok s ∧
      (V.Enum s : Value S).String = Except.error Err.ErrWrongType ∧
      (V.Enum s : Value S).Int = Except.error Err.ErrWrongType ∧
      (V.Enum s : Value S).Float = Except.error Err.ErrWrongType ∧
      (V.Enum s : Value S).Bytes = Except.error Err.ErrWrongType ∧
      (V.Enum s : Value S).Resolution = Except.error Err.ErrWrongType) ∧
    ((V.Int n : Value S).Int = Except.ok n ∧
      (V.Int n : Value S).String = Except.error Err.ErrWrongType ∧
      (V.Int n : Value S).Enum = Except.error Err.ErrWrongType ∧
      (V.Int n : Value S).Float = Except.error Err.ErrWrongType ∧
      (V.Int n : Value S).Bytes = Except.error Err.ErrWrongType ∧
      (V.Int n : Value S).Resolution = Except.error Err.ErrWrongType) ∧
    ((V.Float f : Value S).Float = Except.ok f ∧
      (V.Float f : Value S).String = Except.error Err.ErrWrongType ∧
      (V.Float f : Value S).Enum = Except.error Err.ErrWrongType ∧
      (V.Float f : Value S).Int = Except.error Err.ErrWrongType ∧
      (V.Float f : Value S).Bytes = Except.error Err.ErrWrongType ∧
      (V.Float f : Value S).Resolution = Except.error Err.ErrWrongType) ∧
    ((V.Bytes (some bs) : Value S).Bytes = Except.ok bs ∧
      (V.Bytes (some []) : Value S).Bytes = Except.ok [] ∧
      (∀ b : Option (List Nat),
        (V.Bytes b : Value S).String = Except.error Err.ErrWrongType ∧
        (V.Bytes b : Value S).Enum = Except.error Err.ErrWrongType ∧
        (V.Bytes b : Value S).Int = Except.error Err.ErrWrongType ∧
        (V.Bytes b : Value S).Float = Except.error Err.ErrWrongType ∧
        (V.Bytes b : Value S).Resolution = Except.error Err.ErrWrongType) ∧
      (V.Bytes none : Value S).Bytes = Except.error Err.ErrWrongType) ∧
    ((V.ResolutionValue (some r) : Value S).Resolution = Except.ok r ∧
      (∀ p : Option Resolution,
        (V.ResolutionValue p : Value S).String = Except.error Err.ErrWrongType ∧
        (V.ResolutionValue p : Value S).Enum = Except.error Err.ErrWrongType ∧
        (V.ResolutionValue p : Value S).Int = Except.error Err.ErrWrongType ∧
        (V.ResolutionValue p : Value S).Float = Except.error Err.ErrWrongType ∧
        (V.ResolutionValue p : Value S).Bytes = Except.error Err.ErrWrongType) ∧
      (V.ResolutionValue none : Value S).Resolution = Except.error Err.ErrWrongType) := by
  refine ⟨⟨rfl, rfl, rfl, rfl, rfl, rfl⟩, ⟨rfl, rfl, rfl, rfl, rfl, rfl⟩,
    ⟨rfl, rfl, rfl, rfl, rfl, rfl⟩, ⟨rfl, rfl, rfl, rfl, rfl, rfl⟩,
    ⟨rfl, rfl, fun b => ⟨rfl, rfl, rfl, rfl, rfl⟩, rfl⟩,
    ⟨rfl, fun p => ⟨rfl, rfl, rfl, rfl, rfl⟩, rfl⟩⟩

/-- C20: `YesNo(b).YesNo()` returns `b`; `YesNo(true)` is the Enum token `YES`
and `YesNo(false)` the Enum token `NO`, also when rendered; and `Value.YesNo`
fails with ErrWrongType on every value whose type is not Enum, on every Enum
value without a token, and on every Enum whose token is neither `YES` nor
`NO`. -/
theorem yesno_accessor (v : Value S) (t : GoString) :
    (∀ b : Bool, (V.YesNo b : Value S).YesNo = Except.ok b) ∧
    ((V.YesNo true : Value S) = V.Enum (ascii "YES") ∧
      (V.YesNo true : Value S).Format = some (ascii "YES")) ∧
    ((V.YesNo false : Value S) = V.Enum (ascii "NO") ∧
      (V.YesNo false : Value S).Format = some (ascii "NO")) ∧
    (v.Typ ≠ ValueType.EnumType → v.YesNo = Except.error Err.ErrWrongType) ∧
    (v.EnumValue = none → v.YesNo = Except.error Err.ErrWrongType) ∧
    (t ≠ ascii "YES" → t ≠ ascii "NO" →
      (V.Enum t : Value S).YesNo = Except.error Err.ErrWrongType) := by
  refine ⟨?_, ⟨rfl, rfl⟩, ⟨rfl, rfl⟩, ?_, ?_, ?_⟩
  · intro b
    cases b
    · rfl
    · rfl
  · intro h
    have he : v.Enum = Except.error Err.ErrWrongType := by
      unfold Value.Enum
      split
      · rename_i h1 _
        exact absurd h1 h
      · rfl
    unfold Value.YesNo
    rw [he]
  · intro h
    have he : v.Enum = Except.error Err.ErrWrongType := by
      unfold Value.Enum
      split
      · rename_i _ h2
        rw [h] at h2
        exact absurd h2 (by simp)
      · rfl
    unfold Value.YesNo
    rw [he]
  · intro h1 h2
    have he : (V.Enum t : Value S).Enum = Except.ok t := rfl
    unfold Value.YesNo
    rw [he]
    simp only [if_neg h1, if_neg h2]

/-- C20 at the Integer value 3 and the Enum token `MAYBE`. -/
theorem yesno_accessor_witness :
    (V.Int 3 : Value Std.bare).Typ ≠ ValueType.EnumType ∧
    (V.Int 3 : Value Std.bare).YesNo = Except.error Err.ErrWrongType ∧
    ascii "MAYBE" ≠ ascii "YES" ∧ ascii "MAYBE" ≠ ascii "NO" ∧
    (V.Enum (ascii "MAYBE") : Value Std.bare).YesNo = Except.error Err.ErrWrongType :=
  ⟨by decide,
    (yesno_accessor (S := Std.bare) (V.Int 3) (ascii "MAYBE")).2.2.2.1 (by decide),
    by decide, by decide,
    (yesno_accessor (S := Std.bare) (V.Int 3) (ascii "MAYBE")).2.2.2.2.2 (by decide) (by decide)⟩

end Hls

namespace Hls
variable {S : Std}

/-! ## The list operation `Set`: claims C17 and C18 -/

/-- C17, evaluation: on the list holding `A=1`, `Set("B", Int(2))` appends the
attribute `B=2` to the sequence but stores the one-element list holding the nil
pointer under `B`, so `Get("B")` is `[nil]` and `GetFirst("B")` and
`GetLast("B")` are nil; and on the empty list, whose map is nil, `Set` panics. -/
theorem set_absent_name_stores_nil :
    ((({} : AttributeList Std.bare).Append { toValue := V.Int 1, Name := ascii "A" }).Set
        (ascii "B") (V.Int 2)).map
      (fun L => (L.ListAttrs.map (fun a => (a.Name, a.IntegerValue)), L.Get (ascii "B"),
        L.GetFirst (ascii "B"), L.GetLast (ascii "B"))) =
      some ([(ascii "A", some 1), (ascii "B", some 2)], [none], none, none) ∧
    (({} : AttributeList Std.bare).Set (ascii "B") (V.Int 2)).isNone = true := by
  constructor
  · decide
  · rfl

/-- C18, evaluation: after `Append(A=1)`, `Set("B", Int(2))`, `Append(B=3)` the
sequence holds two attributes named `B`, with the values 2 and 3, while
`Get("B")` is the nil pointer followed by the pointer to `B=3`: the index is not
the subsequence of the attributes named `B`, and `GetFirst("B")` is nil. -/
theorem set_breaks_index_consistency :
    ((({} : AttributeList Std.bare).Append { toValue := V.Int 1, Name := ascii "A" }).Set
        (ascii "B") (V.Int 2)).map
      (fun L0 =>
        let L := L0.Append { toValue := V.Int 3, Name := ascii "B" }
        ((L.ListAttrs.filter (fun a => a.Name = ascii "B")).map (fun a => a.IntegerValue),
          (L.Get (ascii "B")).map (fun p => p.map (fun i => (L.deref i).IntegerValue)),
          L.GetFirst (ascii "B"))) =
      some ([some 2, some 3], [none, some (some 3)], none) := by
  decide

end Hls

namespace Hls
variable {S : Std}

/-! ## Every scan returns -/

theorem ParseAttributeList_isSome (l : GoString) : (ParseAttributeList S l).isSome = true := by
  rw [ParseAttributeList_eq]
  have h := (attrLoop_fuel l (attrMeasure l ({} : PState S)) (attrMeasure l ({} : PState S))
    ({} : PState S) (Nat.le_refl _) (Nat.le_refl _)).2
  unfold attrRun
  cases hr : attrLoop l (attrMeasure l ({} : PState S)) ({} : PState S) with
  | none => rw [hr] at h; simp at h
  | some σ => rfl

theorem Tag_ParseAttributeList_isSome (tag : Tag S) : tag.ParseAttributeList.isSome = true := by
  unfold Tag.ParseAttributeList
  cases tag.AttributeList with
  | some attrs => rfl
  | none =>
    simp only []
    have h := ParseAttributeList_isSome (S := S) tag.Value
    cases hr : ParseAttributeList S tag.Value with
    | none => rw [hr] at h; simp at h
    | some p => rfl

theorem parseTagWith_isSome {α : Type} (name : GoString) (tag : Tag S)
    (decode : Tag S → AttributeList S → Except Err α) :
    (parseTagWith name tag decode).isSome = true := by
  unfold parseTagWith
  by_cases h : tag.Name ≠ name
  · rw [if_pos h]; rfl
  · rw [if_neg h]
    have h1 := Tag_ParseAttributeList_isSome tag
    cases hr : tag.ParseAttributeList with
    | none => rw [hr] at h1; simp at h1
    | some p =>
      obtain ⟨t, a, e⟩ := p
      cases e <;> rfl

theorem ensureMaster_cases (st st' : Scan S) (e : Option Err)
    (body : Scan S → Option (Scan S × Option Err)) (h : ensureMaster st body = some (st', e)) :
    (st.isMedia = true ∧ st' = st ∧ e = some Err.ErrFormat) ∨
    (st.isMedia = false ∧ body { st with isMaster := true } = some (st', e)) := by
  unfold ensureMaster ensurePlaylist at h
  cases hM : st.isMedia
  · right
    simp only [hM] at h
    exact ⟨rfl, h⟩
  · left
    simp only [hM] at h
    simp only [Bool.not_true, Bool.not_false, if_true, Option.some.injEq, Prod.mk.injEq] at h
    exact ⟨rfl, h.1.symm, h.2.symm⟩

theorem ensureMedia_cases (st st' : Scan S) (e : Option Err)
    (body : Scan S → Scan S × Option Err) (h : ensureMedia st body = (st', e)) :
    (st.isMaster = true ∧ st' = st ∧ e = some Err.ErrFormat) ∨
    (st.isMaster = false ∧ body { st with isMedia := true } = (st', e)) := by
  unfold ensureMedia ensurePlaylist at h
  cases hM : st.isMaster
  · right
    simp only [hM] at h
    exact ⟨rfl, h⟩
  · left
    simp only [hM] at h
    simp only [Bool.not_true, Bool.not_false, if_true, Prod.mk.injEq] at h
    exact ⟨rfl, h.1.symm, h.2.symm⟩

end Hls

namespace Hls
variable {S : Std}

/-! ## What one directive does to the kind flags, the stop flag and the trace -/

theorem dispatchTag_facts (handler : ParserHandler S) (st st' : Scan S) (tag : Tag S)
    (e : Option Err) (hp : dispatchTag handler st tag = some (st', e)) :
    st'.lineNum = st.lineNum ∧
    (∃ cs, st'.calls = st.calls ++ cs ∧ ∀ c ∈ cs, Call.isTerminal c = false) ∧
    (handler.NeverStops → st.stop = false → st'.stop = false) ∧
    (tag.Name ∈ masterNames →
      (st.isMedia = true → e = some Err.ErrFormat) ∧
      (e = none → st.isMedia = false ∧ st'.isMaster = true ∧ st'.isMedia = false)) ∧
    (tag.Name ∈ mediaNames →
      (st.isMaster = true → e = some Err.ErrFormat) ∧
      (e = none → st.isMaster = false ∧ st'.isMedia = true ∧ st'.isMaster = false)) ∧
    (tag.Name ∉ masterNames → tag.Name ∉ mediaNames →
      st'.isMaster = st.isMaster ∧ st'.isMedia = st.isMedia) := by
  simp only [dispatchTag] at hp
  by_cases h1 : tag.Name = ascii "EXT-X-VERSION"
  rotate_left
  rw [if_neg h1] at hp
  by_cases h2 : tag.Name = ascii "EXT-X-STREAM-INF"
  rotate_left
  rw [if_neg h2] at hp
  by_cases h3 : tag.Name = ascii "EXT-X-I-FRAME-STREAM-INF"
  rotate_left
  rw [if_neg h3] at hp
  by_cases h4 : tag.Name = ascii "EXT-X-MEDIA"
  rotate_left
  rw [if_neg h4] at hp
  by_cases h5 : tag.Name = ascii "EXT-X-MEDIA-SEQUENCE"
  rotate_left
  rw [if_neg h5] at hp
  by_cases h6 : tag.Name = ascii "EXT-X-DISCONTINUITY-SEQUENCE"
  rotate_left
  rw [if_neg h6] at hp
  by_cases h7 : tag.Name = ascii "EXTINF"
  rotate_left
  rw [if_neg h7] at hp
  by_cases h8 : tag.Name = ascii "EXT-X-BYTERANGE"
  rotate_left
  rw [if_neg h8] at hp
  by_cases h9 : tag.Name = ascii "EXT-X-DISCONTINUITY"
  rotate_left
  rw [if_neg h9] at hp
  by_cases h10 : tag.Name = ascii "EXT-X-GAP"
  rotate_left
  rw [if_neg h10] at hp
  by_cases h11 : tag.Name = ascii "EXT-X-MAP"
  rotate_left
  rw [if_neg h11] at hp
  by_cases h12 : tag.Name = ascii "EXT-X-KEY"
  rotate_left
  rw [if_neg h12] at hp
  · -- any other name
    simp only [Option.some.injEq, Prod.mk.injEq] at hp
    obtain ⟨rfl, rfl⟩ := hp
    simp +decide [Scan.addLine, masterNames, mediaNames, h2, h3, h4, h5, h6, h7, h8, h9, h10]
  · -- EXT-X-VERSION
    rw [if_pos h1] at hp
    split at hp
    · simp only [Option.some.injEq, Prod.mk.injEq] at hp
      obtain ⟨rfl, rfl⟩ := hp
      simp +decide [Scan.addLine, masterNames, mediaNames, h1]
    · simp only [Option.some.injEq, Prod.mk.injEq] at hp
      obtain ⟨rfl, rfl⟩ := hp
      simp +decide [Scan.addLine, masterNames, mediaNames, h1]
  · -- EXT-X-STREAM-INF
    rw [if_pos h2] at hp
    rcases ensureMaster_cases _ _ _ _ hp with ⟨hM, rfl, rfl⟩ | ⟨hM, hb⟩
    · have hM' : st.isMedia = true := by simpa [Scan.addLine] using hM
      simp +decide [Scan.addLine, masterNames, mediaNames, h2, hM']
    · have hM' : st.isMedia = false := by simpa [Scan.addLine] using hM
      simp only [] at hb
      split at hb
      · simp at hb
      · simp only [Option.some.injEq, Prod.mk.injEq] at hb
        obtain ⟨rfl, rfl⟩ := hb
        simp +decide [Scan.addLine, masterNames, mediaNames, h2, hM']
      · simp only [Option.some.injEq, Prod.mk.injEq] at hb
        obtain ⟨rfl, rfl⟩ := hb
        simp +decide [Scan.addLine, masterNames, mediaNames, h2, hM']
  · -- EXT-X-I-FRAME-STREAM-INF
    rw [if_pos h3] at hp
    rcases ensureMaster_cases _ _ _ _ hp with ⟨hM, rfl, rfl⟩ | ⟨hM, hb⟩
    · have hM' : st.isMedia = true := by simpa [Scan.addLine] using hM
      simp +decide [Scan.addLine, masterNames, mediaNames, h3, hM']
    · have hM' : st.isMedia = false := by simpa [Scan.addLine] using hM
      simp only [] at hb
      split at hb
      · simp at hb
      · simp only [Option.some.injEq, Prod.mk.injEq] at hb
        obtain ⟨rfl, rfl⟩ := hb
        simp +decide [Scan.addLine, masterNames, mediaNames, h3, hM']
      · simp only [Option.some.injEq, Prod.mk.injEq] at hb
        obtain ⟨rfl, rfl⟩ := hb
        cases hh : handler.HandleIframeStream with
        | none => simp +decide [Scan.addLine, masterNames, mediaNames, h3, hM']
        | some f =>
          refine ⟨rfl, ⟨_, rfl, ?_⟩, ?_, ?_, ?_, ?_⟩
          · intro c hc
            simp only [List.mem_singleton] at hc
            subst hc
            rfl
          · intro hns _
            show (!(f _ _)) = false
            rw [hns.2.2 f hh]
            rfl
          · simp +decide [Scan.addLine, masterNames, mediaNames, h3, hM']
          · simp +decide [Scan.addLine, masterNames, mediaNames, h3, hM']
          · intro hc
            exact absurd (by rw [h3]; decide) hc
  · -- EXT-X-MEDIA
    rw [if_pos h4] at hp
    rcases ensureMaster_cases _ _ _ _ hp with ⟨hM, rfl, rfl⟩ | ⟨hM, hb⟩
    · have hM' : st.isMedia = true := by simpa [Scan.addLine] using hM
      simp +decide [Scan.addLine, masterNames, mediaNames, h4, hM']
    · have hM' : st.isMedia = false := by simpa [Scan.addLine] using hM
      split at hb
      · simp at hb
      · simp only [Option.some.injEq, Prod.mk.injEq] at hb
        obtain ⟨rfl, rfl⟩ := hb
        simp +decide [Scan.addLine, masterNames, mediaNames, h4, hM']
      · simp only [Option.some.injEq, Prod.mk.injEq] at hb
        obtain ⟨rfl, rfl⟩ := hb
        simp +decide [Scan.addLine, masterNames, mediaNames, h4, hM']
  · -- EXT-X-MEDIA-SEQUENCE
    rw [if_pos h5] at hp
    simp only [Option.some.injEq] at hp
    rcases ensureMedia_cases _ _ _ _ hp with ⟨hM, rfl, rfl⟩ | ⟨hM, hb⟩
    · have hM' : st.isMaster = true := by simpa [Scan.addLine] using hM
      simp +decide [Scan.addLine, masterNames, mediaNames, h5, hM']
    · have hM' : st.isMaster = false := by simpa [Scan.addLine] using hM
      split at hb
      · simp only [Prod.mk.injEq] at hb
        obtain ⟨rfl, rfl⟩ := hb
        simp +decide [Scan.addLine, masterNames, mediaNames, h5, hM']
      · simp only [Prod.mk.injEq] at hb
        obtain ⟨rfl, rfl⟩ := hb
        simp +decide [Scan.addLine, masterNames, mediaNames, h5, hM']
  · -- EXT-X-DISCONTINUITY-SEQUENCE
    rw [if_pos h6] at hp
    simp only [Option.some.injEq] at hp
    rcases ensureMedia_cases _ _ _ _ hp with ⟨hM, rfl, rfl⟩ | ⟨hM, hb⟩
    · have hM' : st.isMaster = true := by simpa [Scan.addLine] using hM
      simp +decide [Scan.addLine, masterNames, mediaNames, h6, hM']
    · have hM' : st.isMaster = false := by simpa [Scan.addLine] using hM
      split at hb
      · simp only [Prod.mk.injEq] at hb
        obtain ⟨rfl, rfl⟩ := hb
        simp +decide [Scan.addLine, masterNames, mediaNames, h6, hM']
      · simp only [Prod.mk.injEq] at hb
        obtain ⟨rfl, rfl⟩ := hb
        simp +decide [Scan.addLine, masterNames, mediaNames, h6, hM']
  · -- EXTINF
    rw [if_pos h7] at hp
    simp only [Option.some.injEq] at hp
    rcases ensureMedia_cases _ _ _ _ hp with ⟨hM, rfl, rfl⟩ | ⟨hM, hb⟩
    · have hM' : st.isMaster = true := by simpa [Scan.addLine] using hM
      simp +decide [Scan.addLine, masterNames, mediaNames, h7, hM']
    · have hM' : st.isMaster = false := by simpa [Scan.addLine] using hM
      split at hb
      · simp only [Prod.mk.injEq] at hb
        obtain ⟨rfl, rfl⟩ := hb
        simp +decide [Scan.addLine, masterNames, mediaNames, h7, hM']
      · simp only [Prod.mk.injEq] at hb
        obtain ⟨rfl, rfl⟩ := hb
        simp +decide [Scan.addLine, masterNames, mediaNames, h7, hM']
  · -- EXT-X-BYTERANGE
    rw [if_pos h8] at hp
    simp only [Option.some.injEq] at hp
    rcases ensureMedia_cases _ _ _ _ hp with ⟨hM, rfl, rfl⟩ | ⟨hM, hb⟩
    · have hM' : st.isMaster = true := by simpa [Scan.addLine] using hM
      simp +decide [Scan.addLine, masterNames, mediaNames, h8, hM']
    · have hM' : st.isMaster = false := by simpa [Scan.addLine] using hM
      split at hb
      · simp only [Prod.mk.injEq] at hb
        obtain ⟨rfl, rfl⟩ := hb
        simp +decide [Scan.addLine, masterNames, mediaNames, h8, hM']
      · simp only [Prod.mk.injEq] at hb
        obtain ⟨rfl, rfl⟩ := hb
        simp +decide [Scan.addLine, masterNames, mediaNames, h8, hM']
  · -- EXT-X-DISCONTINUITY
    rw [if_pos h9] at hp
    simp only [Option.some.injEq] at hp
    rcases ensureMedia_cases _ _ _ _ hp with ⟨hM, rfl, rfl⟩ | ⟨hM, hb⟩
    · have hM' : st.isMaster = true := by simpa [Scan.addLine] using hM
      simp +decide [Scan.addLine, masterNames, mediaNames, h9, hM']
    · have hM' : st.isMaster = false := by simpa [Scan.addLine] using hM
      simp only [Prod.mk.injEq] at hb
      obtain ⟨rfl, rfl⟩ := hb
      simp +decide [Scan.addLine, masterNames, mediaNames, h9, hM']
  · -- EXT-X-GAP
    rw [if_pos h10] at hp
    simp only [Option.some.injEq] at hp
    rcases ensureMedia_cases _ _ _ _ hp with ⟨hM, rfl, rfl⟩ | ⟨hM, hb⟩
    · have hM' : st.isMaster = true := by simpa [Scan.addLine] using hM
      simp +decide [Scan.addLine, masterNames, mediaNames, h10, hM']
    · have hM' : st.isMaster = false := by simpa [Scan.addLine] using hM
      simp only [Prod.mk.injEq] at hb
      obtain ⟨rfl, rfl⟩ := hb
      simp +decide [Scan.addLine, masterNames, mediaNames, h10, hM']
  · -- EXT-X-MAP
    rw [if_pos h11] at hp
    split at hp
    · simp at hp
    · simp only [Option.some.injEq, Prod.mk.injEq] at hp
      obtain ⟨rfl, rfl⟩ := hp
      simp +decide [Scan.addLine, masterNames, mediaNames, h11]
    · simp only [Option.some.injEq, Prod.mk.injEq] at hp
      obtain ⟨rfl, rfl⟩ := hp
      simp +decide [Scan.addLine, masterNames, mediaNames, h11]
  · -- EXT-X-KEY
    rw [if_pos h12] at hp
    split at hp
    · simp at hp
    · simp only [Option.some.injEq, Prod.mk.injEq] at hp
      obtain ⟨rfl, rfl⟩ := hp
      simp +decide [Scan.addLine, masterNames, mediaNames, h12]
    · simp only [Option.some.injEq, Prod.mk.injEq] at hp
      obtain ⟨rfl, rfl⟩ := hp
      simp +decide [Scan.addLine, masterNames, mediaNames, h12]

end Hls

namespace Hls
variable {S : Std}

theorem ensureMaster_isSome (st : Scan S) (body : Scan S → Option (Scan S × Option Err))
    (h : ∀ s, (body s).isSome = true) : (ensureMaster st body).isSome = true := by
  unfold ensureMaster
  cases ensurePlaylist (!st.isMedia) with
  | some e => rfl
  | none => exact h _

theorem VariantStream_ParseTag_isSome (s : VariantStream S) (tag : Tag S) :
    (VariantStream.ParseTag s tag).isSome = true := parseTagWith_isSome _ _ _

theorem IframeStream_ParseTag_isSome (s : IframeStream S) (tag : Tag S) :
    (IframeStream.ParseTag s tag).isSome = true := parseTagWith_isSome _ _ _

theorem Rendition_ParseTag_isSome (s : Rendition S) (tag : Tag S) :
    (Rendition.ParseTag s tag).isSome = true := parseTagWith_isSome _ _ _

theorem MediaInitMap_ParseTag_isSome (s : MediaInitMap S) (tag : Tag S) :
    (MediaInitMap.ParseTag s tag).isSome = true := parseTagWith_isSome _ _ _

theorem Key_ParseTag_isSome (s : Key S) (tag : Tag S) :
    (Key.ParseTag s tag).isSome = true := parseTagWith_isSome _ _ _

theorem dispatchTag_isSome (handler : ParserHandler S) (st : Scan S) (tag : Tag S) :
    (dispatchTag handler st tag).isSome = true := by
  simp only [dispatchTag]
  by_cases h1 : tag.Name = ascii "EXT-X-VERSION"
  · rw [if_pos h1]
    cases ParseUint tag.Value <;> rfl
  rw [if_neg h1]
  by_cases h2 : tag.Name = ascii "EXT-X-STREAM-INF"
  · rw [if_pos h2]
    apply ensureMaster_isSome
    intro s
    split
    · rename_i heq
      exact absurd heq (Option.isSome_iff_ne_none.1 (VariantStream_ParseTag_isSome _ _))
    · rfl
    · rfl
  rw [if_neg h2]
  by_cases h3 : tag.Name = ascii "EXT-X-I-FRAME-STREAM-INF"
  · rw [if_pos h3]
    apply ensureMaster_isSome
    intro s
    split
    · rename_i heq
      exact absurd heq (Option.isSome_iff_ne_none.1 (IframeStream_ParseTag_isSome _ _))
    · rfl
    · rfl
  rw [if_neg h3]
  by_cases h4 : tag.Name = ascii "EXT-X-MEDIA"
  · rw [if_pos h4]
    apply ensureMaster_isSome
    intro s
    split
    · rename_i heq
      exact absurd heq (Option.isSome_iff_ne_none.1 (Rendition_ParseTag_isSome _ _))
    · rfl
    · rfl
  rw [if_neg h4]
  by_cases h5 : tag.Name = ascii "EXT-X-MEDIA-SEQUENCE"
  · rw [if_pos h5]; rfl
  rw [if_neg h5]
  by_cases h6 : tag.Name = ascii "EXT-X-DISCONTINUITY-SEQUENCE"
  · rw [if_pos h6]; rfl
  rw [if_neg h6]
  by_cases h7 : tag.Name = ascii "EXTINF"
  · rw [if_pos h7]; rfl
  rw [if_neg h7]
  by_cases h8 : tag.Name = ascii "EXT-X-BYTERANGE"
  · rw [if_pos h8]; rfl
  rw [if_neg h8]
  by_cases h9 : tag.Name = ascii "EXT-X-DISCONTINUITY"
  · rw [if_pos h9]; rfl
  rw [if_neg h9]
  by_cases h10 : tag.Name = ascii "EXT-X-GAP"
  · rw [if_pos h10]; rfl
  rw [if_neg h10]
  by_cases h11 : tag.Name = ascii "EXT-X-MAP"
  · rw [if_pos h11]
    split
    · rename_i heq
      exact absurd heq (Option.isSome_iff_ne_none.1 (MediaInitMap_ParseTag_isSome _ _))
    · rfl
    · rfl
  rw [if_neg h11]
  by_cases h12 : tag.Name = ascii "EXT-X-KEY"
  · rw [if_pos h12]
    split
    · rename_i heq
      exact absurd heq (Option.isSome_iff_ne_none.1 (Key_ParseTag_isSome _ _))
    · rfl
    · rfl
  rw [if_neg h12]
  rfl

end Hls

namespace Hls
variable {S : Std}

theorem finishMediaSegment_facts (handler : ParserHandler S) (st : Scan S) :
    (finishMediaSegment handler st).lineNum = st.lineNum ∧
    (∃ cs, (finishMediaSegment handler st).calls = st.calls ++ cs ∧
      ∀ c ∈ cs, Call.isTerminal c = false) ∧
    (handler.NeverStops → st.stop = false → (finishMediaSegment handler st).stop = false) ∧
    (finishMediaSegment handler st).isMaster = st.isMaster ∧
    (finishMediaSegment handler st).isMedia = st.isMedia ∧
    (finishMediaSegment handler st).playlist = st.playlist := by
  unfold finishMediaSegment
  cases hh : handler.HandleMediaSegment with
  | none => exact ⟨rfl, ⟨[], by simp, by simp⟩, fun _ h => h, rfl, rfl, rfl⟩
  | some f =>
    refine ⟨rfl, ⟨_, rfl, ?_⟩, ?_, rfl, rfl, rfl⟩
    · intro c hc
      simp only [List.mem_singleton] at hc
      subst hc
      rfl
    · intro hns _
      show (!(f _ _)) = false
      rw [hns.1 f hh]
      rfl

theorem parseURLLine_facts (handler : ParserHandler S) (baseURL : S.URL) (st st' : Scan S)
    (t : GoString) (e : Option Err) (hp : parseURLLine handler baseURL st t = (st', e)) :
    st'.lineNum = st.lineNum ∧
    (∃ cs, st'.calls = st.calls ++ cs ∧ ∀ c ∈ cs, Call.isTerminal c = false) ∧
    (handler.NeverStops → st.stop = false → st'.stop = false) ∧
    (e = none →
      (st.isMaster = true → st.isMedia = false ∧ st'.isMaster = true ∧ st'.isMedia = false) ∧
      (st.isMaster = false → st'.isMaster = false ∧ st'.isMedia = true)) := by
  unfold parseURLLine at hp
  split at hp
  · simp only [Prod.mk.injEq] at hp
    obtain ⟨rfl, rfl⟩ := hp
    simp
  · rename_i ref href
    simp only [Scan.addLine] at hp
    cases hM : st.isMaster
    · simp only [hM, Bool.false_eq_true, if_false, ensurePlaylist, Bool.not_false,
        Bool.not_true] at hp
      simp only [Prod.mk.injEq] at hp
      obtain ⟨rfl, rfl⟩ := hp
      refine ⟨(finishMediaSegment_facts handler _).1, (finishMediaSegment_facts handler _).2.1,
        ?_, fun _ => ⟨fun hc => absurd hc (by simp), fun _ => ⟨?_, ?_⟩⟩⟩
      · intro hns hs
        exact (finishMediaSegment_facts handler _).2.2.1 hns hs
      · first
          | exact (finishMediaSegment_facts handler _).2.2.2.1.trans hM
          | exact (finishMediaSegment_facts handler _).2.2.2.1
      · exact (finishMediaSegment_facts handler _).2.2.2.2.1
    · simp only [hM, if_true, ensurePlaylist] at hp
      cases hMe : st.isMedia
      · simp only [hMe, Bool.not_false, Bool.not_true, Bool.false_eq_true, if_false,
          Prod.mk.injEq] at hp
        obtain ⟨rfl, rfl⟩ := hp
        cases hh : handler.HandleVariantStream with
        | none => simp [hM, hMe]
        | some f =>
          refine ⟨rfl, ⟨_, rfl, ?_⟩, ?_, ?_⟩
          · intro c hc
            simp only [List.mem_singleton] at hc
            subst hc
            rfl
          · intro hns _
            show (!(f _ _)) = false
            rw [hns.2.1 f hh]
            rfl
          · intro _
            exact ⟨fun _ => ⟨rfl, rfl, rfl⟩, fun hc => absurd hc (by simp)⟩
      · simp only [hMe, Bool.not_true, Bool.not_false, if_true, Prod.mk.injEq] at hp
        obtain ⟨rfl, rfl⟩ := hp
        simp

end Hls

namespace Hls
variable {S : Std}

/-- What one line does to the kind flags, the stop flag and the trace. -/
theorem parseLine_facts (handler : ParserHandler S) (baseURL : S.URL) (st st' : Scan S)
    (l : GoString) (e : Option Err) (hp : parseLine handler baseURL st l = some (st', e)) :
    st'.lineNum = st.lineNum ∧
    (∃ cs, st'.calls = st.calls ++ cs ∧ ∀ c ∈ cs, Call.isTerminal c = false) ∧
    (handler.NeverStops → st.stop = false → st'.stop = false) ∧
    (e = none →
      (st.isMaster = true → st'.isMaster = true) ∧ (st.isMedia = true → st'.isMedia = true) ∧
      (¬ (st.isMaster = true ∧ st.isMedia = true) →
        ¬ (st'.isMaster = true ∧ st'.isMedia = true))) ∧
    (∀ tag, lineTag S l = some tag → tag.Name ∈ masterNames →
      (st.isMedia = true → e = some Err.ErrFormat) ∧ (e = none → st'.isMaster = true)) ∧
    (∀ tag, lineTag S l = some tag → tag.Name ∈ mediaNames →
      (st.isMaster = true → e = some Err.ErrFormat) ∧ (e = none → st'.isMedia = true)) ∧
    (isResourceLine l = false →
      (∀ tag, lineTag S l = some tag → tag.Name ∉ masterNames ∧ tag.Name ∉ mediaNames) →
      st'.isMaster = st.isMaster ∧ st'.isMedia = st.isMedia) := by
  unfold parseLine at hp
  unfold lineTag isResourceLine
  by_cases h0 : (trimLeftSpaceTab l).length = 0
  · rw [if_pos h0] at hp
    simp only [Option.some.injEq, Prod.mk.injEq] at hp
    obtain ⟨rfl, rfl⟩ := hp
    simp [h0, Scan.addLine]
  · rw [if_neg h0] at hp
    by_cases h1 : (trimLeftSpaceTab l).head? ≠ some 35
    · rw [if_pos h1] at hp
      simp only [Option.some.injEq] at hp
      obtain ⟨f1, f2, f3, f4⟩ := parseURLLine_facts handler baseURL st st' _ e hp
      refine ⟨f1, f2, f3, ?_, ?_, ?_, ?_⟩
      · intro he
        obtain ⟨g1, g2⟩ := f4 he
        cases hM : st.isMaster
        · obtain ⟨a, b⟩ := g2 hM
          simp [a, b]
        · obtain ⟨a, b, c⟩ := g1 hM
          simp [a, b, c]
      · simp [h0, h1]
      · simp [h0, h1]
      · simp [h0, h1]
    · rw [if_neg h1] at hp
      obtain ⟨f1, f2, f3, f4, f5, f6⟩ := dispatchTag_facts handler st st' _ e hp
      simp only [h0, h1, if_false]
      refine ⟨f1, f2, f3, ?_, ?_, ?_, ?_⟩
      · intro he
        by_cases ha : (tagOfLine S (trimLeftSpaceTab l)).Name ∈ masterNames
        · obtain ⟨a, b, c⟩ := (f4 ha).2 he
          simp [a, b, c]
        · by_cases hb : (tagOfLine S (trimLeftSpaceTab l)).Name ∈ mediaNames
          · obtain ⟨a, b, c⟩ := (f5 hb).2 he
            simp [a, b, c]
          · obtain ⟨a, b⟩ := f6 ha hb
            rw [a, b]
            exact ⟨id, id, id⟩
      · intro tag htag hn
        simp only [Option.some.injEq] at htag
        subst htag
        exact ⟨(f4 hn).1, fun he => ((f4 hn).2 he).2.1⟩
      · intro tag htag hn
        simp only [Option.some.injEq] at htag
        subst htag
        exact ⟨(f5 hn).1, fun he => ((f5 hn).2 he).2.1⟩
      · intro _ hall
        obtain ⟨a, b⟩ := hall _ rfl
        exact f6 a b

theorem parseLine_isSome (handler : ParserHandler S) (baseURL : S.URL) (st : Scan S)
    (l : GoString) : (parseLine handler baseURL st l).isSome = true := by
  unfold parseLine
  simp only []
  split
  · rfl
  · split
    · rfl
    · exact dispatchTag_isSome _ _ _

theorem parseLoop_isSome (handler : ParserHandler S) (baseURL : S.URL) :
    ∀ (input : List ReadLine) (st : Scan S),
      (parseLoop handler baseURL input st).isSome = true := by
  intro input
  induction input with
  | nil =>
    intro st
    unfold parseLoop
    split <;> rfl
  | cons r rest ih =>
    intro st
    unfold parseLoop
    by_cases hs : st.stop = true
    · rw [if_pos hs]; rfl
    · rw [if_neg hs]
      cases r with
      | tooLong b => rfl
      | fail => rfl
      | line lineBytes =>
        simp only []
        have h := parseLine_isSome handler baseURL { st with lineNum := st.lineNum + 1 } lineBytes
        cases hr : parseLine handler baseURL { st with lineNum := st.lineNum + 1 } lineBytes with
        | none => rw [hr] at h; simp at h
        | some p =>
          obtain ⟨st2, e⟩ := p
          cases e with
          | some e => rfl
          | none => exact ih st2

theorem Parse_isSome (input : List ReadLine) (baseURL : S.URL) (handler : ParserHandler S) :
    (Parse input baseURL handler).isSome = true := by
  unfold Parse
  have h := parseLoop_isSome handler baseURL input ({} : Scan S)
  cases hr : parseLoop handler baseURL input ({} : Scan S) with
  | none => rw [hr] at h; simp at h
  | some p =>
    obtain ⟨st, e⟩ := p
    cases e with
    | some e => rfl
    | none =>
      simp only []
      split
      · split <;> rfl
      · split
        · split <;> rfl
        · rfl

end Hls

namespace Hls
variable {S : Std}

/-- What the loop of `Parse` does to the kind flags, the stop flag and the
trace. -/
theorem parseLoop_facts (handler : ParserHandler S) (baseURL : S.URL) :
    ∀ (input : List ReadLine) (st st' : Scan S) (e : Option Err),
      parseLoop handler baseURL input st = some (st', e) →
      (∃ cs, st'.calls = st.calls ++ cs ∧ ∀ c ∈ cs, Call.isTerminal c = false) ∧
      (handler.NeverStops → st.stop = false → st'.stop = false) ∧
      (e = none →
        (st.isMaster = true → st'.isMaster = true) ∧ (st.isMedia = true → st'.isMedia = true) ∧
        (¬ (st.isMaster = true ∧ st.isMedia = true) →
          ¬ (st'.isMaster = true ∧ st'.isMedia = true))) ∧
      (e = none → st'.stop = false → ∀ l, ReadLine.line l ∈ input → ∀ tag,
        lineTag S l = some tag →
        (tag.Name ∈ masterNames → st'.isMaster = true) ∧
        (tag.Name ∈ mediaNames → st'.isMedia = true)) ∧
      ((∀ l, ReadLine.line l ∈ input → isResourceLine l = false ∧
          ∀ tag, lineTag S l = some tag → tag.Name ∉ masterNames ∧ tag.Name ∉ mediaNames) →
        st'.isMaster = st.isMaster ∧ st'.isMedia = st.isMedia) := by
  intro input
  induction input with
  | nil =>
    intro st st' e hp
    unfold parseLoop at hp
    split at hp
    · simp only [Option.some.injEq, Prod.mk.injEq] at hp
      obtain ⟨rfl, rfl⟩ := hp
      simp
    · simp only [Option.some.injEq, Prod.mk.injEq] at hp
      obtain ⟨rfl, rfl⟩ := hp
      simp
  | cons r rest ih =>
    intro st st' e hp
    unfold parseLoop at hp
    by_cases hs : st.stop = true
    · rw [if_pos hs] at hp
      simp only [Option.some.injEq, Prod.mk.injEq] at hp
      obtain ⟨rfl, rfl⟩ := hp
      refine ⟨⟨[], by simp, by simp⟩, fun _ h => h, fun _ => ⟨id, id, id⟩, ?_, fun _ => ⟨rfl, rfl⟩⟩
      intro _ hc
      rw [hs] at hc
      exact absurd hc (by simp)
    · rw [if_neg hs] at hp
      cases r with
      | tooLong b =>
        simp only [Option.some.injEq, Prod.mk.injEq] at hp
        obtain ⟨rfl, rfl⟩ := hp
        simp
      | fail =>
        simp only [Option.some.injEq, Prod.mk.injEq] at hp
        obtain ⟨rfl, rfl⟩ := hp
        simp
      | line lineBytes =>
        simp only [] at hp
        cases hr : parseLine handler baseURL { st with lineNum := st.lineNum + 1 } lineBytes with
        | none => rw [hr] at hp; simp at hp
        | some p =>
          obtain ⟨st2, e2⟩ := p
          rw [hr] at hp
          obtain ⟨_, ⟨cs1, hc1, hn1⟩, p3, p4, p5, p6, p7⟩ :=
            parseLine_facts handler baseURL _ st2 lineBytes e2 hr
          cases e2 with
          | some e2 =>
            simp only [Option.some.injEq, Prod.mk.injEq] at hp
            obtain ⟨rfl, rfl⟩ := hp
            refine ⟨⟨cs1, hc1, hn1⟩, p3, fun hc => absurd hc (by simp),
              fun hc => absurd hc (by simp), ?_⟩
            intro hall
            obtain ⟨a, b⟩ := hall lineBytes (List.mem_cons_self _ _)
            exact p7 a b
          | none =>
            simp only [] at hp
            obtain ⟨⟨cs2, hc2, hn2⟩, q2, q3, q4, q5⟩ := ih st2 st' e hp
            refine ⟨⟨cs1 ++ cs2, ?_, ?_⟩, fun hns h => q2 hns (p3 hns h), ?_, ?_, ?_⟩
            · rw [hc2, hc1, List.append_assoc]
            · intro c hc
              rcases List.mem_append.1 hc with hc | hc
              · exact hn1 c hc
              · exact hn2 c hc
            · intro he
              obtain ⟨a1, a2, a3⟩ := p4 rfl
              obtain ⟨b1, b2, b3⟩ := q3 he
              exact ⟨fun h => b1 (a1 h), fun h => b2 (a2 h), fun h => b3 (a3 h)⟩
            · intro he hst l hl tag htag
              obtain ⟨b1, b2, _⟩ := q3 he
              rcases List.mem_cons.1 hl with hl | hl
              · simp only [ReadLine.line.injEq] at hl
                subst hl
                exact ⟨fun hn => b1 ((p5 tag htag hn).2 rfl), fun hn => b2 ((p6 tag htag hn).2 rfl)⟩
              · exact q4 he hst l hl tag htag
            · intro hall
              obtain ⟨a, b⟩ := hall lineBytes (List.mem_cons_self _ _)
              obtain ⟨c1, c2⟩ := p7 a b
              obtain ⟨d1, d2⟩ := q5 (fun l hl => hall l (List.mem_cons_of_mem _ hl))
              exact ⟨d1.trans c1, d2.trans c2⟩

theorem filter_isTerminal_nil (cs : List (Call S)) (h : ∀ c ∈ cs, Call.isTerminal c = false) :
    cs.filter Call.isTerminal = [] := by
  rw [List.filter_eq_nil_iff]
  intro c hc
  rw [h c hc]
  simp

end Hls

namespace Hls
variable {S : Std}

theorem parseLoop_cons (handler : ParserHandler S) (baseURL : S.URL) (r : ReadLine)
    (rest : List ReadLine) (st : Scan S) :
    parseLoop handler baseURL (r :: rest) st =
      if st.stop then some (st, none)
      else
        match r with
        | ReadLine.tooLong _ => some ({ st with lineNum := st.lineNum + 1 }, some Err.ErrPlain)
        | ReadLine.fail => some ({ st with lineNum := st.lineNum + 1 }, some Err.ErrRead)
        | ReadLine.line lineBytes =>
          match parseLine handler baseURL { st with lineNum := st.lineNum + 1 } lineBytes with
          | none => none
          | some (st2, some e) => some (st2, some e)
          | some (st2, none) => parseLoop handler baseURL rest st2 := by
  rw [parseLoop]

theorem parseLoop_append (handler : ParserHandler S) (baseURL : S.URL) :
    ∀ (pre rest : List ReadLine) (st st1 : Scan S),
      parseLoop handler baseURL pre st = some (st1, none) → st1.stop = false →
      parseLoop handler baseURL (pre ++ rest) st =
        parseLoop handler baseURL rest { st1 with lineNum := st1.lineNum - 1 } := by
  intro pre
  induction pre with
  | nil =>
    intro rest st st1 hp hs
    unfold parseLoop at hp
    split at hp
    · rename_i hst
      simp only [Option.some.injEq, Prod.mk.injEq, and_true] at hp
      subst hp
      rw [hs] at hst
      exact absurd hst (by simp)
    · simp only [Option.some.injEq, Prod.mk.injEq, and_true] at hp
      subst hp
      simp
  | cons r pre ih =>
    intro rest st st1 hp hs
    rw [List.cons_append, parseLoop_cons]
    rw [parseLoop_cons] at hp
    by_cases hst : st.stop = true
    · rw [if_pos hst] at hp
      simp only [Option.some.injEq, Prod.mk.injEq, and_true] at hp
      subst hp
      rw [hs] at hst
      exact absurd hst (by simp)
    · rw [if_neg hst] at hp ⊢
      cases r with
      | tooLong b => simp at hp
      | fail => simp at hp
      | line lineBytes =>
        simp only [] at hp ⊢
        cases hr : parseLine handler baseURL { st with lineNum := st.lineNum + 1 } lineBytes with
        | none => rw [hr] at hp; simp at hp
        | some p =>
          obtain ⟨st2, e2⟩ := p
          rw [hr] at hp
          cases e2 with
          | some e2 => simp at hp
          | none =>
            simp only [] at hp ⊢
            exact ih rest st2 st1 hp hs

/-! ## Terminal callbacks and the playlist kind: claims C11, C13 and C14 -/

/-- C14, counterexample: with a handler that has no callbacks set, the input
`a.ts` scans without error and no callback at all has been invoked. -/
theorem no_terminal_callback_when_unset :
    (Parse (S := Std.bare) [ReadLine.line (ascii "a.ts")] [] {}).map
      (fun r => (r.2, r.1.isMedia, r.1.calls.length)) = some (none, true, 0) := by
  decide

/-- C14, amended: `Parse` always returns. If it returns an error, no terminal
callback has been invoked. If it returns no error, exactly one of the kinds
master and media is locked, and the terminal callback of that kind, when it is
set in the handler, has been invoked exactly once, on the playlist of that kind,
and the other one not at all; when it is not set, none has been invoked. -/
theorem terminal_callbacks (input : List ReadLine) (baseURL : S.URL)
    (handler : ParserHandler S) :
    ∃ st e, Parse input baseURL handler = some (st, e) ∧
      (e ≠ none → st.calls.filter Call.isTerminal = []) ∧
      (e = none →
        (st.isMaster = true ∨ st.isMedia = true) ∧ ¬ (st.isMaster = true ∧ st.isMedia = true) ∧
        st.calls.filter Call.isTerminal =
          if st.isMaster then
            (if handler.HandleMasterPlaylist then [Call.MasterPlaylist st.master] else [])
          else (if handler.HandleMediaPlaylist then [Call.MediaPlaylist st.media] else [])) := by
  unfold Parse
  have hsome := parseLoop_isSome handler baseURL input ({} : Scan S)
  cases hr : parseLoop handler baseURL input ({} : Scan S) with
  | none => rw [hr] at hsome; simp at hsome
  | some p =>
    obtain ⟨st0, e0⟩ := p
    obtain ⟨⟨cs, hcs, hn⟩, _, f3, _, _⟩ := parseLoop_facts handler baseURL input _ st0 e0 hr
    have hcalls : st0.calls.filter Call.isTerminal = [] := by
      rw [hcs]
      simpa using filter_isTerminal_nil cs hn
    cases e0 with
    | some e0 => exact ⟨st0, some e0, rfl, fun _ => hcalls, fun hc => absurd hc (by simp)⟩
    | none =>
      have hinv : ¬ (st0.isMaster = true ∧ st0.isMedia = true) :=
        (f3 rfl).2.2 (by simp)
      simp only []
      cases hM : st0.isMaster
      · simp only [Bool.false_eq_true, if_false]
        cases hMe : st0.isMedia
        · refine ⟨st0, some Err.ErrFormat, by simp, fun _ => hcalls, fun hc => absurd hc (by simp)⟩
        · simp only [if_true]
          cases hH : handler.HandleMediaPlaylist
          · refine ⟨st0, none, by simp, fun hc => absurd rfl hc, fun _ => ?_⟩
            simp [hM, hMe, hcalls]
          · refine ⟨_, none, by simp; rfl, fun hc => absurd rfl hc, fun _ => ?_⟩
            simp [hM, hMe, hcalls, List.filter_append, Call.isTerminal, Scan.media]
      · simp only [if_true]
        have hMe : st0.isMedia = false := by
          cases hMe : st0.isMedia
          · rfl
          · exact absurd ⟨hM, hMe⟩ hinv
        cases hH : handler.HandleMasterPlaylist
        · refine ⟨st0, none, by simp, fun hc => absurd rfl hc, fun _ => ?_⟩
          simp [hM, hMe, hcalls]
        · refine ⟨_, none, by simp; rfl, fun hc => absurd rfl hc, fun _ => ?_⟩
          simp [hM, hMe, hcalls, List.filter_append, Call.isTerminal, Scan.master]

end Hls

namespace Hls
variable {S : Std}

/-- C14, amended, at the input `a.ts` with the end-of-media-playlist callback
set. -/
theorem terminal_callbacks_witness :
    ∃ st e, Parse (S := Std.bare) [ReadLine.line (ascii "a.ts")] []
        { HandleMediaPlaylist := true } = some (st, e) ∧
      (e ≠ none → st.calls.filter Call.isTerminal = []) ∧
      (e = none →
        (st.isMaster = true ∨ st.isMedia = true) ∧ ¬ (st.isMaster = true ∧ st.isMedia = true) ∧
        st.calls.filter Call.isTerminal =
          if st.isMaster then
            (if ({ HandleMediaPlaylist := true } : ParserHandler Std.bare).HandleMasterPlaylist
              then [Call.MasterPlaylist st.master] else [])
          else (if ({ HandleMediaPlaylist := true } : ParserHandler Std.bare).HandleMediaPlaylist
            then [Call.MediaPlaylist st.media] else [])) :=
  terminal_callbacks [ReadLine.line (ascii "a.ts")] [] { HandleMediaPlaylist := true }

theorem Parse_of_loop_error (input : List ReadLine) (baseURL : S.URL)
    (handler : ParserHandler S) (st0 : Scan S) (err : Err)
    (h : parseLoop handler baseURL input ({} : Scan S) = some (st0, some err)) :
    Parse input baseURL handler = some (st0, some err) := by
  unfold Parse
  rw [h]

theorem Parse_of_loop_ambiguous (input : List ReadLine) (baseURL : S.URL)
    (handler : ParserHandler S) (st0 : Scan S)
    (h : parseLoop handler baseURL input ({} : Scan S) = some (st0, none))
    (h1 : st0.isMaster = false) (h2 : st0.isMedia = false) :
    Parse input baseURL handler = some (st0, some Err.ErrFormat) := by
  unfold Parse
  rw [h]
  simp [h1, h2]

theorem locksKind_false (l : GoString) (h : locksKind S l = false) :
    isResourceLine l = false ∧
      ∀ tag, lineTag S l = some tag → tag.Name ∉ masterNames ∧ tag.Name ∉ mediaNames := by
  unfold locksKind at h
  rw [Bool.or_eq_false_iff] at h
  refine ⟨h.1, ?_⟩
  intro tag htag
  have h2 := h.2
  rw [htag] at h2
  simpa using h2

/-- C13: an input without a resource line and without any of the nine
directives that lock the playlist kind makes `Parse` return an error, and no
terminal callback is invoked; when no line fails, the error is the ErrFormat of
the ambiguous playlist. -/
theorem no_kind_is_ambiguous (input : List ReadLine) (baseURL : S.URL)
    (handler : ParserHandler S)
    (hno : ∀ l, ReadLine.line l ∈ input → locksKind S l = false) :
    ∃ st e, Parse input baseURL handler = some (st, some e) ∧
      st.calls.filter Call.isTerminal = [] ∧
      (∀ st0, parseLoop handler baseURL input ({} : Scan S) = some (st0, none) →
        e = Err.ErrFormat) := by
  have hsome := parseLoop_isSome handler baseURL input ({} : Scan S)
  cases hr : parseLoop handler baseURL input ({} : Scan S) with
  | none => rw [hr] at hsome; simp at hsome
  | some p =>
    obtain ⟨st0, e0⟩ := p
    obtain ⟨⟨cs, hcs, hn⟩, _, _, _, f5⟩ := parseLoop_facts handler baseURL input _ st0 e0 hr
    have hcalls : st0.calls.filter Call.isTerminal = [] := by
      rw [hcs]
      simpa using filter_isTerminal_nil cs hn
    obtain ⟨hM, hMe⟩ := f5 (fun l hl => locksKind_false l (hno l hl))
    cases e0 with
    | some e0 =>
      refine ⟨st0, e0, Parse_of_loop_error input baseURL handler st0 e0 hr, hcalls, ?_⟩
      intro st1 hc
      simp at hc
    | none =>
      exact ⟨st0, Err.ErrFormat,
        Parse_of_loop_ambiguous input baseURL handler st0 hr hM hMe, hcalls, fun _ _ => rfl⟩

/-- C13 at the input made of a blank line, `#EXTM3U` and `#EXT-X-VERSION:3`. -/
theorem no_kind_is_ambiguous_witness :
    ∃ st, Parse (S := Std.bare)
        [ReadLine.line (ascii " "), ReadLine.line (ascii "#EXTM3U"),
          ReadLine.line (ascii "#EXT-X-VERSION:3")] [] {} = some (st, some Err.ErrFormat) ∧
      st.calls.filter Call.isTerminal = [] := by
  have h := no_kind_is_ambiguous (S := Std.bare)
    [ReadLine.line (ascii " "), ReadLine.line (ascii "#EXTM3U"),
      ReadLine.line (ascii "#EXT-X-VERSION:3")] [] {}
    (by
      intro l hl
      simp only [List.mem_cons, ReadLine.line.injEq, List.mem_singleton, List.not_mem_nil,
        or_false] at hl
      rcases hl with rfl | rfl | rfl <;> decide)
  obtain ⟨st, e, h1, h2, h3⟩ := h
  have he : e = Err.ErrFormat := h3 _ rfl
  subst he
  exact ⟨st, h1, h2⟩

end Hls

namespace Hls
variable {S : Std}

theorem isDirective_lineTag (name l : GoString) (h : isDirective S name l = true) :
    ∃ tag, lineTag S l = some tag ∧ tag.Name = name :=
  (isDirective_iff name l).1 h

/-- C11: when an EXT-X-STREAM-INF directive line and an EXTINF directive line
both occur in the input and the callbacks never signal stop, `Parse` returns an
error and invokes no terminal callback; and when the lines before the later of
the two scan without error, the error is the ErrFormat raised for mixing the
playlist kinds. -/
theorem mixed_kinds_fail (input : List ReadLine) (baseURL : S.URL) (handler : ParserHandler S)
    (hns : handler.NeverStops)
    (h1 : ∃ l, ReadLine.line l ∈ input ∧ isDirective S (ascii "EXT-X-STREAM-INF") l = true)
    (h2 : ∃ l, ReadLine.line l ∈ input ∧ isDirective S (ascii "EXTINF") l = true) :
    (∃ st e, Parse input baseURL handler = some (st, some e) ∧
      st.calls.filter Call.isTerminal = []) ∧
    (∀ (pre post : List ReadLine) (l : GoString) (st1 : Scan S),
      input = pre ++ ReadLine.line l :: post →
      parseLoop handler baseURL pre ({} : Scan S) = some (st1, none) →
      ((isDirective S (ascii "EXTINF") l = true ∧
          ∃ l0, ReadLine.line l0 ∈ pre ∧ isDirective S (ascii "EXT-X-STREAM-INF") l0 = true) ∨
        (isDirective S (ascii "EXT-X-STREAM-INF") l = true ∧
          ∃ l0, ReadLine.line l0 ∈ pre ∧ isDirective S (ascii "EXTINF") l0 = true)) →
      ∃ st, Parse input baseURL handler = some (st, some Err.ErrFormat)) := by
  constructor
  · have hsome := parseLoop_isSome handler baseURL input ({} : Scan S)
    cases hr : parseLoop handler baseURL input ({} : Scan S) with
    | none => rw [hr] at hsome; simp at hsome
    | some p =>
      obtain ⟨st0, e0⟩ := p
      obtain ⟨⟨cs, hcs, hn⟩, f2, f3, f4, _⟩ := parseLoop_facts handler baseURL input _ st0 e0 hr
      have hcalls : st0.calls.filter Call.isTerminal = [] := by
        rw [hcs]
        simpa using filter_isTerminal_nil cs hn
      cases e0 with
      | some e0 => exact ⟨st0, e0, Parse_of_loop_error input baseURL handler st0 e0 hr, hcalls⟩
      | none =>
        exfalso
        have hstop : st0.stop = false := f2 hns rfl
        obtain ⟨l1, hl1, hd1⟩ := h1
        obtain ⟨l2, hl2, hd2⟩ := h2
        obtain ⟨t1, ht1, hn1⟩ := isDirective_lineTag _ _ hd1
        obtain ⟨t2, ht2, hn2⟩ := isDirective_lineTag _ _ hd2
        have hmaster : st0.isMaster = true :=
          (f4 rfl hstop l1 hl1 t1 ht1).1 (by rw [hn1]; decide)
        have hmedia : st0.isMedia = true :=
          (f4 rfl hstop l2 hl2 t2 ht2).2 (by rw [hn2]; decide)
        exact (f3 rfl).2.2 (by simp) ⟨hmaster, hmedia⟩
  · intro pre post l st1 hin hpre hcase
    obtain ⟨_, f2, _, f4, _⟩ := parseLoop_facts handler baseURL pre _ st1 none hpre
    have hstop : st1.stop = false := f2 hns rfl
    have happ := parseLoop_append handler baseURL pre (ReadLine.line l :: post) _ st1 hpre hstop
    rw [← hin, parseLoop_cons, if_neg (by simp [hstop])] at happ
    simp only [] at happ
    have hsome := parseLine_isSome handler baseURL
      { ({ st1 with lineNum := st1.lineNum - 1 } : Scan S) with
        lineNum := st1.lineNum - 1 + 1 } l
    cases hr : parseLine handler baseURL
      { ({ st1 with lineNum := st1.lineNum - 1 } : Scan S) with
        lineNum := st1.lineNum - 1 + 1 } l with
    | none => rw [hr] at hsome; simp at hsome
    | some p =>
      obtain ⟨st2, e2⟩ := p
      obtain ⟨_, _, _, _, p5, p6, _⟩ := parseLine_facts handler baseURL _ st2 l e2 hr
      have he2 : e2 = some Err.ErrFormat := by
        rcases hcase with ⟨hd, l0, hl0, hd0⟩ | ⟨hd, l0, hl0, hd0⟩
        · obtain ⟨t, ht, hn⟩ := isDirective_lineTag _ _ hd
          obtain ⟨t0, ht0, hn0⟩ := isDirective_lineTag _ _ hd0
          have hmaster : st1.isMaster = true :=
            (f4 rfl hstop l0 hl0 t0 ht0).1 (by rw [hn0]; decide)
          exact (p6 t ht (by rw [hn]; decide)).1 hmaster
        · obtain ⟨t, ht, hn⟩ := isDirective_lineTag _ _ hd
          obtain ⟨t0, ht0, hn0⟩ := isDirective_lineTag _ _ hd0
          have hmedia : st1.isMedia = true :=
            (f4 rfl hstop l0 hl0 t0 ht0).2 (by rw [hn0]; decide)
          exact (p5 t ht (by rw [hn]; decide)).1 hmedia
      subst he2
      rw [hr] at happ
      exact ⟨st2, Parse_of_loop_error input baseURL handler st2 _ happ⟩

/-- C11 at the input `#EXT-X-STREAM-INF:BANDWIDTH=1`, `#EXTINF:1,` with a
handler that has no per-entity callbacks. -/
theorem mixed_kinds_fail_witness :
    (∃ l, ReadLine.line l ∈ [ReadLine.line (ascii "#EXT-X-STREAM-INF:BANDWIDTH=1"),
        ReadLine.line (ascii "#EXTINF:1,")] ∧
      isDirective Std.bare (ascii "EXT-X-STREAM-INF") l = true) ∧
    (∃ l, ReadLine.line l ∈ [ReadLine.line (ascii "#EXT-X-STREAM-INF:BANDWIDTH=1"),
        ReadLine.line (ascii "#EXTINF:1,")] ∧
      isDirective Std.bare (ascii "EXTINF") l = true) ∧
    ∃ st, Parse (S := Std.bare) [ReadLine.line (ascii "#EXT-X-STREAM-INF:BANDWIDTH=1"),
        ReadLine.line (ascii "#EXTINF:1,")] [] {} = some (st, some Err.ErrFormat) := by
  have hns : ({} : ParserHandler Std.bare).NeverStops :=
    ⟨fun f h => (by cases h), fun f h => (by cases h), fun f h => (by cases h)⟩
  have a1 : ∃ l, ReadLine.line l ∈ [ReadLine.line (ascii "#EXT-X-STREAM-INF:BANDWIDTH=1"),
        ReadLine.line (ascii "#EXTINF:1,")] ∧
      isDirective Std.bare (ascii "EXT-X-STREAM-INF") l = true :=
    ⟨ascii "#EXT-X-STREAM-INF:BANDWIDTH=1", by simp, by decide⟩
  have a2 : ∃ l, ReadLine.line l ∈ [ReadLine.line (ascii "#EXT-X-STREAM-INF:BANDWIDTH=1"),
        ReadLine.line (ascii "#EXTINF:1,")] ∧
      isDirective Std.bare (ascii "EXTINF") l = true :=
    ⟨ascii "#EXTINF:1,", by simp, by decide⟩
  have h := mixed_kinds_fail (S := Std.bare) [ReadLine.line (ascii "#EXT-X-STREAM-INF:BANDWIDTH=1"),
    ReadLine.line (ascii "#EXTINF:1,")] [] {} hns a1 a2
  refine ⟨a1, a2, ?_⟩
  exact h.2 [ReadLine.line (ascii "#EXT-X-STREAM-INF:BANDWIDTH=1")] [] (ascii "#EXTINF:1,") _ rfl
    rfl (Or.inl ⟨by decide, ascii "#EXT-X-STREAM-INF:BANDWIDTH=1", by simp, by decide⟩)

end Hls

namespace Hls
variable {S : Std}

/-! ## The decoders commute with setting the fields they do not read -/

theorem optAttr_comm {α β : Type} (g : β → β) (attrs : AttributeList S) (name : GoString)
    (get : Value S → Except Err α) (x : β) (set : β → α → β)
    (hset : ∀ y v, set (g y) v = g (set y v)) :
    optAttr attrs name get (g x) set = (optAttr attrs name get x set).map g := by
  unfold optAttr
  cases attrs.last name with
  | none => rfl
  | some attr =>
    simp only []
    cases get attr.toValue with
    | error e => rfl
    | ok v =>
      show Except.ok (set (g x) v) = Except.ok (g (set x v))
      rw [hset]

theorem comm_step {α β γ : Type} (g : β → β) (g2 : γ → γ) (attrs : AttributeList S)
    (name : GoString) (get : Value S → Except Err α) (x : β) (set : β → α → β)
    (f : β → Except Err γ) (hset : ∀ y v, set (g y) v = g (set y v))
    (hf : ∀ k, f (g k) = (f k).map g2) :
    (optAttr attrs name get (g x) set >>= f) = (optAttr attrs name get x set >>= f).map g2 := by
  rw [optAttr_comm g attrs name get x set hset]
  cases optAttr attrs name get x set with
  | error e => rfl
  | ok v => exact hf v

theorem BaseStream_comm (a : Option (Tag S)) (x y : Option (Line S)) (b : BaseStream S)
    (attrs : AttributeList S) :
    BaseStream.ParseAttributeList { b with Tag := a, TagLine := x, URILine := y } attrs =
      (BaseStream.ParseAttributeList b attrs).map
        (fun r => { r with Tag := a, TagLine := x, URILine := y }) := by
  unfold BaseStream.ParseAttributeList
  simp only []
  cases attrs.last (ascii "BANDWIDTH") with
  | none => rfl
  | some attr =>
  simp only []
  cases attr.toValue.Uint with
  | error e => rfl
  | ok v =>
  refine comm_step (fun r : BaseStream S => { r with Tag := a, TagLine := x, URILine := y }) _
    attrs _ _ { b with Bandwidth := v } _ _ (fun _ _ => rfl) (fun k => ?_)
  refine comm_step (fun r : BaseStream S => { r with Tag := a, TagLine := x, URILine := y }) _
    attrs _ _ k _ _ (fun _ _ => rfl) (fun k => ?_)
  refine comm_step (fun r : BaseStream S => { r with Tag := a, TagLine := x, URILine := y }) _
    attrs _ _ k _ _ (fun _ _ => rfl) (fun k => ?_)
  refine comm_step (fun r : BaseStream S => { r with Tag := a, TagLine := x, URILine := y }) _
    attrs _ _ k _ _ (fun _ _ => rfl) (fun k => ?_)
  refine comm_step (fun r : BaseStream S => { r with Tag := a, TagLine := x, URILine := y }) _
    attrs _ _ k _ _ (fun _ _ => rfl) (fun k => ?_)
  refine comm_step (fun r : BaseStream S => { r with Tag := a, TagLine := x, URILine := y }) _
    attrs _ _ k _ _ (fun _ _ => rfl) (fun k => ?_)
  refine comm_step (fun r : BaseStream S => { r with Tag := a, TagLine := x, URILine := y }) _
    attrs _ _ k _ _ (fun _ _ => rfl) (fun k => ?_)
  exact optAttr_comm (fun r : BaseStream S => { r with Tag := a, TagLine := x, URILine := y })
    attrs _ _ k _ (fun _ _ => rfl)

end Hls

namespace Hls
variable {S : Std}

theorem VariantStream_comm (a : Option (Tag S)) (x y : Option (Line S)) (s : VariantStream S)
    (attrs : AttributeList S) :
    VariantStream.ParseAttributeList { s with Tag := a, TagLine := x, URILine := y } attrs =
      (VariantStream.ParseAttributeList s attrs).map
        (fun r => { r with Tag := a, TagLine := x, URILine := y }) := by
  unfold VariantStream.ParseAttributeList
  have hb := BaseStream_comm a x y s.toBaseStream attrs
  simp only [] at hb ⊢
  rw [hb]
  cases BaseStream.ParseAttributeList s.toBaseStream attrs with
  | error e => rfl
  | ok b =>
  refine comm_step (fun r : VariantStream S => { r with Tag := a, TagLine := x, URILine := y }) _
    attrs _ _ { s with toBaseStream := b } _ _ (fun _ _ => rfl) (fun k => ?_)
  refine comm_step (fun r : VariantStream S => { r with Tag := a, TagLine := x, URILine := y }) _
    attrs _ _ k _ _ (fun _ _ => rfl) (fun k => ?_)
  refine comm_step (fun r : VariantStream S => { r with Tag := a, TagLine := x, URILine := y }) _
    attrs _ _ k _ _ (fun _ _ => rfl) (fun k => ?_)
  refine comm_step (fun r : VariantStream S => { r with Tag := a, TagLine := x, URILine := y }) _
    attrs _ _ k _ _ (fun _ _ => rfl) (fun k => ?_)
  cases attrs.last (ascii "CLOSED-CAPTIONS") with
  | none => rfl
  | some attr =>
    simp only []
    cases attr.toValue.StringOrEnum with
    | error e => rfl
    | ok v =>
      by_cases hc : attr.Typ = ValueType.EnumType ∧ v = ascii "NONE"
      · simp only [bind, Except.bind, hc, and_self, if_true]
        rfl
      · simp only [bind, Except.bind, hc, if_false]
        rfl

theorem IframeStream_comm (a : Option (Tag S)) (x y : Option (Line S)) (s : IframeStream S)
    (attrs : AttributeList S) :
    IframeStream.ParseAttributeList { s with Tag := a, TagLine := x, URILine := y } attrs =
      (IframeStream.ParseAttributeList s attrs).map
        (fun r => { r with Tag := a, TagLine := x, URILine := y }) := by
  unfold IframeStream.ParseAttributeList
  have hb := BaseStream_comm a x y s.toBaseStream attrs
  simp only [] at hb ⊢
  rw [hb]
  cases BaseStream.ParseAttributeList s.toBaseStream attrs with
  | error e => rfl
  | ok b =>
  cases attrs.last (ascii "URI") with
  | none => rfl
  | some attr =>
    simp only []
    cases attr.toValue.String with
    | error e => rfl
    | ok v =>
      cases hu : S.urlParse v with
      | none => simp only [bind, Except.bind, Except.map, hu]
      | some u => simp only [bind, Except.bind, Except.map, hu]; rfl

end Hls

namespace Hls
variable {S : Std}

theorem bind_ok {α β : Type} (a : Except Err α) (f : α → Except Err β) (z : β)
    (h : (a >>= f) = Except.ok z) : ∃ y, a = Except.ok y ∧ f y = Except.ok z := by
  cases a with
  | error e => cases h
  | ok y => exact ⟨y, rfl, h⟩

theorem pure_bind_ok {α β : Type} (x : α) (f : α → Except Err β) (z : β)
    (h : (pure x >>= f) = Except.ok z) : f x = Except.ok z := h

theorem Key_tag (k0 r : Key S) (attrs : AttributeList S)
    (h : Key.ParseAttributeList k0 attrs = Except.ok r) : r.Tag = k0.Tag := by
  unfold Key.ParseAttributeList at h
  lift_lets at h
  extract_lets jp5 jp4 jp3 jp2 jp1 at h
  have h5 : ∀ k r, jp5 k = Except.ok r → r.Tag = k.Tag := by
    intro k r hk
    simp only [jp5] at hk
    split at hk
    · cases hk; rfl
    · cases hk; rfl
  have h4 : ∀ k r, jp4 k = Except.ok r → r.Tag = k.Tag := by
    intro k r hk
    simp only [jp4] at hk
    split at hk
    · exact (h5 _ _ (pure_bind_ok _ _ _ hk) :)
    · obtain ⟨v, _, hk⟩ := bind_ok _ _ _ hk
      obtain ⟨vs, _, hk⟩ := bind_ok _ _ _ hk
      exact (h5 _ _ (pure_bind_ok _ _ _ hk) :)
  have h3 : ∀ k r, jp3 k = Except.ok r → r.Tag = k.Tag := by
    intro k r hk
    simp only [jp3] at hk
    split at hk
    · exact (h4 _ _ (pure_bind_ok _ _ _ hk) :)
    · obtain ⟨v, _, hk⟩ := bind_ok _ _ _ hk
      exact (h4 _ _ (pure_bind_ok _ _ _ hk) :)
  have h2 : ∀ k r, jp2 k = Except.ok r → r.Tag = k.Tag := by
    intro k r hk
    simp only [jp2] at hk
    split at hk
    · exact (h3 _ _ (pure_bind_ok _ _ _ hk) :)
    · obtain ⟨v, _, hk⟩ := bind_ok _ _ _ hk
      exact (h3 _ _ (pure_bind_ok _ _ _ hk) :)
  have h1 : ∀ k r, jp1 k = Except.ok r → r.Tag = k.Tag := by
    intro k r hk
    simp only [jp1] at hk
    split at hk
    · exact (h2 _ _ (pure_bind_ok _ _ _ hk) :)
    · obtain ⟨v, _, hk⟩ := bind_ok _ _ _ hk
      split at hk
      · cases hk
      · exact (h2 _ _ (pure_bind_ok _ _ _ hk) :)
  split at h
  · cases h
  · obtain ⟨v, _, hk⟩ := bind_ok _ _ _ h
    split at hk
    · exact (h1 _ _ (pure_bind_ok _ _ _ hk) :)
    · cases hk

end Hls

namespace Hls
variable {S : Std}

theorem optAttr_ok {α β : Type} (attrs : AttributeList S) (name : GoString)
    (get : Value S → Except Err α) (x y : β) (set : β → α → β)
    (h : optAttr attrs name get x set = Except.ok y) : y = x ∨ ∃ v, y = set x v := by
  unfold optAttr at h
  split at h
  · cases h; exact Or.inl rfl
  · obtain ⟨v, _, hk⟩ := bind_ok _ _ _ h
    cases hk
    exact Or.inr ⟨v, rfl⟩

theorem MediaInitMap_tag (m0 r : MediaInitMap S) (attrs : AttributeList S)
    (h : MediaInitMap.ParseAttributeList m0 attrs = Except.ok r) : r.Tag = m0.Tag := by
  unfold MediaInitMap.ParseAttributeList at h
  lift_lets at h
  extract_lets jp1 at h
  have h1 : ∀ k r, jp1 k = Except.ok r → r.Tag = k.Tag := by
    intro k r hk
    simp only [jp1] at hk
    split at hk
    · cases hk; rfl
    · obtain ⟨v, _, hk⟩ := bind_ok _ _ _ hk
      obtain ⟨br, _, hk⟩ := bind_ok _ _ _ hk
      cases hk; rfl
  split at h
  · cases h
  · obtain ⟨v, _, hk⟩ := bind_ok _ _ _ h
    split at hk
    · cases hk
    · exact (h1 _ _ (pure_bind_ok _ _ _ hk) :)

theorem Rendition_tag (r0 r : Rendition S) (attrs : AttributeList S)
    (h : Rendition.ParseAttributeList r0 attrs = Except.ok r) : r.Tag = r0.Tag := by
  unfold Rendition.ParseAttributeList at h
  lift_lets at h
  extract_lets jp4 jp3 jp2 jp1 at h
  have h4 : ∀ k r, jp4 k = Except.ok r → r.Tag = k.Tag := by
    intro k r hk
    simp only [jp4] at hk
    obtain ⟨r1, a1, hk⟩ := bind_ok _ _ _ hk
    obtain ⟨r2, a2, hk⟩ := bind_ok _ _ _ hk
    obtain ⟨r3, a3, hk⟩ := bind_ok _ _ _ hk
    obtain ⟨r4, a4, hk⟩ := bind_ok _ _ _ hk
    obtain ⟨r5, a5, hk⟩ := bind_ok _ _ _ hk
    obtain ⟨r6, a6, hk⟩ := bind_ok _ _ _ hk
    obtain ⟨r7, a7, hk⟩ := bind_ok _ _ _ hk
    obtain ⟨r8, a8, hk⟩ := bind_ok _ _ _ hk
    have t1 : r1.Tag = k.Tag := by rcases optAttr_ok _ _ _ _ _ _ a1 with rfl | ⟨v, rfl⟩ <;> rfl
    have t2 : r2.Tag = r1.Tag := by rcases optAttr_ok _ _ _ _ _ _ a2 with rfl | ⟨v, rfl⟩ <;> rfl
    have t3 : r3.Tag = r2.Tag := by rcases optAttr_ok _ _ _ _ _ _ a3 with rfl | ⟨v, rfl⟩ <;> rfl
    have t4 : r4.Tag = r3.Tag := by rcases optAttr_ok _ _ _ _ _ _ a4 with rfl | ⟨v, rfl⟩ <;> rfl
    have t5 : r5.Tag = r4.Tag := by rcases optAttr_ok _ _ _ _ _ _ a5 with rfl | ⟨v, rfl⟩ <;> rfl
    have t6 : r6.Tag = r5.Tag := by rcases optAttr_ok _ _ _ _ _ _ a6 with rfl | ⟨v, rfl⟩ <;> rfl
    have t7 : r7.Tag = r6.Tag := by rcases optAttr_ok _ _ _ _ _ _ a7 with rfl | ⟨v, rfl⟩ <;> rfl
    have t8 : r8.Tag = r7.Tag := by rcases optAttr_ok _ _ _ _ _ _ a8 with rfl | ⟨v, rfl⟩ <;> rfl
    have t9 : r.Tag = r8.Tag := by
      split at hk
      · cases hk; rfl
      · obtain ⟨v, _, hk⟩ := bind_ok _ _ _ hk
        obtain ⟨c, _, hk⟩ := bind_ok _ _ _ hk
        cases hk; rfl
    rw [t9, t8, t7, t6, t5, t4, t3, t2, t1]
  have h3 : ∀ k r, jp3 k = Except.ok r → r.Tag = k.Tag := by
    intro k r hk
    simp only [jp3] at hk
    split at hk
    · cases hk
    · obtain ⟨v, _, hk⟩ := bind_ok _ _ _ hk
      exact (h4 _ _ (pure_bind_ok _ _ _ hk) :)
  have h2 : ∀ k r, jp2 k = Except.ok r → r.Tag = k.Tag := by
    intro k r hk
    simp only [jp2] at hk
    split at hk
    · cases hk
    · obtain ⟨v, _, hk⟩ := bind_ok _ _ _ hk
      exact (h3 _ _ (pure_bind_ok _ _ _ hk) :)
  have h1 : ∀ k r, jp1 k = Except.ok r → r.Tag = k.Tag := by
    intro k r hk
    simp only [jp1] at hk
    split at hk
    · split at hk
      · cases hk
      · exact (h2 _ _ (pure_bind_ok _ _ _ hk) :)
    · obtain ⟨v, _, hk⟩ := bind_ok _ _ _ hk
      split at hk
      · cases hk
      · exact (h2 _ _ (pure_bind_ok _ _ _ hk) :)
  split at h
  · cases h
  · obtain ⟨v, _, hk⟩ := bind_ok _ _ _ h
    split at hk
    · exact (h1 _ _ (pure_bind_ok _ _ _ hk) :)
    · cases hk

end Hls

namespace Hls
variable {S : Std}

/-! ## The lines and the segments recorded by one directive -/

theorem Tag_ParseAttributeList_fields (tag tag1 : Tag S) (attrs : AttributeList S)
    (e : Option Err) (h : tag.ParseAttributeList = some (tag1, attrs, e)) :
    tag1.Name = tag.Name ∧ tag1.Value = tag.Value ∧ tag1.HasColon = tag.HasColon := by
  unfold Tag.ParseAttributeList at h
  split at h
  · simp only [Option.some.injEq, Prod.mk.injEq] at h
    obtain ⟨rfl, _, _⟩ := h
    exact ⟨rfl, rfl, rfl⟩
  · split at h
    · cases h
    · simp only [Option.some.injEq, Prod.mk.injEq] at h
      obtain ⟨rfl, _, _⟩ := h
      exact ⟨rfl, rfl, rfl⟩

theorem parseTagWith_ok {α : Type} (name : GoString) (tag : Tag S)
    (decode : Tag S → AttributeList S → Except Err α) (r : α)
    (h : parseTagWith name tag decode = some (Except.ok r)) :
    ∃ tag1 attrs, tag1.Name = tag.Name ∧ tag1.Value = tag.Value ∧
      tag1.HasColon = tag.HasColon ∧ decode tag1 attrs = Except.ok r := by
  unfold parseTagWith at h
  split at h
  · cases h
  · split at h
    · cases h
    · cases h
    · rename_i tag1 attrs heq
      simp only [Option.some.injEq] at h
      obtain ⟨a, b, c⟩ := Tag_ParseAttributeList_fields tag tag1 attrs none heq
      exact ⟨tag1, attrs, a, b, c, h⟩

theorem Key_ParseTag_tag (k r : Key S) (tag : Tag S)
    (h : Key.ParseTag k tag = some (Except.ok r)) :
    ∃ t, r.Tag = some t ∧ t.Name = tag.Name ∧ t.Value = tag.Value ∧
      t.HasColon = tag.HasColon := by
  obtain ⟨t, attrs, a, b, c, hd⟩ := parseTagWith_ok _ _ _ _ h
  exact ⟨t, Key_tag _ _ _ hd, a, b, c⟩

theorem MediaInitMap_ParseTag_tag (m r : MediaInitMap S) (tag : Tag S)
    (h : MediaInitMap.ParseTag m tag = some (Except.ok r)) :
    ∃ t, r.Tag = some t ∧ t.Name = tag.Name ∧ t.Value = tag.Value ∧
      t.HasColon = tag.HasColon := by
  obtain ⟨t, attrs, a, b, c, hd⟩ := parseTagWith_ok _ _ _ _ h
  exact ⟨t, MediaInitMap_tag _ _ _ hd, a, b, c⟩

theorem Rendition_ParseTag_tag (m r : Rendition S) (tag : Tag S)
    (h : Rendition.ParseTag m tag = some (Except.ok r)) :
    ∃ t, r.Tag = some t ∧ t.Name = tag.Name ∧ t.Value = tag.Value ∧
      t.HasColon = tag.HasColon := by
  obtain ⟨t, attrs, a, b, c, hd⟩ := parseTagWith_ok _ _ _ _ h
  exact ⟨t, Rendition_tag _ _ _ hd, a, b, c⟩

theorem VariantStream_ParseTag_tag (s r : VariantStream S) (tag : Tag S)
    (h : VariantStream.ParseTag s tag = some (Except.ok r)) :
    ∃ t, r.Tag = some t ∧ t.Name = tag.Name ∧ t.Value = tag.Value ∧
      t.HasColon = tag.HasColon := by
  obtain ⟨t, attrs, a, b, c, hd⟩ := parseTagWith_ok _ _ _ _ h
  refine ⟨t, ?_, a, b, c⟩
  have hc := VariantStream_comm (some t) s.TagLine s.URILine s attrs
  simp only [] at hd hc
  rw [hc] at hd
  cases hr : VariantStream.ParseAttributeList s attrs with
  | error e => rw [hr] at hd; cases hd
  | ok r0 =>
    rw [hr] at hd
    cases hd
    rfl

theorem IframeStream_ParseTag_tag (s r : IframeStream S) (tag : Tag S)
    (h : IframeStream.ParseTag s tag = some (Except.ok r)) :
    ∃ t, r.Tag = some t ∧ t.Name = tag.Name ∧ t.Value = tag.Value ∧
      t.HasColon = tag.HasColon := by
  obtain ⟨t, attrs, a, b, c, hd⟩ := parseTagWith_ok _ _ _ _ h
  refine ⟨t, ?_, a, b, c⟩
  have hc := IframeStream_comm (some t) s.TagLine s.URILine s attrs
  simp only [] at hd hc
  rw [hc] at hd
  cases hr : IframeStream.ParseAttributeList s attrs with
  | error e => rw [hr] at hd; cases hd
  | ok r0 =>
    rw [hr] at hd
    cases hd
    rfl

end Hls

namespace Hls
variable {S : Std}

theorem dispatchTag_lines (handler : ParserHandler S) (st st' : Scan S) (tag : Tag S)
    (hp : dispatchTag handler st tag = some (st', none)) :
    (∃ t : Tag S, st'.playlist.Lines = st.playlist.Lines ++
        [{ LineNum := st.lineNum, Typ := LineType.TagLineType, Tag := some t }] ∧
      t.Name = tag.Name ∧ t.Value = tag.Value ∧ t.HasColon = tag.HasColon) ∧
    st'.mediaPlaylist.MediaSegments = st.mediaPlaylist.MediaSegments := by
  simp only [dispatchTag] at hp
  by_cases h1 : tag.Name = ascii "EXT-X-VERSION"
  rotate_left
  rw [if_neg h1] at hp
  by_cases h2 : tag.Name = ascii "EXT-X-STREAM-INF"
  rotate_left
  rw [if_neg h2] at hp
  by_cases h3 : tag.Name = ascii "EXT-X-I-FRAME-STREAM-INF"
  rotate_left
  rw [if_neg h3] at hp
  by_cases h4 : tag.Name = ascii "EXT-X-MEDIA"
  rotate_left
  rw [if_neg h4] at hp
  by_cases h5 : tag.Name = ascii "EXT-X-MEDIA-SEQUENCE"
  rotate_left
  rw [if_neg h5] at hp
  by_cases h6 : tag.Name = ascii "EXT-X-DISCONTINUITY-SEQUENCE"
  rotate_left
  rw [if_neg h6] at hp
  by_cases h7 : tag.Name = ascii "EXTINF"
  rotate_left
  rw [if_neg h7] at hp
  by_cases h8 : tag.Name = ascii "EXT-X-BYTERANGE"
  rotate_left
  rw [if_neg h8] at hp
  by_cases h9 : tag.Name = ascii "EXT-X-DISCONTINUITY"
  rotate_left
  rw [if_neg h9] at hp
  by_cases h10 : tag.Name = ascii "EXT-X-GAP"
  rotate_left
  rw [if_neg h10] at hp
  by_cases h11 : tag.Name = ascii "EXT-X-MAP"
  rotate_left
  rw [if_neg h11] at hp
  by_cases h12 : tag.Name = ascii "EXT-X-KEY"
  rotate_left
  rw [if_neg h12] at hp
  · -- any other name
    simp only [Option.some.injEq, Prod.mk.injEq, and_true] at hp
    subst hp
    exact ⟨⟨tag, rfl, rfl, rfl, rfl⟩, rfl⟩
  · -- EXT-X-VERSION
    rw [if_pos h1] at hp
    split at hp
    · simp at hp
    · simp only [Option.some.injEq, Prod.mk.injEq, and_true] at hp
      subst hp
      exact ⟨⟨tag, rfl, rfl, rfl, rfl⟩, rfl⟩
  · -- EXT-X-STREAM-INF
    rw [if_pos h2] at hp
    rcases ensureMaster_cases _ _ _ _ hp with ⟨_, _, hc⟩ | ⟨_, hb⟩
    · cases hc
    · simp only [] at hb
      split at hb
      · simp at hb
      · simp at hb
      · rename_i vs heq
        obtain ⟨t, ht, a, b, c⟩ := VariantStream_ParseTag_tag _ _ _ heq
        simp only [Option.some.injEq, Prod.mk.injEq, and_true] at hb
        subst hb
        refine ⟨⟨t, ?_, a, b, c⟩, rfl⟩
        simp [Scan.addLine, ht]
  · -- EXT-X-I-FRAME-STREAM-INF
    rw [if_pos h3] at hp
    rcases ensureMaster_cases _ _ _ _ hp with ⟨_, _, hc⟩ | ⟨_, hb⟩
    · cases hc
    · simp only [] at hb
      split at hb
      · simp at hb
      · simp at hb
      · rename_i ifs heq
        obtain ⟨t, ht, a, b, c⟩ := IframeStream_ParseTag_tag _ _ _ heq
        simp only [Option.some.injEq, Prod.mk.injEq, and_true] at hb
        subst hb
        refine ⟨⟨t, ?_, a, b, c⟩, ?_⟩
        · cases handler.HandleIframeStream <;> simp [Scan.addLine, ht]
        · cases handler.HandleIframeStream <;> rfl
  · -- EXT-X-MEDIA
    rw [if_pos h4] at hp
    rcases ensureMaster_cases _ _ _ _ hp with ⟨_, _, hc⟩ | ⟨_, hb⟩
    · cases hc
    · split at hb
      · simp at hb
      · simp at hb
      · rename_i rd heq
        obtain ⟨t, ht, a, b, c⟩ := Rendition_ParseTag_tag _ _ _ heq
        simp only [Option.some.injEq, Prod.mk.injEq, and_true] at hb
        subst hb
        refine ⟨⟨t, ?_, a, b, c⟩, rfl⟩
        simp [Scan.addLine, ht]
  · -- EXT-X-MEDIA-SEQUENCE
    rw [if_pos h5] at hp
    simp only [Option.some.injEq] at hp
    rcases ensureMedia_cases _ _ _ _ hp with ⟨_, _, hc⟩ | ⟨_, hb⟩
    · cases hc
    · split at hb
      · simp at hb
      · simp only [Prod.mk.injEq, and_true] at hb
        subst hb
        exact ⟨⟨tag, rfl, rfl, rfl, rfl⟩, rfl⟩
  · -- EXT-X-DISCONTINUITY-SEQUENCE
    rw [if_pos h6] at hp
    simp only [Option.some.injEq] at hp
    rcases ensureMedia_cases _ _ _ _ hp with ⟨_, _, hc⟩ | ⟨_, hb⟩
    · cases hc
    · split at hb
      · simp at hb
      · simp only [Prod.mk.injEq, and_true] at hb
        subst hb
        exact ⟨⟨tag, rfl, rfl, rfl, rfl⟩, rfl⟩
  · -- EXTINF
    rw [if_pos h7] at hp
    simp only [Option.some.injEq] at hp
    rcases ensureMedia_cases _ _ _ _ hp with ⟨_, _, hc⟩ | ⟨_, hb⟩
    · cases hc
    · split at hb
      · simp at hb
      · simp only [Prod.mk.injEq, and_true] at hb
        subst hb
        exact ⟨⟨tag, rfl, rfl, rfl, rfl⟩, rfl⟩
  · -- EXT-X-BYTERANGE
    rw [if_pos h8] at hp
    simp only [Option.some.injEq] at hp
    rcases ensureMedia_cases _ _ _ _ hp with ⟨_, _, hc⟩ | ⟨_, hb⟩
    · cases hc
    · split at hb
      · simp at hb
      · simp only [Prod.mk.injEq, and_true] at hb
        subst hb
        exact ⟨⟨tag, rfl, rfl, rfl, rfl⟩, rfl⟩
  · -- EXT-X-DISCONTINUITY
    rw [if_pos h9] at hp
    simp only [Option.some.injEq] at hp
    rcases ensureMedia_cases _ _ _ _ hp with ⟨_, _, hc⟩ | ⟨_, hb⟩
    · cases hc
    · simp only [Prod.mk.injEq, and_true] at hb
      subst hb
      exact ⟨⟨tag, rfl, rfl, rfl, rfl⟩, rfl⟩
  · -- EXT-X-GAP
    rw [if_pos h10] at hp
    simp only [Option.some.injEq] at hp
    rcases ensureMedia_cases _ _ _ _ hp with ⟨_, _, hc⟩ | ⟨_, hb⟩
    · cases hc
    · simp only [Prod.mk.injEq, and_true] at hb
      subst hb
      exact ⟨⟨tag, rfl, rfl, rfl, rfl⟩, rfl⟩
  · -- EXT-X-MAP
    rw [if_pos h11] at hp
    split at hp
    · simp at hp
    · simp at hp
    · rename_i m heq
      obtain ⟨t, ht, a, b, c⟩ := MediaInitMap_ParseTag_tag _ _ _ heq
      simp only [Option.some.injEq, Prod.mk.injEq, and_true] at hp
      subst hp
      refine ⟨⟨t, ?_, a, b, c⟩, rfl⟩
      simp [Scan.addLine, ht]
  · -- EXT-X-KEY
    rw [if_pos h12] at hp
    split at hp
    · simp at hp
    · simp at hp
    · rename_i k heq
      obtain ⟨t, ht, a, b, c⟩ := Key_ParseTag_tag _ _ _ heq
      simp only [Option.some.injEq, Prod.mk.injEq, and_true] at hp
      subst hp
      refine ⟨⟨t, ?_, a, b, c⟩, rfl⟩
      simp [Scan.addLine, ht]

end Hls

namespace Hls
variable {S : Std}

theorem splitN2_join (sep : Nat) : ∀ s : GoString,
    s = (splitN2 sep s).1 ++ (match (splitN2 sep s).2 with
      | none => []
      | some b => [sep] ++ b) := by
  intro s
  induction s with
  | nil => rfl
  | cons c rest ih =>
    unfold splitN2
    by_cases hc : c = sep
    · simp [hc]
    · simp only [hc, if_false]
      cases hs : splitN2 sep rest with
      | mk a b =>
        rw [hs] at ih
        simp only [] at ih ⊢
        rw [List.cons_append, ← ih]

theorem splitN2_head (sep c : Nat) (rest : GoString) (hc : c ≠ sep) :
    (splitN2 sep (c :: rest)).1 = c :: (splitN2 sep rest).1 := by
  rw [splitN2]
  simp only [hc, if_false]

theorem tagOfLine_Format (t : GoString) (h : t.head? = some 35) :
    (tagOfLine S t).Format = t := by
  cases t with
  | nil => cases h
  | cons c rest =>
    simp only [List.head?_cons, Option.some.injEq] at h
    subst h
    have hj := splitN2_join 58 (35 :: rest)
    have hh := splitN2_head 58 35 rest (by decide)
    unfold Tag.Format tagOfLine
    simp only []
    cases hs : (splitN2 58 (35 :: rest)).2 with
    | none =>
      rw [hs] at hj
      simp only [Option.isSome_none, Bool.not_false, if_true]
      rw [hh] at hj ⊢
      simpa using hj.symm
    | some b =>
      rw [hs] at hj
      simp only [Option.isSome_some, Bool.not_true, Bool.false_eq_true, if_false, Option.getD_some]
      rw [hh] at hj ⊢
      simpa using hj.symm

theorem parseURLLine_lines (handler : ParserHandler S) (baseURL : S.URL) (st st' : Scan S)
    (t : GoString) (hp : parseURLLine handler baseURL st t = (st', none)) :
    st'.playlist.Lines = st.playlist.Lines ++
      [{ LineNum := st.lineNum, Typ := LineType.URLLineType, URL := t }] ∧
    (st.isMaster = true →
      st'.mediaPlaylist.MediaSegments = st.mediaPlaylist.MediaSegments) ∧
    (st.isMaster = false →
      ∃ seg, st'.mediaPlaylist.MediaSegments = st.mediaPlaylist.MediaSegments ++ [seg] ∧
        seg.URILine = some { LineNum := st.lineNum, Typ := LineType.URLLineType, URL := t }) := by
  unfold parseURLLine at hp
  split at hp
  · simp at hp
  · rename_i ref href
    simp only [Scan.addLine] at hp
    cases hM : st.isMaster
    · simp only [hM, Bool.false_eq_true, if_false, ensurePlaylist, Bool.not_false,
        Bool.not_true] at hp
      simp only [Prod.mk.injEq, and_true] at hp
      subst hp
      unfold finishMediaSegment
      cases handler.HandleMediaSegment <;>
        exact ⟨rfl, fun hc => absurd hc (by simp), fun _ => ⟨_, rfl, rfl⟩⟩
    · simp only [hM, if_true, ensurePlaylist] at hp
      cases hMe : st.isMedia
      · simp only [hMe, Bool.not_false, Bool.not_true, Bool.false_eq_true, if_false,
          Prod.mk.injEq, and_true] at hp
        subst hp
        cases handler.HandleVariantStream <;>
          exact ⟨rfl, fun _ => rfl, fun hc => absurd hc (by simp)⟩
      · simp [hMe] at hp

/-- The line and the segment recorded by one line that is read without
error. -/
theorem parseLine_lines (handler : ParserHandler S) (baseURL : S.URL) (st st' : Scan S)
    (l : GoString) (hp : parseLine handler baseURL st l = some (st', none)) :
    (∃ line : Line S, st'.playlist.Lines = st.playlist.Lines ++ [line] ∧
      line.LineNum = st.lineNum ∧ line.Format = some (renderLine l)) ∧
    ((isResourceLine l = false ∨ st.isMaster = true) →
      st'.mediaPlaylist.MediaSegments = st.mediaPlaylist.MediaSegments) ∧
    (isResourceLine l = true → st.isMaster = false →
      ∃ seg, st'.mediaPlaylist.MediaSegments = st.mediaPlaylist.MediaSegments ++ [seg] ∧
        seg.URILine =
          some (Line.mk st.lineNum LineType.URLLineType none (trimLeftSpaceTab l) [])) := by
  unfold parseLine at hp
  unfold renderLine isResourceLine
  by_cases h0 : (trimLeftSpaceTab l).length = 0
  · rw [if_pos h0] at hp
    simp only [Option.some.injEq, Prod.mk.injEq, and_true] at hp
    subst hp
    refine ⟨⟨_, rfl, rfl, ?_⟩, fun _ => rfl, ?_⟩
    · simp [h0, Line.Format]
    · simp [h0]
  · rw [if_neg h0] at hp
    by_cases h1 : (trimLeftSpaceTab l).head? ≠ some 35
    · rw [if_pos h1] at hp
      simp only [Option.some.injEq] at hp
      obtain ⟨f1, f2, f3⟩ := parseURLLine_lines handler baseURL st st' _ hp
      refine ⟨⟨_, f1, rfl, ?_⟩, ?_, fun _ hM => f3 hM⟩
      · simp [h0, Line.Format]
      · intro hc
        rcases hc with hc | hc
        · simp [h0, h1] at hc
        · exact f2 hc
    · rw [if_neg h1] at hp
      obtain ⟨⟨t, f1, a, b, c⟩, f2⟩ := dispatchTag_lines handler st st' _ hp
      have h1' : (trimLeftSpaceTab l).head? = some 35 := by simpa using h1
      refine ⟨⟨_, f1, rfl, ?_⟩, fun _ => f2, ?_⟩
      · have hf := tagOfLine_Format (S := S) _ h1'
        simp only [h0, if_false, Line.Format, Option.map_some', Option.some.injEq]
        rw [← hf]
        unfold Tag.Format
        rw [a, b, c]
      · intro hc
        simp [h0, h1'] at hc

end Hls

namespace Hls
variable {S : Std}

theorem parseLoop_lines (handler : ParserHandler S) (baseURL : S.URL) :
    ∀ (lines : List GoString) (st st' : Scan S),
      parseLoop handler baseURL (lines.map ReadLine.line) st = some (st', none) →
      st'.stop = false →
      ∃ ls, st'.playlist.Lines = st.playlist.Lines ++ ls ∧
        ls.map Line.Format = lines.map (fun l => some (renderLine l)) := by
  intro lines
  induction lines with
  | nil =>
    intro st st' hp _
    simp only [List.map_nil, parseLoop] at hp
    split at hp
    · simp only [Option.some.injEq, Prod.mk.injEq, and_true] at hp
      subst hp
      exact ⟨[], by simp, rfl⟩
    · simp only [Option.some.injEq, Prod.mk.injEq, and_true] at hp
      subst hp
      exact ⟨[], by simp, rfl⟩
  | cons l lines ih =>
    intro st st' hp hstop
    rw [List.map_cons, parseLoop_cons] at hp
    by_cases hs : st.stop = true
    · rw [if_pos hs] at hp
      simp only [Option.some.injEq, Prod.mk.injEq, and_true] at hp
      subst hp
      rw [hs] at hstop
      cases hstop
    · rw [if_neg hs] at hp
      simp only [] at hp
      cases hr : parseLine handler baseURL { st with lineNum := st.lineNum + 1 } l with
      | none => rw [hr] at hp; simp at hp
      | some p =>
        obtain ⟨st2, e2⟩ := p
        rw [hr] at hp
        cases e2 with
        | some e2 => simp at hp
        | none =>
          simp only [] at hp
          obtain ⟨⟨line, h1, _, h3⟩, _, _⟩ := parseLine_lines handler baseURL _ st2 l hr
          obtain ⟨ls, g1, g2⟩ := ih st2 st' hp hstop
          refine ⟨line :: ls, ?_, ?_⟩
          · rw [g1, h1]
            simp
          · simp [h3, g2]

theorem Parse_ok_loop (input : List ReadLine) (baseURL : S.URL) (handler : ParserHandler S)
    (st : Scan S) (hp : Parse input baseURL handler = some (st, none)) :
    ∃ st0, parseLoop handler baseURL input ({} : Scan S) = some (st0, none) ∧
      st.playlist = st0.playlist ∧ st.stop = st0.stop ∧ st.isMaster = st0.isMaster ∧
      st.isMedia = st0.isMedia ∧ st.mediaPlaylist = st0.mediaPlaylist ∧
      st.masterPlaylist = st0.masterPlaylist ∧ st.lineNum = st0.lineNum ∧
      ∃ cs, st.calls = st0.calls ++ cs ∧
        cs = if st0.isMaster then
            (if handler.HandleMasterPlaylist then [Call.MasterPlaylist st0.master] else [])
          else (if handler.HandleMediaPlaylist then [Call.MediaPlaylist st0.media] else []) := by
  unfold Parse at hp
  cases hr : parseLoop handler baseURL input ({} : Scan S) with
  | none => rw [hr] at hp; simp at hp
  | some p =>
    obtain ⟨st0, e0⟩ := p
    rw [hr] at hp
    cases e0 with
    | some e0 => simp at hp
    | none =>
      simp only [] at hp
      refine ⟨st0, rfl, ?_⟩
      cases hM : st0.isMaster
      · simp only [hM, Bool.false_eq_true, if_false] at hp
        cases hMe : st0.isMedia
        · simp [hMe] at hp
        · simp only [hMe, if_true] at hp
          cases hH : handler.HandleMediaPlaylist
          · simp only [hH, Bool.false_eq_true, if_false, Option.some.injEq, Prod.mk.injEq,
              and_true] at hp
            subst hp
            simp [hM, hMe]
          · simp only [hH, if_true, Option.some.injEq, Prod.mk.injEq, and_true] at hp
            subst hp
            simp [hM, hMe]
      · simp only [hM, if_true] at hp
        cases hH : handler.HandleMasterPlaylist
        · simp only [hH, Bool.false_eq_true, if_false, Option.some.injEq, Prod.mk.injEq,
            and_true] at hp
          subst hp
          simp [hM]
        · simp only [hH, if_true, Option.some.injEq, Prod.mk.injEq, and_true] at hp
          subst hp
          simp [hM]

theorem mapM_of_map_some {α β : Type} (f : α → Option β) :
    ∀ (xs : List α) (ys : List β), xs.map f = ys.map some → xs.mapM f = some ys := by
  intro xs
  induction xs with
  | nil =>
    intro ys h
    cases ys with
    | nil => rfl
    | cons y ys => simp at h
  | cons x xs ih =>
    intro ys h
    cases ys with
    | nil => simp at h
    | cons y ys =>
      simp only [List.map_cons, List.cons.injEq] at h
      rw [List.mapM_cons, h.1, ih ys h.2]
      rfl

/-! ## Rendering the playlist: claim C15 -/

/-- C15, counterexample: the directive line ` #FOO`, with a leading space and
an unrecognized name, is rendered as `#FOO`. -/
theorem leading_space_is_dropped :
    (Parse (S := Std.bare) [ReadLine.line (ascii " #FOO"), ReadLine.line (ascii "a.ts")] []
        {}).map (fun r => (r.2, r.1.stop, r.1.playlist.Format)) =
      some (none, false, some (ascii "#FOO\na.ts\n")) := by
  decide

/-- C15, amended: for every input that scans without error and without a stop
signal, `Playlist.Format()` is the concatenation, in input order, of one line
per input line, each followed by a line feed: a blank line (only spaces and
tabs) is reproduced character for character, and every other line, so every
directive line with an unrecognized name too, is reproduced character for
character after its leading spaces and tabs, which are dropped. -/
theorem format_reproduces_lines (handler : ParserHandler S) (baseURL : S.URL)
    (lines : List GoString) (st : Scan S)
    (hp : Parse (lines.map ReadLine.line) baseURL handler = some (st, none))
    (hstop : st.stop = false) :
    st.playlist.Format = some ((lines.map (fun l => renderLine l ++ [10])).flatten) ∧
    st.playlist.Lines.length = lines.length ∧
    (∀ l : GoString, (∀ c ∈ l, isSpaceChar c = true) → renderLine l = l) ∧
    (∀ l : GoString, renderLine l = l ∨ renderLine l = trimLeftSpaceTab l) ∧
    (∀ l : GoString, l.head? = some 35 → renderLine l = l) := by
  obtain ⟨st0, hl, h1, h2, _⟩ := Parse_ok_loop _ baseURL handler st hp
  obtain ⟨ls, g1, g2⟩ := parseLoop_lines handler baseURL lines _ st0 hl (by rw [← h2]; exact hstop)
  have hL : st.playlist.Lines = ls := by
    rw [h1, g1]
    rfl
  have hm : ls.map Line.Format = (lines.map renderLine).map some := by
    rw [g2]
    simp
  refine ⟨?_, ?_, ?_, ?_, ?_⟩
  · unfold Playlist.Format
    rw [hL, mapM_of_map_some _ _ _ hm]
    simp [List.map_map, Function.comp_def]
  · rw [hL]
    have := congrArg List.length g2
    simpa using this
  · intro l hl
    unfold renderLine trimLeftSpaceTab
    have : l.dropWhile isSpaceChar = [] := by
      rw [List.dropWhile_eq_nil_iff]
      exact hl
    simp [this]
  · intro l
    unfold renderLine
    by_cases h : (trimLeftSpaceTab l).length = 0
    · exact Or.inl (by rw [if_pos h])
    · exact Or.inr (by rw [if_neg h])
  · intro l hl
    cases l with
    | nil => cases hl
    | cons c rest =>
      simp only [List.head?_cons, Option.some.injEq] at hl
      subst hl
      unfold renderLine trimLeftSpaceTab
      have : (35 :: rest).dropWhile isSpaceChar = 35 :: rest := by
        rw [List.dropWhile_cons_of_neg (by decide)]
      simp [this]

/-- C15, amended, at the input made of a blank line with one space, the line
`#FOO:bar` and the line `a.ts`. -/
theorem format_reproduces_lines_witness :
    ∃ st : Scan Std.bare,
      Parse (S := Std.bare)
        ([ascii " ", ascii "#FOO:bar", ascii "a.ts"].map ReadLine.line) [] {} =
        some (st, none) ∧
      st.stop = false ∧ st.playlist.Format = some (ascii " \n#FOO:bar\na.ts\n") := by
  refine ⟨_, rfl, rfl, ?_⟩
  have h := format_reproduces_lines (S := Std.bare) {} []
    [ascii " ", ascii "#FOO:bar", ascii "a.ts"] _ rfl rfl
  rw [h.1]
  decide

end Hls

namespace Hls
variable {S : Std}

/-! ## The scan does not depend on the callbacks, apart from the stop flag and the trace -/

theorem finishMediaSegment_quiet (h1 h2 : ParserHandler S) (st : Scan S) :
    (finishMediaSegment h1 st).quiet = (finishMediaSegment h2 st.quiet).quiet := by
  unfold finishMediaSegment
  cases h1.HandleMediaSegment <;> cases h2.HandleMediaSegment <;> rfl

theorem parseURLLine_quiet (h1 h2 : ParserHandler S) (baseURL : S.URL) (st : Scan S)
    (t : GoString) :
    ((parseURLLine h1 baseURL st t).1.quiet, (parseURLLine h1 baseURL st t).2) =
      ((parseURLLine h2 baseURL st.quiet t).1.quiet, (parseURLLine h2 baseURL st.quiet t).2) := by
  obtain ⟨a1, a2, isMaster, isMedia, a5, a6, a7, a8, a9, a10, a11, a12, a13, a14, a15, a16,
    a17⟩ := st
  unfold parseURLLine
  cases S.urlParse t with
  | none => rfl
  | some ref =>
    cases isMaster <;> cases isMedia <;> cases hv1 : h1.HandleVariantStream <;>
      cases hv2 : h2.HandleVariantStream <;>
      first
        | rfl
        | exact congrArg (fun s => (s, (none : Option Err))) (finishMediaSegment_quiet h1 h2 _)

end Hls

namespace Hls
variable {S : Std}

theorem dispatchTag_quiet (h1 h2 : ParserHandler S) (st : Scan S) (tag : Tag S) :
    (dispatchTag h1 st tag).map (fun r => (r.1.quiet, r.2)) =
      (dispatchTag h2 st.quiet tag).map (fun r => (r.1.quiet, r.2)) := by
  obtain ⟨a1, a2, isMaster, isMedia, a5, a6, a7, a8, a9, a10, a11, a12, a13, a14, a15, a16,
    a17⟩ := st
  simp only [dispatchTag, Scan.quiet, Scan.addLine, ensureMaster, ensureMedia, ensurePlaylist]
  by_cases k1 : tag.Name = ascii "EXT-X-VERSION"
  · simp only [if_pos k1]
    cases ParseUint tag.Value <;> rfl
  simp only [if_neg k1]
  by_cases k2 : tag.Name = ascii "EXT-X-STREAM-INF"
  · simp only [if_pos k2]
    cases isMedia
    · generalize VariantStream.ParseTag _ tag = r
      rcases r with _ | _ | _ <;> rfl
    · rfl
  simp only [if_neg k2]
  by_cases k3 : tag.Name = ascii "EXT-X-I-FRAME-STREAM-INF"
  · simp only [if_pos k3]
    cases isMedia
    · generalize IframeStream.ParseTag _ tag = r
      rcases r with _ | _ | _
      · rfl
      · rfl
      · cases h1.HandleIframeStream <;> cases h2.HandleIframeStream <;> rfl
    · rfl
  simp only [if_neg k3]
  by_cases k4 : tag.Name = ascii "EXT-X-MEDIA"
  · simp only [if_pos k4]
    cases isMedia
    · generalize Rendition.ParseTag _ tag = r
      rcases r with _ | _ | _ <;> rfl
    · rfl
  simp only [if_neg k4]
  by_cases k5 : tag.Name = ascii "EXT-X-MEDIA-SEQUENCE"
  · simp only [if_pos k5]
    cases isMaster <;> cases ParseUint tag.Value <;> rfl
  simp only [if_neg k5]
  by_cases k6 : tag.Name = ascii "EXT-X-DISCONTINUITY-SEQUENCE"
  · simp only [if_pos k6]
    cases isMaster <;> cases ParseUint tag.Value <;> rfl
  simp only [if_neg k6]
  by_cases k7 : tag.Name = ascii "EXTINF"
  · simp only [if_pos k7]
    cases isMaster
    · generalize MediaSegment.ParseTag _ tag = r
      rcases r with _ | _ <;> rfl
    · rfl
  simp only [if_neg k7]
  by_cases k8 : tag.Name = ascii "EXT-X-BYTERANGE"
  · simp only [if_pos k8]
    cases isMaster
    · generalize MediaSegment.ParseByteRangeTag _ tag _ = r
      rcases r with _ | _ <;> rfl
    · rfl
  simp only [if_neg k8]
  by_cases k9 : tag.Name = ascii "EXT-X-DISCONTINUITY"
  · simp only [if_pos k9]
    cases isMaster <;> rfl
  simp only [if_neg k9]
  by_cases k10 : tag.Name = ascii "EXT-X-GAP"
  · simp only [if_pos k10]
    cases isMaster <;> rfl
  simp only [if_neg k10]
  by_cases k11 : tag.Name = ascii "EXT-X-MAP"
  · simp only [if_pos k11]
    generalize MediaInitMap.ParseTag _ tag = r
    rcases r with _ | _ | _ <;> rfl
  simp only [if_neg k11]
  by_cases k12 : tag.Name = ascii "EXT-X-KEY"
  · simp only [if_pos k12]
    generalize Key.ParseTag _ tag = r
    rcases r with _ | _ | _ <;> rfl
  simp only [if_neg k12]
  rfl

end Hls

namespace Hls
variable {S : Std}

theorem parseLine_quiet (h1 h2 : ParserHandler S) (baseURL : S.URL) (st : Scan S)
    (l : GoString) :
    (parseLine h1 baseURL st l).map (fun r => (r.1.quiet, r.2)) =
      (parseLine h2 baseURL st.quiet l).map (fun r => (r.1.quiet, r.2)) := by
  unfold parseLine
  by_cases h0 : (trimLeftSpaceTab l).length = 0
  · simp only [if_pos h0]
    rfl
  · simp only [if_neg h0]
    by_cases k1 : (trimLeftSpaceTab l).head? ≠ some 35
    · simp only [if_pos k1, Option.map_some']
      exact congrArg some (parseURLLine_quiet h1 h2 baseURL st _)
    · simp only [if_neg k1]
      exact dispatchTag_quiet h1 h2 st _

/-- Two runs of one line from states that agree up to the stop flag and the
trace return the same error and states that agree likewise, whatever the
callbacks. -/
theorem parseLine_quiet_rel (h1 h2 : ParserHandler S) (baseURL : S.URL) (s1 s2 s1' : Scan S)
    (l : GoString) (e : Option Err) (hp : parseLine h1 baseURL s1 l = some (s1', e))
    (hq : s1.quiet = s2.quiet) :
    ∃ s2', parseLine h2 baseURL s2 l = some (s2', e) ∧ s2'.quiet = s1'.quiet := by
  have a := parseLine_quiet h1 h2 baseURL s1 l
  have b := parseLine_quiet h2 h2 baseURL s2 l
  rw [hq, ← b, hp] at a
  cases hr : parseLine h2 baseURL s2 l with
  | none => rw [hr] at a; simp at a
  | some p =>
    obtain ⟨s2', e2⟩ := p
    rw [hr] at a
    simp only [Option.map_some', Option.some.injEq, Prod.mk.injEq] at a
    exact ⟨s2', by rw [a.2], a.1.symm⟩

theorem dispatchTag_handler (h1 h2 : ParserHandler S) (st : Scan S) (tag : Tag S)
    (hn : tag.Name ≠ ascii "EXT-X-I-FRAME-STREAM-INF") :
    dispatchTag h1 st tag = dispatchTag h2 st tag := by
  simp only [dispatchTag]
  by_cases k1 : tag.Name = ascii "EXT-X-VERSION"
  · simp only [if_pos k1]
  simp only [if_neg k1]
  by_cases k2 : tag.Name = ascii "EXT-X-STREAM-INF"
  · simp only [if_pos k2]
  simp only [if_neg k2, if_neg hn]

theorem parseURLLine_stop (handler : ParserHandler S) (baseURL : S.URL) (st st' : Scan S)
    (t : GoString) (hp : parseURLLine handler baseURL st t = (st', none))
    (hM : st.isMaster = false) :
    (handler.HandleMediaSegment = none → st'.stop = st.stop) ∧
    (∀ f, handler.HandleMediaSegment = some f → ∃ seg pl,
      st'.stop = !(f seg pl) ∧ pl.MediaSegments = st'.mediaPlaylist.MediaSegments) := by
  unfold parseURLLine at hp
  split at hp
  · simp at hp
  · simp only [Scan.addLine, hM, Bool.false_eq_true, if_false, ensurePlaylist, Bool.not_false,
      Bool.not_true, Prod.mk.injEq, and_true] at hp
    subst hp
    unfold finishMediaSegment
    cases hh : handler.HandleMediaSegment with
    | none => exact ⟨fun _ => rfl, fun f hf => by cases hf⟩
    | some g =>
      refine ⟨fun hc => (by cases hc), fun f hf => ?_⟩
      simp only [Option.some.injEq] at hf
      subst hf
      exact ⟨_, _, rfl, rfl⟩

theorem parseLine_stop (handler : ParserHandler S) (baseURL : S.URL) (st st' : Scan S)
    (l : GoString) (hp : parseLine handler baseURL st l = some (st', none))
    (hs : st.stop = false) (hM : st'.isMaster = false) :
    (isResourceLine l = false → st'.stop = false) ∧
    (isResourceLine l = true → handler.HandleMediaSegment = none → st'.stop = false) ∧
    (isResourceLine l = true → ∀ f, handler.HandleMediaSegment = some f → ∃ seg pl,
      st'.stop = !(f seg pl) ∧ pl.MediaSegments = st'.mediaPlaylist.MediaSegments) := by
  have hM0 : st.isMaster = false := by
    cases h : st.isMaster
    · rfl
    · have := ((parseLine_facts handler baseURL st st' l none hp).2.2.2.1 rfl).1 h
      rw [hM] at this
      cases this
  have hp0 := hp
  unfold parseLine at hp
  unfold isResourceLine
  by_cases h0 : (trimLeftSpaceTab l).length = 0
  · rw [if_pos h0] at hp
    simp only [Option.some.injEq, Prod.mk.injEq, and_true] at hp
    subst hp
    simp [h0, Scan.addLine, hs]
  · rw [if_neg h0] at hp
    by_cases k1 : (trimLeftSpaceTab l).head? ≠ some 35
    · rw [if_pos k1] at hp
      simp only [Option.some.injEq] at hp
      obtain ⟨f1, f2⟩ := parseURLLine_stop handler baseURL st st' _ hp hM0
      refine ⟨?_, fun _ hn => (f1 hn).trans hs, fun _ => f2⟩
      simp [h0, k1]
    · rw [if_neg k1] at hp
      unfold parseTagLine at hp
      have k1' : (trimLeftSpaceTab l).head? = some 35 := by simpa using k1
      refine ⟨fun _ => ?_, ?_, ?_⟩
      · have hn : (tagOfLine S (trimLeftSpaceTab l)).Name ≠ ascii "EXT-X-I-FRAME-STREAM-INF" := by
          intro hc
          have := ((dispatchTag_facts handler st st' _ none hp).2.2.2.1
            (by rw [hc]; decide)).2 rfl
          rw [hM] at this
          cases this.2.1
        rw [dispatchTag_handler handler {} st _ hn] at hp
        exact (dispatchTag_facts {} st st' _ none hp).2.2.1
          ⟨fun f h => (by cases h), fun f h => (by cases h), fun f h => (by cases h)⟩ hs
      · simp [h0, k1']
      · simp [h0, k1']

end Hls

namespace Hls
variable {S : Std}

theorem parseLoop_stopped (handler : ParserHandler S) (baseURL : S.URL) (input : List ReadLine)
    (st : Scan S) (hs : st.stop = true) :
    parseLoop handler baseURL input st = some (st, none) := by
  cases input with
  | nil => simp [parseLoop, hs]
  | cons r rest => rw [parseLoop_cons, if_pos hs]

theorem parseLoop_segments (handler : ParserHandler S) (baseURL : S.URL) :
    ∀ (input : List ReadLine) (st st' : Scan S),
      parseLoop handler baseURL input st = some (st', none) →
      ∃ more, st'.mediaPlaylist.MediaSegments = st.mediaPlaylist.MediaSegments ++ more := by
  intro input
  induction input with
  | nil =>
    intro st st' hp
    simp only [parseLoop] at hp
    split at hp
    · simp only [Option.some.injEq, Prod.mk.injEq, and_true] at hp
      subst hp
      exact ⟨[], by simp⟩
    · simp only [Option.some.injEq, Prod.mk.injEq, and_true] at hp
      subst hp
      exact ⟨[], by simp⟩
  | cons r rest ih =>
    intro st st' hp
    rw [parseLoop_cons] at hp
    by_cases hs : st.stop = true
    · rw [if_pos hs] at hp
      simp only [Option.some.injEq, Prod.mk.injEq, and_true] at hp
      subst hp
      exact ⟨[], by simp⟩
    · rw [if_neg hs] at hp
      cases r with
      | tooLong b => simp at hp
      | fail => simp at hp
      | line l =>
        simp only [] at hp
        cases hr : parseLine handler baseURL { st with lineNum := st.lineNum + 1 } l with
        | none => rw [hr] at hp; simp at hp
        | some p =>
          obtain ⟨st2, e2⟩ := p
          rw [hr] at hp
          cases e2 with
          | some e2 => simp at hp
          | none =>
            simp only [] at hp
            obtain ⟨more, hm⟩ := ih st2 st' hp
            obtain ⟨_, g1, g2⟩ := parseLine_lines handler baseURL _ st2 l hr
            by_cases hres : isResourceLine l = true
            · cases hM : st.isMaster
              · obtain ⟨seg, hseg, _⟩ := g2 hres hM
                exact ⟨seg :: more, by rw [hm, hseg]; simp⟩
              · exact ⟨more, by rw [hm, g1 (Or.inr hM)]⟩
            · have hres' : isResourceLine l = false := by simpa using hres
              exact ⟨more, by rw [hm, g1 (Or.inl hres')]⟩

theorem parseLine_resource_media (handler : ParserHandler S) (baseURL : S.URL) (st st' : Scan S)
    (l : GoString) (hp : parseLine handler baseURL st l = some (st', none))
    (hres : isResourceLine l = true) (hM : st.isMaster = false) : st'.isMedia = true := by
  unfold parseLine at hp
  unfold isResourceLine at hres
  simp only [Bool.and_eq_true, decide_eq_true_eq] at hres
  rw [if_neg hres.1, if_pos hres.2] at hp
  simp only [Option.some.injEq] at hp
  exact (((parseURLLine_facts handler baseURL st st' _ none hp).2.2.2 rfl).2 hM).2

end Hls

namespace Hls
variable {S : Std}

/-! ## A stop signal from the segment callback: claim C12 -/

theorem stop_run (handler : ParserHandler S) (baseURL : S.URL)
    (f : MediaSegment S → MediaPlaylist S → Bool) (k : Nat)
    (hf : handler.HandleMediaSegment = some f)
    (hcont : ∀ seg pl, pl.MediaSegments.length < k → f seg pl = true)
    (hstopk : ∀ seg pl, pl.MediaSegments.length = k → f seg pl = false) :
    ∀ (lines : List GoString) (sA s0 s0' : Scan S),
      parseLoop {} baseURL (lines.map ReadLine.line) s0 = some (s0', none) →
      s0'.isMaster = false → sA.quiet = s0.quiet → sA.stop = false →
      s0.mediaPlaylist.MediaSegments.length < k →
      k ≤ s0'.mediaPlaylist.MediaSegments.length →
      ∃ sA', parseLoop handler baseURL (lines.map ReadLine.line) sA = some (sA', none) ∧
        sA'.isMaster = false ∧ sA'.isMedia = true ∧
        sA'.mediaPlaylist.MediaSegments = s0'.mediaPlaylist.MediaSegments.take k ∧
        ∃ pre l post, lines = pre ++ l :: post ∧ isResourceLine l = true ∧
          s0.mediaPlaylist.MediaSegments.length + countRes pre + 1 = k ∧
          sA'.playlist.Lines.length = sA.playlist.Lines.length + pre.length + 1 ∧
          sA'.lineNum = sA.lineNum + pre.length + 1 := by
  intro lines
  induction lines with
  | nil =>
    intro sA s0 s0' hp _ _ _ hlt hle
    exfalso
    simp only [List.map_nil, parseLoop] at hp
    split at hp
    · simp only [Option.some.injEq, Prod.mk.injEq, and_true] at hp
      subst hp
      omega
    · simp only [Option.some.injEq, Prod.mk.injEq, and_true] at hp
      subst hp
      simp only [] at hle
      omega
  | cons l rest ih =>
    intro sA s0 s0' hp hM hq hsA hlt hle
    rw [List.map_cons, parseLoop_cons] at hp ⊢
    by_cases hs0 : s0.stop = true
    · rw [if_pos hs0] at hp
      simp only [Option.some.injEq, Prod.mk.injEq, and_true] at hp
      subst hp
      omega
    rw [if_neg hs0] at hp
    rw [if_neg (by simp [hsA])]
    simp only [] at hp ⊢
    cases hr : parseLine {} baseURL { s0 with lineNum := s0.lineNum + 1 } l with
    | none => rw [hr] at hp; simp at hp
    | some p =>
      obtain ⟨s1, e1⟩ := p
      rw [hr] at hp
      cases e1 with
      | some e1 => simp at hp
      | none =>
        simp only [] at hp
        have hq1 : ({ s0 with lineNum := s0.lineNum + 1 } : Scan S).quiet =
            ({ sA with lineNum := sA.lineNum + 1 } : Scan S).quiet :=
          (congrArg (fun q : Scan S => { q with lineNum := q.lineNum + 1 }) hq).symm
        obtain ⟨sA1, hrA, hqA⟩ := parseLine_quiet_rel {} handler baseURL _ _ s1 l none hr hq1
        rw [hrA]
        simp only []
        have hM1 : s1.isMaster = false := by
          cases h : s1.isMaster
          · rfl
          · have := ((parseLoop_facts {} baseURL _ s1 s0' none hp).2.2.1 rfl).1 h
            rw [hM] at this
            cases this
        have hM0 : s0.isMaster = false := by
          cases h : s0.isMaster
          · rfl
          · have := ((parseLine_facts {} baseURL _ s1 l none hr).2.2.2.1 rfl).1 h
            rw [hM1] at this
            cases this
        have hMA1 : sA1.isMaster = false := (congrArg Scan.isMaster hqA).trans hM1
        have hsegA : sA1.mediaPlaylist = s1.mediaPlaylist :=
          (congrArg Scan.mediaPlaylist hqA :)
        have hmediaA : sA1.isMedia = s1.isMedia := (congrArg Scan.isMedia hqA :)
        obtain ⟨⟨line, hline, _, _⟩, _, _⟩ := parseLine_lines handler baseURL _ sA1 l hrA
        have hnum : sA1.lineNum = sA.lineNum + 1 :=
          (parseLine_facts handler baseURL _ sA1 l none hrA).1
        obtain ⟨_, g1, g2⟩ := parseLine_lines {} baseURL _ s1 l hr
        obtain ⟨t1, t2, t3⟩ := parseLine_stop handler baseURL _ sA1 l hrA hsA hMA1
        by_cases hres : isResourceLine l = true
        · obtain ⟨seg, hseg, _⟩ := g2 hres hM0
          simp only [] at hseg
          have hlen1 : s1.mediaPlaylist.MediaSegments.length =
              s0.mediaPlaylist.MediaSegments.length + 1 := by
            rw [hseg]; simp
          obtain ⟨sg, pl, hst, hpl⟩ := t3 hres f hf
          have hpll : pl.MediaSegments.length = s0.mediaPlaylist.MediaSegments.length + 1 := by
            rw [hpl, hsegA, hlen1]
          by_cases hk : s0.mediaPlaylist.MediaSegments.length + 1 = k
          · have hstop1 : sA1.stop = true := by
              rw [hst, hstopk sg pl (by rw [hpll, hk])]
              rfl
            rw [parseLoop_stopped handler baseURL _ sA1 hstop1]
            obtain ⟨more, hmore⟩ := parseLoop_segments {} baseURL _ s1 s0' hp
            refine ⟨sA1, rfl, hMA1, ?_, ?_, [], l, rest, rfl, hres, ?_, ?_, ?_⟩
            · rw [hmediaA]
              exact parseLine_resource_media {} baseURL _ s1 l hr hres hM0
            · rw [hsegA, hmore, List.take_append_of_le_length (by omega)]
              rw [List.take_of_length_le (by omega)]
            · simp [countRes]
              omega
            · rw [hline]
              simp
            · simp [hnum]
          · have hstop1 : sA1.stop = false := by
              rw [hst, hcont sg pl (by omega)]
              rfl
            obtain ⟨sA', r1, r2, r3, r4, pre, l', post, r5, r6, r7, r8, r9⟩ :=
              ih sA1 s1 s0' hp hM hqA hstop1 (by omega) hle
            refine ⟨sA', r1, r2, r3, r4, l :: pre, l', post, by rw [r5]; rfl, r6, ?_, ?_, ?_⟩
            · simp only [countRes, List.countP_cons, hres, if_true] at r7 ⊢
              omega
            · rw [r8, hline]
              simp
              omega
            · rw [r9, hnum]
              simp
              omega
        · have hres' : isResourceLine l = false := by simpa using hres
          have hlen1 : s1.mediaPlaylist.MediaSegments = s0.mediaPlaylist.MediaSegments := by
            have := g1 (Or.inl hres')
            simpa using this
          have hstop1 : sA1.stop = false := t1 hres'
          obtain ⟨sA', r1, r2, r3, r4, pre, l', post, r5, r6, r7, r8, r9⟩ :=
            ih sA1 s1 s0' hp hM hqA hstop1 (by rw [hlen1]; exact hlt) hle
          refine ⟨sA', r1, r2, r3, r4, l :: pre, l', post, by rw [r5]; rfl, r6, ?_, ?_, ?_⟩
          · simp only [countRes, List.countP_cons, hres'] at r7 ⊢
            rw [hlen1] at r7
            simpa using r7
          · rw [r8, hline]
            simp
            omega
          · rw [r9, hnum]
            simp
            omega

end Hls

namespace Hls
variable {S : Std}

/-- C12: take a playlist that scans without error as a media playlist when no
callback is set, and `k` between 1 and its number of segments. With a segment
callback that returns `next` while the playlist it is given has fewer than `k`
segments and stop when it has `k` (its `k`-th invocation), and with the
end-of-media-playlist callback set, `Parse` returns no error; the scan ends at
the `k`-th resource line (the lines recorded and the line counter end there);
the media playlist holds exactly the first `k` segments; and the terminal
callback is invoked exactly once, on that playlist. -/
theorem stop_at_kth_segment (handler : ParserHandler S) (baseURL : S.URL)
    (lines : List GoString) (st0 : Scan S)
    (f : MediaSegment S → MediaPlaylist S → Bool) (k : Nat)
    (hwf : Parse (lines.map ReadLine.line) baseURL {} = some (st0, none))
    (hmedia : st0.isMaster = false)
    (hk : 1 ≤ k) (hkn : k ≤ st0.mediaPlaylist.MediaSegments.length)
    (hf : handler.HandleMediaSegment = some f)
    (hcont : ∀ seg pl, pl.MediaSegments.length < k → f seg pl = true)
    (hstopk : ∀ seg pl, pl.MediaSegments.length = k → f seg pl = false)
    (hend : handler.HandleMediaPlaylist = true) :
    ∃ st, Parse (lines.map ReadLine.line) baseURL handler = some (st, none) ∧
      st.mediaPlaylist.MediaSegments = st0.mediaPlaylist.MediaSegments.take k ∧
      st.media.MediaSegments.length = k ∧
      st.calls.filter Call.isTerminal = [Call.MediaPlaylist st.media] ∧
      ∃ pre l post, lines = pre ++ l :: post ∧ isResourceLine l = true ∧
        countRes pre + 1 = k ∧ st.playlist.Lines.length = pre.length + 1 ∧
        st.lineNum = pre.length + 1 := by
  obtain ⟨s0', hl0, _, _, hM0, _, hmp, _⟩ := Parse_ok_loop _ baseURL {} st0 hwf
  obtain ⟨sA', r1, r2, r3, r4, pre, l, post, r5, r6, r7, r8, r9⟩ :=
    stop_run handler baseURL f k hf hcont hstopk lines ({} : Scan S) ({} : Scan S) s0' hl0
      (by rw [← hM0]; exact hmedia) rfl rfl (by simpa using hk) (by rw [← hmp]; exact hkn)
  obtain ⟨⟨cs, hcs, hn⟩, _⟩ := parseLoop_facts handler baseURL _ _ sA' none r1
  have hcalls : sA'.calls.filter Call.isTerminal = [] := by
    rw [hcs]
    simpa using filter_isTerminal_nil cs hn
  have hlen : sA'.mediaPlaylist.MediaSegments.length = k := by
    rw [r4, List.length_take, ← hmp]
    omega
  refine ⟨{ sA' with calls := sA'.calls ++ [Call.MediaPlaylist sA'.media] }, ?_, ?_, hlen, ?_,
    pre, l, post, r5, r6, ?_, ?_, ?_⟩
  · unfold Parse
    rw [r1]
    simp [r2, r3, hend]
  · rw [hmp]
    exact r4
  · simp [List.filter_append, hcalls, Call.isTerminal, Scan.media]
  · simpa using r7
  · simpa using r8
  · simpa using r9

/-- C12 at the playlist `a.ts`, `b.ts`, `c.ts` with a segment callback that
signals stop on its second invocation. -/
theorem stop_at_kth_segment_witness :
    ∃ st : Scan Std.bare,
      Parse (S := Std.bare) ([ascii "a.ts", ascii "b.ts", ascii "c.ts"].map ReadLine.line) []
        { HandleMediaSegment := some (fun _ pl => decide (pl.MediaSegments.length < 2)),
          HandleMediaPlaylist := true } = some (st, none) ∧
      st.media.MediaSegments.length = 2 ∧
      st.calls.filter Call.isTerminal = [Call.MediaPlaylist st.media] := by
  have h := stop_at_kth_segment (S := Std.bare)
    { HandleMediaSegment := some (fun _ pl => decide (pl.MediaSegments.length < 2)),
      HandleMediaPlaylist := true } []
    [ascii "a.ts", ascii "b.ts", ascii "c.ts"] _
    (fun _ pl => decide (pl.MediaSegments.length < 2)) 2 rfl rfl (by decide) (by decide) rfl
    (fun _ pl hlt => by simpa using hlt) (fun _ pl heq => by simp [heq]) rfl
  obtain ⟨st, h1, _, h3, h4, _⟩ := h
  exact ⟨st, h1, h3, h4⟩

end Hls

namespace Hls
variable {S : Std}

/-! ## The scan does not depend on the line numbers -/

@[simp] theorem Line_unnumbered_comp :
    (Line.unnumbered ∘ Line.unnumbered : Line S → Line S) = Line.unnumbered := rfl

@[simp] theorem MediaSegment_unnumbered_comp :
    (MediaSegment.unnumbered ∘ MediaSegment.unnumbered : MediaSegment S → MediaSegment S) =
      MediaSegment.unnumbered := by
  funext s
  simp [MediaSegment.unnumbered]

@[simp] theorem VariantStream_unnumbered_comp :
    (VariantStream.unnumbered ∘ VariantStream.unnumbered : VariantStream S → VariantStream S) =
      VariantStream.unnumbered := by
  funext s
  simp [VariantStream.unnumbered]

@[simp] theorem IframeStream_unnumbered_comp :
    (IframeStream.unnumbered ∘ IframeStream.unnumbered : IframeStream S → IframeStream S) =
      IframeStream.unnumbered := by
  funext s
  simp [IframeStream.unnumbered]

@[simp] theorem MediaSegment_unnumbered_idem (s : MediaSegment S) :
    s.unnumbered.unnumbered = s.unnumbered := congrFun MediaSegment_unnumbered_comp s

@[simp] theorem VariantStream_unnumbered_idem (s : VariantStream S) :
    s.unnumbered.unnumbered = s.unnumbered := congrFun VariantStream_unnumbered_comp s

@[simp] theorem IframeStream_unnumbered_idem (s : IframeStream S) :
    s.unnumbered.unnumbered = s.unnumbered := congrFun IframeStream_unnumbered_comp s

end Hls

namespace Hls
variable {S : Std}

theorem VariantStream_ParseTag_comm (x y : Option (Line S)) (v : VariantStream S)
    (tag : Tag S) :
    VariantStream.ParseTag { v with TagLine := x, URILine := y } tag =
      (VariantStream.ParseTag v tag).map
        (Except.map (fun r => { r with TagLine := x, URILine := y })) := by
  unfold VariantStream.ParseTag parseTagWith
  by_cases hn : tag.Name ≠ ascii "EXT-X-STREAM-INF"
  · simp only [if_pos hn]
    rfl
  · simp only [if_neg hn]
    cases tag.ParseAttributeList with
    | none => rfl
    | some p =>
      obtain ⟨t, attrs, e⟩ := p
      cases e with
      | some e => rfl
      | none =>
        simp only [Option.map_some', Option.some.injEq]
        have h1 := VariantStream_comm (some t) x y v attrs
        have h2 := VariantStream_comm (some t) v.TagLine v.URILine v attrs
        simp only [] at h1 h2 ⊢
        rw [h1, h2]
        cases VariantStream.ParseAttributeList v attrs <;> rfl

theorem IframeStream_ParseTag_comm (x y : Option (Line S)) (v : IframeStream S)
    (tag : Tag S) :
    IframeStream.ParseTag { v with TagLine := x, URILine := y } tag =
      (IframeStream.ParseTag v tag).map
        (Except.map (fun r => { r with TagLine := x, URILine := y })) := by
  unfold IframeStream.ParseTag parseTagWith
  by_cases hn : tag.Name ≠ ascii "EXT-X-I-FRAME-STREAM-INF"
  · simp only [if_pos hn]
    rfl
  · simp only [if_neg hn]
    cases tag.ParseAttributeList with
    | none => rfl
    | some p =>
      obtain ⟨t, attrs, e⟩ := p
      cases e with
      | some e => rfl
      | none =>
        simp only [Option.map_some', Option.some.injEq]
        have h1 := IframeStream_comm (some t) x y v attrs
        have h2 := IframeStream_comm (some t) v.TagLine v.URILine v attrs
        simp only [] at h1 h2 ⊢
        rw [h1, h2]
        cases IframeStream.ParseAttributeList v attrs <;> rfl

end Hls

namespace Hls
variable {S : Std}

theorem Scan_unnumbered_idem (st : Scan S) : st.unnumbered.unnumbered = st.unnumbered := by
  simp [Scan.unnumbered]

theorem finishMediaSegment_unnumbered (h : ParserHandler S) (hb : h.LineBlind) (st : Scan S) :
    (finishMediaSegment h st).unnumbered =
      (finishMediaSegment h st.unnumbered).unnumbered := by
  unfold finishMediaSegment
  cases hf : h.HandleMediaSegment with
  | none => simp [Scan.unnumbered, MediaSegment.unnumbered]
  | some f =>
    simp only [Scan.unnumbered, Scan.media]
    conv_lhs => rw [hb.1 f hf]
    conv_rhs => rw [hb.1 f hf]
    simp [MediaSegment.unnumbered, MediaPlaylist.unnumbered]

theorem finishMediaSegment_unnumbered_rel (h : ParserHandler S) (hb : h.LineBlind)
    (s1 s2 : Scan S) (hq : s1.unnumbered = s2.unnumbered) :
    (finishMediaSegment h s1).unnumbered = (finishMediaSegment h s2).unnumbered := by
  rw [finishMediaSegment_unnumbered h hb s1, hq, ← finishMediaSegment_unnumbered h hb s2]


theorem MediaSegment_ParseTag_unnumbered (s : MediaSegment S) (tag : Tag S) :
    MediaSegment.ParseTag s.unnumbered tag =
      (MediaSegment.ParseTag s tag).map MediaSegment.unnumbered := by
  unfold MediaSegment.ParseTag
  by_cases hn : tag.Name ≠ ascii "EXTINF"
  · simp only [if_pos hn]; rfl
  · simp only [if_neg hn]
    cases (splitN2 44 tag.Value).2 <;> cases S.ParseFloat (splitN2 44 tag.Value).1 <;> rfl

theorem MediaSegment_ParseByteRangeTag_unnumbered (s : MediaSegment S) (tag : Tag S) (d : Nat) :
    MediaSegment.ParseByteRangeTag s.unnumbered tag d =
      (MediaSegment.ParseByteRangeTag s tag d).map MediaSegment.unnumbered := by
  unfold MediaSegment.ParseByteRangeTag
  cases Hls.ByteRange.ParseTag {} tag d <;> rfl

theorem dispatchTag_unnumbered (h : ParserHandler S) (hb : h.LineBlind) (st : Scan S)
    (tag : Tag S) :
    (dispatchTag h st tag).map (fun r => (r.1.unnumbered, r.2)) =
      (dispatchTag h st.unnumbered tag).map (fun r => (r.1.unnumbered, r.2)) := by
  obtain ⟨a1, a2, isMaster, isMedia, a5, a6, a7, a8, a9, a10, a11, a12, a13, a14, a15, a16,
    a17⟩ := st
  simp only [dispatchTag, Scan.addLine, ensureMaster, ensureMedia, ensurePlaylist]
  by_cases k1 : tag.Name = ascii "EXT-X-VERSION"
  · simp only [if_pos k1]
    cases ParseUint tag.Value <;> simp [Scan.unnumbered]
  simp only [if_neg k1]
  by_cases k2 : tag.Name = ascii "EXT-X-STREAM-INF"
  · simp only [if_pos k2]
    cases isMedia
    · simp only [Scan.unnumbered, Bool.not_false, Bool.not_true, Bool.false_eq_true, if_false]
      have hA := VariantStream_ParseTag_comm
        (some (Line.mk a1 LineType.TagLineType (some tag) [] [])) a15.URILine a15 tag
      have hB := VariantStream_ParseTag_comm
        (some (Line.mk 0 LineType.TagLineType (some tag) [] [])) (a15.URILine.map Line.unnumbered)
        a15 tag
      erw [hA, hB]
      generalize VariantStream.ParseTag a15 tag = r
      rcases r with _ | _ | _ <;>
        simp [Scan.unnumbered, Except.map, VariantStream.unnumbered, Line.unnumbered]
    · simp [Scan.unnumbered]
  simp only [if_neg k2]
  by_cases k3 : tag.Name = ascii "EXT-X-I-FRAME-STREAM-INF"
  · simp only [if_pos k3]
    cases isMedia
    · simp only [Scan.unnumbered, Bool.not_false, Bool.not_true, Bool.false_eq_true, if_false]
      have hA := IframeStream_ParseTag_comm
        (some (Line.mk a1 LineType.TagLineType (some tag) [] [])) a16.URILine a16 tag
      have hB := IframeStream_ParseTag_comm
        (some (Line.mk 0 LineType.TagLineType (some tag) [] [])) (a16.URILine.map Line.unnumbered)
        a16 tag
      erw [hA, hB]
      generalize IframeStream.ParseTag a16 tag = r
      rcases r with _ | _ | _
      · rfl
      · simp [Scan.unnumbered, Except.map]
      · cases hf : h.HandleIframeStream with
        | none => simp [Scan.unnumbered, Except.map, IframeStream.unnumbered, Line.unnumbered]
        | some f =>
          simp only [Scan.unnumbered, Scan.master, Except.map, Option.map_some', Scan.addLine]
          conv_lhs => rw [hb.2.2 f hf]
          conv_rhs => rw [hb.2.2 f hf]
          simp [IframeStream.unnumbered, MasterPlaylist.unnumbered, Line.unnumbered]
    · simp [Scan.unnumbered]
  simp only [if_neg k3]
  by_cases k4 : tag.Name = ascii "EXT-X-MEDIA"
  · simp only [if_pos k4]
    cases isMedia
    · simp only [Scan.unnumbered]
      generalize Rendition.ParseTag _ tag = r
      rcases r with _ | _ | _ <;> simp [Scan.unnumbered]
    · simp [Scan.unnumbered]
  simp only [if_neg k4]
  by_cases k5 : tag.Name = ascii "EXT-X-MEDIA-SEQUENCE"
  · simp only [if_pos k5]
    cases isMaster <;> cases ParseUint tag.Value <;> simp [Scan.unnumbered]
  simp only [if_neg k5]
  by_cases k6 : tag.Name = ascii "EXT-X-DISCONTINUITY-SEQUENCE"
  · simp only [if_pos k6]
    cases isMaster <;> cases ParseUint tag.Value <;> simp [Scan.unnumbered]
  simp only [if_neg k6]
  by_cases k7 : tag.Name = ascii "EXTINF"
  · simp only [if_pos k7]
    cases isMaster
    · simp only [Scan.unnumbered, Bool.not_false, ensurePlaylist, Bool.not_true]
      have h := MediaSegment_ParseTag_unnumbered a13 tag
      simp only [Bool.false_eq_true, if_false]
      rw [h]
      generalize MediaSegment.ParseTag a13 tag = r
      rcases r with _ | _ <;> simp [Scan.unnumbered, Except.map]
    · simp [Scan.unnumbered]
  simp only [if_neg k7]
  by_cases k8 : tag.Name = ascii "EXT-X-BYTERANGE"
  · simp only [if_pos k8]
    cases isMaster
    · simp only [Scan.unnumbered, Bool.not_false, ensurePlaylist, Bool.not_true]
      have h := MediaSegment_ParseByteRangeTag_unnumbered a13 tag a6
      simp only [Bool.false_eq_true, if_false]
      rw [h]
      generalize MediaSegment.ParseByteRangeTag a13 tag a6 = r
      rcases r with _ | _ <;> simp [Scan.unnumbered, Except.map, MediaSegment.unnumbered]
    · simp [Scan.unnumbered]
  simp only [if_neg k8]
  by_cases k9 : tag.Name = ascii "EXT-X-DISCONTINUITY"
  · simp only [if_pos k9]
    cases isMaster <;> simp [Scan.unnumbered, MediaSegment.unnumbered]
  simp only [if_neg k9]
  by_cases k10 : tag.Name = ascii "EXT-X-GAP"
  · simp only [if_pos k10]
    cases isMaster <;> simp [Scan.unnumbered, MediaSegment.unnumbered]
  simp only [if_neg k10]
  by_cases k11 : tag.Name = ascii "EXT-X-MAP"
  · simp only [if_pos k11, Scan.unnumbered]
    generalize MediaInitMap.ParseTag _ tag = r
    rcases r with _ | _ | _ <;> simp [Scan.unnumbered]
  simp only [if_neg k11]
  by_cases k12 : tag.Name = ascii "EXT-X-KEY"
  · simp only [if_pos k12, Scan.unnumbered]
    generalize Key.ParseTag _ tag = r
    rcases r with _ | _ | _ <;> simp [Scan.unnumbered]
  simp only [if_neg k12]
  simp [Scan.unnumbered]


theorem parseURLLine_unnumbered (h : ParserHandler S) (hb : h.LineBlind) (baseURL : S.URL)
    (st : Scan S) (t : GoString) :
    ((parseURLLine h baseURL st t).1.unnumbered, (parseURLLine h baseURL st t).2) =
      ((parseURLLine h baseURL st.unnumbered t).1.unnumbered,
        (parseURLLine h baseURL st.unnumbered t).2) := by
  obtain ⟨a1, a2, isMaster, isMedia, a5, a6, a7, a8, a9, a10, a11, a12, a13, a14, a15, a16,
    a17⟩ := st
  unfold parseURLLine
  cases S.urlParse t with
  | none => simp [Scan.unnumbered]
  | some ref =>
    cases isMaster <;> cases isMedia
    · change ((finishMediaSegment h _).unnumbered, none) =
        ((finishMediaSegment h _).unnumbered, none)
      refine congrArg (fun s => (s, none)) (finishMediaSegment_unnumbered_rel h hb _ _ ?_)
      simp [Scan.unnumbered, MediaSegment.unnumbered, Line.unnumbered, Scan.addLine]
    · change ((finishMediaSegment h _).unnumbered, none) =
        ((finishMediaSegment h _).unnumbered, none)
      refine congrArg (fun s => (s, none)) (finishMediaSegment_unnumbered_rel h hb _ _ ?_)
      simp [Scan.unnumbered, MediaSegment.unnumbered, Line.unnumbered, Scan.addLine]
    · cases hf : h.HandleVariantStream with
      | none =>
        simp [Scan.addLine, ensurePlaylist, Scan.unnumbered, VariantStream.unnumbered,
          Line.unnumbered]
      | some f =>
        simp only [Scan.addLine, ensurePlaylist, Scan.unnumbered, Scan.master, Bool.not_false,
          Bool.not_true, Bool.false_eq_true, if_false, if_true]
        conv_lhs => rw [hb.2.1 f hf]
        conv_rhs => rw [hb.2.1 f hf]
        simp [VariantStream.unnumbered, MasterPlaylist.unnumbered, Line.unnumbered]
    · simp [Scan.addLine, ensurePlaylist, Scan.unnumbered]


theorem parseLine_unnumbered (h : ParserHandler S) (hb : h.LineBlind) (baseURL : S.URL)
    (st : Scan S) (l : GoString) :
    (parseLine h baseURL st l).map (fun r => (r.1.unnumbered, r.2)) =
      (parseLine h baseURL st.unnumbered l).map (fun r => (r.1.unnumbered, r.2)) := by
  unfold parseLine
  by_cases h0 : (trimLeftSpaceTab l).length = 0
  · simp only [if_pos h0]
    simp [Scan.unnumbered, Scan.addLine]
  · simp only [if_neg h0]
    by_cases k1 : (trimLeftSpaceTab l).head? ≠ some 35
    · simp only [if_pos k1, Option.map_some']
      exact congrArg some (parseURLLine_unnumbered h hb baseURL st _)
    · simp only [if_neg k1]
      exact dispatchTag_unnumbered h hb st _

theorem parseLine_unnumbered_rel (h : ParserHandler S) (hb : h.LineBlind) (baseURL : S.URL)
    (s1 s2 : Scan S) (l : GoString) (hq : s1.unnumbered = s2.unnumbered) :
    (parseLine h baseURL s1 l).map (fun r => (r.1.unnumbered, r.2)) =
      (parseLine h baseURL s2 l).map (fun r => (r.1.unnumbered, r.2)) := by
  rw [parseLine_unnumbered h hb baseURL s1, hq, ← parseLine_unnumbered h hb baseURL s2]

theorem dispatchTag_unrecognized (h : ParserHandler S) (st : Scan S) (tag : Tag S)
    (hn : tag.Name ∉ recognizedNames) :
    dispatchTag h st tag =
      some (st.addLine { LineNum := st.lineNum, Typ := LineType.TagLineType, Tag := some tag },
        none) := by
  simp only [recognizedNames, List.mem_cons, List.mem_singleton, not_or, List.mem_nil_iff,
    or_false] at hn
  obtain ⟨k1, k2, k3, k4, k5, k6, k7, k8, k9, k10, k11, k12⟩ := hn
  simp only [dispatchTag, if_neg k1, if_neg k2, if_neg k3, if_neg k4, if_neg k5, if_neg k6,
    if_neg k7, if_neg k8, if_neg k9, if_neg k10, if_neg k11, if_neg k12]

theorem parseLine_unrecognized (h : ParserHandler S) (baseURL : S.URL) (st : Scan S)
    (u : GoString) (tag : Tag S) (ht : lineTag S u = some tag)
    (hn : tag.Name ∉ recognizedNames) :
    ∃ st', parseLine h baseURL st u = some (st', none) ∧ st'.unnumbered = st.unnumbered := by
  unfold lineTag at ht
  unfold parseLine parseTagLine
  by_cases h0 : (trimLeftSpaceTab u).length = 0
  · simp [h0] at ht
  · simp only [if_neg h0] at ht ⊢
    by_cases k1 : (trimLeftSpaceTab u).head? ≠ some 35
    · simp [k1] at ht
    · simp only [if_neg k1, Option.some.injEq] at ht ⊢
      rw [ht, dispatchTag_unrecognized h st tag hn]
      exact ⟨_, rfl, by simp [Scan.unnumbered, Scan.addLine]⟩

theorem lineNum_unnumbered (st : Scan S) (n : Nat) :
    ({ st with lineNum := n } : Scan S).unnumbered = st.unnumbered := rfl

theorem calls_unnumbered (st : Scan S) (c : List (Call S)) :
    ({ st with calls := c } : Scan S).unnumbered = st.unnumbered := rfl

theorem parseLoop_cons_rel (h : ParserHandler S) (hb : h.LineBlind) (baseURL : S.URL)
    (r : ReadLine) (rest1 rest2 : List ReadLine)
    (ih : ∀ s1 s2 : Scan S, s1.unnumbered = s2.unnumbered →
      (parseLoop h baseURL rest1 s1).map (fun r => (r.1.unnumbered, r.2)) =
        (parseLoop h baseURL rest2 s2).map (fun r => (r.1.unnumbered, r.2)))
    (s1 s2 : Scan S) (hq : s1.unnumbered = s2.unnumbered) :
    (parseLoop h baseURL (r :: rest1) s1).map (fun r => (r.1.unnumbered, r.2)) =
      (parseLoop h baseURL (r :: rest2) s2).map (fun r => (r.1.unnumbered, r.2)) := by
  have hs : s1.stop = s2.stop := (congrArg Scan.stop hq :)
  rw [parseLoop_cons, parseLoop_cons]
  by_cases hst : s1.stop = true
  · simp only [if_pos hst, if_pos (hs ▸ hst), Option.map_some', hq]
  · have hst2 : ¬ s2.stop = true := hs ▸ hst
    simp only [if_neg hst, if_neg hst2]
    cases r with
    | tooLong n => simp only [Option.map_some', lineNum_unnumbered, hq]
    | fail => simp only [Option.map_some', lineNum_unnumbered, hq]
    | line l =>
      simp only []
      have hl := parseLine_unnumbered_rel h hb baseURL { s1 with lineNum := s1.lineNum + 1 }
        { s2 with lineNum := s2.lineNum + 1 } l hq
      cases hr1 : parseLine h baseURL { s1 with lineNum := s1.lineNum + 1 } l with
      | none =>
        cases hr2 : parseLine h baseURL { s2 with lineNum := s2.lineNum + 1 } l with
        | none => rfl
        | some p2 => rw [hr1, hr2] at hl; simp at hl
      | some p1 =>
        cases hr2 : parseLine h baseURL { s2 with lineNum := s2.lineNum + 1 } l with
        | none => rw [hr1, hr2] at hl; simp at hl
        | some p2 =>
          rw [hr1, hr2] at hl
          obtain ⟨t1, e1⟩ := p1
          obtain ⟨t2, e2⟩ := p2
          simp only [Option.map_some', Option.some.injEq, Prod.mk.injEq] at hl
          obtain ⟨hq', he⟩ := hl
          subst he
          cases e1 with
          | some e => simp only [Option.map_some', hq']
          | none => exact ih t1 t2 hq'

theorem parseLoop_unnumbered_rel (h : ParserHandler S) (hb : h.LineBlind) (baseURL : S.URL)
    (input : List ReadLine) :
    ∀ s1 s2 : Scan S, s1.unnumbered = s2.unnumbered →
      (parseLoop h baseURL input s1).map (fun r => (r.1.unnumbered, r.2)) =
        (parseLoop h baseURL input s2).map (fun r => (r.1.unnumbered, r.2)) := by
  induction input with
  | nil =>
    intro s1 s2 hq
    have hs : s1.stop = s2.stop := (congrArg Scan.stop hq :)
    unfold parseLoop
    by_cases hst : s1.stop = true
    · simp only [if_pos hst, if_pos (hs ▸ hst), Option.map_some', hq]
    · have hst2 : ¬ s2.stop = true := hs ▸ hst
      simp only [if_neg hst, if_neg hst2, Option.map_some', lineNum_unnumbered, hq]
  | cons r rest ih => exact parseLoop_cons_rel h hb baseURL r rest rest ih

theorem parseLoop_insert (h : ParserHandler S) (hb : h.LineBlind) (baseURL : S.URL)
    (u : GoString) (tag : Tag S) (ht : lineTag S u = some tag)
    (hn : tag.Name ∉ recognizedNames) (post : List ReadLine) (pre : List ReadLine) :
    ∀ s1 s2 : Scan S, s1.unnumbered = s2.unnumbered →
      (parseLoop h baseURL (pre ++ post) s1).map (fun r => (r.1.unnumbered, r.2)) =
        (parseLoop h baseURL (pre ++ ReadLine.line u :: post) s2).map
          (fun r => (r.1.unnumbered, r.2)) := by
  induction pre with
  | nil =>
    intro s1 s2 hq
    have hs : s1.stop = s2.stop := (congrArg Scan.stop hq :)
    rw [List.nil_append, List.nil_append, parseLoop_cons]
    by_cases hst : s1.stop = true
    · rw [parseLoop_stopped h baseURL post s1 hst, if_pos (hs ▸ hst)]
      simp only [Option.map_some', hq]
    · have hst2 : ¬ s2.stop = true := hs ▸ hst
      obtain ⟨st', hp, hq'⟩ := parseLine_unrecognized h baseURL
        { s2 with lineNum := s2.lineNum + 1 } u tag ht hn
      simp only [if_neg hst2, hp]
      exact parseLoop_unnumbered_rel h hb baseURL post s1 st' (hq.trans hq'.symm)
  | cons r rest ih =>
    intro s1 s2 hq
    exact parseLoop_cons_rel h hb baseURL r _ _ ih s1 s2 hq

theorem Parse_unnumbered_of_loop (h : ParserHandler S) (baseURL : S.URL)
    (i1 i2 : List ReadLine)
    (hl : (parseLoop h baseURL i1 {}).map (fun r => (r.1.unnumbered, r.2)) =
      (parseLoop h baseURL i2 {}).map (fun r => (r.1.unnumbered, r.2))) :
    (Parse i1 baseURL h).map (fun r => (r.1.unnumbered, r.2)) =
      (Parse i2 baseURL h).map (fun r => (r.1.unnumbered, r.2)) := by
  unfold Parse
  cases hr1 : parseLoop h baseURL i1 {} with
  | none =>
    cases hr2 : parseLoop h baseURL i2 {} with
    | none => rfl
    | some p2 => rw [hr1, hr2] at hl; simp at hl
  | some p1 =>
    cases hr2 : parseLoop h baseURL i2 {} with
    | none => rw [hr1, hr2] at hl; simp at hl
    | some p2 =>
      rw [hr1, hr2] at hl
      obtain ⟨t1, e1⟩ := p1
      obtain ⟨t2, e2⟩ := p2
      simp only [Option.map_some', Option.some.injEq, Prod.mk.injEq] at hl
      obtain ⟨hq, he⟩ := hl
      subst he
      have hM : t1.isMaster = t2.isMaster := (congrArg Scan.isMaster hq :)
      have hE : t1.isMedia = t2.isMedia := (congrArg Scan.isMedia hq :)
      cases e1 with
      | some e => simp only [Option.map_some', hq]
      | none =>
        simp only []
        by_cases hm : t1.isMaster = true
        · have hm2 : t2.isMaster = true := hM ▸ hm
          simp only [if_pos hm, if_pos hm2]
          cases h.HandleMasterPlaylist
          · simp only [Bool.false_eq_true, if_false, Option.map_some', hq]
          · simp only [if_true, Option.map_some', calls_unnumbered, hq]
        · have hm2 : ¬ t2.isMaster = true := hM ▸ hm
          simp only [if_neg hm, if_neg hm2]
          by_cases hd : t1.isMedia = true
          · have hd2 : t2.isMedia = true := hE ▸ hd
            simp only [if_pos hd, if_pos hd2]
            cases h.HandleMediaPlaylist
            · simp only [Bool.false_eq_true, if_false, Option.map_some', hq]
            · simp only [if_true, Option.map_some', calls_unnumbered, hq]
          · have hd2 : ¬ t2.isMedia = true := hE ▸ hd
            simp only [if_neg hd, if_neg hd2, Option.map_some', hq]

/-! ## Unrecognized directives: claim C16 -/

theorem lineTag_FOO (t : GoString) :
    (lineTag S (ascii "#FOO:" ++ t)).map (fun tag => tag.Name) = some (ascii "FOO") := by
  have h : ascii "#FOO:" ++ t = 35 :: 70 :: 79 :: 79 :: 58 :: t := rfl
  rw [h]
  simp [lineTag, trimLeftSpaceTab, isSpaceChar, tagOfLine, splitN2]
  rfl

/-- C16, counterexamples.  (1) With a segment callback that signals stop when
the playlist has exactly one line, the playlist `a.ts`, `b.ts` scans to one
segment, and with the unrecognized directive `#FOO` inserted before its first
line it scans to two.  (2) Without callbacks, the playlist `a.ts` scans without
error, and with an unrecognized directive `#FOO:xxx...` that does not fit the
4096 bytes of the reader's buffer inserted before it (the reader returns its
first 4096 bytes with `isPrefix`), `Parse` fails with the "line too long"
error. -/
theorem unrecognized_directive_changes_segments :
    (lineTag Std.bare (ascii "#FOO")).map (fun t => decide (t.Name ∈ recognizedNames)) =
      some false ∧
    (Parse (S := Std.bare) [ReadLine.line (ascii "a.ts"), ReadLine.line (ascii "b.ts")] []
        { HandleMediaSegment := some (fun _ pl => decide (pl.Playlist.Lines.length ≠ 1)) }).map
      (fun r => (r.2, r.1.mediaPlaylist.MediaSegments.length)) = some (none, 1) ∧
    (Parse (S := Std.bare)
        [ReadLine.line (ascii "#FOO"), ReadLine.line (ascii "a.ts"), ReadLine.line (ascii "b.ts")]
        [] { HandleMediaSegment := some (fun _ pl => decide (pl.Playlist.Lines.length ≠ 1)) }).map
      (fun r => (r.2, r.1.mediaPlaylist.MediaSegments.length)) = some (none, 2) ∧
    (lineTag Std.bare (ascii "#FOO:" ++ List.replicate 4091 120)).map (fun t => t.Name) =
      some (ascii "FOO") ∧
    decide (ascii "FOO" ∈ recognizedNames) = false ∧
    (ascii "#FOO:" ++ List.replicate 4091 120).length = 4096 ∧
    (Parse (S := Std.bare) [ReadLine.line (ascii "a.ts")] [] {}).map
      (fun r => (r.2, r.1.mediaPlaylist.MediaSegments.length)) = some (none, 1) ∧
    (Parse (S := Std.bare)
        [ReadLine.tooLong (ascii "#FOO:" ++ List.replicate 4091 120),
          ReadLine.line (ascii "a.ts")] [] {}).map
      (fun r => (r.2, r.1.mediaPlaylist.MediaSegments.length)) =
      some (some Err.ErrPlain, 0) := by
  refine ⟨by decide, by decide, by decide, lineTag_FOO _, by decide, ?_, by decide, by decide⟩
  rw [List.length_append, List.length_replicate]
  rfl

/-- C16, amended: for every handler whose per-entity callbacks give an answer
that does not depend on the `Lines` sequence nor on line numbers, every input
and every directive line that the reader returns whole (`ReadLine.line`: the
line fits the reader's buffer) and whose name is not one of the twelve
recognized names, whatever its value: inserting that line at any line position
changes neither whether `Parse` returns an error and which, nor the playlist
kind, nor the resulting segments, variant streams, i-frame streams, rendition
groups, version and sequence numbers; only the `Lines` sequence and the line
numbers differ. -/
theorem unrecognized_directive_is_inert (handler : ParserHandler S)
    (hb : handler.LineBlind) (baseURL : S.URL) (pre post : List ReadLine) (u : GoString)
    (tag : Tag S) (ht : lineTag S u = some tag) (hn : tag.Name ∉ recognizedNames) :
    (Parse (pre ++ post) baseURL handler).map (fun r => (r.1.unnumbered, r.2)) =
      (Parse (pre ++ ReadLine.line u :: post) baseURL handler).map
        (fun r => (r.1.unnumbered, r.2)) :=
  Parse_unnumbered_of_loop handler baseURL _ _
    (parseLoop_insert handler hb baseURL u tag ht hn post pre {} {} rfl)

/-- C16 at the playlist `a.ts`, `b.ts` with `#FOO:1` inserted between the two
lines, and a segment callback that signals stop at the second segment. -/
theorem unrecognized_directive_is_inert_witness :
    (Parse (S := Std.bare) ([ReadLine.line (ascii "a.ts")] ++ [ReadLine.line (ascii "b.ts")]) []
        { HandleMediaSegment := some (fun _ pl => decide (pl.MediaSegments.length < 2)) }).map
        (fun r => (r.1.unnumbered, r.2)) =
      (Parse (S := Std.bare)
        ([ReadLine.line (ascii "a.ts")] ++ ReadLine.line (ascii "#FOO:1") ::
          [ReadLine.line (ascii "b.ts")]) []
        { HandleMediaSegment := some (fun _ pl => decide (pl.MediaSegments.length < 2)) }).map
        (fun r => (r.1.unnumbered, r.2)) :=
  unrecognized_directive_is_inert (S := Std.bare)
    { HandleMediaSegment := some (fun _ pl => decide (pl.MediaSegments.length < 2)) }
    ⟨fun f hf a b => by
        simp only [Option.some.injEq] at hf
        subst hf
        simp [MediaPlaylist.unnumbered],
      fun f hf => by simp at hf, fun f hf => by simp at hf⟩
    [] [ReadLine.line (ascii "a.ts")] [ReadLine.line (ascii "b.ts")] (ascii "#FOO:1")
    (tagOfLine Std.bare (ascii "#FOO:1")) rfl (by decide)

end Hls

namespace Hls
open AttrState
variable {S : Std}

/-! ## The states the attribute parser goes through -/

theorem advance_err (σ : PState S) : (advance σ).err = σ.err := rfl

theorem attrTrace_succ (l : GoString) (n : Nat) (σ : PState S) :
    attrTrace l (n + 1) σ =
      if σ.pos < l.length then
        (if (attrStep l σ (l.getD σ.pos 0)).err.isSome then none
         else attrTrace l n (advance (attrStep l σ (l.getD σ.pos 0))))
      else none := rfl

theorem attrRun_trace (l : GoString) :
    ∀ (n : Nat) (σ0 σ : PState S), attrTrace l n σ0 = some σ → attrRun l σ0 = attrRun l σ := by
  intro n
  induction n with
  | zero =>
    intro σ0 σ h
    simp only [attrTrace, Option.some.injEq] at h
    rw [h]
  | succ n ih =>
    intro σ0 σ h
    rw [attrTrace_succ] at h
    by_cases hpos : σ0.pos < l.length
    · rw [if_pos hpos] at h
      by_cases herr : (attrStep l σ0 (l.getD σ0.pos 0)).err.isSome = true
      · rw [if_pos herr] at h
        exact absurd h (by simp)
      · rw [if_neg herr] at h
        rw [attrRun_eq l σ0, if_pos hpos, if_neg herr]
        exact ih _ _ h
    · rw [if_neg hpos] at h
      exact absurd h (by simp)

/-- A property that the initial state has and that every iteration without an
error keeps holds in the state in which the main loop is left, when it is left
at the end of the input, and in the state before the last iteration, when it is
left with an error. -/
theorem attrRun_inv (l : GoString) (P : PState S → Prop)
    (hstep : ∀ σ, P σ → σ.pos < l.length → (attrStep l σ (l.getD σ.pos 0)).err = none →
      P (advance (attrStep l σ (l.getD σ.pos 0)))) :
    ∀ (m : Nat) (σ0 τ : PState S), attrMeasure l σ0 ≤ m → P σ0 → attrRun l σ0 = some τ →
      ∃ σ, P σ ∧ ((¬ σ.pos < l.length ∧ τ = σ) ∨
        (σ.pos < l.length ∧ τ = attrStep l σ (l.getD σ.pos 0) ∧ τ.err.isSome = true)) := by
  intro m
  induction m with
  | zero =>
    intro σ0 τ hm h0 hr
    have hpos : ¬ σ0.pos < l.length := by
      unfold attrMeasure at hm; omega
    rw [attrRun_eq l σ0, if_neg hpos, Option.some.injEq] at hr
    exact ⟨σ0, h0, Or.inl ⟨hpos, hr.symm⟩⟩
  | succ m ih =>
    intro σ0 τ hm h0 hr
    by_cases hpos : σ0.pos < l.length
    · rw [attrRun_eq l σ0, if_pos hpos] at hr
      by_cases herr : (attrStep l σ0 (l.getD σ0.pos 0)).err.isSome = true
      · rw [if_pos herr, Option.some.injEq] at hr
        exact ⟨σ0, h0, Or.inr ⟨hpos, hr.symm, by rw [← hr]; exact herr⟩⟩
      · rw [if_neg herr] at hr
        have hms := attrStep_measure l σ0 (l.getD σ0.pos 0) hpos
        have hnone : (attrStep l σ0 (l.getD σ0.pos 0)).err = none := by
          cases h : (attrStep l σ0 (l.getD σ0.pos 0)).err with
          | none => rfl
          | some e => rw [h] at herr; simp at herr
        exact ih _ τ (by omega) (hstep σ0 h0 hpos hnone) hr
    · rw [attrRun_eq l σ0, if_neg hpos, Option.some.injEq] at hr
      exact ⟨σ0, h0, Or.inl ⟨hpos, hr.symm⟩⟩

/-! ## A name ended by a space: claim C21 -/

/-- C21: the input `A B`, in which the name `A` is ended by a space and no `=`
follows, is parsed without error, as the attribute `A` with the Enum value
`B`; and `A =1` as the attribute `A` with the Enum value `=1`. -/
theorem space_ends_name_without_equals :
    (ParseAttributeList Std.bare (ascii "A B")).map
        (fun r => (r.1.ListAttrs.map (fun a => (a.Name, a.Typ, a.EnumValue)), r.2)) =
      some ([(ascii "A", ValueType.EnumType, some (ascii "B"))], none) ∧
    (ParseAttributeList Std.bare (ascii "A =1")).map
        (fun r => (r.1.ListAttrs.map (fun a => (a.Name, a.Typ, a.EnumValue)), r.2)) =
      some ([(ascii "A", ValueType.EnumType, some (ascii "=1"))], none) :=
  ⟨by decide, by decide⟩

/-! ## An unterminated quoted string: claim C23 -/

/-- C23, counterexample: on `A=1,B="abc` an error is reported, a format
error; the list returned with it holds `A=1`. -/
theorem unterminated_string_reports_error :
    (ParseAttributeList Std.bare (ascii "A=1,B=\"abc")).map
        (fun r => (r.1.ListAttrs.map (fun a => (a.Name, a.Typ, a.IntegerValue)), r.2)) =
      some ([(ascii "A", ValueType.IntegerType, some 1)], some Err.ErrFormat) := by
  decide

/-- C23, amended: for every input in which the parser, where it expects a
value, finds a `"` that opens a quoted string and no `"` follows before the end
of the input, `ParseAttributeList` fails with a format error; the list it
returns with the error holds the attributes before the unterminated string,
without that attribute. -/
theorem unterminated_string_is_error (l pre s : GoString) (n : Nat) (σ : PState S)
    (hl : l = pre ++ 34 :: s) (hs : ∀ c ∈ s, c ≠ 34)
    (ht : attrTrace l n ({} : PState S) = some σ) (hp : σ.pos = pre.length)
    (hst : σ.state = attrStateNameEnd) (herr : σ.err = none) :
    ParseAttributeList S l = some (σ.attrs, some Err.ErrFormat) := by
  obtain ⟨p, st, sg, a, state, L, e⟩ := σ
  simp only at hp hst herr
  subst hp hst herr
  have h1 := attrRun_trace l n _ _ ht
  have h2 := attrRun_step l pre s 34
    (⟨pre.length, st, sg, a, attrStateNameEnd, L, none⟩ : PState S) hl rfl
    (by simp [attrStep, isSpaceChar])
  have h3 : attrStep l ⟨pre.length, st, sg, a, attrStateNameEnd, L, none⟩ 34 =
      ⟨pre.length, pre.length + 1, sg, a, attrStateString, L, none⟩ := by
    simp [attrStep, isSpaceChar]
  rw [h3] at h2
  have h4 := attrRun_skip l s (pre ++ [34]) []
    (⟨pre.length + 1, pre.length + 1, sg, a, attrStateString, L, none⟩ : PState S)
    (by simp [hl]) (by simp) rfl
    (fun c hc q _ => by
      have := hs c hc
      simp [attrStep, this])
  have h5 := attrRun_end l
    (⟨(pre ++ [34]).length + s.length, pre.length + 1, sg, a, attrStateString, L, none⟩ :
      PState S) (by simp [hl]; omega)
  rw [ParseAttributeList_eq, h1, h2]
  simp only [advance] at h4 ⊢
  rw [h4, h5]
  simp [attrEnd]

/-- C23, amended, at `A=1,B="abc`: the `"` is at position 6. -/
theorem unterminated_string_is_error_witness :
    ∃ σ : PState Std.bare, attrTrace (ascii "A=1,B=\"abc") 6 ({} : PState Std.bare) = some σ ∧
      σ.pos = (ascii "A=1,B=").length ∧ σ.state = attrStateNameEnd ∧ σ.err = none ∧
      σ.attrs.ListAttrs.map (fun a => (a.Name, a.IntegerValue)) = [(ascii "A", some 1)] ∧
      ParseAttributeList Std.bare (ascii "A=1,B=\"abc") = some (σ.attrs, some Err.ErrFormat) :=
  ⟨_, rfl, rfl, rfl, rfl, by decide,
    unterminated_string_is_error (ascii "A=1,B=\"abc") (ascii "A=1,B=") (ascii "abc") 6 _ rfl
      (by decide) rfl rfl rfl rfl⟩

end Hls

namespace Hls
open AttrState
variable {S : Std}

/-! ## The errors of the attribute parser: claim C25 -/

theorem isBytesChar_fromHexChar (c : Nat) (h : isBytesChar c = true) :
    ∃ d, fromHexChar c = some d := by
  simp only [isBytesChar, isNumericChar, Bool.or_eq_true, Bool.and_eq_true, decide_eq_true_eq] at h
  unfold fromHexChar
  split_ifs <;> first | exact ⟨_, rfl⟩ | omega

theorem hexDecodeString_isSome : ∀ (n : Nat) (s : GoString), s.length = 2 * n →
    (∀ c ∈ s, isBytesChar c = true) → ∃ bs, hexDecodeString s = some bs := by
  intro n
  induction n with
  | zero =>
    intro s hlen _
    have : s = [] := List.length_eq_zero.1 (by omega)
    subst this
    exact ⟨[], rfl⟩
  | succ n ih =>
    intro s hlen hs
    match s, hlen, hs with
    | a :: b :: rest, hlen, hs =>
      obtain ⟨x, hx⟩ := isBytesChar_fromHexChar a (hs a (by simp))
      obtain ⟨y, hy⟩ := isBytesChar_fromHexChar b (hs b (by simp))
      obtain ⟨bs, hbs⟩ := ih rest (by simp at hlen; omega) (fun c hc => hs c (by simp [hc]))
      exact ⟨(x * 16 + y) :: bs, by simp [hexDecodeString, hx, hy, hbs]⟩
    | [_], hlen, _ => simp at hlen; omega
    | [], hlen, _ => simp at hlen

theorem slice_length (l : GoString) (i j : Nat) (hj : j ≤ l.length) :
    (slice l i j).length = j - i := by
  simp [slice]
  omega

theorem slice_mem (l : GoString) (i j : Nat) (c : Nat) (hc : c ∈ slice l i j) :
    ∃ q, i ≤ q ∧ q < j ∧ q < l.length ∧ l.getD q 0 = c := by
  unfold slice at hc
  obtain ⟨k, hk, rfl⟩ := List.getElem_of_mem hc
  simp only [List.length_take, List.length_drop] at hk
  refine ⟨i + k, by omega, by omega, by omega, ?_⟩
  simp [List.getElem_take, List.getElem_drop, List.getD_eq_getElem?_getD]
  rw [List.getElem?_eq_getElem (by omega)]
  rfl

theorem finishEnum_cases (l : GoString) (σ : PState S) (c : Nat) :
    (finishEnum l σ c).err = σ.err ∧
      (finishEnum l σ c).state = (if c = 44 then attrStateStart else attrStateValueEnd) := ⟨rfl, rfl⟩

theorem finishInteger_cases (l : GoString) (σ : PState S) (c : Nat) :
    (finishInteger l σ c).err = some Err.ErrFormat ∨
      ((finishInteger l σ c).err = σ.err ∧
        (finishInteger l σ c).state = (if c = 44 then attrStateStart else attrStateValueEnd)) := by
  unfold finishInteger
  cases ParseInt (slice l σ.start σ.pos) with
  | none => exact Or.inl rfl
  | some v => exact Or.inr ⟨rfl, rfl⟩

theorem finishFloat_cases (l : GoString) (σ : PState S) (c : Nat) :
    (finishFloat l σ c).err = some Err.ErrFormat ∨
      ((finishFloat l σ c).err = σ.err ∧
        (finishFloat l σ c).state = (if c = 44 then attrStateStart else attrStateValueEnd)) := by
  unfold finishFloat
  cases S.ParseFloat (slice l σ.start σ.pos) with
  | none => exact Or.inl rfl
  | some v => exact Or.inr ⟨rfl, rfl⟩

theorem finishResolution_cases (l : GoString) (σ : PState S) (c : Nat) :
    (finishResolution l σ c).err = some Err.ErrFormat ∨
      ((finishResolution l σ c).err = σ.err ∧
        (finishResolution l σ c).state =
          (if c = 44 then attrStateStart else attrStateValueEnd)) := by
  unfold finishResolution
  by_cases h : σ.start = σ.pos
  · rw [if_pos h]; exact Or.inl rfl
  · rw [if_neg h]
    cases ParseUint (slice l σ.start σ.pos) with
    | none => exact Or.inl rfl
    | some v => exact Or.inr ⟨rfl, rfl⟩

/-- In the Bytes state the text handed to `hex.DecodeString` is an even number
of hexadecimal digits, so that the decoding does not fail. -/
theorem finishBytes_cases (l : GoString) (σ : PState S) (c : Nat) (h : BytesRun l σ)
    (hst : σ.state = attrStateBytes) :
    (finishBytes l σ c).err = some Err.ErrFormat ∨
      ((finishBytes l σ c).err = σ.err ∧
        (finishBytes l σ c).state = (if c = 44 then attrStateStart else attrStateValueEnd)) := by
  obtain ⟨_, hle, hb⟩ := h
  obtain ⟨h1, h2⟩ := hb hst
  unfold finishBytes
  by_cases hodd : (σ.pos - σ.start) % 2 ≠ 0
  · rw [if_pos hodd]; exact Or.inl rfl
  · rw [if_neg hodd]
    by_cases hshort : σ.pos - σ.start ≤ 2
    · rw [if_pos hshort]; exact Or.inr ⟨rfl, rfl⟩
    · rw [if_neg hshort]
      obtain ⟨bs, hbs⟩ := hexDecodeString_isSome ((σ.pos - σ.start - 2) / 2)
        (slice l (σ.start + 2) σ.pos)
        (by rw [slice_length l _ _ hle]; omega)
        (fun d hd => by
          obtain ⟨q, hq1, hq2, _, hq4⟩ := slice_mem l _ _ d hd
          rw [← hq4]
          exact h2 q hq1 hq2)
      rw [hbs]
      exact Or.inr ⟨rfl, rfl⟩

theorem bytesRun_finish (l : GoString) (σ τ : PState S) (c : Nat) (hσ : σ.err = none)
    (hpos : σ.pos < l.length) (hp : τ.pos = σ.pos)
    (hc : τ.err = some Err.ErrFormat ∨
      (τ.err = σ.err ∧ τ.state = (if c = 44 then attrStateStart else attrStateValueEnd))) :
    τ.err = some Err.ErrFormat ∨ (τ.err = none ∧ BytesRun l (advance τ)) := by
  rcases hc with hc | ⟨h1, h2⟩
  · exact Or.inl hc
  · refine Or.inr ⟨h1.trans hσ, h1.trans hσ, by simp only [advance, hp]; omega, ?_⟩
    intro hs
    simp only [advance] at hs
    rw [h2] at hs
    split_ifs at hs

/-- One iteration of the main loop fails with a format error, or does not fail
and keeps what holds of the `0`-prefixed run. -/
theorem attrStep_bytesRun (l : GoString) (σ : PState S) (h : BytesRun l σ)
    (hpos : σ.pos < l.length) :
    (attrStep l σ (l.getD σ.pos 0)).err = some Err.ErrFormat ∨
      ((attrStep l σ (l.getD σ.pos 0)).err = none ∧
        BytesRun l (advance (attrStep l σ (l.getD σ.pos 0)))) := by
  have hfin := fun τ hp hc => bytesRun_finish l σ τ (l.getD σ.pos 0) h.1 hpos hp hc
  have hE := hfin _ (finishEnum_pos l σ _) (Or.inr (finishEnum_cases l σ _))
  have hI := hfin _ (finishInteger_pos l σ _) (finishInteger_cases l σ _)
  have hF := hfin _ (finishFloat_pos l σ _) (finishFloat_cases l σ _)
  have hR := hfin _ (finishResolution_pos l σ _) (finishResolution_cases l σ _)
  have hB := fun hst => hfin _ (finishBytes_pos l σ _) (finishBytes_cases l σ _ h hst)
  clear hfin
  obtain ⟨herr, hle, hb⟩ := h
  generalize hc : l.getD σ.pos 0 = c at hE hI hF hR hB ⊢
  obtain ⟨p, st, sg, a, state, L, e⟩ := σ
  simp only at herr hle hb hpos hc
  subst herr
  cases state <;> simp only [attrStep] <;> split_ifs <;>
    first
      | exact Or.inl rfl
      | exact hE
      | exact hI
      | exact hF
      | exact hR
      | exact hB rfl
      | (refine Or.inr ⟨rfl, rfl, ?_, ?_⟩
         · simp only [advance, appendAttr]; omega
         · intro hs
           simp only [advance] at hs
           cases hs)
      | (cases ParseUint (slice l st p) with
         | none => exact Or.inl rfl
         | some w =>
           refine Or.inr ⟨rfl, rfl, Nat.succ_le_of_lt hpos, ?_⟩
           intro hs
           simp only [advance] at hs
           cases hs)
      | (refine Or.inr ⟨rfl, rfl, Nat.succ_le_of_lt hpos, fun _ => ⟨Nat.le_refl _, ?_⟩⟩
         intro q h1 h2
         simp only [advance] at h1 h2
         omega)
      | (obtain ⟨hb1, hb2⟩ := hb rfl
         refine Or.inr ⟨rfl, rfl, Nat.succ_le_of_lt hpos, fun _ => ⟨?_, ?_⟩⟩
         · simp only [advance]; omega
         · intro q h1 h2
           simp only [advance] at h1 h2
           by_cases hq : q < p
           · exact hb2 q h1 hq
           · first
               | omega
               | (have hqp : q = p := by omega
                  subst hqp
                  rw [hc]
                  assumption))

theorem attrEnd_bytesRun (l : GoString) (σ : PState S) (h : BytesRun l σ) :
    (attrEnd l σ).err = none ∨ (attrEnd l σ).err = some Err.ErrFormat := by
  have hI := finishInteger_cases l σ 32
  have hF := finishFloat_cases l σ 32
  have hR := finishResolution_cases l σ 32
  have hB := finishBytes_cases l σ 32 h
  rw [h.1] at hI hF hR hB
  unfold attrEnd
  split
  · exact Or.inl h.1
  · exact hI.elim Or.inr (fun x => Or.inl x.1)
  · exact hF.elim Or.inr (fun x => Or.inl x.1)
  · rename_i hst
    split_ifs
    · exact hI.elim Or.inr (fun x => Or.inl x.1)
    · exact (hB hst).elim Or.inr (fun x => Or.inl x.1)
    · exact Or.inl h.1
  · exact hR.elim Or.inr (fun x => Or.inl x.1)
  · exact Or.inl h.1
  · exact Or.inl h.1
  · exact Or.inr rfl

theorem bytesRun_init (l : GoString) : BytesRun l ({} : PState S) :=
  ⟨rfl, Nat.zero_le _, fun h => by cases h⟩

/-- C25: every error returned by `ParseAttributeList`, on any input string, is
a format error. -/
theorem attribute_errors_are_format_errors (l : GoString) (attrs : AttributeList S) (e : Err)
    (h : ParseAttributeList S l = some (attrs, some e)) : e = Err.ErrFormat := by
  rw [ParseAttributeList_eq] at h
  cases hr : attrRun l ({} : PState S) with
  | none => rw [hr] at h; simp at h
  | some τ =>
    rw [hr] at h
    obtain ⟨σ, hσ, hcase⟩ := attrRun_inv l (BytesRun l)
      (fun σ hP hpos hnone => by
        rcases attrStep_bytesRun l σ hP hpos with h1 | h1
        · rw [hnone] at h1; cases h1
        · exact h1.2)
      _ _ τ (Nat.le_refl _) (bytesRun_init l) hr
    simp only [Option.map_some', Option.some.injEq] at h
    rcases hcase with ⟨_, rfl⟩ | ⟨hpos, rfl, herr⟩
    · rw [hσ.1] at h
      simp only [Option.isSome_none, Bool.false_eq_true, if_false, Prod.mk.injEq] at h
      rcases attrEnd_bytesRun l τ hσ with h1 | h1
      · rw [h1] at h; exact absurd h.2 (by simp)
      · rw [h1] at h
        exact (Option.some.inj h.2).symm
    · rw [if_pos herr] at h
      simp only [Prod.mk.injEq] at h
      rcases attrStep_bytesRun l σ hσ hpos with h1 | h1
      · rw [h1] at h
        exact (Option.some.inj h.2).symm
      · rw [h1.1] at herr; simp at herr

/-- C25 at the input `A=0x12,B=1x`, which fails at the Resolution without a
height. -/
theorem attribute_errors_are_format_errors_witness :
    ∃ (attrs : AttributeList Std.bare) (e : Err),
      ParseAttributeList Std.bare (ascii "A=0x12,B=1x") = some (attrs, some e) ∧
      e = Err.ErrFormat :=
  ⟨_, _, rfl,
    attribute_errors_are_format_errors (S := Std.bare) (ascii "A=0x12,B=1x") _ _ rfl⟩

end Hls

namespace Hls
open AttrState
variable {S : Std}

/-! ## The values of the parsed attributes: claim C30 -/

theorem typed_append (σ : PState S) (a : Attribute S) (t : ValueType) (c : Nat)
    (hσ : Typed σ) (ha : ({ a with Typ := t } : Attribute S).toValue.Invariant) :
    Typed (advance (afterValue (appendAttr { σ with attr := a } t) c)) := by
  obtain ⟨h1, h2, h3, _⟩ := hσ
  refine ⟨h1, Allocated_Append _ _ h2, ?_, ?_⟩
  · intro b hb
    simp only [advance, afterValue, appendAttr] at hb
    rw [ListAttrs_Append _ _ h2, List.mem_append, List.mem_singleton] at hb
    rcases hb with hb | hb
    · exact h3 b hb
    · rw [hb]; exact ha
  · simp only [advance, afterValue, appendAttr]
    by_cases hc : c = 44 <;> simp [hc, Value.payloads]

theorem isSome_false {α : Type} (o : Option α) (h : o.isSome = false) : o = none := by
  cases o with
  | none => rfl
  | some a => cases h

theorem typed_payload (σ : PState S) (h : Typed σ) :
    σ.attr.StringValue = none ∧ σ.attr.EnumValue = none ∧ σ.attr.IntegerValue = none ∧
    σ.attr.FloatValue = none ∧ σ.attr.BytesValue = none ∧
    (σ.state ≠ attrStateResolution → σ.attr.ResolutionValue = none) ∧
    (σ.state = attrStateResolution → σ.attr.ResolutionValue.isSome = true) := by
  have h4 := h.2.2.2
  simp only [Value.payloads, List.cons.injEq, and_true] at h4
  obtain ⟨a1, a2, a3, a4, a5, a6⟩ := h4
  refine ⟨isSome_false _ a1, isSome_false _ a2, isSome_false _ a3, isSome_false _ a4,
    isSome_false _ a5, ?_, ?_⟩
  · intro hs
    rw [decide_eq_false hs] at a6
    exact isSome_false _ a6
  · intro hs
    rw [decide_eq_true hs] at a6
    exact a6

theorem finishEnum_typed (l : GoString) (σ : PState S) (c : Nat) (h : Typed σ)
    (hs : σ.state ≠ attrStateResolution) : Typed (advance (finishEnum l σ c)) := by
  obtain ⟨a1, a2, a3, a4, a5, a6, _⟩ := typed_payload σ h
  exact typed_append σ _ ValueType.EnumType c h
    ⟨by simp, by simp [Value.payloads, ValueType.payloads, a1, a3, a4, a5, a6 hs]⟩

theorem finishInteger_typed (l : GoString) (σ : PState S) (c : Nat) (h : Typed σ)
    (hs : σ.state ≠ attrStateResolution) (herr : (finishInteger l σ c).err = none) :
    Typed (advance (finishInteger l σ c)) := by
  obtain ⟨a1, a2, a3, a4, a5, a6, _⟩ := typed_payload σ h
  unfold finishInteger at herr ⊢
  cases hv : ParseInt (slice l σ.start σ.pos) with
  | none => rw [hv] at herr; cases herr
  | some v =>
    exact typed_append σ _ ValueType.IntegerType c h
      ⟨by simp, by simp [Value.payloads, ValueType.payloads, a1, a2, a4, a5, a6 hs]⟩

theorem finishFloat_typed (l : GoString) (σ : PState S) (c : Nat) (h : Typed σ)
    (hs : σ.state ≠ attrStateResolution) (herr : (finishFloat l σ c).err = none) :
    Typed (advance (finishFloat l σ c)) := by
  obtain ⟨a1, a2, a3, a4, a5, a6, _⟩ := typed_payload σ h
  unfold finishFloat at herr ⊢
  cases hv : S.ParseFloat (slice l σ.start σ.pos) with
  | none => rw [hv] at herr; cases herr
  | some v =>
    exact typed_append σ _ ValueType.FloatType c h
      ⟨by simp, by simp [Value.payloads, ValueType.payloads, a1, a2, a3, a5, a6 hs]⟩

theorem finishBytes_typed (l : GoString) (σ : PState S) (c : Nat) (h : Typed σ)
    (hs : σ.state ≠ attrStateResolution) (herr : (finishBytes l σ c).err = none) :
    Typed (advance (finishBytes l σ c)) := by
  obtain ⟨a1, a2, a3, a4, a5, a6, _⟩ := typed_payload σ h
  unfold finishBytes at herr ⊢
  by_cases hodd : (σ.pos - σ.start) % 2 ≠ 0
  · rw [if_pos hodd] at herr; cases herr
  · rw [if_neg hodd] at herr ⊢
    by_cases hshort : σ.pos - σ.start ≤ 2
    · rw [if_pos hshort]
      exact typed_append σ _ ValueType.BytesType c h
        ⟨by simp, by simp [Value.payloads, ValueType.payloads, a1, a2, a3, a4, a6 hs]⟩
    · rw [if_neg hshort] at herr ⊢
      cases hv : hexDecodeString (slice l (σ.start + 2) σ.pos) with
      | none => rw [hv] at herr; cases herr
      | some v =>
        exact typed_append σ _ ValueType.BytesType c h
          ⟨by simp, by simp [Value.payloads, ValueType.payloads, a1, a2, a3, a4, a6 hs]⟩

theorem finishResolution_typed (l : GoString) (σ : PState S) (c : Nat) (h : Typed σ)
    (hs : σ.state = attrStateResolution) (herr : (finishResolution l σ c).err = none) :
    Typed (advance (finishResolution l σ c)) := by
  obtain ⟨a1, a2, a3, a4, a5, _, a7⟩ := typed_payload σ h
  unfold finishResolution at herr ⊢
  by_cases hsp : σ.start = σ.pos
  · rw [if_pos hsp] at herr; cases herr
  · rw [if_neg hsp] at herr ⊢
    cases hv : ParseUint (slice l σ.start σ.pos) with
    | none => rw [hv] at herr; cases herr
    | some v =>
      exact typed_append σ _ ValueType.ResolutionType c h
        ⟨by simp, by simp [Value.payloads, ValueType.payloads, a1, a2, a3, a4, a5, a7 hs]⟩

/-- One iteration of the main loop without an error keeps what holds of the
attributes. -/
theorem attrStep_typed (l : GoString) (σ : PState S) (c : Nat) (h : Typed σ)
    (herr : (attrStep l σ c).err = none) : Typed (advance (attrStep l σ c)) := by
  obtain ⟨a1, a2, a3, a4, a5, a6, a7⟩ := typed_payload σ h
  have hE := finishEnum_typed l σ c h
  have hI := finishInteger_typed l σ c h
  have hF := finishFloat_typed l σ c h
  have hB := finishBytes_typed l σ c h
  have hR := finishResolution_typed l σ c h
  have hS : σ.state ≠ attrStateResolution → Typed (advance (afterValue (appendAttr
      { σ with attr := { σ.attr with StringValue := some (slice l σ.start σ.pos) } }
      ValueType.StringType) 32)) := fun hs =>
    typed_append σ _ ValueType.StringType 32 h
      ⟨by simp, by simp [Value.payloads, ValueType.payloads, a2, a3, a4, a5, a6 hs]⟩
  obtain ⟨herr0, hA, hL, h4⟩ := h
  obtain ⟨p, st, sg, a, state, L, e⟩ := σ
  simp only at herr0 hA hL h4 a1 a2 a3 a4 a5 a6 a7
  subst herr0
  cases state <;> simp only [attrStep] at herr ⊢ <;> split_ifs at herr ⊢ <;>
    first
      | (cases herr; done)
      | (refine hE ?_; intro hs; cases hs)
      | (refine hI ?_ herr; intro hs; cases hs)
      | (refine hF ?_ herr; intro hs; cases hs)
      | (refine hB ?_ herr; intro hs; cases hs)
      | exact hR rfl herr
      | (refine hS ?_; intro hs; cases hs)
      | (refine ⟨rfl, hA, hL, ?_⟩
         simp [advance, Value.payloads, a1, a2, a3, a4, a5, a6, a7])
      | (cases hw : ParseUint (slice l st p) with
         | none => rw [hw] at herr; cases herr
         | some w =>
           refine ⟨rfl, hA, hL, ?_⟩
           simp [advance, Value.payloads, a1, a2, a3, a4, a5])

theorem typed_init : Typed ({} : PState S) :=
  ⟨rfl, Allocated_empty, fun a ha => by simp [AttributeList.ListAttrs] at ha, rfl⟩

theorem attrEnd_typed (l : GoString) (σ : PState S) (h : Typed σ)
    (herr : (attrEnd l σ).err = none) :
    (attrEnd l σ).attrs.Allocated ∧ ∀ a ∈ (attrEnd l σ).attrs.ListAttrs, a.toValue.Invariant := by
  have key : Typed (advance (attrEnd l σ)) := by
    have hE := finishEnum_typed l σ 32 h
    have hI := finishInteger_typed l σ 32 h
    have hF := finishFloat_typed l σ 32 h
    have hB := finishBytes_typed l σ 32 h
    have hR := finishResolution_typed l σ 32 h
    have h0 : Typed (advance σ) := ⟨h.1, h.2.1, h.2.2.1, h.2.2.2⟩
    obtain ⟨p, st, sg, a, state, L, e⟩ := σ
    cases state <;> simp only [attrEnd] at herr ⊢ <;> (try split_ifs at herr ⊢) <;>
      first
        | (cases herr; done)
        | exact h0
        | (refine hE ?_; intro hs; cases hs)
        | (refine hI ?_ herr; intro hs; cases hs)
        | (refine hF ?_ herr; intro hs; cases hs)
        | (refine hB ?_ herr; intro hs; cases hs)
        | exact hR rfl herr
  exact ⟨key.2.1, key.2.2.1⟩

/-- The attributes of a list that is returned without error are allocated in
the list and satisfy the invariant of `Value`. -/
theorem ParseAttributeList_typed (l : GoString) (attrs : AttributeList S)
    (h : ParseAttributeList S l = some (attrs, none)) :
    attrs.Allocated ∧ ∀ a ∈ attrs.ListAttrs, a.toValue.Invariant := by
  rw [ParseAttributeList_eq] at h
  cases hr : attrRun l ({} : PState S) with
  | none => rw [hr] at h; simp at h
  | some τ =>
    rw [hr] at h
    obtain ⟨σ, hσ, hcase⟩ := attrRun_inv l Typed
      (fun σ hP _ hnone => attrStep_typed l σ _ hP hnone)
      _ _ τ (Nat.le_refl _) typed_init hr
    simp only [Option.map_some', Option.some.injEq] at h
    rcases hcase with ⟨_, rfl⟩ | ⟨_, rfl, herr⟩
    · rw [hσ.1] at h
      simp only [Option.isSome_none, Bool.false_eq_true, if_false, Prod.mk.injEq] at h
      rw [← h.1]
      exact attrEnd_typed l τ hσ h.2
    · rw [if_pos herr] at h
      simp only [Prod.mk.injEq] at h
      rw [h.2] at herr
      simp at herr

theorem invariant_accessor (v : Value S) (h : v.Invariant) : v.AccessorSucceeds := by
  obtain ⟨t, s, e, i, f, b, r⟩ := v
  obtain ⟨h1, h2⟩ := h
  cases t <;>
    simp only [Value.payloads, ValueType.payloads, List.cons.injEq, and_true] at h2 <;>
    simp only [Value.AccessorSucceeds, Value.String, Value.Enum, Value.Int, Value.Float,
      Value.Bytes, Value.Resolution]
  · exact absurd rfl h1
  · cases s with
    | none => simp at h2
    | some x => exact ⟨x, rfl⟩
  · cases e with
    | none => simp at h2
    | some x => exact ⟨x, rfl⟩
  · cases i with
    | none => simp at h2
    | some x => exact ⟨x, rfl⟩
  · cases f with
    | none => simp at h2
    | some x => exact ⟨x, rfl⟩
  · cases b with
    | none => simp at h2
    | some x => exact ⟨x, rfl⟩
  · cases r with
    | none => simp at h2
    | some x => exact ⟨x, rfl⟩

/-- C30: every attribute returned by a `ParseAttributeList` that reports no
error satisfies the invariant of `Value`: its type is set, the payload field
that matches the type is present (for Bytes a non-nil slice) and all the other
payload fields are absent; and the accessor that matches its type returns
without error. -/
theorem parsed_values_satisfy_invariant (l : GoString) (attrs : AttributeList S)
    (h : ParseAttributeList S l = some (attrs, none)) :
    ∀ a ∈ attrs.ListAttrs, a.toValue.Invariant ∧ a.toValue.AccessorSucceeds :=
  fun a ha =>
    ⟨(ParseAttributeList_typed l attrs h).2 a ha,
      invariant_accessor _ ((ParseAttributeList_typed l attrs h).2 a ha)⟩

/-- C30 at the input `S="a",E=b,I=-1,B=0x0A,R=2x3`. -/
theorem parsed_values_satisfy_invariant_witness :
    ∃ attrs : AttributeList Std.bare,
      ParseAttributeList Std.bare (ascii "S=\"a\",E=b,I=-1,B=0x0A,R=2x3") = some (attrs, none) ∧
      attrs.ListAttrs.map (fun a => a.Typ) =
        [ValueType.StringType, ValueType.EnumType, ValueType.IntegerType, ValueType.BytesType,
          ValueType.ResolutionType] ∧
      ∀ a ∈ attrs.ListAttrs, a.toValue.Invariant ∧ a.toValue.AccessorSucceeds :=
  ⟨_, rfl, by decide,
    parsed_values_satisfy_invariant (S := Std.bare) (ascii "S=\"a\",E=b,I=-1,B=0x0A,R=2x3") _
      rfl⟩

end Hls

namespace Hls
open AttrState
variable {S : Std}

/-! ## The names of the parsed attributes: claim C22 -/

theorem NamesIn_mono (l : GoString) : ∀ (ns : List GoString) (lo hi hi' : Nat), hi ≤ hi' →
    NamesIn l lo hi ns → NamesIn l lo hi' ns := by
  intro ns
  induction ns with
  | nil => intro lo hi hi' h1 h2; exact Nat.le_trans h2 h1
  | cons n ns ih =>
    intro lo hi hi' h1 ⟨p, hp1, hp3, hp4⟩
    exact ⟨p, hp1, hp3, ih _ _ _ h1 hp4⟩

theorem NamesIn_snoc (l : GoString) (n : GoString) (p : Nat)
    (hn : slice l p (p + n.length) = n) :
    ∀ (ns : List GoString) (lo hi : Nat), hi ≤ p → NamesIn l lo hi ns →
      NamesIn l lo (p + n.length) (ns ++ [n]) := by
  intro ns
  induction ns with
  | nil =>
    intro lo hi h1 h2
    exact ⟨p, Nat.le_trans h2 h1, hn, Nat.le_refl _⟩
  | cons m ns ih =>
    intro lo hi h1 ⟨q, hq1, hq3, hq4⟩
    exact ⟨q, hq1, hq3, ih _ _ h1 hq4⟩

theorem named_append (l : GoString) (σ : PState S) (a : Attribute S) (t : ValueType) (c : Nat)
    (hσ : Named l σ) (hv : σ.state.isValue = true) (ha : a.Name = σ.attr.Name) :
    Named l (advance (afterValue (appendAttr { σ with attr := a } t) c)) := by
  obtain ⟨h1, h3, h4, hi, h5, h6, h7⟩ := hσ
  obtain ⟨hvn, p, hp1, hp2, hp3⟩ := h7.2 hv
  have hlist : (σ.attrs.Append { a with Typ := t }).ListAttrs =
      σ.attrs.ListAttrs ++ [{ a with Typ := t }] := ListAttrs_Append _ _ h3
  refine ⟨h1, Allocated_Append _ _ h3, ?_, p + σ.attr.Name.length, ?_, ?_, ?_⟩
  · intro b hb
    simp only [advance, afterValue, appendAttr] at hb
    rw [hlist, List.mem_append, List.mem_singleton] at hb
    rcases hb with hb | hb
    · exact h4 b hb
    · rw [hb]
      simp only [ha]
      exact hvn
  · simp only [advance, afterValue, appendAttr]
    omega
  · simp only [advance, afterValue, appendAttr]
    rw [hlist, List.map_append, List.map_singleton]
    simp only [ha]
    exact NamesIn_snoc l _ p hp3 _ 0 hi hp1 h6
  · simp only [advance, afterValue, appendAttr, NameSpan]
    by_cases hc : c = 44 <;> simp [hc, AttrState.isValue]

theorem named_keep (l : GoString) (σ τ : PState S) (h : Named l σ)
    (hv : σ.state.isValue = true) (herr : τ.err = none) (hattrs : τ.attrs = σ.attrs)
    (hname : τ.attr.Name = σ.attr.Name) (hst : τ.state.isValue = true)
    (hp : σ.pos ≤ τ.pos + 1) : Named l (advance τ) := by
  obtain ⟨h1, h3, h4, hi, h5, h6, h7⟩ := h
  obtain ⟨hvn, p, hp1, hp2, hp3⟩ := h7.2 hv
  refine ⟨herr, hattrs ▸ h3, hattrs ▸ h4, hi, ?_, hattrs ▸ h6, ?_, ?_⟩
  · simp only [advance]; omega
  · intro hs
    simp only [advance] at hs
    rw [hs] at hst
    cases hst
  · intro _
    simp only [advance, hname]
    exact ⟨hvn, p, hp1, by omega, hp3⟩

theorem named_idle (l : GoString) (σ τ : PState S) (h : Named l σ)
    (herr : τ.err = none) (hattrs : τ.attrs = σ.attrs)
    (hst : τ.state = attrStateStart ∨ τ.state = attrStateValueEnd)
    (hp : σ.pos ≤ τ.pos + 1) : Named l (advance τ) := by
  obtain ⟨h1, h3, h4, hi, h5, h6, h7⟩ := h
  refine ⟨herr, hattrs ▸ h3, hattrs ▸ h4, hi, ?_, hattrs ▸ h6, ?_, ?_⟩
  · simp only [advance]; omega
  · intro hs
    simp only [advance] at hs
    rcases hst with hst | hst <;> rw [hst] at hs <;> cases hs
  · intro hs
    simp only [advance] at hs
    rcases hst with hst | hst <;> rw [hst] at hs <;> cases hs

theorem finishEnum_named (l : GoString) (σ : PState S) (c : Nat) (h : Named l σ)
    (hv : σ.state.isValue = true) : Named l (advance (finishEnum l σ c)) :=
  named_append l σ _ ValueType.EnumType c h hv rfl

theorem finishInteger_named (l : GoString) (σ : PState S) (c : Nat) (h : Named l σ)
    (hv : σ.state.isValue = true) (herr : (finishInteger l σ c).err = none) :
    Named l (advance (finishInteger l σ c)) := by
  unfold finishInteger at herr ⊢
  cases hw : ParseInt (slice l σ.start σ.pos) with
  | none => rw [hw] at herr; cases herr
  | some v => exact named_append l σ _ ValueType.IntegerType c h hv rfl

theorem finishFloat_named (l : GoString) (σ : PState S) (c : Nat) (h : Named l σ)
    (hv : σ.state.isValue = true) (herr : (finishFloat l σ c).err = none) :
    Named l (advance (finishFloat l σ c)) := by
  unfold finishFloat at herr ⊢
  cases hw : S.ParseFloat (slice l σ.start σ.pos) with
  | none => rw [hw] at herr; cases herr
  | some v => exact named_append l σ _ ValueType.FloatType c h hv rfl

theorem finishBytes_named (l : GoString) (σ : PState S) (c : Nat) (h : Named l σ)
    (hv : σ.state.isValue = true) (herr : (finishBytes l σ c).err = none) :
    Named l (advance (finishBytes l σ c)) := by
  unfold finishBytes at herr ⊢
  by_cases hodd : (σ.pos - σ.start) % 2 ≠ 0
  · rw [if_pos hodd] at herr; cases herr
  · rw [if_neg hodd] at herr ⊢
    by_cases hshort : σ.pos - σ.start ≤ 2
    · rw [if_pos hshort]
      exact named_append l σ _ ValueType.BytesType c h hv rfl
    · rw [if_neg hshort] at herr ⊢
      cases hw : hexDecodeString (slice l (σ.start + 2) σ.pos) with
      | none => rw [hw] at herr; cases herr
      | some v => exact named_append l σ _ ValueType.BytesType c h hv rfl

theorem finishResolution_named (l : GoString) (σ : PState S) (c : Nat) (h : Named l σ)
    (hv : σ.state.isValue = true) (herr : (finishResolution l σ c).err = none) :
    Named l (advance (finishResolution l σ c)) := by
  unfold finishResolution at herr ⊢
  by_cases hsp : σ.start = σ.pos
  · rw [if_pos hsp] at herr; cases herr
  · rw [if_neg hsp] at herr ⊢
    cases hw : ParseUint (slice l σ.start σ.pos) with
    | none => rw [hw] at herr; cases herr
    | some v => exact named_append l σ _ ValueType.ResolutionType c h hv rfl

theorem named_start_name (l : GoString) (σ : PState S) (c : Nat) (h : Named l σ)
    (hc : l.getD σ.pos 0 = c)
    (hn : isAttributeNameChar c = true) :
    Named l (advance { σ with start := σ.pos, state := attrStateName }) := by
  obtain ⟨h1, h3, h4, hi, h5, h6, _⟩ := h
  refine ⟨h1, h3, h4, hi, ?_, h6, ?_, ?_⟩
  · simp only [advance]; omega
  · intro _
    simp only [advance]
    refine ⟨h5, Nat.lt_succ_self _, ?_⟩
    intro q hq1 hq2
    have : q = σ.pos := by omega
    rw [this, hc]
    exact hn
  · intro hv
    simp [advance, AttrState.isValue] at hv

theorem named_name_stay (l : GoString) (σ : PState S) (c : Nat) (h : Named l σ)
    (hs : σ.state = attrStateName) (hc : l.getD σ.pos 0 = c)
    (hn : isAttributeNameChar c = true) : Named l (advance σ) := by
  obtain ⟨h1, h3, h4, hi, h5, h6, h7⟩ := h
  obtain ⟨k1, k2, k3⟩ := h7.1 hs
  refine ⟨h1, h3, h4, hi, ?_, h6, ?_, ?_⟩
  · simp only [advance]; omega
  · intro _
    simp only [advance]
    refine ⟨k1, by omega, ?_⟩
    intro q hq1 hq2
    by_cases hq : q < σ.pos
    · exact k3 q hq1 hq
    · have : q = σ.pos := by omega
      rw [this, hc]
      exact hn
  · intro hv
    simp only [advance] at hv
    rw [hs] at hv
    cases hv

theorem named_name_end (l : GoString) (σ : PState S) (h : Named l σ)
    (hs : σ.state = attrStateName) (hpos : σ.pos < l.length) :
    Named l (advance { σ with attr := { σ.attr with Name := slice l σ.start σ.pos },
                              state := attrStateNameEnd }) := by
  obtain ⟨h1, h3, h4, hi, h5, h6, h7⟩ := h
  obtain ⟨k1, k2, k3⟩ := h7.1 hs
  have hlen : (slice l σ.start σ.pos).length = σ.pos - σ.start :=
    slice_length l _ _ (Nat.le_of_lt hpos)
  refine ⟨h1, h3, h4, hi, ?_, h6, ?_, ?_⟩
  · simp only [advance]; omega
  · intro hs'
    simp [advance] at hs'
  · intro _
    simp only [advance]
    refine ⟨⟨?_, ?_⟩, σ.start, k1, ?_, ?_⟩
    · intro hnil
      rw [hnil] at hlen
      simp at hlen
      omega
    · intro d hd
      obtain ⟨q, hq1, hq2, _, hq4⟩ := slice_mem l _ _ d hd
      rw [← hq4]
      exact k3 q hq1 hq2
    · rw [hlen]; omega
    · rw [hlen]
      congr 1
      omega

/-- One iteration of the main loop without an error keeps what holds of the
names. -/
theorem attrStep_named (l : GoString) (σ : PState S) (h : Named l σ) (hpos : σ.pos < l.length)
    (herr : (attrStep l σ (l.getD σ.pos 0)).err = none) :
    Named l (advance (attrStep l σ (l.getD σ.pos 0))) := by
  have hE := finishEnum_named l σ (l.getD σ.pos 0) h
  have hI := finishInteger_named l σ (l.getD σ.pos 0) h
  have hF := finishFloat_named l σ (l.getD σ.pos 0) h
  have hB := finishBytes_named l σ (l.getD σ.pos 0) h
  have hR := finishResolution_named l σ (l.getD σ.pos 0) h
  have hS := named_append l σ { σ.attr with StringValue := some (slice l σ.start σ.pos) }
    ValueType.StringType 32 h
  have hN1 := named_start_name l σ (l.getD σ.pos 0) h rfl
  have hN2 := named_name_stay l σ (l.getD σ.pos 0) h
  have hN3 := named_name_end l σ h
  have hK := fun τ => named_keep l σ τ h
  have hD := fun τ => named_idle l σ τ h
  have he := h.1
  clear h
  generalize l.getD σ.pos 0 = c at *
  obtain ⟨p, st, sg, a, state, L, e⟩ := σ
  simp only at he hpos
  subst he
  cases state <;> simp only [attrStep] at herr ⊢ <;> split_ifs at herr ⊢ <;>
    first
      | (cases herr; done)
      | exact hE rfl
      | exact hI rfl herr
      | exact hF rfl herr
      | exact hB rfl herr
      | exact hR rfl herr
      | exact hS rfl rfl
      | (refine hN1 ?_; assumption)
      | (refine hN2 rfl rfl ?_; assumption)
      | exact hN3 rfl hpos
      | (refine hD _ rfl rfl (Or.inl rfl) ?_; simp only []; omega)
      | (refine hD _ rfl rfl (Or.inr rfl) ?_; simp only []; omega)
      | (refine hK _ rfl rfl rfl rfl rfl ?_; simp only []; omega)
      | (cases hw : ParseUint (slice l st p) with
         | none => rw [hw] at herr; cases herr
         | some w => exact hK _ rfl rfl rfl rfl rfl (Nat.le_succ _))

theorem named_init (l : GoString) : Named l ({} : PState S) := by
  refine ⟨rfl, Allocated_empty, fun a ha => by simp [AttributeList.ListAttrs] at ha, 0,
    Nat.le_refl _, Nat.le_refl _, ?_, ?_⟩
  · intro hs; cases hs
  · intro hv; cases hv

theorem attrEnd_named (l : GoString) (σ : PState S) (h : Named l σ)
    (herr : (attrEnd l σ).err = none) : Named l (advance (attrEnd l σ)) := by
  have hE := finishEnum_named l σ 32 h
  have hI := finishInteger_named l σ 32 h
  have hF := finishFloat_named l σ 32 h
  have hB := finishBytes_named l σ 32 h
  have hR := finishResolution_named l σ 32 h
  have hD := named_idle l σ σ h h.1 rfl
  clear h
  obtain ⟨p, st, sg, a, state, L, e⟩ := σ
  cases state <;> simp only [attrEnd] at herr ⊢ <;> (try split_ifs at herr ⊢) <;>
    first
      | (cases herr; done)
      | exact hD (Or.inl rfl) (Nat.le_succ _)
      | exact hD (Or.inr rfl) (Nat.le_succ _)
      | exact hE rfl
      | exact hI rfl herr
      | exact hF rfl herr
      | exact hB rfl herr
      | exact hR rfl herr

/-- The names of the attributes of a list that is returned without error are
valid and occur in the input in the order of the list. -/
theorem ParseAttributeList_named (l : GoString) (attrs : AttributeList S)
    (h : ParseAttributeList S l = some (attrs, none)) :
    (∀ a ∈ attrs.ListAttrs, ValidName a.Name) ∧
      ∃ hi, NamesIn l 0 hi (attrs.ListAttrs.map (fun a => a.Name)) := by
  rw [ParseAttributeList_eq] at h
  cases hr : attrRun l ({} : PState S) with
  | none => rw [hr] at h; simp at h
  | some τ =>
    rw [hr] at h
    obtain ⟨σ, hσ, hcase⟩ := attrRun_inv l (Named l)
      (fun σ hP hpos hnone => attrStep_named l σ hP hpos hnone)
      _ _ τ (Nat.le_refl _) (named_init l) hr
    simp only [Option.map_some', Option.some.injEq] at h
    rcases hcase with ⟨_, rfl⟩ | ⟨_, rfl, herr⟩
    · rw [hσ.1] at h
      simp only [Option.isSome_none, Bool.false_eq_true, if_false, Prod.mk.injEq] at h
      rw [← h.1]
      obtain ⟨_, _, k3, hi, _, k5, _⟩ := attrEnd_named l τ hσ h.2
      exact ⟨k3, hi, k5⟩
    · rw [if_pos herr] at h
      simp only [Prod.mk.injEq] at h
      rw [h.2] at herr
      simp at herr

theorem invariant_format (v : Value S) (h : v.Invariant) : ∃ t, v.Format = some t := by
  obtain ⟨t, s, e, i, f, b, r⟩ := v
  obtain ⟨h1, h2⟩ := h
  cases t <;>
    simp only [Value.payloads, ValueType.payloads, List.cons.injEq, and_true] at h2 <;>
    simp only [Value.Format]
  · exact absurd rfl h1
  · cases s with
    | none => simp at h2
    | some x => exact ⟨_, rfl⟩
  · cases e with
    | none => simp at h2
    | some x => exact ⟨_, rfl⟩
  · cases i with
    | none => simp at h2
    | some x => exact ⟨_, rfl⟩
  · cases f with
    | none => simp at h2
    | some x => exact ⟨_, rfl⟩
  · exact ⟨_, rfl⟩
  · cases r with
    | none => simp at h2
    | some x => exact ⟨_, rfl⟩

theorem typed_Format (l : GoString) (attrs : AttributeList S)
    (h : ParseAttributeList S l = some (attrs, none)) :
    (∀ a ∈ attrs.ListAttrs, ∃ t, a.toValue.Format = some t ∧ a.text = a.Name ++ [61] ++ t) ∧
      attrs.Format = some (stringsJoin [44] (attrs.ListAttrs.map Attribute.text)) := by
  have hv := (ParseAttributeList_typed l attrs h).2
  have h1 : ∀ a ∈ attrs.ListAttrs,
      ∃ t, a.toValue.Format = some t ∧ a.text = a.Name ++ [61] ++ t := by
    intro a ha
    obtain ⟨t, ht⟩ := invariant_format _ (hv a ha)
    exact ⟨t, ht, by simp [Attribute.text, Attribute.Format, ht]⟩
  refine ⟨h1, ?_⟩
  unfold AttributeList.Format
  rw [mapM_Format attrs.ListAttrs (fun a ha => by
    obtain ⟨t, ht, _⟩ := h1 a ha
    simp [Attribute.text, Attribute.Format, ht])]
  rfl

theorem name_position_error (l : GoString) (n : Nat) (σ : PState S)
    (ht : attrTrace l n ({} : PState S) = some σ) (hpos : σ.pos < l.length)
    (hs : (σ.state = attrStateStart ∧ l.getD σ.pos 0 ≠ 44) ∨
      (σ.state = attrStateName ∧ l.getD σ.pos 0 ≠ 61))
    (hn : isAttributeNameChar (l.getD σ.pos 0) = false)
    (hw : isSpaceChar (l.getD σ.pos 0) = false) :
    ParseAttributeList S l = some (σ.attrs, some Err.ErrFormat) := by
  have key : ∀ c, ((σ.state = attrStateStart ∧ c ≠ 44) ∨ (σ.state = attrStateName ∧ c ≠ 61)) →
      isAttributeNameChar c = false → isSpaceChar c = false →
      attrStep l σ c = { σ with err := some Err.ErrFormat } := by
    intro c hs hn hw
    rcases hs with ⟨hs, hc⟩ | ⟨hs, hc⟩
    · simp [attrStep, hs, hn, hw, hc]
    · simp [attrStep, hs, hn, hw, hc]
  have hstep := key _ hs hn hw
  rw [ParseAttributeList_eq, attrRun_trace l n _ _ ht, attrRun_eq l σ, if_pos hpos, hstep]
  rfl

/-- C22: when `ParseAttributeList` reports no error, every returned attribute
has a non-empty name over `A`-`Z`, `0`-`9`, `-`, `_`; the names occur in the
input one after the other in the order of the list; and `Format` is the
renderings `Name=Value` of the attributes joined in that order by single commas,
as by `strings.Join`. Two attributes of the same name are both kept, as separate
attributes. An input that has, where a name starts or continues, a character
that is neither a name character nor one the parser takes there (space, tab,
and the comma before a name or the `=` after it) fails with a format error. -/
theorem parsed_names_in_order (l : GoString) :
    (∀ attrs : AttributeList S, ParseAttributeList S l = some (attrs, none) →
      (∀ a ∈ attrs.ListAttrs, ValidName a.Name) ∧
      (∃ hi, NamesIn l 0 hi (attrs.ListAttrs.map (fun a => a.Name))) ∧
      (∀ a ∈ attrs.ListAttrs, ∃ t, a.toValue.Format = some t ∧ a.text = a.Name ++ [61] ++ t) ∧
      attrs.Format = some (stringsJoin [44] (attrs.ListAttrs.map Attribute.text))) ∧
    (∀ a b : Attribute S, CanonAttr a → CanonAttr b → a.Name = b.Name →
      ∃ L : AttributeList S,
        ParseAttributeList S (a.text ++ [44] ++ b.text) = some (L, none) ∧
        L.ListAttrs = [a, b]) ∧
    (∀ (n : Nat) (σ : PState S), attrTrace l n ({} : PState S) = some σ → σ.pos < l.length →
      ((σ.state = attrStateStart ∧ l.getD σ.pos 0 ≠ 44) ∨
        (σ.state = attrStateName ∧ l.getD σ.pos 0 ≠ 61)) →
      isAttributeNameChar (l.getD σ.pos 0) = false → isSpaceChar (l.getD σ.pos 0) = false →
      ParseAttributeList S l = some (σ.attrs, some Err.ErrFormat)) := by
  refine ⟨?_, ?_, name_position_error l⟩
  · intro attrs h
    exact ⟨(ParseAttributeList_named l attrs h).1, (ParseAttributeList_named l attrs h).2,
      (typed_Format l attrs h).1, (typed_Format l attrs h).2⟩
  · intro a b ha hb _
    obtain ⟨hall, hlist⟩ := ListAttrs_foldl [a, b] ({} : AttributeList S) Allocated_empty
    refine ⟨[a, b].foldl AttributeList.Append {}, ?_, by rw [hlist]; rfl⟩
    rw [ParseAttributeList_eq]
    exact parse_join [a, b] [] [] 0 {} _ (by simp)
      (fun c hc => by
        simp only [List.mem_cons, List.mem_singleton, List.mem_nil_iff, or_false] at hc
        rcases hc with rfl | rfl
        · exact ha
        · exact hb)
      (by simp) (by simp [joinWith])

/-- C22 at the input `A=1,B=2,A=3`, with the name `A` twice, and at `A=1,b=2`,
with a lower-case letter where the second name starts. -/
theorem parsed_names_in_order_witness :
    (∃ attrs : AttributeList Std.bare,
      ParseAttributeList Std.bare (ascii "A=1,B=2,A=3") = some (attrs, none) ∧
      attrs.ListAttrs.map (fun a => a.Name) = [ascii "A", ascii "B", ascii "A"] ∧
      (∀ a ∈ attrs.ListAttrs, ValidName a.Name) ∧
      (∃ hi, NamesIn (ascii "A=1,B=2,A=3") 0 hi (attrs.ListAttrs.map (fun a => a.Name))) ∧
      attrs.Format = some (stringsJoin [44] (attrs.ListAttrs.map Attribute.text)) ∧
      stringsJoin [44] (attrs.ListAttrs.map Attribute.text) = ascii "A=1,B=2,A=3") ∧
    (∃ σ : PState Std.bare,
      attrTrace (ascii "A=1,b=2") 4 ({} : PState Std.bare) = some σ ∧
      σ.pos = 4 ∧ σ.state = attrStateStart ∧
      ParseAttributeList Std.bare (ascii "A=1,b=2") = some (σ.attrs, some Err.ErrFormat)) :=
  ⟨⟨_, rfl, by decide,
      ((parsed_names_in_order (S := Std.bare) (ascii "A=1,B=2,A=3")).1 _ rfl).1,
      ((parsed_names_in_order (S := Std.bare) (ascii "A=1,B=2,A=3")).1 _ rfl).2.1,
      ((parsed_names_in_order (S := Std.bare) (ascii "A=1,B=2,A=3")).1 _ rfl).2.2.2,
      by decide⟩,
    ⟨_, rfl, rfl, rfl,
      (parsed_names_in_order (S := Std.bare) (ascii "A=1,b=2")).2.2 4 _ rfl (by decide)
        (Or.inl ⟨rfl, by decide⟩) (by decide) (by decide)⟩⟩

end Hls

namespace Hls
open AttrState
variable {S : Std}

/-! ## The main loop of the attribute parser: claim C29 -/

theorem attrTrace_add (l : GoString) : ∀ (n k : Nat) (σ0 : PState S),
    attrTrace l (n + k) σ0 = (attrTrace l n σ0).bind (attrTrace l k) := by
  intro n
  induction n with
  | zero => intro k σ0; simp [attrTrace]
  | succ n ih =>
    intro k σ0
    rw [show n + 1 + k = (n + k) + 1 by omega, attrTrace_succ, attrTrace_succ]
    by_cases hpos : σ0.pos < l.length
    · rw [if_pos hpos, if_pos hpos]
      by_cases herr : (attrStep l σ0 (l.getD σ0.pos 0)).err.isSome = true
      · rw [if_pos herr, if_pos herr]; rfl
      · rw [if_neg herr, if_neg herr]
        exact ih k _
    · rw [if_neg hpos, if_neg hpos]; rfl

theorem attrTrace_measure (l : GoString) : ∀ (n : Nat) (σ0 σ : PState S),
    attrTrace l n σ0 = some σ → n + attrMeasure l σ ≤ attrMeasure l σ0 := by
  intro n
  induction n with
  | zero =>
    intro σ0 σ h
    simp only [attrTrace, Option.some.injEq] at h
    rw [h]; omega
  | succ n ih =>
    intro σ0 σ h
    rw [attrTrace_succ] at h
    by_cases hpos : σ0.pos < l.length
    · rw [if_pos hpos] at h
      by_cases herr : (attrStep l σ0 (l.getD σ0.pos 0)).err.isSome = true
      · rw [if_pos herr] at h; cases h
      · rw [if_neg herr] at h
        have h1 := ih _ _ h
        have h2 := attrStep_measure l σ0 (l.getD σ0.pos 0) hpos
        omega
    · rw [if_neg hpos] at h; cases h

theorem two_steps_pos (l : GoString) (σ : PState S) (c d : Nat) :
    σ.pos ≤ (advance (attrStep l σ c)).pos ∧
      σ.pos < (advance (attrStep l (advance (attrStep l σ c)) d)).pos := by
  have h1 := attrStep_pos l σ c
  have h2 := attrStep_pos l (advance (attrStep l σ c)) d
  simp only [advance] at h1 h2 ⊢
  rcases h1 with h1 | ⟨h1, h1s, _⟩
  · rcases h2 with h2 | ⟨h2, _, _⟩
    · omega
    · omega
  · rcases h2 with h2 | ⟨_, _, h2s⟩
    · omega
    · rw [h1s] at h2s
      cases h2s

/-- C29: `ParseAttributeList` terminates on every input. The main loop is left
within `2 * len(input)` iterations, so that the function returns; no run of the
loop has more iterations than that; an iteration leaves the position alone or
rewinds it by one, which it does only in the Bytes state and while switching to
the Enum state; in the Enum state no iteration rewinds; and over any two
iterations in a row the position examined grows, so that each input character
is examined at most twice. -/
theorem attribute_parser_terminates (l : GoString) :
    (attrLoop l (2 * l.length) ({} : PState S)).isSome = true ∧
    (ParseAttributeList S l).isSome = true ∧
    (∀ (n : Nat) (σ : PState S), attrTrace l n ({} : PState S) = some σ → n ≤ 2 * l.length) ∧
    (∀ (σ : PState S) (c : Nat),
      (attrStep l σ c).pos = σ.pos ∨
        ((attrStep l σ c).pos = σ.pos - 1 ∧ σ.state = attrStateBytes ∧
          (attrStep l σ c).state = attrStateEnum)) ∧
    (∀ (σ : PState S) (c : Nat), σ.state = attrStateEnum → (attrStep l σ c).pos = σ.pos) ∧
    (∀ (n : Nat) (σ1 σ2 : PState S), attrTrace l n ({} : PState S) = some σ1 →
      (attrTrace l (n + 1) ({} : PState S) = some σ2 → σ1.pos ≤ σ2.pos) ∧
      (attrTrace l (n + 2) ({} : PState S) = some σ2 → σ1.pos < σ2.pos)) := by
  refine ⟨?_, ParseAttributeList_isSome l, ?_, ?_, ?_, ?_⟩
  · exact (attrLoop_fuel l _ _ _ (by simp [attrMeasure]) (Nat.le_refl _)).2
  · intro n σ h
    have := attrTrace_measure l n _ σ h
    simp only [attrMeasure] at this
    simp at this
    omega
  · intro σ c
    rcases attrStep_pos l σ c with h | ⟨h1, h2, h3⟩
    · exact Or.inl h
    · exact Or.inr ⟨h1, h3, h2⟩
  · intro σ c hs
    rcases attrStep_pos l σ c with h | ⟨_, _, h3⟩
    · exact h
    · rw [hs] at h3
      cases h3
  · intro n σ1 σ2 h1
    constructor
    · intro h2
      rw [attrTrace_add, h1, Option.some_bind, attrTrace_succ] at h2
      split_ifs at h2
      simp only [attrTrace, Option.some.injEq] at h2
      rw [← h2]
      exact (two_steps_pos l σ1 _ 0).1
    · intro h2
      rw [attrTrace_add, h1, Option.some_bind, attrTrace_succ] at h2
      split_ifs at h2
      rw [attrTrace_succ] at h2
      split_ifs at h2
      simp only [attrTrace, Option.some.injEq] at h2
      rw [← h2]
      exact (two_steps_pos l σ1 _ _).2

/-- C29 at the input `A=0xG`: the `G` at position 4 is examined twice, in the
Bytes state and after the rewind in the Enum state, and the loop is left after
6 iterations. -/
theorem attribute_parser_terminates_witness :
    (attrTrace (ascii "A=0xG") 4 ({} : PState Std.bare)).map (fun σ => (σ.pos, σ.state)) =
      some (4, attrStateBytes) ∧
    (attrTrace (ascii "A=0xG") 5 ({} : PState Std.bare)).map (fun σ => (σ.pos, σ.state)) =
      some (4, attrStateEnum) ∧
    (attrTrace (ascii "A=0xG") 6 ({} : PState Std.bare)).map (fun σ => (σ.pos, σ.state)) =
      some (5, attrStateEnum) ∧
    (attrTrace (ascii "A=0xG") 7 ({} : PState Std.bare)).isNone = true ∧
    6 ≤ 2 * (ascii "A=0xG").length ∧
    (∀ σ2 : PState Std.bare, attrTrace (ascii "A=0xG") 6 ({} : PState Std.bare) = some σ2 →
      4 < σ2.pos) :=
  ⟨by decide, by decide, by decide, by decide,
    (attribute_parser_terminates (S := Std.bare) (ascii "A=0xG")).2.2.1 6 _ rfl,
    fun σ2 h =>
      ((attribute_parser_terminates (S := Std.bare) (ascii "A=0xG")).2.2.2.2.2 4 _ σ2 rfl).2 h⟩

/-! ## The cached attribute list of a tag: claim C24 -/

/-- C24: for a tag without a cached list whose value parses without error, the
first `Tag.ParseAttributeList` returns the list `ParseAttributeList(Value)` and
caches it; with a list cached, every call returns the cached list and no error,
whatever `Value` has become and whatever the cached list has become;
replacing the contents of the cached list leaves `Value` and `Format()`
unchanged; and `UpdateValue` sets `Value` to the `Format()` of the cached
list. -/
theorem tag_attribute_list_is_cached (tag : Tag S) (attrs : AttributeList S)
    (hnil : tag.AttributeList = none)
    (hparse : ParseAttributeList S tag.Value = some (attrs, none)) :
    tag.ParseAttributeList = some ({ tag with AttributeList := some attrs }, attrs, none) ∧
    (∀ (value : GoString) (attrs1 : AttributeList S),
      Tag.ParseAttributeList { tag with Value := value, AttributeList := some attrs1 } =
        some ({ tag with Value := value, AttributeList := some attrs1 }, attrs1, none)) ∧
    (∀ attrs1 : AttributeList S,
      ({ tag with AttributeList := some attrs1 } : Tag S).Value = tag.Value ∧
      Tag.Format { tag with AttributeList := some attrs1 } = tag.Format) ∧
    (∀ (attrs1 : AttributeList S) (v : GoString), attrs1.Format = some v →
      Tag.UpdateValue { tag with AttributeList := some attrs1 } =
        some { tag with AttributeList := some attrs1, Value := v }) := by
  refine ⟨?_, fun _ _ => rfl, fun _ => ⟨rfl, rfl⟩, ?_⟩
  · unfold Tag.ParseAttributeList
    rw [hnil, hparse]
  · intro attrs1 v hv
    simp only [Tag.UpdateValue, hv, Option.map_some']

/-- C24 at the tag `#EXT-X-KEY:A=1`: the list parsed at first is returned
again after the value has been changed to `B=2`. -/
theorem tag_attribute_list_is_cached_witness :
    ∃ attrs : AttributeList Std.bare,
      ParseAttributeList Std.bare (ascii "A=1") = some (attrs, none) ∧
      Tag.ParseAttributeList
          ({ Name := ascii "EXT-X-KEY", Value := ascii "A=1", HasColon := true } : Tag Std.bare) =
        some ({ Name := ascii "EXT-X-KEY", Value := ascii "A=1", HasColon := true,
                AttributeList := some attrs }, attrs, none) ∧
      Tag.ParseAttributeList
          ({ Name := ascii "EXT-X-KEY", Value := ascii "B=2", HasColon := true,
             AttributeList := some attrs } : Tag Std.bare) =
        some ({ Name := ascii "EXT-X-KEY", Value := ascii "B=2", HasColon := true,
                AttributeList := some attrs }, attrs, none) :=
  ⟨_, rfl,
    (tag_attribute_list_is_cached (S := Std.bare)
      { Name := ascii "EXT-X-KEY", Value := ascii "A=1", HasColon := true } _ rfl rfl).1,
    (tag_attribute_list_is_cached (S := Std.bare)
      { Name := ascii "EXT-X-KEY", Value := ascii "A=1", HasColon := true } _ rfl rfl).2.1
      (ascii "B=2") _⟩

end Hls

namespace Hls
open AttrState
variable {S : Std}

/-! ## The errors of `Parse`: claim C26 -/

/-- C26: an over-length line makes `Parse` fail with an error that wraps
neither `ErrFormat` nor `ErrWrongType`, and so does a CHANNELS attribute with a
non-numeric count on an AUDIO rendition, whose `strconv` error is returned as it
is. -/
theorem parse_errors_outside_the_two_kinds :
    (Parse (S := Std.bare) [ReadLine.tooLong (ascii "#EXTM3U")] [] {}).map (fun r => r.2) =
      some (some Err.ErrPlain) ∧
    (Parse (S := Std.bare)
        [ReadLine.line
          (ascii "#EXT-X-MEDIA:TYPE=AUDIO,URI=\"a.m3u8\",GROUP-ID=\"g\",NAME=\"n\",CHANNELS=\"x\"")]
        [] {}).map (fun r => r.2) = some (some Err.ErrNum) ∧
    (Parse (S := Std.bare)
        [ReadLine.line
          (ascii "#EXT-X-MEDIA:TYPE=AUDIO,URI=\"a.m3u8\",GROUP-ID=\"g\",NAME=\"n\",CHANNELS=\"2\"")]
        [] {}).map (fun r => r.2) = some none :=
  ⟨by decide, by decide, by decide⟩

end Hls

namespace Hls
variable {S : Std}

/-! ## The playlist's media sequence number and the first segment: claim C27 -/

theorem dispatchTag_mseq (handler : ParserHandler S) (st st' : Scan S) (tag : Tag S)
    (hp : dispatchTag handler st tag = some (st', none)) :
    st'.mediaPlaylist.MediaSegments = st.mediaPlaylist.MediaSegments ∧
    (tag.Name = ascii "EXT-X-MEDIA-SEQUENCE" →
      st'.mediaPlaylist.MediaSequence = st'.mediaSequence) ∧
    (tag.Name ≠ ascii "EXT-X-MEDIA-SEQUENCE" →
      st'.mediaPlaylist.MediaSequence = st.mediaPlaylist.MediaSequence ∧
      st'.mediaSequence = st.mediaSequence) := by
  refine ⟨(dispatchTag_lines handler st st' tag hp).2, ?_, ?_⟩
  · intro h5
    simp +decide only [dispatchTag, h5, if_true, if_false] at hp
    simp only [Option.some.injEq] at hp
    rcases ensureMedia_cases _ _ _ _ hp with ⟨_, _, hc⟩ | ⟨_, hb⟩
    · cases hc
    · split at hb
      · simp at hb
      · simp only [Prod.mk.injEq, and_true] at hb
        subst hb
        rfl
  intro h5
  simp only [dispatchTag] at hp
  rw [if_neg h5] at hp
  by_cases h1 : tag.Name = ascii "EXT-X-VERSION"
  · rw [if_pos h1] at hp
    split at hp
    · simp at hp
    · simp only [Option.some.injEq, Prod.mk.injEq, and_true] at hp
      subst hp
      exact ⟨rfl, rfl⟩
  rw [if_neg h1] at hp
  by_cases h2 : tag.Name = ascii "EXT-X-STREAM-INF"
  · rw [if_pos h2] at hp
    rcases ensureMaster_cases _ _ _ _ hp with ⟨_, _, hc⟩ | ⟨_, hb⟩
    · cases hc
    · simp only [] at hb
      split at hb
      · simp at hb
      · simp at hb
      · simp only [Option.some.injEq, Prod.mk.injEq, and_true] at hb
        subst hb
        exact ⟨rfl, rfl⟩
  rw [if_neg h2] at hp
  by_cases h3 : tag.Name = ascii "EXT-X-I-FRAME-STREAM-INF"
  · rw [if_pos h3] at hp
    rcases ensureMaster_cases _ _ _ _ hp with ⟨_, _, hc⟩ | ⟨_, hb⟩
    · cases hc
    · simp only [] at hb
      split at hb
      · simp at hb
      · simp at hb
      · simp only [Option.some.injEq, Prod.mk.injEq, and_true] at hb
        subst hb
        cases handler.HandleIframeStream <;> exact ⟨rfl, rfl⟩
  rw [if_neg h3] at hp
  by_cases h4 : tag.Name = ascii "EXT-X-MEDIA"
  · rw [if_pos h4] at hp
    rcases ensureMaster_cases _ _ _ _ hp with ⟨_, _, hc⟩ | ⟨_, hb⟩
    · cases hc
    · split at hb
      · simp at hb
      · simp at hb
      · simp only [Option.some.injEq, Prod.mk.injEq, and_true] at hb
        subst hb
        exact ⟨rfl, rfl⟩
  rw [if_neg h4] at hp
  by_cases h6 : tag.Name = ascii "EXT-X-DISCONTINUITY-SEQUENCE"
  · rw [if_pos h6] at hp
    simp only [Option.some.injEq] at hp
    rcases ensureMedia_cases _ _ _ _ hp with ⟨_, _, hc⟩ | ⟨_, hb⟩
    · cases hc
    · split at hb
      · simp at hb
      · simp only [Prod.mk.injEq, and_true] at hb
        subst hb
        exact ⟨rfl, rfl⟩
  rw [if_neg h6] at hp
  by_cases h7 : tag.Name = ascii "EXTINF"
  · rw [if_pos h7] at hp
    simp only [Option.some.injEq] at hp
    rcases ensureMedia_cases _ _ _ _ hp with ⟨_, _, hc⟩ | ⟨_, hb⟩
    · cases hc
    · split at hb
      · simp at hb
      · simp only [Prod.mk.injEq, and_true] at hb
        subst hb
        exact ⟨rfl, rfl⟩
  rw [if_neg h7] at hp
  by_cases h8 : tag.Name = ascii "EXT-X-BYTERANGE"
  · rw [if_pos h8] at hp
    simp only [Option.some.injEq] at hp
    rcases ensureMedia_cases _ _ _ _ hp with ⟨_, _, hc⟩ | ⟨_, hb⟩
    · cases hc
    · split at hb
      · simp at hb
      · simp only [Prod.mk.injEq, and_true] at hb
        subst hb
        exact ⟨rfl, rfl⟩
  rw [if_neg h8] at hp
  by_cases h9 : tag.Name = ascii "EXT-X-DISCONTINUITY"
  · rw [if_pos h9] at hp
    simp only [Option.some.injEq] at hp
    rcases ensureMedia_cases _ _ _ _ hp with ⟨_, _, hc⟩ | ⟨_, hb⟩
    · cases hc
    · simp only [Prod.mk.injEq, and_true] at hb
      subst hb
      exact ⟨rfl, rfl⟩
  rw [if_neg h9] at hp
  by_cases h10 : tag.Name = ascii "EXT-X-GAP"
  · rw [if_pos h10] at hp
    simp only [Option.some.injEq] at hp
    rcases ensureMedia_cases _ _ _ _ hp with ⟨_, _, hc⟩ | ⟨_, hb⟩
    · cases hc
    · simp only [Prod.mk.injEq, and_true] at hb
      subst hb
      exact ⟨rfl, rfl⟩
  rw [if_neg h10] at hp
  by_cases h11 : tag.Name = ascii "EXT-X-MAP"
  · rw [if_pos h11] at hp
    split at hp
    · simp at hp
    · simp at hp
    · simp only [Option.some.injEq, Prod.mk.injEq, and_true] at hp
      subst hp
      exact ⟨rfl, rfl⟩
  rw [if_neg h11] at hp
  by_cases h12 : tag.Name = ascii "EXT-X-KEY"
  · rw [if_pos h12] at hp
    split at hp
    · simp at hp
    · simp at hp
    · simp only [Option.some.injEq, Prod.mk.injEq, and_true] at hp
      subst hp
      exact ⟨rfl, rfl⟩
  rw [if_neg h12] at hp
  simp only [Option.some.injEq, Prod.mk.injEq, and_true] at hp
  subst hp
  exact ⟨rfl, rfl⟩

theorem parseURLLine_mseq (handler : ParserHandler S) (baseURL : S.URL) (st st' : Scan S)
    (t : GoString) (hp : parseURLLine handler baseURL st t = (st', none)) :
    st'.mediaPlaylist.MediaSequence = st.mediaPlaylist.MediaSequence ∧
    (st.isMaster = false →
      ∃ seg, st'.mediaPlaylist.MediaSegments = st.mediaPlaylist.MediaSegments ++ [seg] ∧
        seg.MediaSequence = st.mediaSequence) := by
  unfold parseURLLine at hp
  split at hp
  · simp at hp
  · rename_i ref href
    simp only [Scan.addLine] at hp
    cases hM : st.isMaster
    · simp only [hM, Bool.false_eq_true, if_false, ensurePlaylist, Bool.not_false,
        Bool.not_true] at hp
      simp only [Prod.mk.injEq, and_true] at hp
      subst hp
      unfold finishMediaSegment
      cases handler.HandleMediaSegment <;>
        exact ⟨rfl, fun _ => ⟨_, rfl, rfl⟩⟩
    · simp only [hM, if_true, ensurePlaylist] at hp
      cases hMe : st.isMedia
      · simp only [hMe, Bool.not_false, Bool.not_true, Bool.false_eq_true, if_false,
          Prod.mk.injEq, and_true] at hp
        subst hp
        cases handler.HandleVariantStream <;>
          exact ⟨rfl, fun hc => absurd hc (by simp)⟩
      · simp [hMe] at hp

/-- What one line read without error does to the playlist's media sequence
number, to the running counter and to the segments. -/
theorem parseLine_mseq (handler : ParserHandler S) (baseURL : S.URL) (st st' : Scan S)
    (l : GoString) (hp : parseLine handler baseURL st l = some (st', none)) :
    (isDirective S (ascii "EXT-X-MEDIA-SEQUENCE") l = true →
      st'.mediaPlaylist.MediaSegments = st.mediaPlaylist.MediaSegments ∧
      st'.mediaPlaylist.MediaSequence = st'.mediaSequence) ∧
    (isDirective S (ascii "EXT-X-MEDIA-SEQUENCE") l = false →
      st'.mediaPlaylist.MediaSequence = st.mediaPlaylist.MediaSequence ∧
      (isResourceLine l = false →
        st'.mediaPlaylist.MediaSegments = st.mediaPlaylist.MediaSegments ∧
        st'.mediaSequence = st.mediaSequence) ∧
      (isResourceLine l = true → st.isMaster = false →
        ∃ seg, st'.mediaPlaylist.MediaSegments = st.mediaPlaylist.MediaSegments ++ [seg] ∧
          seg.MediaSequence = st.mediaSequence)) := by
  unfold parseLine at hp
  unfold isDirective lineTag isResourceLine
  by_cases h0 : (trimLeftSpaceTab l).length = 0
  · rw [if_pos h0] at hp
    simp only [Option.some.injEq, Prod.mk.injEq, and_true] at hp
    subst hp
    simp [h0, Scan.addLine]
  · rw [if_neg h0] at hp
    by_cases h1 : (trimLeftSpaceTab l).head? ≠ some 35
    · rw [if_pos h1] at hp
      simp only [Option.some.injEq] at hp
      obtain ⟨f1, f2⟩ := parseURLLine_mseq handler baseURL st st' _ hp
      refine ⟨fun hc => ?_, fun _ => ⟨f1, fun hc => ?_, fun _ hM => f2 hM⟩⟩
      · simp [h0, h1] at hc
      · simp [h0, h1] at hc
    · rw [if_neg h1] at hp
      obtain ⟨g1, g2, g3⟩ := dispatchTag_mseq handler st st' _ hp
      have h1' : (trimLeftSpaceTab l).head? = some 35 := by simpa using h1
      refine ⟨fun hn => ⟨g1, g2 ?_⟩, fun hn => ?_⟩
      · simpa [h0, h1'] using hn
      · have hn' : (tagOfLine S (trimLeftSpaceTab l)).Name ≠ ascii "EXT-X-MEDIA-SEQUENCE" := by
          simpa [h0, h1'] using hn
        refine ⟨(g3 hn').1, fun _ => ⟨g1, (g3 hn').2⟩, fun hc => ?_⟩
        simp [h0, h1'] at hc

end Hls
namespace Hls
variable {S : Std}

theorem countDirective_cons_zero (name l : GoString) (ls : List GoString)
    (h : countDirective S name (l :: ls) = 0) :
    isDirective S name l = false ∧ countDirective S name ls = 0 := by
  unfold countDirective at h ⊢
  rw [List.countP_cons] at h
  cases hd : isDirective S name l
  · rw [hd] at h
    simpa using h
  · rw [hd] at h
    simp at h

theorem parseLoop_mseq (handler : ParserHandler S) (baseURL : S.URL) :
    ∀ (lines : List GoString) (st st' : Scan S),
      parseLoop handler baseURL (lines.map ReadLine.line) st = some (st', none) →
      st'.isMaster = false →
      (st.mediaPlaylist.MediaSegments = [] →
        st.mediaPlaylist.MediaSequence = st.mediaSequence) →
      (∀ seg, st.mediaPlaylist.MediaSegments.head? = some seg →
        seg.MediaSequence = st.mediaPlaylist.MediaSequence) →
      (st.mediaPlaylist.MediaSegments ≠ [] →
        countDirective S (ascii "EXT-X-MEDIA-SEQUENCE") lines = 0) →
      countDirective S (ascii "EXT-X-MEDIA-SEQUENCE")
        (lines.dropWhile (fun l => !isResourceLine l)) = 0 →
      ∀ seg, st'.mediaPlaylist.MediaSegments.head? = some seg →
        seg.MediaSequence = st'.mediaPlaylist.MediaSequence := by
  intro lines
  induction lines with
  | nil =>
    intro st st' hp _ _ h2 _ _
    simp only [List.map_nil, parseLoop] at hp
    split at hp
    · simp only [Option.some.injEq, Prod.mk.injEq, and_true] at hp
      subst hp
      exact h2
    · simp only [Option.some.injEq, Prod.mk.injEq, and_true] at hp
      subst hp
      exact h2
  | cons l ls ih =>
    intro st st' hp hm h1 h2 h3 h4
    rw [List.map_cons, parseLoop_cons] at hp
    by_cases hst : st.stop = true
    · rw [if_pos hst] at hp
      simp only [Option.some.injEq, Prod.mk.injEq, and_true] at hp
      subst hp
      exact h2
    rw [if_neg hst] at hp
    simp only [] at hp
    cases hq : parseLine handler baseURL { st with lineNum := st.lineNum + 1 } l with
    | none => rw [hq] at hp; simp at hp
    | some p =>
      obtain ⟨st2, e2⟩ := p
      rw [hq] at hp
      cases e2 with
      | some e => simp at hp
      | none =>
        simp only [] at hp
        have hm2 : st2.isMaster = false := by
          cases hc : st2.isMaster
          · rfl
          · rw [((parseLoop_facts handler baseURL _ st2 st' none hp).2.2.1 rfl).1 hc] at hm
            cases hm
        have hm1 : st.isMaster = false := by
          cases hc : st.isMaster
          · rfl
          · have := ((parseLine_facts handler baseURL _ st2 l none hq).2.2.2.1 rfl).1 hc
            rw [this] at hm2
            cases hm2
        obtain ⟨fd, fn⟩ := parseLine_mseq handler baseURL _ st2 l hq
        cases hd : isDirective S (ascii "EXT-X-MEDIA-SEQUENCE") l
        · obtain ⟨a, b, c⟩ := fn hd
          cases hr : isResourceLine l
          · obtain ⟨b1, b2⟩ := b hr
            have h4' : countDirective S (ascii "EXT-X-MEDIA-SEQUENCE")
                (ls.dropWhile (fun l => !isResourceLine l)) = 0 := by
              rw [List.dropWhile_cons] at h4
              simpa [hr] using h4
            refine ih st2 st' hp hm ?_ ?_ ?_ h4'
            · intro he
              rw [a, b2]
              exact h1 (b1 ▸ he)
            · intro seg hs
              rw [a]
              exact h2 seg (b1 ▸ hs)
            · intro hne
              exact (countDirective_cons_zero _ _ _ (h3 (b1 ▸ hne))).2
          · obtain ⟨seg, c1, c2⟩ := c hr hm1
            have h4' : countDirective S (ascii "EXT-X-MEDIA-SEQUENCE") ls = 0 := by
              rw [List.dropWhile_cons] at h4
              simp only [hr, Bool.not_true, Bool.false_eq_true, if_false] at h4
              exact (countDirective_cons_zero _ _ _ h4).2
            refine ih st2 st' hp hm ?_ ?_ (fun _ => h4') ?_
            · intro he
              rw [c1] at he
              simp at he
            · intro s hs
              rw [a]
              rw [c1] at hs
              cases hsegs : st.mediaPlaylist.MediaSegments with
              | nil =>
                rw [hsegs] at hs
                simp only [List.nil_append, List.head?_cons, Option.some.injEq] at hs
                subst hs
                rw [c2]
                exact (h1 hsegs).symm
              | cons x xs =>
                rw [hsegs] at hs
                simp only [List.cons_append, List.head?_cons, Option.some.injEq] at hs
                subst hs
                exact h2 _ (by rw [hsegs]; rfl)
            · have hle : countDirective S (ascii "EXT-X-MEDIA-SEQUENCE")
                  (ls.dropWhile (fun l => !isResourceLine l)) ≤
                  countDirective S (ascii "EXT-X-MEDIA-SEQUENCE") ls :=
                List.Sublist.countP_le _ (List.dropWhile_sublist _)
              omega
        · obtain ⟨a, b⟩ := fd hd
          have hr : isResourceLine l = false := by
            cases hr : isResourceLine l
            · rfl
            · rw [isDirective_of_resource _ l hr] at hd
              cases hd
          have hnil : st.mediaPlaylist.MediaSegments = [] := by
            by_contra hne
            have := (countDirective_cons_zero _ _ _ (h3 hne)).1
            rw [hd] at this
            cases this
          have h4' : countDirective S (ascii "EXT-X-MEDIA-SEQUENCE")
              (ls.dropWhile (fun l => !isResourceLine l)) = 0 := by
            rw [List.dropWhile_cons] at h4
            simpa [hr] using h4
          have hnil2 : st2.mediaPlaylist.MediaSegments = [] := by rw [a]; exact hnil
          refine ih st2 st' hp hm (fun _ => b) ?_ ?_ h4'
          · intro seg hs
            rw [hnil2] at hs
            cases hs
          · intro hne
            exact absurd hnil2 hne

/-- C27: on `a.ts`, `#EXT-X-MEDIA-SEQUENCE:10` the scan succeeds with a media
playlist whose first and only segment has MediaSequence 0 while the playlist's
MediaSequence is 10, against the comment of the field, by which it is the
Media Sequence Number of the first Media Segment of the playlist. -/
theorem late_media_sequence_directive :
    (Parse (S := Std.bare)
        ([ascii "a.ts", ascii "#EXT-X-MEDIA-SEQUENCE:10"].map ReadLine.line) [] {}).map
      (fun r => (r.2, r.1.isMaster, r.1.isMedia, r.1.mediaPlaylist.MediaSequence,
        r.1.mediaPlaylist.MediaSegments.map MediaSegment.MediaSequence)) =
      some (none, false, true, 10, [0]) := by
  decide

/-- Where the code agrees with the comment of the field: for every media
playlist that scans without error and in which no EXT-X-MEDIA-SEQUENCE directive
stands after the first resource line, the playlist's MediaSequence equals the
MediaSequence of the first segment in MediaSegments, when there is one. -/
theorem first_segment_media_sequence (handler : ParserHandler S) (baseURL : S.URL)
    (lines : List GoString) (st : Scan S)
    (hp : Parse (lines.map ReadLine.line) baseURL handler = some (st, none))
    (hmedia : st.isMaster = false)
    (hlate : countDirective S (ascii "EXT-X-MEDIA-SEQUENCE")
      (lines.dropWhile (fun l => !isResourceLine l)) = 0)
    (seg : MediaSegment S) (hseg : st.mediaPlaylist.MediaSegments.head? = some seg) :
    st.mediaPlaylist.MediaSequence = seg.MediaSequence := by
  obtain ⟨st0, hl, _, _, hM, _, hmp, _⟩ := Parse_ok_loop _ baseURL handler st hp
  rw [hmp] at hseg ⊢
  exact (parseLoop_mseq handler baseURL lines {} st0 hl (hM ▸ hmedia) (fun _ => rfl)
    (fun s hs => by cases hs) (fun hne => absurd rfl hne) hlate seg hseg).symm

/-- The playlist `#EXT-X-MEDIA-SEQUENCE:10`, `a.ts`, `b.ts`, with the directive
before the first resource line: the playlist and its first segment have the
number 10. -/
theorem first_segment_media_sequence_witness :
    ∃ (st : Scan Std.bare) (seg : MediaSegment Std.bare),
      Parse (S := Std.bare)
        ([ascii "#EXT-X-MEDIA-SEQUENCE:10", ascii "a.ts", ascii "b.ts"].map ReadLine.line)
        [] {} = some (st, none) ∧
      st.isMaster = false ∧
      st.mediaPlaylist.MediaSegments.head? = some seg ∧
      st.mediaPlaylist.MediaSegments.length = 2 ∧
      seg.MediaSequence = 10 ∧
      st.mediaPlaylist.MediaSequence = seg.MediaSequence :=
  ⟨_, _, rfl, rfl, rfl, rfl, rfl,
    first_segment_media_sequence (S := Std.bare) {} []
      [ascii "#EXT-X-MEDIA-SEQUENCE:10", ascii "a.ts", ascii "b.ts"] _ rfl rfl (by decide) _ rfl⟩

end Hls

namespace Hls
variable {S : Std}

/-! ## Playlist-kind exclusivity: claim C28 -/

theorem kindInv_same (st st' : Scan S) (h1 : st'.isMaster = st.isMaster)
    (h2 : st'.isMedia = st.isMedia)
    (h3 : st'.mediaPlaylist.MediaSegments = st.mediaPlaylist.MediaSegments)
    (h4 : st'.masterPlaylist = st.masterPlaylist) :
    (st.isMaster = true → st'.isMaster = true) ∧ (st.isMedia = true → st'.isMedia = true) ∧
    (st.KindInv → st'.KindInv) := by
  unfold Scan.KindInv
  rw [h1, h2, h3, h4]
  exact ⟨id, id, id⟩

theorem kindInv_master (st st' : Scan S) (h0 : st.isMedia = false)
    (h1 : st'.isMaster = true) (h2 : st'.isMedia = st.isMedia)
    (h3 : st'.mediaPlaylist.MediaSegments = st.mediaPlaylist.MediaSegments) :
    (st.isMaster = true → st'.isMaster = true) ∧ (st.isMedia = true → st'.isMedia = true) ∧
    (st.KindInv → st'.KindInv) := by
  unfold Scan.KindInv
  rw [h1, h2, h3]
  refine ⟨fun _ => rfl, id, fun k => ⟨?_, k.2.1, fun _ => rfl, fun _ => rfl, fun _ _ _ => rfl⟩⟩
  intro hc
  rw [h0] at hc
  cases hc.2

theorem kindInv_media (st st' : Scan S) (h0 : st.isMaster = false)
    (h1 : st'.isMedia = true) (h2 : st'.isMaster = st.isMaster)
    (h4 : st'.masterPlaylist = st.masterPlaylist) :
    (st.isMaster = true → st'.isMaster = true) ∧ (st.isMedia = true → st'.isMedia = true) ∧
    (st.KindInv → st'.KindInv) := by
  unfold Scan.KindInv
  rw [h1, h2, h4]
  refine ⟨id, fun _ => rfl, fun k => ⟨?_, fun _ => rfl, k.2.2.1, k.2.2.2.1, k.2.2.2.2⟩⟩
  intro hc
  rw [h0] at hc
  cases hc.1

theorem dispatchTag_kind (handler : ParserHandler S) (st st' : Scan S) (tag : Tag S)
    (e : Option Err) (hp : dispatchTag handler st tag = some (st', e)) :
    (st.isMaster = true → st'.isMaster = true) ∧ (st.isMedia = true → st'.isMedia = true) ∧
    (st.KindInv → st'.KindInv) := by
  simp only [dispatchTag] at hp
  by_cases h1 : tag.Name = ascii "EXT-X-VERSION"
  · rw [if_pos h1] at hp
    split at hp
    · simp only [Option.some.injEq, Prod.mk.injEq] at hp
      obtain ⟨rfl, rfl⟩ := hp
      exact kindInv_same _ _ rfl rfl rfl rfl
    · simp only [Option.some.injEq, Prod.mk.injEq] at hp
      obtain ⟨rfl, rfl⟩ := hp
      exact kindInv_same _ _ rfl rfl rfl rfl
  rw [if_neg h1] at hp
  by_cases h2 : tag.Name = ascii "EXT-X-STREAM-INF"
  · rw [if_pos h2] at hp
    rcases ensureMaster_cases _ _ _ _ hp with ⟨hM, rfl, rfl⟩ | ⟨hM, hb⟩
    · exact kindInv_same _ _ rfl rfl rfl rfl
    · simp only [] at hb
      split at hb
      · simp at hb
      · simp only [Option.some.injEq, Prod.mk.injEq] at hb
        obtain ⟨rfl, rfl⟩ := hb
        exact kindInv_master _ _ hM rfl rfl rfl
      · simp only [Option.some.injEq, Prod.mk.injEq] at hb
        obtain ⟨rfl, rfl⟩ := hb
        exact kindInv_master _ _ hM rfl rfl rfl
  rw [if_neg h2] at hp
  by_cases h3 : tag.Name = ascii "EXT-X-I-FRAME-STREAM-INF"
  · rw [if_pos h3] at hp
    rcases ensureMaster_cases _ _ _ _ hp with ⟨hM, rfl, rfl⟩ | ⟨hM, hb⟩
    · exact kindInv_same _ _ rfl rfl rfl rfl
    · simp only [] at hb
      split at hb
      · simp at hb
      · simp only [Option.some.injEq, Prod.mk.injEq] at hb
        obtain ⟨rfl, rfl⟩ := hb
        exact kindInv_master _ _ hM rfl rfl rfl
      · simp only [Option.some.injEq, Prod.mk.injEq] at hb
        obtain ⟨rfl, rfl⟩ := hb
        cases handler.HandleIframeStream <;> exact kindInv_master _ _ hM rfl rfl rfl
  rw [if_neg h3] at hp
  by_cases h4 : tag.Name = ascii "EXT-X-MEDIA"
  · rw [if_pos h4] at hp
    rcases ensureMaster_cases _ _ _ _ hp with ⟨hM, rfl, rfl⟩ | ⟨hM, hb⟩
    · exact kindInv_same _ _ rfl rfl rfl rfl
    · split at hb
      · simp at hb
      · simp only [Option.some.injEq, Prod.mk.injEq] at hb
        obtain ⟨rfl, rfl⟩ := hb
        exact kindInv_master _ _ hM rfl rfl rfl
      · simp only [Option.some.injEq, Prod.mk.injEq] at hb
        obtain ⟨rfl, rfl⟩ := hb
        exact kindInv_master _ _ hM rfl rfl rfl
  rw [if_neg h4] at hp
  by_cases h5 : tag.Name = ascii "EXT-X-MEDIA-SEQUENCE"
  · rw [if_pos h5] at hp
    simp only [Option.some.injEq] at hp
    rcases ensureMedia_cases _ _ _ _ hp with ⟨hM, rfl, rfl⟩ | ⟨hM, hb⟩
    · exact kindInv_same _ _ rfl rfl rfl rfl
    · split at hb
      · simp only [Prod.mk.injEq] at hb
        obtain ⟨rfl, rfl⟩ := hb
        exact kindInv_media _ _ hM rfl rfl rfl
      · simp only [Prod.mk.injEq] at hb
        obtain ⟨rfl, rfl⟩ := hb
        exact kindInv_media _ _ hM rfl rfl rfl
  rw [if_neg h5] at hp
  by_cases h6 : tag.Name = ascii "EXT-X-DISCONTINUITY-SEQUENCE"
  · rw [if_pos h6] at hp
    simp only [Option.some.injEq] at hp
    rcases ensureMedia_cases _ _ _ _ hp with ⟨hM, rfl, rfl⟩ | ⟨hM, hb⟩
    · exact kindInv_same _ _ rfl rfl rfl rfl
    · split at hb
      · simp only [Prod.mk.injEq] at hb
        obtain ⟨rfl, rfl⟩ := hb
        exact kindInv_media _ _ hM rfl rfl rfl
      · simp only [Prod.mk.injEq] at hb
        obtain ⟨rfl, rfl⟩ := hb
        exact kindInv_media _ _ hM rfl rfl rfl
  rw [if_neg h6] at hp
  by_cases h7 : tag.Name = ascii "EXTINF"
  · rw [if_pos h7] at hp
    simp only [Option.some.injEq] at hp
    rcases ensureMedia_cases _ _ _ _ hp with ⟨hM, rfl, rfl⟩ | ⟨hM, hb⟩
    · exact kindInv_same _ _ rfl rfl rfl rfl
    · split at hb
      · simp only [Prod.mk.injEq] at hb
        obtain ⟨rfl, rfl⟩ := hb
        exact kindInv_media _ _ hM rfl rfl rfl
      · simp only [Prod.mk.injEq] at hb
        obtain ⟨rfl, rfl⟩ := hb
        exact kindInv_media _ _ hM rfl rfl rfl
  rw [if_neg h7] at hp
  by_cases h8 : tag.Name = ascii "EXT-X-BYTERANGE"
  · rw [if_pos h8] at hp
    simp only [Option.some.injEq] at hp
    rcases ensureMedia_cases _ _ _ _ hp with ⟨hM, rfl, rfl⟩ | ⟨hM, hb⟩
    · exact kindInv_same _ _ rfl rfl rfl rfl
    · split at hb
      · simp only [Prod.mk.injEq] at hb
        obtain ⟨rfl, rfl⟩ := hb
        exact kindInv_media _ _ hM rfl rfl rfl
      · simp only [Prod.mk.injEq] at hb
        obtain ⟨rfl, rfl⟩ := hb
        exact kindInv_media _ _ hM rfl rfl rfl
  rw [if_neg h8] at hp
  by_cases h9 : tag.Name = ascii "EXT-X-DISCONTINUITY"
  · rw [if_pos h9] at hp
    simp only [Option.some.injEq] at hp
    rcases ensureMedia_cases _ _ _ _ hp with ⟨hM, rfl, rfl⟩ | ⟨hM, hb⟩
    · exact kindInv_same _ _ rfl rfl rfl rfl
    · simp only [Prod.mk.injEq] at hb
      obtain ⟨rfl, rfl⟩ := hb
      exact kindInv_media _ _ hM rfl rfl rfl
  rw [if_neg h9] at hp
  by_cases h10 : tag.Name = ascii "EXT-X-GAP"
  · rw [if_pos h10] at hp
    simp only [Option.some.injEq] at hp
    rcases ensureMedia_cases _ _ _ _ hp with ⟨hM, rfl, rfl⟩ | ⟨hM, hb⟩
    · exact kindInv_same _ _ rfl rfl rfl rfl
    · simp only [Prod.mk.injEq] at hb
      obtain ⟨rfl, rfl⟩ := hb
      exact kindInv_media _ _ hM rfl rfl rfl
  rw [if_neg h10] at hp
  by_cases h11 : tag.Name = ascii "EXT-X-MAP"
  · rw [if_pos h11] at hp
    split at hp
    · simp at hp
    · simp only [Option.some.injEq, Prod.mk.injEq] at hp
      obtain ⟨rfl, rfl⟩ := hp
      exact kindInv_same _ _ rfl rfl rfl rfl
    · simp only [Option.some.injEq, Prod.mk.injEq] at hp
      obtain ⟨rfl, rfl⟩ := hp
      exact kindInv_same _ _ rfl rfl rfl rfl
  rw [if_neg h11] at hp
  by_cases h12 : tag.Name = ascii "EXT-X-KEY"
  · rw [if_pos h12] at hp
    split at hp
    · simp at hp
    · simp only [Option.some.injEq, Prod.mk.injEq] at hp
      obtain ⟨rfl, rfl⟩ := hp
      exact kindInv_same _ _ rfl rfl rfl rfl
    · simp only [Option.some.injEq, Prod.mk.injEq] at hp
      obtain ⟨rfl, rfl⟩ := hp
      exact kindInv_same _ _ rfl rfl rfl rfl
  rw [if_neg h12] at hp
  simp only [Option.some.injEq, Prod.mk.injEq] at hp
  obtain ⟨rfl, rfl⟩ := hp
  exact kindInv_same _ _ rfl rfl rfl rfl

end Hls
namespace Hls
variable {S : Std}

theorem parseURLLine_kind (handler : ParserHandler S) (baseURL : S.URL) (st st' : Scan S)
    (t : GoString) (e : Option Err) (hp : parseURLLine handler baseURL st t = (st', e)) :
    (st.isMaster = true → st'.isMaster = true) ∧ (st.isMedia = true → st'.isMedia = true) ∧
    (st.KindInv → st'.KindInv) := by
  unfold parseURLLine at hp
  split at hp
  · simp only [Prod.mk.injEq] at hp
    obtain ⟨rfl, rfl⟩ := hp
    exact kindInv_same _ _ rfl rfl rfl rfl
  · rename_i ref href
    simp only [Scan.addLine] at hp
    by_cases hM : st.isMaster = true
    · simp only [hM, if_true, ensurePlaylist] at hp
      by_cases hMe : st.isMedia = true
      · simp only [hMe, Bool.not_true, Bool.not_false, if_true, Prod.mk.injEq] at hp
        obtain ⟨rfl, rfl⟩ := hp
        exact kindInv_same _ _ hM.symm hMe.symm rfl rfl
      · have hMe2 : st.isMedia = false := by simpa using hMe
        simp only [hMe2, Bool.not_false, Bool.not_true, Bool.false_eq_true, if_false,
          Prod.mk.injEq] at hp
        obtain ⟨rfl, rfl⟩ := hp
        cases handler.HandleVariantStream <;> exact kindInv_master _ _ hMe2 rfl hMe2.symm rfl
    · have hM2 : st.isMaster = false := by simpa using hM
      simp only [hM2, Bool.false_eq_true, if_false, ensurePlaylist, Bool.not_false,
        Bool.not_true] at hp
      simp only [Prod.mk.injEq] at hp
      obtain ⟨rfl, rfl⟩ := hp
      unfold finishMediaSegment
      cases handler.HandleMediaSegment <;> exact kindInv_media _ _ hM2 rfl hM2.symm rfl

/-- One line keeps the kind flags that are set and the kind invariant,
whether it is read with or without error. -/
theorem parseLine_kind (handler : ParserHandler S) (baseURL : S.URL) (st st' : Scan S)
    (l : GoString) (e : Option Err) (hp : parseLine handler baseURL st l = some (st', e)) :
    (st.isMaster = true → st'.isMaster = true) ∧ (st.isMedia = true → st'.isMedia = true) ∧
    (st.KindInv → st'.KindInv) := by
  unfold parseLine at hp
  by_cases h0 : (trimLeftSpaceTab l).length = 0
  · rw [if_pos h0] at hp
    simp only [Option.some.injEq, Prod.mk.injEq] at hp
    obtain ⟨rfl, rfl⟩ := hp
    exact kindInv_same _ _ rfl rfl rfl rfl
  · rw [if_neg h0] at hp
    by_cases h1 : (trimLeftSpaceTab l).head? ≠ some 35
    · rw [if_pos h1] at hp
      simp only [Option.some.injEq] at hp
      exact parseURLLine_kind handler baseURL st st' _ e hp
    · rw [if_neg h1] at hp
      exact dispatchTag_kind handler st st' _ e hp

theorem parseLoop_kind (handler : ParserHandler S) (baseURL : S.URL) :
    ∀ (input : List ReadLine) (st st' : Scan S) (e : Option Err),
      parseLoop handler baseURL input st = some (st', e) →
      (st.isMaster = true → st'.isMaster = true) ∧ (st.isMedia = true → st'.isMedia = true) ∧
      (st.KindInv → st'.KindInv) := by
  intro input
  induction input with
  | nil =>
    intro st st' e hp
    unfold parseLoop at hp
    split at hp
    · simp only [Option.some.injEq, Prod.mk.injEq] at hp
      obtain ⟨rfl, rfl⟩ := hp
      exact kindInv_same _ _ rfl rfl rfl rfl
    · simp only [Option.some.injEq, Prod.mk.injEq] at hp
      obtain ⟨rfl, rfl⟩ := hp
      exact kindInv_same _ _ rfl rfl rfl rfl
  | cons r rest ih =>
    intro st st' e hp
    rw [parseLoop_cons] at hp
    by_cases hst : st.stop = true
    · rw [if_pos hst] at hp
      simp only [Option.some.injEq, Prod.mk.injEq] at hp
      obtain ⟨rfl, rfl⟩ := hp
      exact kindInv_same _ _ rfl rfl rfl rfl
    rw [if_neg hst] at hp
    cases r with
    | tooLong b =>
      simp only [Option.some.injEq, Prod.mk.injEq] at hp
      obtain ⟨rfl, rfl⟩ := hp
      exact kindInv_same _ _ rfl rfl rfl rfl
    | fail =>
      simp only [Option.some.injEq, Prod.mk.injEq] at hp
      obtain ⟨rfl, rfl⟩ := hp
      exact kindInv_same _ _ rfl rfl rfl rfl
    | line l =>
      simp only [] at hp
      cases hq : parseLine handler baseURL { st with lineNum := st.lineNum + 1 } l with
      | none => rw [hq] at hp; simp at hp
      | some p =>
        obtain ⟨st2, e2⟩ := p
        rw [hq] at hp
        obtain ⟨a1, a2, a3⟩ := parseLine_kind handler baseURL _ st2 l e2 hq
        cases e2 with
        | some e0 =>
          simp only [Option.some.injEq, Prod.mk.injEq] at hp
          obtain ⟨rfl, rfl⟩ := hp
          exact ⟨a1, a2, a3⟩
        | none =>
          simp only [] at hp
          obtain ⟨b1, b2, b3⟩ := ih st2 st' e hp
          exact ⟨fun h => b1 (a1 h), fun h => b2 (a2 h), fun h => b3 (a3 h)⟩

theorem kindInv_init : ({} : Scan S).KindInv := by
  unfold Scan.KindInv
  simp

theorem Parse_ok_kind (input : List ReadLine) (baseURL : S.URL) (handler : ParserHandler S)
    (st : Scan S) (hp : Parse input baseURL handler = some (st, none)) :
    st.isMaster = true ∨ st.isMedia = true := by
  obtain ⟨st0, hl, _, _, hM, hMe, _⟩ := Parse_ok_loop input baseURL handler st hp
  rw [hM, hMe]
  unfold Parse at hp
  rw [hl] at hp
  simp only [] at hp
  by_cases h1 : st0.isMaster = true
  · exact Or.inl h1
  · by_cases h2 : st0.isMedia = true
    · exact Or.inr h2
    · rw [if_neg h1, if_neg h2] at hp
      simp at hp

/-- C28: the playlist kind is exclusive all along the scan.  (1) Whatever the
input, and whether the loop ends with or without error, the flags isMaster and
isMedia are not both set in the state it ends in; (2) from any state, a flag
that is set stays set; (3) a directive that requires the master kind read when
isMedia is set, and a directive that requires the media kind read when isMaster
is set, ends the loop at that line with the format error of ensurePlaylist;
(4) a successful scan of a master playlist has isMedia unset and no media
segments, and a successful scan of a media playlist has isMedia set and no
variant streams, no i-frame streams and no renditions. -/
theorem playlist_kind_is_exclusive (handler : ParserHandler S) (baseURL : S.URL) :
    (∀ (input : List ReadLine) (st : Scan S) (e : Option Err),
      parseLoop handler baseURL input ({} : Scan S) = some (st, e) →
      ¬ (st.isMaster = true ∧ st.isMedia = true)) ∧
    (∀ (input : List ReadLine) (st0 st : Scan S) (e : Option Err),
      parseLoop handler baseURL input st0 = some (st, e) →
      (st0.isMaster = true → st.isMaster = true) ∧ (st0.isMedia = true → st.isMedia = true)) ∧
    (∀ (st0 : Scan S) (l : GoString) (rest : List ReadLine) (tag : Tag S),
      st0.stop = false → lineTag S l = some tag →
      (tag.Name ∈ masterNames ∧ st0.isMedia = true) ∨
        (tag.Name ∈ mediaNames ∧ st0.isMaster = true) →
      ∃ st, parseLoop handler baseURL (ReadLine.line l :: rest) st0 =
        some (st, some Err.ErrFormat)) ∧
    (∀ (input : List ReadLine) (st : Scan S),
      Parse input baseURL handler = some (st, none) →
      (st.isMaster = true → st.isMedia = false ∧ st.mediaPlaylist.MediaSegments = []) ∧
      (st.isMaster = false → st.isMedia = true ∧ st.masterPlaylist.VariantStreams = [] ∧
        st.masterPlaylist.IframeStreams = [] ∧
        ∀ t g, st.masterPlaylist.RenditionGroups t g = [])) := by
  refine ⟨?_, ?_, ?_, ?_⟩
  · intro input st e hp
    exact ((parseLoop_kind handler baseURL input _ st e hp).2.2 kindInv_init).1
  · intro input st0 st e hp
    exact ⟨(parseLoop_kind handler baseURL input st0 st e hp).1,
      (parseLoop_kind handler baseURL input st0 st e hp).2.1⟩
  · intro st0 l rest tag hs ht hk
    rw [parseLoop_cons, if_neg (by rw [hs]; simp)]
    simp only []
    have hsome := parseLine_isSome handler baseURL { st0 with lineNum := st0.lineNum + 1 } l
    cases hq : parseLine handler baseURL { st0 with lineNum := st0.lineNum + 1 } l with
    | none => rw [hq] at hsome; simp at hsome
    | some p =>
      obtain ⟨st2, e2⟩ := p
      have hf := parseLine_facts handler baseURL _ st2 l e2 hq
      have he : e2 = some Err.ErrFormat := by
        rcases hk with ⟨hn, hm⟩ | ⟨hn, hm⟩
        · exact (hf.2.2.2.2.1 tag ht hn).1 hm
        · exact (hf.2.2.2.2.2.1 tag ht hn).1 hm
      subst he
      exact ⟨st2, rfl⟩
  · intro input st hp
    obtain ⟨st0, hl, _, _, hM, hMe, hmp, hms, _⟩ := Parse_ok_loop input baseURL handler st hp
    have k : st0.KindInv := (parseLoop_kind handler baseURL input _ st0 none hl).2.2 kindInv_init
    have hor := Parse_ok_kind input baseURL handler st hp
    rw [hM, hMe, hmp, hms]
    rw [hM, hMe] at hor
    obtain ⟨k1, k2, k3, k4, k5⟩ := k
    constructor
    · intro hm
      have hme : st0.isMedia = false := by
        cases hc : st0.isMedia
        · rfl
        · exact absurd ⟨hm, hc⟩ k1
      refine ⟨hme, ?_⟩
      by_contra hne
      rw [k2 hne] at hme
      cases hme
    · intro hm
      have hme : st0.isMedia = true := by
        rcases hor with h | h
        · rw [hm] at h; cases h
        · exact h
      refine ⟨hme, ?_, ?_, ?_⟩
      · by_contra hne
        rw [k3 hne] at hm
        cases hm
      · by_contra hne
        rw [k4 hne] at hm
        cases hm
      · intro t g
        by_contra hne
        rw [k5 t g hne] at hm
        cases hm

end Hls
namespace Hls

/-- C28 at the master playlist `#EXT-X-STREAM-INF:BANDWIDTH=1`, `a.m3u8`, at
the media playlist `a.ts`, and at `a.ts` followed by the directive
`#EXT-X-STREAM-INF:BANDWIDTH=1`, which fails. -/
theorem playlist_kind_is_exclusive_witness :
    (∃ st : Scan Std.bare,
      Parse (S := Std.bare)
        ([ascii "#EXT-X-STREAM-INF:BANDWIDTH=1", ascii "a.m3u8"].map ReadLine.line) [] {} =
        some (st, none) ∧
      st.isMaster = true ∧ st.masterPlaylist.VariantStreams.length = 1 ∧
      st.isMedia = false ∧ st.mediaPlaylist.MediaSegments = []) ∧
    (∃ st : Scan Std.bare,
      Parse (S := Std.bare) [ReadLine.line (ascii "a.ts")] [] {} = some (st, none) ∧
      st.isMaster = false ∧ st.mediaPlaylist.MediaSegments.length = 1 ∧
      st.isMedia = true ∧ st.masterPlaylist.VariantStreams = [] ∧
      st.masterPlaylist.IframeStreams = [] ∧
      ∀ t g, st.masterPlaylist.RenditionGroups t g = []) ∧
    (∃ st : Scan Std.bare,
      parseLoop (S := Std.bare) {} []
        ([ascii "a.ts", ascii "#EXT-X-STREAM-INF:BANDWIDTH=1", ascii "b.ts"].map ReadLine.line)
        {} = some (st, some Err.ErrFormat) ∧
      st.isMedia = true ∧ st.mediaPlaylist.MediaSegments.length = 1 ∧
      ¬ (st.isMaster = true ∧ st.isMedia = true)) := by
  refine ⟨⟨_, rfl, rfl, rfl, ?_⟩, ⟨_, rfl, rfl, rfl, ?_⟩, ⟨_, rfl, rfl, rfl, ?_⟩⟩
  · exact ((playlist_kind_is_exclusive (S := Std.bare) {} []).2.2.2
      ([ascii "#EXT-X-STREAM-INF:BANDWIDTH=1", ascii "a.m3u8"].map ReadLine.line) _ rfl).1 rfl
  · exact ((playlist_kind_is_exclusive (S := Std.bare) {} []).2.2.2
      [ReadLine.line (ascii "a.ts")] _ rfl).2 rfl
  · exact (playlist_kind_is_exclusive (S := Std.bare) {} []).1
      ([ascii "a.ts", ascii "#EXT-X-STREAM-INF:BANDWIDTH=1", ascii "b.ts"].map ReadLine.line)
      _ _ rfl

end Hls

namespace Hls

/-! ## Resolution numbers of 2^63 and above: claim C31 -/

/-- C31: on `RESOLUTION=9223372036854775808x18446744073709551615` the parse
succeeds with one Resolution attribute whose Width is `-9223372036854775808`
and whose Height is `-1`: both digit runs are accepted by `ParseUint`, and the
conversion `int(...)` of the `uint64` wraps.  On
`RESOLUTION=9223372036854775807x1` the numbers are the ones written. -/
theorem resolution_wraps_negative :
    (ParseAttributeList Std.bare
        (ascii "RESOLUTION=9223372036854775808x18446744073709551615")).map
      (fun r => (r.1.ListAttrs.map (fun a => (a.Typ, a.ResolutionValue)), r.2)) =
      some ([(ValueType.ResolutionType, some ⟨-9223372036854775808, -1⟩)], none) ∧
    (ParseAttributeList Std.bare (ascii "RESOLUTION=9223372036854775807x1")).map
      (fun r => (r.1.ListAttrs.map (fun a => (a.Typ, a.ResolutionValue)), r.2)) =
      some ([(ValueType.ResolutionType, some ⟨9223372036854775807, 1⟩)], none) :=
  ⟨by decide, by decide⟩

/-! ## STABLE-RENDITION-ID: claim C32 -/

/-- C32: decoding the EXT-X-MEDIA tag with the attributes
`ASSOC-LANGUAGE="fr"` and `STABLE-RENDITION-ID="s"` succeeds with
StableRenditionID absent and AssocLanguage `s`; without STABLE-RENDITION-ID the
AssocLanguage is `fr`. -/
theorem stable_rendition_id_overwrites_assoc_language :
    (Rendition.ParseTag (S := Std.bare) {}
        { Name := ascii "EXT-X-MEDIA", HasColon := true,
          Value := ascii
            "TYPE=AUDIO,URI=\"a\",GROUP-ID=\"g\",NAME=\"n\",ASSOC-LANGUAGE=\"fr\",STABLE-RENDITION-ID=\"s\"" }).map
      (fun x => match x with
        | Except.ok r => some (r.AssocLanguage, r.StableRenditionID)
        | Except.error _ => none) = some (some (some (ascii "s"), none)) ∧
    (Rendition.ParseTag (S := Std.bare) {}
        { Name := ascii "EXT-X-MEDIA", HasColon := true,
          Value := ascii "TYPE=AUDIO,URI=\"a\",GROUP-ID=\"g\",NAME=\"n\",ASSOC-LANGUAGE=\"fr\"" }).map
      (fun x => match x with
        | Except.ok r => some (r.AssocLanguage, r.StableRenditionID)
        | Except.error _ => none) = some (some (some (ascii "fr"), none)) :=
  ⟨by decide, by decide⟩

/-! ## The cached list of a failed parse: claim C35 -/

/-- C35: on the tag with value `A=1,B="abc` (an unterminated string) the first
`Tag.ParseAttributeList` returns a format error and leaves the partial list,
which holds `A`, cached in the tag; the second call on that tag returns the
cached partial list and no error. -/
theorem failed_parse_is_cached :
    (Tag.ParseAttributeList (S := Std.bare)
        { Name := ascii "EXT-X-KEY", HasColon := true, Value := ascii "A=1,B=\"abc" }).map
      (fun r => (r.1.AttributeList.map (fun l => l.ListAttrs.map (fun a => a.Name)),
        r.2.1.ListAttrs.map (fun a => a.Name), r.2.2)) =
      some (some [ascii "A"], [ascii "A"], some Err.ErrFormat) ∧
    ((Tag.ParseAttributeList (S := Std.bare)
        { Name := ascii "EXT-X-KEY", HasColon := true, Value := ascii "A=1,B=\"abc" }).bind
      (fun r => r.1.ParseAttributeList)).map
      (fun r => (r.1.AttributeList.map (fun l => l.ListAttrs.map (fun a => a.Name)),
        r.2.1.ListAttrs.map (fun a => a.Name), r.2.2)) =
      some (some [ascii "A"], [ascii "A"], none) :=
  ⟨by decide, by decide⟩

end Hls

namespace Hls
variable {S : Std}

/-! ## Rendition groups: claim C33 -/

theorem dispatchTag_renditions (handler : ParserHandler S) (st st' : Scan S) (tag : Tag S)
    (hp : dispatchTag handler st tag = some (st', none)) :
    (tag.Name = ascii "EXT-X-MEDIA" →
      ∃ r, Rendition.ParseTag {} tag = some (Except.ok r) ∧
        st'.masterPlaylist.RenditionGroups = fun t g =>
          if t = r.Typ ∧ g = r.GroupID then st.masterPlaylist.RenditionGroups t g ++ [r]
          else st.masterPlaylist.RenditionGroups t g) ∧
    (tag.Name ≠ ascii "EXT-X-MEDIA" →
      st'.masterPlaylist.RenditionGroups = st.masterPlaylist.RenditionGroups) := by
  constructor
  · intro h4
    simp +decide only [dispatchTag, h4, if_true, if_false] at hp
    rcases ensureMaster_cases _ _ _ _ hp with ⟨_, _, hc⟩ | ⟨_, hb⟩
    · cases hc
    · split at hb
      · simp at hb
      · simp at hb
      · rename_i rd heq
        simp only [Option.some.injEq, Prod.mk.injEq, and_true] at hb
        subst hb
        exact ⟨rd, heq, rfl⟩
  intro h4
  simp only [dispatchTag] at hp
  by_cases h1 : tag.Name = ascii "EXT-X-VERSION"
  · rw [if_pos h1] at hp
    split at hp
    · simp at hp
    · simp only [Option.some.injEq, Prod.mk.injEq, and_true] at hp
      subst hp
      rfl
  rw [if_neg h1] at hp
  by_cases h2 : tag.Name = ascii "EXT-X-STREAM-INF"
  · rw [if_pos h2] at hp
    rcases ensureMaster_cases _ _ _ _ hp with ⟨_, _, hc⟩ | ⟨_, hb⟩
    · cases hc
    · simp only [] at hb
      split at hb
      · simp at hb
      · simp at hb
      · simp only [Option.some.injEq, Prod.mk.injEq, and_true] at hb
        subst hb
        rfl
  rw [if_neg h2] at hp
  by_cases h3 : tag.Name = ascii "EXT-X-I-FRAME-STREAM-INF"
  · rw [if_pos h3] at hp
    rcases ensureMaster_cases _ _ _ _ hp with ⟨_, _, hc⟩ | ⟨_, hb⟩
    · cases hc
    · simp only [] at hb
      split at hb
      · simp at hb
      · simp at hb
      · simp only [Option.some.injEq, Prod.mk.injEq, and_true] at hb
        subst hb
        cases handler.HandleIframeStream <;> rfl
  rw [if_neg h3, if_neg h4] at hp
  by_cases h5 : tag.Name = ascii "EXT-X-MEDIA-SEQUENCE"
  · rw [if_pos h5] at hp
    simp only [Option.some.injEq] at hp
    rcases ensureMedia_cases _ _ _ _ hp with ⟨_, _, hc⟩ | ⟨_, hb⟩
    · cases hc
    · split at hb
      · simp at hb
      · simp only [Prod.mk.injEq, and_true] at hb
        subst hb
        rfl
  rw [if_neg h5] at hp
  by_cases h6 : tag.Name = ascii "EXT-X-DISCONTINUITY-SEQUENCE"
  · rw [if_pos h6] at hp
    simp only [Option.some.injEq] at hp
    rcases ensureMedia_cases _ _ _ _ hp with ⟨_, _, hc⟩ | ⟨_, hb⟩
    · cases hc
    · split at hb
      · simp at hb
      · simp only [Prod.mk.injEq, and_true] at hb
        subst hb
        rfl
  rw [if_neg h6] at hp
  by_cases h7 : tag.Name = ascii "EXTINF"
  · rw [if_pos h7] at hp
    simp only [Option.some.injEq] at hp
    rcases ensureMedia_cases _ _ _ _ hp with ⟨_, _, hc⟩ | ⟨_, hb⟩
    · cases hc
    · split at hb
      · simp at hb
      · simp only [Prod.mk.injEq, and_true] at hb
        subst hb
        rfl
  rw [if_neg h7] at hp
  by_cases h8 : tag.Name = ascii "EXT-X-BYTERANGE"
  · rw [if_pos h8] at hp
    simp only [Option.some.injEq] at hp
    rcases ensureMedia_cases _ _ _ _ hp with ⟨_, _, hc⟩ | ⟨_, hb⟩
    · cases hc
    · split at hb
      · simp at hb
      · simp only [Prod.mk.injEq, and_true] at hb
        subst hb
        rfl
  rw [if_neg h8] at hp
  by_cases h9 : tag.Name = ascii "EXT-X-DISCONTINUITY"
  · rw [if_pos h9] at hp
    simp only [Option.some.injEq] at hp
    rcases ensureMedia_cases _ _ _ _ hp with ⟨_, _, hc⟩ | ⟨_, hb⟩
    · cases hc
    · simp only [Prod.mk.injEq, and_true] at hb
      subst hb
      rfl
  rw [if_neg h9] at hp
  by_cases h10 : tag.Name = ascii "EXT-X-GAP"
  · rw [if_pos h10] at hp
    simp only [Option.some.injEq] at hp
    rcases ensureMedia_cases _ _ _ _ hp with ⟨_, _, hc⟩ | ⟨_, hb⟩
    · cases hc
    · simp only [Prod.mk.injEq, and_true] at hb
      subst hb
      rfl
  rw [if_neg h10] at hp
  by_cases h11 : tag.Name = ascii "EXT-X-MAP"
  · rw [if_pos h11] at hp
    split at hp
    · simp at hp
    · simp at hp
    · simp only [Option.some.injEq, Prod.mk.injEq, and_true] at hp
      subst hp
      rfl
  rw [if_neg h11] at hp
  by_cases h12 : tag.Name = ascii "EXT-X-KEY"
  · rw [if_pos h12] at hp
    split at hp
    · simp at hp
    · simp at hp
    · simp only [Option.some.injEq, Prod.mk.injEq, and_true] at hp
      subst hp
      rfl
  rw [if_neg h12] at hp
  simp only [Option.some.injEq, Prod.mk.injEq, and_true] at hp
  subst hp
  rfl

theorem parseURLLine_renditions (handler : ParserHandler S) (baseURL : S.URL) (st st' : Scan S)
    (t : GoString) (hp : parseURLLine handler baseURL st t = (st', none)) :
    st'.masterPlaylist.RenditionGroups = st.masterPlaylist.RenditionGroups := by
  unfold parseURLLine at hp
  split at hp
  · simp at hp
  · rename_i ref href
    simp only [Scan.addLine] at hp
    by_cases hM : st.isMaster = true
    · simp only [hM, if_true, ensurePlaylist] at hp
      by_cases hMe : st.isMedia = true
      · simp [hMe] at hp
      · have hMe2 : st.isMedia = false := by simpa using hMe
        simp only [hMe2, Bool.not_false, Bool.not_true, Bool.false_eq_true, if_false,
          Prod.mk.injEq, and_true] at hp
        subst hp
        cases handler.HandleVariantStream <;> rfl
    · have hM2 : st.isMaster = false := by simpa using hM
      simp only [hM2, Bool.false_eq_true, if_false, ensurePlaylist, Bool.not_false,
        Bool.not_true] at hp
      simp only [Prod.mk.injEq, and_true] at hp
      subst hp
      unfold finishMediaSegment
      cases handler.HandleMediaSegment <;> rfl

/-- What one line read without error does to the rendition groups: an
EXT-X-MEDIA directive decodes to a rendition, which is appended to the bucket of
its type and group; any other line leaves the groups alone. -/
theorem parseLine_renditions (handler : ParserHandler S) (baseURL : S.URL) (st st' : Scan S)
    (l : GoString) (hp : parseLine handler baseURL st l = some (st', none)) :
    (isDirective S (ascii "EXT-X-MEDIA") l = true → (lineRendition S l).isSome = true) ∧
    (isDirective S (ascii "EXT-X-MEDIA") l = false → lineRendition S l = none) ∧
    ∀ t g, st'.masterPlaylist.RenditionGroups t g =
      st.masterPlaylist.RenditionGroups t g ++
        (lineRendition S l).toList.filter (fun r => decide (r.Typ = t ∧ r.GroupID = g)) := by
  unfold parseLine at hp
  unfold isDirective lineRendition lineTag
  by_cases h0 : (trimLeftSpaceTab l).length = 0
  · rw [if_pos h0] at hp
    simp only [Option.some.injEq, Prod.mk.injEq, and_true] at hp
    subst hp
    simp [h0, Scan.addLine]
  · rw [if_neg h0] at hp
    by_cases h1 : (trimLeftSpaceTab l).head? ≠ some 35
    · rw [if_pos h1] at hp
      simp only [Option.some.injEq] at hp
      have f1 := parseURLLine_renditions handler baseURL st st' _ hp
      rw [f1]
      simp [h0, h1]
    · rw [if_neg h1] at hp
      obtain ⟨g1, g2⟩ := dispatchTag_renditions handler st st' _ hp
      have h1' : (trimLeftSpaceTab l).head? = some 35 := by simpa using h1
      by_cases hn : (tagOfLine S (trimLeftSpaceTab l)).Name = ascii "EXT-X-MEDIA"
      · obtain ⟨r, hr, hg⟩ := g1 hn
        rw [hg]
        simp only [h0, h1', if_false, ne_eq, not_true_eq_false, hn, if_true, hr,
          decide_True, Option.isSome_some, Option.toList_some, true_implies,
          Bool.true_eq_false, false_implies, true_and]
        intro t g
        by_cases hk : t = r.Typ ∧ g = r.GroupID
        · rw [if_pos hk]
          obtain ⟨rfl, rfl⟩ := hk
          simp
        · rw [if_neg hk]
          have : ¬ (r.Typ = t ∧ r.GroupID = g) := fun hc => hk ⟨hc.1.symm, hc.2.symm⟩
          simp [this]
      · rw [g2 hn]
        simp [h0, h1', hn]

end Hls
namespace Hls
variable {S : Std}

theorem sum_bucket_lengths {α κ : Type} [DecidableEq κ] (key : α → κ) (rs : List α) :
    (((rs.map key).dedup).map
      (fun k => (rs.filter (fun r => decide (key r = k))).length)).sum = rs.length := by
  have h := List.sum_map_count_dedup_eq_length (rs.map key)
  rw [List.length_map] at h
  rw [← h]
  congr 1
  apply List.map_congr_left
  intro k _
  rw [List.count, List.countP_map, List.countP_eq_length_filter]
  congr 1

theorem mediaRenditions_cons (l : GoString) (ls : List GoString) :
    mediaRenditions S (l :: ls) = (lineRendition S l).toList ++ mediaRenditions S ls := by
  unfold mediaRenditions
  rw [List.filterMap_cons]
  cases lineRendition S l <;> rfl

theorem parseLoop_renditions (handler : ParserHandler S) (baseURL : S.URL) :
    ∀ (lines : List GoString) (st st' : Scan S),
      parseLoop handler baseURL (lines.map ReadLine.line) st = some (st', none) →
      st'.stop = false →
      (mediaRenditions S lines).length = countDirective S (ascii "EXT-X-MEDIA") lines ∧
      (∀ l ∈ lines, isDirective S (ascii "EXT-X-MEDIA") l = true →
        (lineRendition S l).isSome = true) ∧
      ∀ t g, st'.masterPlaylist.RenditionGroups t g =
        st.masterPlaylist.RenditionGroups t g ++
          (mediaRenditions S lines).filter (fun r => decide (r.Typ = t ∧ r.GroupID = g)) := by
  intro lines
  induction lines with
  | nil =>
    intro st st' hp _
    simp only [List.map_nil, parseLoop] at hp
    refine ⟨rfl, fun l hl => absurd hl (List.not_mem_nil l), ?_⟩
    split at hp
    · simp only [Option.some.injEq, Prod.mk.injEq, and_true] at hp
      subst hp
      intro t g
      simp [mediaRenditions]
    · simp only [Option.some.injEq, Prod.mk.injEq, and_true] at hp
      subst hp
      intro t g
      simp [mediaRenditions]
  | cons l ls ih =>
    intro st st' hp hstop
    rw [List.map_cons, parseLoop_cons] at hp
    by_cases hst : st.stop = true
    · rw [if_pos hst] at hp
      simp only [Option.some.injEq, Prod.mk.injEq, and_true] at hp
      subst hp
      rw [hst] at hstop
      cases hstop
    rw [if_neg hst] at hp
    simp only [] at hp
    cases hq : parseLine handler baseURL { st with lineNum := st.lineNum + 1 } l with
    | none => rw [hq] at hp; simp at hp
    | some p =>
      obtain ⟨st2, e2⟩ := p
      rw [hq] at hp
      cases e2 with
      | some e => simp at hp
      | none =>
        simp only [] at hp
        obtain ⟨a1, a2, a3⟩ := parseLine_renditions handler baseURL _ st2 l hq
        obtain ⟨b1, b2, b3⟩ := ih st2 st' hp hstop
        refine ⟨?_, ?_, ?_⟩
        · rw [mediaRenditions_cons, List.length_append, b1]
          unfold countDirective
          rw [List.countP_cons]
          cases hd : isDirective S (ascii "EXT-X-MEDIA") l
          · rw [a2 hd]
            simp
          · have := a1 hd
            cases hr : lineRendition S l with
            | none => rw [hr] at this; cases this
            | some r => simp; omega
        · intro x hx hd
          rcases List.mem_cons.1 hx with rfl | hx
          · exact a1 hd
          · exact b2 x hx hd
        · intro t g
          rw [b3 t g, a3 t g, mediaRenditions_cons, List.filter_append, List.append_assoc]

/-- C33: for every playlist that scans without error and without a stop
signal (a master playlist in particular): every EXT-X-MEDIA directive line
decodes to a rendition; for each type T and group id G, RenditionGroups[T][G] is
the list, in file order, of the renditions decoded from the EXT-X-MEDIA lines
whose TYPE is T and whose GROUP-ID is G; a rendition is in the bucket of its own
type and group and in no other; and the sizes of the buckets that occur sum to
the number of EXT-X-MEDIA lines. -/
theorem rendition_groups_are_buckets (handler : ParserHandler S) (baseURL : S.URL)
    (lines : List GoString) (st : Scan S)
    (hp : Parse (lines.map ReadLine.line) baseURL handler = some (st, none))
    (hstop : st.stop = false) :
    (mediaRenditions S lines).length = countDirective S (ascii "EXT-X-MEDIA") lines ∧
    (∀ l ∈ lines, isDirective S (ascii "EXT-X-MEDIA") l = true →
      ∃ r, lineRendition S l = some r ∧
        r ∈ st.masterPlaylist.RenditionGroups r.Typ r.GroupID ∧
        ∀ t g, r ∈ st.masterPlaylist.RenditionGroups t g → t = r.Typ ∧ g = r.GroupID) ∧
    (∀ t g, st.masterPlaylist.RenditionGroups t g =
      (mediaRenditions S lines).filter (fun r => decide (r.Typ = t ∧ r.GroupID = g))) ∧
    ((((mediaRenditions S lines).map (fun r => (r.Typ, r.GroupID))).dedup.map
      (fun k => (st.masterPlaylist.RenditionGroups k.1 k.2).length)).sum =
      countDirective S (ascii "EXT-X-MEDIA") lines) := by
  obtain ⟨st0, hl, _, hs, _, _, _, hms, _⟩ := Parse_ok_loop _ baseURL handler st hp
  obtain ⟨b1, b2, b3⟩ := parseLoop_renditions handler baseURL lines {} st0 hl (hs ▸ hstop)
  have hg : ∀ t g, st.masterPlaylist.RenditionGroups t g =
      (mediaRenditions S lines).filter (fun r => decide (r.Typ = t ∧ r.GroupID = g)) := by
    intro t g
    rw [hms, b3 t g]
    rfl
  refine ⟨b1, ?_, hg, ?_⟩
  · intro l hl hd
    have h := b2 l hl hd
    cases hr : lineRendition S l with
    | none => rw [hr] at h; cases h
    | some r =>
      have hmem : r ∈ mediaRenditions S lines := by
        unfold mediaRenditions
        exact List.mem_filterMap.2 ⟨l, hl, hr⟩
      refine ⟨r, rfl, ?_, ?_⟩
      · rw [hg]
        exact List.mem_filter.2 ⟨hmem, by simp⟩
      · intro t g hm
        rw [hg] at hm
        have := (List.mem_filter.1 hm).2
        simp only [decide_eq_true_eq] at this
        exact ⟨this.1.symm, this.2.symm⟩
  · rw [← b1]
    have hc : ∀ k : GoString × GoString,
        (st.masterPlaylist.RenditionGroups k.1 k.2).length =
          ((mediaRenditions S lines).filter
            (fun r => decide ((fun r : Rendition S => (r.Typ, r.GroupID)) r = k))).length := by
      intro k
      obtain ⟨k1, k2⟩ := k
      rw [hg]
      congr 1
      apply List.filter_congr
      intro r _
      rw [Bool.eq_iff_iff]
      simp
    rw [List.map_congr_left (fun k _ => hc k)]
    exact sum_bucket_lengths (fun r : Rendition S => (r.Typ, r.GroupID)) (mediaRenditions S lines)

end Hls
namespace Hls

/-- C33 at the master playlist of three EXT-X-MEDIA lines, of the groups `g`,
`h` and `g` of type AUDIO. -/
theorem rendition_groups_are_buckets_witness :
    ∃ st : Scan Std.bare,
      Parse (S := Std.bare)
        ([ascii "#EXT-X-MEDIA:TYPE=AUDIO,URI=\"a\",GROUP-ID=\"g\",NAME=\"n\"",
          ascii "#EXT-X-MEDIA:TYPE=AUDIO,URI=\"b\",GROUP-ID=\"h\",NAME=\"m\"",
          ascii "#EXT-X-MEDIA:TYPE=AUDIO,URI=\"c\",GROUP-ID=\"g\",NAME=\"o\""].map
          ReadLine.line) [] {} = some (st, none) ∧
      st.isMaster = true ∧ st.stop = false ∧
      (st.masterPlaylist.RenditionGroups (ascii "AUDIO") (ascii "g")).map (fun r => r.Name) =
        [ascii "n", ascii "o"] ∧
      (st.masterPlaylist.RenditionGroups (ascii "AUDIO") (ascii "h")).map (fun r => r.Name) =
        [ascii "m"] ∧
      (mediaRenditions Std.bare
        [ascii "#EXT-X-MEDIA:TYPE=AUDIO,URI=\"a\",GROUP-ID=\"g\",NAME=\"n\"",
          ascii "#EXT-X-MEDIA:TYPE=AUDIO,URI=\"b\",GROUP-ID=\"h\",NAME=\"m\"",
          ascii "#EXT-X-MEDIA:TYPE=AUDIO,URI=\"c\",GROUP-ID=\"g\",NAME=\"o\""]).length =
        countDirective Std.bare (ascii "EXT-X-MEDIA")
          [ascii "#EXT-X-MEDIA:TYPE=AUDIO,URI=\"a\",GROUP-ID=\"g\",NAME=\"n\"",
            ascii "#EXT-X-MEDIA:TYPE=AUDIO,URI=\"b\",GROUP-ID=\"h\",NAME=\"m\"",
            ascii "#EXT-X-MEDIA:TYPE=AUDIO,URI=\"c\",GROUP-ID=\"g\",NAME=\"o\""] ∧
      st.masterPlaylist.RenditionGroups (ascii "AUDIO") (ascii "g") =
        (mediaRenditions Std.bare
          [ascii "#EXT-X-MEDIA:TYPE=AUDIO,URI=\"a\",GROUP-ID=\"g\",NAME=\"n\"",
            ascii "#EXT-X-MEDIA:TYPE=AUDIO,URI=\"b\",GROUP-ID=\"h\",NAME=\"m\"",
            ascii "#EXT-X-MEDIA:TYPE=AUDIO,URI=\"c\",GROUP-ID=\"g\",NAME=\"o\""]).filter
          (fun r => decide (r.Typ = ascii "AUDIO" ∧ r.GroupID = ascii "g")) :=
  ⟨_, rfl, rfl, rfl, rfl, rfl,
    (rendition_groups_are_buckets (S := Std.bare) {} []
      [ascii "#EXT-X-MEDIA:TYPE=AUDIO,URI=\"a\",GROUP-ID=\"g\",NAME=\"n\"",
        ascii "#EXT-X-MEDIA:TYPE=AUDIO,URI=\"b\",GROUP-ID=\"h\",NAME=\"m\"",
        ascii "#EXT-X-MEDIA:TYPE=AUDIO,URI=\"c\",GROUP-ID=\"g\",NAME=\"o\""] _ rfl rfl).1,
    (rendition_groups_are_buckets (S := Std.bare) {} []
      [ascii "#EXT-X-MEDIA:TYPE=AUDIO,URI=\"a\",GROUP-ID=\"g\",NAME=\"n\"",
        ascii "#EXT-X-MEDIA:TYPE=AUDIO,URI=\"b\",GROUP-ID=\"h\",NAME=\"m\"",
        ascii "#EXT-X-MEDIA:TYPE=AUDIO,URI=\"c\",GROUP-ID=\"g\",NAME=\"o\""] _ rfl rfl).2.2.1
      (ascii "AUDIO") (ascii "g")⟩

end Hls

namespace Hls
variable {S : Std}

/-! ## Segments and their resource lines: claim C34 -/

theorem tagStep_flags (v v' : MView S) (tag : Tag S) (h : v.tagStep tag = some v') :
    v'.isDiscontinuity = (v.isDiscontinuity || decide (tag.Name = ascii "EXT-X-DISCONTINUITY")) ∧
    v'.isGap = (v.isGap || decide (tag.Name = ascii "EXT-X-GAP")) := by
  unfold MView.tagStep at h
  by_cases h5 : tag.Name = ascii "EXT-X-MEDIA-SEQUENCE"
  · rw [if_pos h5] at h
    cases hp : ParseUint tag.Value with
    | none => simp [hp] at h
    | some n =>
      simp only [hp, Option.some.injEq] at h
      subst h
      simp +decide [h5]
  rw [if_neg h5] at h
  by_cases h6 : tag.Name = ascii "EXT-X-DISCONTINUITY-SEQUENCE"
  · rw [if_pos h6] at h
    cases hp : ParseUint tag.Value with
    | none => simp [hp] at h
    | some n =>
      simp only [hp, Option.some.injEq] at h
      subst h
      simp +decide [h6]
  rw [if_neg h6] at h
  by_cases h8 : tag.Name = ascii "EXT-X-BYTERANGE"
  · rw [if_pos h8] at h
    cases hp : ByteRange.ParseString ({ Tag := some tag } : ByteRange S) tag.Value
        v.byteRangeOffset with
    | error e => simp [hp] at h
    | ok br =>
      simp only [hp, Option.some.injEq] at h
      subst h
      simp +decide [h8]
  rw [if_neg h8] at h
  by_cases h9 : tag.Name = ascii "EXT-X-DISCONTINUITY"
  · rw [if_pos h9] at h
    simp only [Option.some.injEq] at h
    subst h
    simp +decide [h9]
  rw [if_neg h9] at h
  by_cases h10 : tag.Name = ascii "EXT-X-GAP"
  · rw [if_pos h10] at h
    simp only [Option.some.injEq] at h
    subst h
    simp +decide [h10]
  rw [if_neg h10] at h
  by_cases h11 : tag.Name = ascii "EXT-X-MAP"
  · rw [if_pos h11] at h
    split at h
    · simp only [Option.some.injEq] at h
      subst h
      simp +decide [h11]
    · simp at h
  rw [if_neg h11] at h
  by_cases h12 : tag.Name = ascii "EXT-X-KEY"
  · rw [if_pos h12] at h
    split at h
    · simp only [Option.some.injEq] at h
      subst h
      simp +decide [h12]
    · simp at h
  rw [if_neg h12] at h
  simp only [Option.some.injEq] at h
  subst h
  simp [h9, h10]

/-- What a line that is not a resource line does to the flags and to the byte
range of the segment in progress. -/
theorem step_flags (v v' : MView S) (l : GoString) (hr : isResourceLine l = false)
    (h : v.step l = some v') :
    v'.isDiscontinuity =
      (v.isDiscontinuity || isDirective S (ascii "EXT-X-DISCONTINUITY") l) ∧
    v'.isGap = (v.isGap || isDirective S (ascii "EXT-X-GAP") l) ∧
    (isDirective S (ascii "EXT-X-BYTERANGE") l = false → v'.byteRange = v.byteRange) ∧
    (isDirective S (ascii "EXT-X-BYTERANGE") l = true →
      ∃ tag br, lineTag S l = some tag ∧
        ByteRange.ParseString { Tag := some tag } tag.Value v.byteRangeOffset = Except.ok br ∧
        v'.byteRange = some br) := by
  unfold isDirective
  rcases step_other v v' l hr h with ⟨ht, rfl⟩ | ⟨tag, ht, hs⟩
  · rw [ht]
    simp
  · rw [ht]
    obtain ⟨f1, f2⟩ := tagStep_flags v v' tag hs
    have f := tagStep_fields v v' tag hs
    refine ⟨f1, f2, ?_, ?_⟩
    · intro hd
      simp only [decide_eq_false_iff_not] at hd
      exact (f.2.2.2.2.2.2.2.2.2.2.1 hd).1
    · intro hd
      simp only [decide_eq_true_eq] at hd
      obtain ⟨br, hb, hv, _⟩ := f.2.2.2.2.2.2.2.2.2.2.2 hd
      exact ⟨tag, br, rfl, hb, hv⟩

theorem lastDirective_none (name : GoString) (ls : List GoString)
    (h : countDirective S name ls = 0) : lastDirective S name ls = none := by
  induction ls with
  | nil => rfl
  | cons y ys ih =>
    obtain ⟨hy, hys⟩ := countDirective_cons_zero name y ys h
    rw [lastDirective_cons, ih hys]
    simp [hy]

/-- The flags and the byte range after a run of lines without a resource
line. -/
theorem scan_block : ∀ (blk : List GoString) (v v' : MView S), v.scan blk = some v' →
    countRes blk = 0 →
    v'.isDiscontinuity =
      (v.isDiscontinuity || blk.any (isDirective S (ascii "EXT-X-DISCONTINUITY"))) ∧
    v'.isGap = (v.isGap || blk.any (isDirective S (ascii "EXT-X-GAP"))) ∧
    (lastDirective S (ascii "EXT-X-BYTERANGE") blk = none → v'.byteRange = v.byteRange) ∧
    (∀ p tag, lastDirective S (ascii "EXT-X-BYTERANGE") blk = some (p, tag) →
      ∃ off br, ByteRange.ParseString { Tag := some tag } tag.Value off = Except.ok br ∧
        v'.byteRange = some br) := by
  intro blk
  induction blk with
  | nil =>
    intro v v' h _
    simp only [MView.scan, Option.some.injEq] at h
    subst h
    refine ⟨by simp, by simp, fun _ => rfl, ?_⟩
    intro p tag hc
    simp [lastDirective] at hc
  | cons l ls ih =>
    intro v v' h hc
    have hl : isResourceLine l = false ∧ countRes ls = 0 := by
      unfold countRes at hc ⊢
      rw [List.countP_cons] at hc
      cases hr : isResourceLine l
      · rw [hr] at hc
        exact ⟨rfl, by simpa using hc⟩
      · rw [hr] at hc
        simp at hc
    simp only [MView.scan] at h
    cases hs : v.step l with
    | none => simp [hs] at h
    | some v1 =>
      rw [hs] at h
      simp only [] at h
      obtain ⟨a1, a2, a3, a4⟩ := ih v1 v' h hl.2
      obtain ⟨b1, b2, b3, b4⟩ := step_flags v v1 l hl.1 hs
      refine ⟨?_, ?_, ?_, ?_⟩
      · rw [a1, b1, List.any_cons, Bool.or_assoc]
      · rw [a2, b2, List.any_cons, Bool.or_assoc]
      · intro hn
        rw [lastDirective_cons] at hn
        cases hld : lastDirective S (ascii "EXT-X-BYTERANGE") ls with
        | some q => rw [hld] at hn; simp at hn
        | none =>
          rw [hld] at hn
          simp only [] at hn
          cases hd : isDirective S (ascii "EXT-X-BYTERANGE") l
          · rw [a3 hld, b3 hd]
          · obtain ⟨tag, br, ht, _, _⟩ := b4 hd
            rw [hd, ht] at hn
            simp at hn
      · intro p tag hsome
        rw [lastDirective_cons] at hsome
        cases hld : lastDirective S (ascii "EXT-X-BYTERANGE") ls with
        | some q =>
          obtain ⟨q1, q2⟩ := q
          rw [hld] at hsome
          simp only [Option.some.injEq, Prod.mk.injEq] at hsome
          obtain ⟨_, rfl⟩ := hsome
          exact a4 q1 q2 hld
        | none =>
          rw [hld] at hsome
          simp only [] at hsome
          cases hd : isDirective S (ascii "EXT-X-BYTERANGE") l
          · rw [hd] at hsome
            simp at hsome
          · obtain ⟨tag1, br, ht, hb, hv⟩ := b4 hd
            rw [hd, ht] at hsome
            simp only [if_true, Option.map_some', Option.some.injEq, Prod.mk.injEq] at hsome
            obtain ⟨_, rfl⟩ := hsome
            exact ⟨_, br, hb, by rw [a3 hld, hv]⟩

/-- After the lines up to and including a resource line, or before any line,
the segment in progress has no flag and no byte range. -/
theorem scan_cleared (pre0 : List GoString) (v : MView S)
    (hend : pre0 = [] ∨ ∃ p r, pre0 = p ++ [r] ∧ isResourceLine r = true)
    (h : ({} : MView S).scan pre0 = some v) :
    v.isDiscontinuity = false ∧ v.isGap = false ∧ v.byteRange = none := by
  rcases hend with rfl | ⟨p, r, rfl, hr⟩
  · simp only [MView.scan, Option.some.injEq] at h
    subst h
    exact ⟨rfl, rfl, rfl⟩
  · rw [scan_append] at h
    cases hp : ({} : MView S).scan p with
    | none => simp [hp] at h
    | some vp =>
      rw [hp] at h
      simp only [Option.some_bind, MView.scan] at h
      rw [step_resource vp r hr] at h
      simp only [Option.some.injEq] at h
      subst h
      exact ⟨rfl, rfl, rfl⟩

end Hls
namespace Hls
variable {S : Std}

theorem resourceLines_length : ∀ (lines : List GoString) (n : Nat),
    (resourceLines S n lines).length = countRes lines := by
  intro lines
  induction lines with
  | nil => intro n; rfl
  | cons l ls ih =>
    intro n
    unfold countRes at ih ⊢
    rw [resourceLines, List.countP_cons]
    cases hr : isResourceLine l
    · simp [ih]
    · simp [ih]

theorem resourceLines_sorted : ∀ (lines : List GoString) (n : Nat),
    (∀ x ∈ resourceLines S n lines, n ≤ x.LineNum) ∧
    (resourceLines S n lines).Pairwise (fun a b => a.LineNum < b.LineNum) := by
  intro lines
  induction lines with
  | nil =>
    intro n
    exact ⟨fun x hx => absurd hx (List.not_mem_nil x), List.Pairwise.nil⟩
  | cons l ls ih =>
    intro n
    obtain ⟨h1, h2⟩ := ih (n + 1)
    rw [resourceLines]
    cases hr : isResourceLine l
    · simp only [Bool.false_eq_true, if_false]
      exact ⟨fun x hx => Nat.le_of_succ_le (h1 x hx), h2⟩
    · simp only [if_true]
      refine ⟨?_, List.Pairwise.cons (fun x hx => h1 x hx) h2⟩
      intro x hx
      rcases List.mem_cons.1 hx with rfl | hx
      · exact Nat.le_refl _
      · exact Nat.le_of_succ_le (h1 x hx)

theorem parseLoop_uriLines (handler : ParserHandler S) (baseURL : S.URL) :
    ∀ (lines : List GoString) (st st' : Scan S),
      parseLoop handler baseURL (lines.map ReadLine.line) st = some (st', none) →
      st'.isMaster = false → st'.stop = false →
      st'.mediaPlaylist.MediaSegments.map MediaSegment.URILine =
        st.mediaPlaylist.MediaSegments.map MediaSegment.URILine ++
          (resourceLines S (st.lineNum + 1) lines).map some := by
  intro lines
  induction lines with
  | nil =>
    intro st st' hp _ _
    simp only [List.map_nil, parseLoop] at hp
    split at hp
    · simp only [Option.some.injEq, Prod.mk.injEq, and_true] at hp
      subst hp
      simp [resourceLines]
    · simp only [Option.some.injEq, Prod.mk.injEq, and_true] at hp
      subst hp
      simp [resourceLines]
  | cons l ls ih =>
    intro st st' hp hm hstop
    rw [List.map_cons, parseLoop_cons] at hp
    by_cases hst : st.stop = true
    · rw [if_pos hst] at hp
      simp only [Option.some.injEq, Prod.mk.injEq, and_true] at hp
      subst hp
      rw [hst] at hstop
      cases hstop
    rw [if_neg hst] at hp
    simp only [] at hp
    cases hq : parseLine handler baseURL { st with lineNum := st.lineNum + 1 } l with
    | none => rw [hq] at hp; simp at hp
    | some p =>
      obtain ⟨st2, e2⟩ := p
      rw [hq] at hp
      cases e2 with
      | some e => simp at hp
      | none =>
        simp only [] at hp
        have hm2 : st2.isMaster = false := by
          cases hc : st2.isMaster
          · rfl
          · rw [(parseLoop_kind handler baseURL _ st2 st' none hp).1 hc] at hm
            cases hm
        have hm1 : st.isMaster = false := by
          cases hc : st.isMaster
          · rfl
          · have := (parseLine_kind handler baseURL _ st2 l none hq).1 hc
            rw [this] at hm2
            cases hm2
        have hnum : st2.lineNum = st.lineNum + 1 :=
          (parseLine_facts handler baseURL _ st2 l none hq).1
        obtain ⟨_, c1, c2⟩ := parseLine_lines handler baseURL _ st2 l hq
        rw [ih st2 st' hp hm hstop, hnum, resourceLines]
        cases hr : isResourceLine l
        · rw [c1 (Or.inl hr)]
          simp
        · obtain ⟨seg, d1, d2⟩ := c2 hr hm1
          rw [d1]
          simp only [List.map_append, List.map_cons, List.map_nil, if_true, List.append_assoc,
            List.singleton_append]
          rw [d2]

/-- C34: for every input that scans as a media playlist without error and
without a stop signal: there are as many segments as resource lines; the
URILine of the i-th segment is the i-th resource line, with its line number in
the file and its text without leading blanks, so that the line numbers of the
segments increase strictly; and for a segment whose resource line follows the
block `blk` of lines that stand after the previous resource line (or the start
of the file), IsDiscontinuity and IsGap say whether the block holds an
EXT-X-DISCONTINUITY and an EXT-X-GAP directive, and ByteRange is absent when the
block holds no EXT-X-BYTERANGE directive and is the range decoded from the last
EXT-X-BYTERANGE directive of the block otherwise. -/
theorem segments_follow_resource_lines (handler : ParserHandler S) (baseURL : S.URL)
    (lines : List GoString) (st : Scan S)
    (hp : Parse (lines.map ReadLine.line) baseURL handler = some (st, none))
    (hmedia : st.isMaster = false) (hstop : st.stop = false) :
    st.mediaPlaylist.MediaSegments.length = countRes lines ∧
    st.mediaPlaylist.MediaSegments.map MediaSegment.URILine =
      (resourceLines S 1 lines).map some ∧
    (resourceLines S 1 lines).Pairwise (fun a b => a.LineNum < b.LineNum) ∧
    (∀ (pre0 blk post : List GoString) (line : GoString) (seg : MediaSegment S),
      lines = (pre0 ++ blk) ++ line :: post → isResourceLine line = true →
      countRes blk = 0 →
      (pre0 = [] ∨ ∃ p r, pre0 = p ++ [r] ∧ isResourceLine r = true) →
      st.mediaPlaylist.MediaSegments[countRes pre0]? = some seg →
      seg.IsDiscontinuity = blk.any (isDirective S (ascii "EXT-X-DISCONTINUITY")) ∧
      seg.IsGap = blk.any (isDirective S (ascii "EXT-X-GAP")) ∧
      (countDirective S (ascii "EXT-X-BYTERANGE") blk = 0 → seg.ByteRange = none) ∧
      (∀ p tag, lastDirective S (ascii "EXT-X-BYTERANGE") blk = some (p, tag) →
        ∃ off br, ByteRange.ParseString { Tag := some tag } tag.Value off = Except.ok br ∧
          seg.ByteRange = some br)) := by
  refine ⟨segments_length handler baseURL lines st hp hmedia hstop, ?_,
    (resourceLines_sorted lines 1).2, ?_⟩
  · obtain ⟨st0, hl, _, hs, hM, _, hmp, _⟩ := Parse_ok_loop _ baseURL handler st hp
    rw [hmp]
    exact parseLoop_uriLines handler baseURL lines {} st0 hl (hM ▸ hmedia) (hs ▸ hstop)
  · intro pre0 blk post line seg hl hres hblk hend hseg
    have hidx : countRes (pre0 ++ blk) = countRes pre0 := by
      unfold countRes at hblk ⊢
      rw [List.countP_append, hblk, Nat.add_zero]
    rw [← hidx] at hseg
    obtain ⟨vp, hvp, hstamp⟩ := segment_stamp handler baseURL lines st hp hmedia (pre0 ++ blk)
      post line hl hres seg hseg
    rw [scan_append] at hvp
    cases h0 : ({} : MView S).scan pre0 with
    | none => simp [h0] at hvp
    | some v0 =>
      rw [h0] at hvp
      simp only [Option.some_bind] at hvp
      obtain ⟨z1, z2, z3⟩ := scan_cleared pre0 v0 hend h0
      obtain ⟨a1, a2, a3, a4⟩ := scan_block blk v0 vp hvp hblk
      have e1 : seg.IsDiscontinuity = vp.isDiscontinuity :=
        congrArg Stamp.IsDiscontinuity hstamp
      have e2 : seg.IsGap = vp.isGap := congrArg Stamp.IsGap hstamp
      have e3 : seg.ByteRange = vp.byteRange := congrArg Stamp.ByteRange hstamp
      rw [e1, e2, e3, a1, a2, z1, z2]
      refine ⟨by simp, by simp, ?_, a4⟩
      intro hc
      rw [a3 (lastDirective_none _ blk hc), z3]

end Hls
namespace Hls

/-- C34 at the playlist `#EXT-X-DISCONTINUITY`, `a.ts`, `#EXT-X-GAP`,
`#EXT-X-BYTERANGE:10@5`, `b.ts`, `c.ts`, for the segment of `b.ts`. -/
theorem segments_follow_resource_lines_witness :
    ∃ (st : Scan Std.bare) (seg : MediaSegment Std.bare),
      Parse (S := Std.bare)
        ([ascii "#EXT-X-DISCONTINUITY", ascii "a.ts", ascii "#EXT-X-GAP",
          ascii "#EXT-X-BYTERANGE:10@5", ascii "b.ts", ascii "c.ts"].map ReadLine.line)
        [] {} = some (st, none) ∧
      st.isMaster = false ∧ st.stop = false ∧
      st.mediaPlaylist.MediaSegments[1]? = some seg ∧
      seg.URILine.map (fun l => (l.LineNum, l.URL)) = some (5, ascii "b.ts") ∧
      seg.ByteRange.map (fun b => (b.Offset, b.Length)) = some (5, 10) ∧
      st.mediaPlaylist.MediaSegments.length =
        countRes [ascii "#EXT-X-DISCONTINUITY", ascii "a.ts", ascii "#EXT-X-GAP",
          ascii "#EXT-X-BYTERANGE:10@5", ascii "b.ts", ascii "c.ts"] ∧
      seg.IsDiscontinuity =
        [ascii "#EXT-X-GAP", ascii "#EXT-X-BYTERANGE:10@5"].any
          (isDirective Std.bare (ascii "EXT-X-DISCONTINUITY")) ∧
      seg.IsGap =
        [ascii "#EXT-X-GAP", ascii "#EXT-X-BYTERANGE:10@5"].any
          (isDirective Std.bare (ascii "EXT-X-GAP")) := by
  have h := segments_follow_resource_lines (S := Std.bare) {} []
    [ascii "#EXT-X-DISCONTINUITY", ascii "a.ts", ascii "#EXT-X-GAP",
      ascii "#EXT-X-BYTERANGE:10@5", ascii "b.ts", ascii "c.ts"] _ rfl rfl rfl
  have h4 := h.2.2.2 [ascii "#EXT-X-DISCONTINUITY", ascii "a.ts"]
    [ascii "#EXT-X-GAP", ascii "#EXT-X-BYTERANGE:10@5"] [ascii "c.ts"] (ascii "b.ts") _ rfl
    (by decide) (by decide) (Or.inr ⟨[ascii "#EXT-X-DISCONTINUITY"], ascii "a.ts", rfl, by decide⟩)
    rfl
  exact ⟨_, _, rfl, rfl, rfl, rfl, rfl, rfl, h.1, h4.1, h4.2.1⟩

end Hls
